import Mathlib

/-! # chimoney-go: a shallow embedding of the request dispatcher and the feature modules

The Go sources embedded here are `chimoney.go` (the production dispatcher
`Client.Do`) and the seven packages under `modules/` (Account, Info, MobileMoney,
Payouts, Redeem, SubAccount, Wallet).

Conventions of the embedding

* A Go `error` is an `Option Error`; `none` is the nil error.
* A method returning `(*T, error)` returns an `Outcome`: either it returned a
  pair (result pointer, error) or it panicked (nil pointer dereference).
* The transport interface `Client` of the modules is a record holding one
  function `Do`; the state of everything behind the transport (network, server,
  a test double's counters) is an explicit state `σ` threaded through each call.
* Functions of the Go standard library (`encoding/json`, `net/http`, `net/url`,
  `fmt`) are not part of the repository; the dispatcher takes them as the fields
  of a `Runtime` record.
* `float64` is modelled by sign, mantissa and binary exponent, with NaN and the
  two infinities; only comparisons are used by the code.
-/

set_option autoImplicit false
set_option linter.dupNamespace false

namespace ChimoneyGo

/-! ## Go values -/

/-- Go error values. A sentinel is a package-level `errors.New` variable and is
identified by its package and variable name; `errorf` is a value built by
`fmt.Errorf`; `foreign` is an error produced by the standard library. -/
inductive Error where
  | sentinel (pkg name msg : String)
  | errorf (msg : String)
  | foreign (origin msg : String)
  deriving DecidableEq, Repr

/-- The `Error()` method: the message of an error value. -/
def Error.Error : Error → String
  | .sentinel _ _ msg => msg
  | .errorf msg => msg
  | .foreign _ msg => msg

/-- IEEE-754 binary64 values: NaN, an infinity with its sign, or the finite
value `(-1)^neg * mant * 2^exp`. -/
inductive Float64 where
  | nan
  | inf (neg : Bool)
  | finite (neg : Bool) (mant : Nat) (exp : Int)
  deriving DecidableEq, Repr

/-- The integer `(-1)^neg * mant * 2^(exp - base)`, for `base ≤ exp`. -/
def Float64.scaled (neg : Bool) (mant : Nat) (exp base : Int) : Int :=
  (if neg then -1 else 1) * (mant : Int) * 2 ^ (exp - base).toNat

/-- The Go comparison `a <= b` on float64 (false when either side is NaN). -/
def Float64.le : Float64 → Float64 → Bool
  | .nan, _ => false
  | _, .nan => false
  | .inf true, _ => true
  | _, .inf false => true
  | .inf false, _ => false
  | _, .inf true => false
  | .finite n1 m1 e1, .finite n2 m2 e2 =>
    decide (Float64.scaled n1 m1 e1 (min e1 e2) ≤ Float64.scaled n2 m2 e2 (min e1 e2))

/-- The Go comparison `a < b` on float64 (false when either side is NaN). -/
def Float64.lt : Float64 → Float64 → Bool
  | .nan, _ => false
  | _, .nan => false
  | .inf true, .inf true => false
  | .inf true, _ => true
  | .inf false, _ => false
  | _, .inf false => true
  | _, .inf true => false
  | .finite n1 m1 e1, .finite n2 m2 e2 =>
    decide (Float64.scaled n1 m1 e1 (min e1 e2) < Float64.scaled n2 m2 e2 (min e1 e2))

/-- The constant `0` converted to float64. -/
def Float64.zero : Float64 := .finite false 0 0

/-- A natural number as a float64 (exact for the small constants used here). -/
def Float64.ofNat (n : Nat) : Float64 := .finite false n 0

/-- The contents of a non-nil Go map with string keys, as the list of its entries. -/
abbrev Map (α : Type) := List (String × α)

/-- The assignment `m[k] = v`: replaces the entry of `k` or adds one. -/
def Map.set {α : Type} (m : Map α) (k : String) (v : α) : Map α :=
  if m.any (fun e => e.1 == k) then m.map (fun e => if e.1 == k then (k, v) else e)
  else m ++ [(k, v)]

/-- The builtin `len` on a slice or map that may be nil (`none`). -/
def len {α : Type} : Option (List α) → Nat
  | none => 0
  | some xs => xs.length

/-- Values a caller can store in an `interface{}`: untyped nil, booleans,
numbers, strings, slices and maps of such values. -/
inductive Any where
  | null
  | bool (b : Bool)
  | number (f : Float64)
  | string (s : String)
  | slice (xs : List Any)
  | map (m : List (String × Any))

/-- The caller's `context.Context`, passed through to the transport untouched. -/
structure Context where
  id : Nat
  deriving DecidableEq, Repr

/-! ## Request payload records (field names as in the Go structs) -/

/-- The record `payouts.AirtimePayload`. -/
structure AirtimePayload where
  CountryToSend : String
  PhoneNumber : String
  ValueInUSD : Float64

/-- The record `payouts.BankPayload`. -/
structure BankPayload where
  CountryToSend : String
  AccountBank : String
  AccountNumber : String
  ValueInUSD : Float64
  Reference : String

/-- The record `payouts.ChimoneyPayload` (Email and Twitter are `omitempty`). -/
structure ChimoneyPayload where
  ValueInUSD : Float64
  Email : String
  Twitter : String

/-- The anonymous struct in the field `RedeemData` of `payouts.GiftCardPayload`. -/
structure GiftCardRedeemData where
  ProductID : String
  CountryCode : String
  ValueInLocalCurrency : Float64

/-- The record `payouts.GiftCardPayload`. -/
structure GiftCardPayload where
  Email : String
  ValueInUSD : Float64
  RedeemData : GiftCardRedeemData

/-- The anonymous struct in the field `XRPL` of `payouts.CryptoPayment`. -/
structure XRPLPayment where
  Address : String
  Issuer : String
  Currency : String

/-- The record `payouts.CryptoPayment`. -/
structure CryptoPayment where
  XRPL : XRPLPayment

/-- The record `redeem.AirtimeRedeemRequest`; `Meta` is a map that may be nil. -/
structure AirtimeRedeemRequest where
  ChiRef : String
  PhoneNumber : String
  CountryToSend : String
  Meta : Option (Map Any)
  SubAccount : String

/-- The record `redeem.RedeemDataItem`. -/
structure RedeemDataItem where
  CountryCode : String
  ProductID : String
  ValueInLocalCurrency : Float64

/-- The record `redeem.AnyRedeemRequest`; `RedeemData` is a slice that may be nil. -/
structure AnyRedeemRequest where
  ChiRef : String
  RedeemData : Option (List RedeemDataItem)
  Meta : Option (Map Any)
  SubAccount : String

/-- The record `redeem.ChimoneyRedeemRequest`. -/
structure ChimoneyRedeemRequest where
  Chimoneys : Option (List (Option (Map Any)))
  SubAccount : String

/-- The record `redeem.GiftCardRedeemRequest`. -/
structure GiftCardRedeemRequest where
  ChiRef : String
  RedeemOptions : Option (Map Any)
  SubAccount : String

/-- The record `redeem.MobileMoneyRedeemRequest`. -/
structure MobileMoneyRedeemRequest where
  ChiRef : String
  RedeemOptions : Option (Map Any)
  SubAccount : String

/-- The record `subaccount.CreateRequest` (Description is `omitempty`). -/
structure CreateRequest where
  Name : String
  Email : String
  Description : String

/-- The record `mobilemoney.PaymentRequest` (SubAccount is `omitempty`). -/
structure PaymentRequest where
  Amount : Float64
  Currency : String
  PhoneNumber : String
  FullName : String
  Country : String
  Email : String
  TxRef : String
  SubAccount : String

/-- The dynamic values the modules store in a `map[string]interface{}` body:
strings, numbers, booleans and the typed payload slices (nil when `none`). -/
inductive Value where
  | str (s : String)
  | float (f : Float64)
  | bool (b : Bool)
  | airtimes (xs : Option (List AirtimePayload))
  | banks (xs : Option (List BankPayload))
  | chimoneys (xs : Option (List ChimoneyPayload))
  | giftCards (xs : Option (List GiftCardPayload))
  | cryptoPayments (xs : Option (List CryptoPayment))

/-- The `body interface{}` argument of `Do`, by dynamic type: the nil interface,
a `map[string]string`, a `map[string]interface{}`, a pointer to a request record
(nil pointer when `none`), or a `ChimoneyRedeemRequest` struct value. -/
inductive Body where
  | none
  | strMap (m : Map String)
  | anyMap (m : Map Value)
  | airtimeRedeem (p : Option AirtimeRedeemRequest)
  | anyRedeem (p : Option AnyRedeemRequest)
  | chimoneyRedeem (r : ChimoneyRedeemRequest)
  | giftCardRedeem (p : Option GiftCardRedeemRequest)
  | mobileMoneyRedeem (p : Option MobileMoneyRedeemRequest)
  | create (p : Option CreateRequest)
  | payment (p : Option PaymentRequest)

/-! ## Response records -/

/-- The type `json.RawMessage`: the bytes of a JSON value, nil when `none`. -/
abbrev RawMessage := Option String

/-- The record `account.AccountResponse`. -/
structure AccountResponse where
  ID : String
  Status : String
  Data : RawMessage
  Message : String
  Timestamp : Int
  deriving DecidableEq, Repr

/-- The record `info.InfoResponse`. -/
structure InfoResponse where
  Status : String
  Data : RawMessage
  Message : String
  deriving DecidableEq, Repr

/-- The record `mobilemoney.PaymentResponse`. -/
structure PaymentResponse where
  Status : String
  Data : RawMessage
  Message : String
  deriving DecidableEq, Repr

/-- The record `payouts.PayoutResponse`. -/
structure PayoutResponse where
  Status : String
  Data : RawMessage
  Message : String
  deriving DecidableEq, Repr

/-- The record `redeem.RedeemResponse`. -/
structure RedeemResponse where
  Status : String
  Data : RawMessage
  Message : String
  deriving DecidableEq, Repr

/-- The record `subaccount.SubAccountResponse`. -/
structure SubAccountResponse where
  Status : String
  Data : RawMessage
  Message : String
  deriving DecidableEq, Repr

/-- The record `wallet.WalletResponse`. -/
structure WalletResponse where
  Status : String
  Data : RawMessage
  Message : String
  deriving DecidableEq, Repr

/-- The zero value `new(AccountResponse)` points to. -/
def AccountResponse.zero : AccountResponse := ⟨"", "", none, "", 0⟩

/-- The zero value `new(InfoResponse)` points to. -/
def InfoResponse.zero : InfoResponse := ⟨"", none, ""⟩

/-- The zero value `new(PaymentResponse)` points to. -/
def PaymentResponse.zero : PaymentResponse := ⟨"", none, ""⟩

/-- The zero value `new(PayoutResponse)` points to. -/
def PayoutResponse.zero : PayoutResponse := ⟨"", none, ""⟩

/-- The zero value `new(RedeemResponse)` points to. -/
def RedeemResponse.zero : RedeemResponse := ⟨"", none, ""⟩

/-- The zero value `new(SubAccountResponse)` points to. -/
def SubAccountResponse.zero : SubAccountResponse := ⟨"", none, ""⟩

/-- The zero value `new(WalletResponse)` points to. -/
def WalletResponse.zero : WalletResponse := ⟨"", none, ""⟩

/-- A field of a destination struct: its name in the struct tag and how a decoded
value is written to it, by the Go type of the field. -/
inductive json.Field (ρ : Type) where
  | string (name : String) (set : ρ → String → ρ)
  | rawMessage (name : String) (set : ρ → String → ρ)
  | int64 (name : String) (set : ρ → Int → ρ)

/-- The fields of `account.AccountResponse` with their struct tags. -/
def AccountResponse.fields : List (json.Field AccountResponse) :=
  [.string "id" (fun r s => { r with ID := s }),
   .string "status" (fun r s => { r with Status := s }),
   .rawMessage "data" (fun r t => { r with Data := some t }),
   .string "message" (fun r s => { r with Message := s }),
   .int64 "timestamp" (fun r i => { r with Timestamp := i })]

/-- The fields of `info.InfoResponse` with their struct tags. -/
def InfoResponse.fields : List (json.Field InfoResponse) :=
  [.string "status" (fun r s => { r with Status := s }),
   .rawMessage "data" (fun r t => { r with Data := some t }),
   .string "message" (fun r s => { r with Message := s })]

/-- The fields of `mobilemoney.PaymentResponse` with their struct tags. -/
def PaymentResponse.fields : List (json.Field PaymentResponse) :=
  [.string "status" (fun r s => { r with Status := s }),
   .rawMessage "data" (fun r t => { r with Data := some t }),
   .string "message" (fun r s => { r with Message := s })]

/-- The fields of `payouts.PayoutResponse` with their struct tags. -/
def PayoutResponse.fields : List (json.Field PayoutResponse) :=
  [.string "status" (fun r s => { r with Status := s }),
   .rawMessage "data" (fun r t => { r with Data := some t }),
   .string "message" (fun r s => { r with Message := s })]

/-- The fields of `redeem.RedeemResponse` with their struct tags. -/
def RedeemResponse.fields : List (json.Field RedeemResponse) :=
  [.string "status" (fun r s => { r with Status := s }),
   .rawMessage "data" (fun r t => { r with Data := some t }),
   .string "message" (fun r s => { r with Message := s })]

/-- The fields of `subaccount.SubAccountResponse` with their struct tags. -/
def SubAccountResponse.fields : List (json.Field SubAccountResponse) :=
  [.string "status" (fun r s => { r with Status := s }),
   .rawMessage "data" (fun r t => { r with Data := some t }),
   .string "message" (fun r s => { r with Message := s })]

/-- The fields of `wallet.WalletResponse` with their struct tags. -/
def WalletResponse.fields : List (json.Field WalletResponse) :=
  [.string "status" (fun r s => { r with Status := s }),
   .rawMessage "data" (fun r t => { r with Data := some t }),
   .string "message" (fun r s => { r with Message := s })]

/-- The destination argument `v interface{}` of `Do`, by the type `ρ` of what it
points to; `isNil` tells whether the argument is the nil interface, and `fields`
lists the fields a JSON object is decoded into, which is what the decoder reads
from the type of the destination. -/
class Destination (ρ : Type) where
  isNil : Bool
  fields : List (json.Field ρ)

/-- The nil interface passed as destination ("discard the body"). -/
structure NoDestination where
  deriving DecidableEq, Repr

instance : Destination NoDestination := ⟨true, []⟩

instance : Destination AccountResponse := ⟨false, AccountResponse.fields⟩

instance : Destination InfoResponse := ⟨false, InfoResponse.fields⟩

instance : Destination PaymentResponse := ⟨false, PaymentResponse.fields⟩

instance : Destination PayoutResponse := ⟨false, PayoutResponse.fields⟩

instance : Destination RedeemResponse := ⟨false, RedeemResponse.fields⟩

instance : Destination SubAccountResponse := ⟨false, SubAccountResponse.fields⟩

instance : Destination WalletResponse := ⟨false, WalletResponse.fields⟩

/-! ## The transport interface of the modules -/

/-- What one call of `Do` leaves behind: the error it returns, the content of the
destination after the call, and the state behind the transport. -/
structure DoResult (ρ σ : Type) where
  err : Option Error
  v : ρ
  state : σ

/-- The interface `Client` each module declares:
`Do(ctx, method, path, body, v, params) error`. The `params` map is nil when
`none`. -/
structure Client (σ : Type) where
  Do : {ρ : Type} → [Destination ρ] → Context → String → String → Body → ρ →
    Option (Map String) → σ → DoResult ρ σ

/-- The outcome of a module method with signature `(*T, error)`: the pair it
returned (a nil pointer is `none`, a nil error is `none`) with the state behind
the transport, or a run-time panic. -/
inductive Outcome (ρ σ : Type) where
  | returned (resp : Option ρ) (err : Option Error) (state : σ)
  | panicked (state : σ)

/-- The statement `return resp, err` after `err := client.Do(..., resp, ...)`. -/
def DoResult.ret {ρ σ : Type} (r : DoResult ρ σ) : Outcome ρ σ :=
  .returned (some r.v) r.err r.state

/-! ## Package account -/

/-- The sentinel `account.ErrInvalidIssueID`. -/
def account.ErrInvalidIssueID : Error := .sentinel "account" "ErrInvalidIssueID" "invalid issue ID"

/-- The sentinel `account.ErrInvalidTransactionID`. -/
def account.ErrInvalidTransactionID : Error :=
  .sentinel "account" "ErrInvalidTransactionID" "invalid transaction ID"

/-- The sentinel `account.ErrInvalidChiRef`. -/
def account.ErrInvalidChiRef : Error := .sentinel "account" "ErrInvalidChiRef" "invalid chi ref"

/-- The struct `account.Account`: a handle on the transport. -/
structure Account (σ : Type) where
  client : Client σ

/-- The constructor `account.New`. -/
def account.New {σ : Type} (client : Client σ) : Account σ := ⟨client⟩

/-- The method `Account.GetTransactionsByIssueID`. -/
def Account.GetTransactionsByIssueID {σ : Type} (a : Account σ) (ctx : Context)
    (issueID subAccount : String) (s : σ) : Outcome AccountResponse σ :=
  if issueID = "" then .returned none (some account.ErrInvalidIssueID) s
  else
    let req : Map String := []
    let req := if subAccount ≠ "" then req.set "subAccount" subAccount else req
    let resp := AccountResponse.zero
    let params : Map String := [("issueID", issueID)]
    (a.client.Do ctx "POST" "/accounts/issue-id-transactions" (.strMap req) resp (some params) s).ret

/-- The method `Account.GetAllTransactions`. -/
def Account.GetAllTransactions {σ : Type} (a : Account σ) (ctx : Context)
    (subAccount : String) (s : σ) : Outcome AccountResponse σ :=
  let req : Map String := []
  let req := if subAccount ≠ "" then req.set "subAccount" subAccount else req
  let resp := AccountResponse.zero
  (a.client.Do ctx "POST" "/accounts/transactions" (.strMap req) resp none s).ret

/-- The method `Account.Transfer`. -/
def Account.Transfer {σ : Type} (a : Account σ) (ctx : Context)
    (chiRef subAccount : String) (s : σ) : Outcome AccountResponse σ :=
  if chiRef = "" then .returned none (some account.ErrInvalidChiRef) s
  else
    let req : Map String := [("chiRef", chiRef)]
    let req := if subAccount ≠ "" then req.set "subAccount" subAccount else req
    let resp := AccountResponse.zero
    (a.client.Do ctx "POST" "/accounts/transfer" (.strMap req) resp none s).ret

/-- The method `Account.DeleteUnpaidTransaction`. -/
def Account.DeleteUnpaidTransaction {σ : Type} (a : Account σ) (ctx : Context)
    (chiRef subAccount : String) (s : σ) : Outcome AccountResponse σ :=
  if chiRef = "" then .returned none (some account.ErrInvalidChiRef) s
  else
    let req : Map String := [("chiRef", chiRef)]
    let req := if subAccount ≠ "" then req.set "subAccount" subAccount else req
    let resp := AccountResponse.zero
    (a.client.Do ctx "DELETE" "/accounts/delete-unpaid" (.strMap req) resp none s).ret

/-- The method `Account.GetTransactionByID`. -/
def Account.GetTransactionByID {σ : Type} (a : Account σ) (ctx : Context)
    (transactionID subAccount : String) (s : σ) : Outcome AccountResponse σ :=
  if transactionID = "" then .returned none (some account.ErrInvalidTransactionID) s
  else
    let req : Map String := [("id", transactionID)]
    let req := if subAccount ≠ "" then req.set "subAccount" subAccount else req
    let resp := AccountResponse.zero
    (a.client.Do ctx "POST" "/accounts/transaction" (.strMap req) resp none s).ret

/-! ## Package info -/

/-- The sentinel `info.ErrInvalidCountry`. -/
def info.ErrInvalidCountry : Error := .sentinel "info" "ErrInvalidCountry" "invalid country code"

/-- The sentinel `info.ErrInvalidCurrency`. -/
def info.ErrInvalidCurrency : Error := .sentinel "info" "ErrInvalidCurrency" "invalid currency"

/-- The sentinel `info.ErrInvalidAmount`. -/
def info.ErrInvalidAmount : Error := .sentinel "info" "ErrInvalidAmount" "invalid amount"

/-- The struct `info.Info`: a handle on the transport. -/
structure Info (σ : Type) where
  client : Client σ

/-- The constructor `info.New`. -/
def info.New {σ : Type} (client : Client σ) : Info σ := ⟨client⟩

/-- The method `Info.GetSupportedAssets`. -/
def Info.GetSupportedAssets {σ : Type} (i : Info σ) (ctx : Context) (s : σ) :
    Outcome InfoResponse σ :=
  let resp := InfoResponse.zero
  (i.client.Do ctx "GET" "/info/assets" .none resp none s).ret

/-- The method `Info.GetAirtimeCountries`. -/
def Info.GetAirtimeCountries {σ : Type} (i : Info σ) (ctx : Context) (s : σ) :
    Outcome InfoResponse σ :=
  let resp := InfoResponse.zero
  (i.client.Do ctx "GET" "/info/airtime-countries" .none resp none s).ret

/-- The method `Info.GetBanks`. -/
def Info.GetBanks {σ : Type} (i : Info σ) (ctx : Context) (countryCode : String) (s : σ) :
    Outcome InfoResponse σ :=
  let countryCode := if countryCode = "" then "NG" else countryCode
  let resp := InfoResponse.zero
  let params : Map String := [("countryCode", countryCode)]
  (i.client.Do ctx "GET" "/info/country-banks" .none resp (some params) s).ret

/-- The method `Info.GetLocalAmountInUSD`. -/
def Info.GetLocalAmountInUSD {σ : Type} (i : Info σ) (ctx : Context) (currency : String)
    (amount : Float64) (s : σ) : Outcome InfoResponse σ :=
  if currency = "" then .returned none (some info.ErrInvalidCurrency) s
  else if Float64.le amount Float64.zero then .returned none (some info.ErrInvalidAmount) s
  else
    let req : Map Value := [("originCurrency", .str currency), ("amount", .float amount)]
    let resp := InfoResponse.zero
    (i.client.Do ctx "POST" "/info/local-amount-in-usd" (.anyMap req) resp none s).ret

/-- The method `Info.GetMobileMoneyCodes`. -/
def Info.GetMobileMoneyCodes {σ : Type} (i : Info σ) (ctx : Context) (s : σ) :
    Outcome InfoResponse σ :=
  let resp := InfoResponse.zero
  (i.client.Do ctx "GET" "/info/mobile-money-codes" .none resp none s).ret

/-- The method `Info.GetUSDInLocalAmount`. -/
def Info.GetUSDInLocalAmount {σ : Type} (i : Info σ) (ctx : Context) (currency : String)
    (amountInUSD : Float64) (s : σ) : Outcome InfoResponse σ :=
  if currency = "" then .returned none (some info.ErrInvalidCurrency) s
  else if Float64.le amountInUSD Float64.zero then .returned none (some info.ErrInvalidAmount) s
  else
    let req : Map Value :=
      [("destinationCurrency", .str currency), ("amountInUSD", .float amountInUSD)]
    let resp := InfoResponse.zero
    (i.client.Do ctx "POST" "/info/usd-in-local-amount" (.anyMap req) resp none s).ret

/-! ## Package mobilemoney -/

/-- The struct `mobilemoney.MobileMoney`: a handle on the transport. -/
structure MobileMoney (σ : Type) where
  client : Client σ

/-- The constructor `mobilemoney.New`. -/
def mobilemoney.New {σ : Type} (client : Client σ) : MobileMoney σ := ⟨client⟩

/-- The method `MobileMoney.MakePayment`; `req` is a pointer, nil when `none`. -/
def MobileMoney.MakePayment {σ : Type} (m : MobileMoney σ) (ctx : Context)
    (req : Option PaymentRequest) (s : σ) : Outcome PaymentResponse σ :=
  let resp := PaymentResponse.zero
  (m.client.Do ctx "POST" "/collections/mobile-money/pay" (.payment req) resp none s).ret

/-- The method `MobileMoney.VerifyPayment`. -/
def MobileMoney.VerifyPayment {σ : Type} (m : MobileMoney σ) (ctx : Context)
    (id subAccount : String) (s : σ) : Outcome PaymentResponse σ :=
  let req : Map String := [("id", id)]
  let req := if subAccount ≠ "" then req.set "subAccount" subAccount else req
  let resp := PaymentResponse.zero
  (m.client.Do ctx "POST" "/collections/mobile-money/verify" (.strMap req) resp none s).ret

/-- The method `MobileMoney.GetAllTransactions`. -/
def MobileMoney.GetAllTransactions {σ : Type} (m : MobileMoney σ) (ctx : Context)
    (subAccount : String) (s : σ) : Outcome PaymentResponse σ :=
  let req : Map String := []
  let req := if subAccount ≠ "" then req.set "subAccount" subAccount else req
  let resp := PaymentResponse.zero
  (m.client.Do ctx "POST" "/collections/mobile-money/all" (.strMap req) resp none s).ret

/-! ## Package payouts -/

/-- The struct `payouts.Payouts`: a handle on the transport. -/
structure Payouts (σ : Type) where
  client : Client σ

/-- The constructor `payouts.New`. -/
def payouts.New {σ : Type} (client : Client σ) : Payouts σ := ⟨client⟩

/-- The method `Payouts.Airtime`; the slice `airtimes` is nil when `none`. -/
def Payouts.Airtime {σ : Type} (p : Payouts σ) (ctx : Context)
    (airtimes : Option (List AirtimePayload)) (subAccount : String) (s : σ) :
    Outcome PayoutResponse σ :=
  let req : Map Value := [("airtime", .airtimes airtimes)]
  let req := if subAccount ≠ "" then req.set "subAccount" (.str subAccount) else req
  let resp := PayoutResponse.zero
  (p.client.Do ctx "POST" "/payouts/airtime" (.anyMap req) resp none s).ret

/-- The method `Payouts.Bank`. -/
def Payouts.Bank {σ : Type} (p : Payouts σ) (ctx : Context)
    (banks : Option (List BankPayload)) (subAccount : String) (s : σ) :
    Outcome PayoutResponse σ :=
  let req : Map Value := [("banks", .banks banks)]
  let req := if subAccount ≠ "" then req.set "subAccount" (.str subAccount) else req
  let resp := PayoutResponse.zero
  (p.client.Do ctx "POST" "/payouts/bank" (.anyMap req) resp none s).ret

/-- The method `Payouts.Chimoney`. -/
def Payouts.Chimoney {σ : Type} (p : Payouts σ) (ctx : Context)
    (chimoneys : Option (List ChimoneyPayload)) (subAccount : String) (s : σ) :
    Outcome PayoutResponse σ :=
  let req : Map Value := [("chimoneys", .chimoneys chimoneys)]
  let req := if subAccount ≠ "" then req.set "subAccount" (.str subAccount) else req
  let resp := PayoutResponse.zero
  (p.client.Do ctx "POST" "/payouts/chimoney" (.anyMap req) resp none s).ret

/-- The method `Payouts.GiftCard`. -/
def Payouts.GiftCard {σ : Type} (p : Payouts σ) (ctx : Context)
    (giftCards : Option (List GiftCardPayload)) (subAccount : String) (s : σ) :
    Outcome PayoutResponse σ :=
  let req : Map Value := [("giftCards", .giftCards giftCards)]
  let req := if subAccount ≠ "" then req.set "subAccount" (.str subAccount) else req
  let resp := PayoutResponse.zero
  (p.client.Do ctx "POST" "/payouts/gift-card" (.anyMap req) resp none s).ret

/-- The method `Payouts.Status`. -/
def Payouts.Status {σ : Type} (p : Payouts σ) (ctx : Context)
    (chiRef subAccount : String) (s : σ) : Outcome PayoutResponse σ :=
  let req : Map String := [("chiRef", chiRef)]
  let req := if subAccount ≠ "" then req.set "subAccount" subAccount else req
  let resp := PayoutResponse.zero
  (p.client.Do ctx "POST" "/payouts/status" (.strMap req) resp none s).ret

/-- The method `Payouts.InitiateChimoney`. -/
def Payouts.InitiateChimoney {σ : Type} (p : Payouts σ) (ctx : Context)
    (chimoneys : Option (List ChimoneyPayload)) (turnOffNotification : Bool)
    (cryptoPayments : Option (List CryptoPayment)) (subAccount : String) (s : σ) :
    Outcome PayoutResponse σ :=
  let req : Map Value :=
    [("chimoneys", .chimoneys chimoneys), ("turnOffNotification", .bool turnOffNotification)]
  let req :=
    if len cryptoPayments > 0 then req.set "crypto_payments" (.cryptoPayments cryptoPayments)
    else req
  let req := if subAccount ≠ "" then req.set "subAccount" (.str subAccount) else req
  let resp := PayoutResponse.zero
  (p.client.Do ctx "POST" "/payouts/initiate" (.anyMap req) resp none s).ret

/-! ## Package redeem -/

/-- The sentinel `redeem.ErrInvalidChiRef`. -/
def redeem.ErrInvalidChiRef : Error := .sentinel "redeem" "ErrInvalidChiRef" "invalid chi ref"

/-- The sentinel `redeem.ErrInvalidRedeemData`. -/
def redeem.ErrInvalidRedeemData : Error :=
  .sentinel "redeem" "ErrInvalidRedeemData" "invalid redeem data"

/-- The struct `redeem.Redeem`: a handle on the transport. -/
structure Redeem (σ : Type) where
  client : Client σ

/-- The constructor `redeem.New`. -/
def redeem.New {σ : Type} (client : Client σ) : Redeem σ := ⟨client⟩

/-- The method `Redeem.Airtime`; `req` is a pointer, and reading `req.ChiRef`
through a nil pointer panics. -/
def Redeem.Airtime {σ : Type} (r : Redeem σ) (ctx : Context)
    (req : Option AirtimeRedeemRequest) (s : σ) : Outcome RedeemResponse σ :=
  match req with
  | none => .panicked s
  | some q =>
    if q.ChiRef = "" then .returned none (some redeem.ErrInvalidChiRef) s
    else
      let resp := RedeemResponse.zero
      (r.client.Do ctx "POST" "/redeem/airtime" (.airtimeRedeem req) resp none s).ret

/-- The method `Redeem.Any`. -/
def Redeem.Any {σ : Type} (r : Redeem σ) (ctx : Context)
    (req : Option AnyRedeemRequest) (s : σ) : Outcome RedeemResponse σ :=
  match req with
  | none => .panicked s
  | some q =>
    if q.ChiRef = "" then .returned none (some redeem.ErrInvalidChiRef) s
    else if len q.RedeemData = 0 then .returned none (some redeem.ErrInvalidRedeemData) s
    else
      let resp := RedeemResponse.zero
      (r.client.Do ctx "POST" "/redeem/any" (.anyRedeem req) resp none s).ret

/-- The method `Redeem.Chimoney`. -/
def Redeem.Chimoney {σ : Type} (r : Redeem σ) (ctx : Context)
    (chimoneys : Option (List (Option (Map ChimoneyGo.Any)))) (subAccount : String) (s : σ) :
    Outcome RedeemResponse σ :=
  if len chimoneys = 0 then .returned none (some redeem.ErrInvalidRedeemData) s
  else
    let req : ChimoneyRedeemRequest := ⟨chimoneys, subAccount⟩
    let resp := RedeemResponse.zero
    (r.client.Do ctx "POST" "/redeem/chimoney" (.chimoneyRedeem req) resp none s).ret

/-- The method `Redeem.GetChimoney`. -/
def Redeem.GetChimoney {σ : Type} (r : Redeem σ) (ctx : Context)
    (chiRef subAccount : String) (s : σ) : Outcome RedeemResponse σ :=
  if chiRef = "" then .returned none (some redeem.ErrInvalidChiRef) s
  else
    let req : Map String := [("chiRef", chiRef)]
    let req := if subAccount ≠ "" then req.set "subAccount" subAccount else req
    let resp := RedeemResponse.zero
    (r.client.Do ctx "POST" "/redeem/chimoney/get" (.strMap req) resp none s).ret

/-- The method `Redeem.GiftCard`. -/
def Redeem.GiftCard {σ : Type} (r : Redeem σ) (ctx : Context)
    (req : Option GiftCardRedeemRequest) (s : σ) : Outcome RedeemResponse σ :=
  match req with
  | none => .panicked s
  | some q =>
    if q.ChiRef = "" then .returned none (some redeem.ErrInvalidChiRef) s
    else if len q.RedeemOptions = 0 then .returned none (some redeem.ErrInvalidRedeemData) s
    else
      let resp := RedeemResponse.zero
      (r.client.Do ctx "POST" "/redeem/gift-card" (.giftCardRedeem req) resp none s).ret

/-- The method `Redeem.MobileMoney`. -/
def Redeem.MobileMoney {σ : Type} (r : Redeem σ) (ctx : Context)
    (req : Option MobileMoneyRedeemRequest) (s : σ) : Outcome RedeemResponse σ :=
  match req with
  | none => .panicked s
  | some q =>
    if q.ChiRef = "" then .returned none (some redeem.ErrInvalidChiRef) s
    else if len q.RedeemOptions = 0 then .returned none (some redeem.ErrInvalidRedeemData) s
    else
      let resp := RedeemResponse.zero
      (r.client.Do ctx "POST" "/redeem/mobile-money" (.mobileMoneyRedeem req) resp none s).ret

/-! ## Package subaccount -/

/-- The sentinel `subaccount.ErrInvalidID`. -/
def subaccount.ErrInvalidID : Error := .sentinel "subaccount" "ErrInvalidID" "invalid sub-account ID"

/-- The struct `subaccount.SubAccount`: a handle on the transport. -/
structure SubAccount (σ : Type) where
  client : Client σ

/-- The constructor `subaccount.New`. -/
def subaccount.New {σ : Type} (client : Client σ) : SubAccount σ := ⟨client⟩

/-- The method `SubAccount.Create`; `req` is a pointer, nil when `none`. -/
def SubAccount.Create {σ : Type} (sa : SubAccount σ) (ctx : Context)
    (req : Option CreateRequest) (s : σ) : Outcome SubAccountResponse σ :=
  let resp := SubAccountResponse.zero
  (sa.client.Do ctx "POST" "/sub-account" (.create req) resp none s).ret

/-- The method `SubAccount.List`. -/
def SubAccount.List {σ : Type} (sa : SubAccount σ) (ctx : Context) (s : σ) :
    Outcome SubAccountResponse σ :=
  let resp := SubAccountResponse.zero
  (sa.client.Do ctx "GET" "/sub-account/list" .none resp none s).ret

/-- The method `SubAccount.Delete`. -/
def SubAccount.Delete {σ : Type} (sa : SubAccount σ) (ctx : Context) (id : String) (s : σ) :
    Outcome SubAccountResponse σ :=
  if id = "" then .returned none (some subaccount.ErrInvalidID) s
  else
    let req : Map String := [("id", id)]
    let resp := SubAccountResponse.zero
    (sa.client.Do ctx "DELETE" "/sub-account" (.strMap req) resp none s).ret

/-! ## Package wallet -/

/-- The sentinel `wallet.ErrInvalidID`. -/
def wallet.ErrInvalidID : Error := .sentinel "wallet" "ErrInvalidID" "invalid wallet id"

/-- The sentinel `wallet.ErrInvalidReceiver`. -/
def wallet.ErrInvalidReceiver : Error := .sentinel "wallet" "ErrInvalidReceiver" "invalid receiver"

/-- The struct `wallet.Wallet`: a handle on the transport. -/
structure Wallet (σ : Type) where
  client : Client σ

/-- The constructor `wallet.New`. -/
def wallet.New {σ : Type} (client : Client σ) : Wallet σ := ⟨client⟩

/-- The method `Wallet.List`. -/
def Wallet.List {σ : Type} (w : Wallet σ) (ctx : Context) (subAccount : String) (s : σ) :
    Outcome WalletResponse σ :=
  let req : Map String := []
  let req := if subAccount ≠ "" then req.set "subAccount" subAccount else req
  let resp := WalletResponse.zero
  (w.client.Do ctx "POST" "/wallets/list" (.strMap req) resp none s).ret

/-- The method `Wallet.Details`. -/
def Wallet.Details {σ : Type} (w : Wallet σ) (ctx : Context) (id subAccount : String) (s : σ) :
    Outcome WalletResponse σ :=
  if id = "" then .returned none (some wallet.ErrInvalidID) s
  else
    let req : Map String := [("id", id)]
    let req := if subAccount ≠ "" then req.set "subAccount" subAccount else req
    let resp := WalletResponse.zero
    (w.client.Do ctx "POST" "/wallets/lookup" (.strMap req) resp none s).ret

/-- The method `Wallet.Transfer`. -/
def Wallet.Transfer {σ : Type} (w : Wallet σ) (ctx : Context) (receiver walletType : String)
    (s : σ) : Outcome WalletResponse σ :=
  if receiver = "" then .returned none (some wallet.ErrInvalidReceiver) s
  else
    let req : Map String := [("receiver", receiver), ("wallet", walletType)]
    let resp := WalletResponse.zero
    (w.client.Do ctx "POST" "/wallets/transfer" (.strMap req) resp none s).ret

/-- The method `Wallet.GetBalance`. -/
def Wallet.GetBalance {σ : Type} (w : Wallet σ) (ctx : Context) (subAccount : String) (s : σ) :
    Outcome WalletResponse σ :=
  let req : Map String := []
  let req := if subAccount ≠ "" then req.set "subAccount" subAccount else req
  let resp := WalletResponse.zero
  (w.client.Do ctx "POST" "/wallet/balance" (.strMap req) resp none s).ret

/-! ## Package chimoney: the production dispatcher -/

/-- The type `url.Values`: each key with the list of its values. -/
abbrev url.Values := Map (List String)

/-- The method `Values.Add`: appends `value` to the values of `key`. -/
def url.Values.Add (q : url.Values) (key value : String) : url.Values :=
  if q.any (fun e => e.1 == key)
  then q.map (fun e => if e.1 == key then (key, e.2 ++ [value]) else e)
  else q ++ [(key, [value])]

/-- The fields of `url.URL` the dispatcher touches: the query part, and the rest of
the parsed address. -/
structure url.URL where
  Scheme : String
  Host : String
  Path : String
  RawQuery : String
  Fragment : String
  deriving DecidableEq, Repr

/-- The type `http.Header`: each canonical key with the list of its values. -/
abbrev http.Header := Map (List String)

/-- The struct `http.Request`, as far as the dispatcher fills it. -/
structure http.Request where
  ctx : Context
  Method : String
  URL : url.URL
  Header : http.Header
  Body : Option String
  deriving DecidableEq, Repr

/-- The struct `http.Response`, as far as the dispatcher reads it. -/
structure http.Response where
  StatusCode : Int
  Body : String
  deriving DecidableEq, Repr

/-- The handle `*http.Client`: its method `Do` sends a request and returns the
response or an error, changing the state of the world behind it. -/
structure http.Client (σ : Type) where
  Do : http.Request → σ → Except Error http.Response × σ

/-- The standard-library functions `Client.Do` calls. They are not part of the
repository and are taken as given:
`Marshal` is `json.Marshal`, `NewRequestWithContext` is
`http.NewRequestWithContext` (arguments: context, method, url, body bytes or nil),
`Query` is `(*url.URL).Query`, `Encode` is `url.Values.Encode`, `Sprint` is
`fmt.Sprint` on a map value, `CanonicalKey` is the key canonicalisation of
`http.Header.Set`, and `Decode` is `json.NewDecoder(body).Decode(v)`, which
returns its error and the content of the destination afterwards. -/
structure Runtime where
  Marshal : Body → Except Error String
  NewRequestWithContext : Context → String → String → Option String → Except Error http.Request
  Query : url.URL → url.Values
  Encode : url.Values → String
  Sprint : Value → String
  CanonicalKey : String → String
  Decode : {ρ : Type} → [Destination ρ] → String → ρ → Option Error × ρ

/-- The method `Header.Set`: the entry of the canonical key becomes `[value]`. -/
def http.Header.Set (rt : Runtime) (h : http.Header) (key value : String) : http.Header :=
  Map.set h (rt.CanonicalKey key) [value]

/-- The struct `chimoney.Client` (the module handles are built from it by `New`). -/
structure chimoney.Client (σ : Type) where
  apiKey : String
  baseURL : String
  http : http.Client σ

/-- The first step of `Client.Do`: `reqBody` stays nil for a nil body, and is the
marshalled body otherwise. -/
def chimoney.Client.reqBody (rt : Runtime) : Body → Except Error (Option String)
  | .none => .ok none
  | body =>
    match rt.Marshal body with
    | .error err => .error err
    | .ok b => .ok (some b)

/-- The block `if params != nil` of `Client.Do`: every entry of `params` is added
to the query of the request URL, which is then re-encoded. -/
def chimoney.Client.addParams (rt : Runtime) (req : http.Request) :
    Option (Map String) → http.Request
  | none => req
  | some params =>
    let q := params.foldl (fun q e => url.Values.Add q e.1 e.2) (rt.Query req.URL)
    { req with URL := { req.URL with RawQuery := rt.Encode q } }

/-- The block `if params, ok := body.(map[string]interface{}); ok && method == "GET"`
of `Client.Do`. -/
def chimoney.Client.addBodyParams (rt : Runtime) (req : http.Request) (method : String) :
    Body → http.Request
  | .anyMap params =>
    if method = "GET" then
      let q := params.foldl (fun q e => url.Values.Add q e.1 (rt.Sprint e.2)) (rt.Query req.URL)
      { req with URL := { req.URL with RawQuery := rt.Encode q } }
    else req
  | _ => req

/-- The three `req.Header.Set` statements of `Client.Do`. -/
def chimoney.Client.setHeaders {σ : Type} (rt : Runtime) (c : chimoney.Client σ)
    (req : http.Request) : http.Request :=
  let h := http.Header.Set rt req.Header "Content-Type" "application/json"
  let h := http.Header.Set rt h "accept" "application/json"
  let h := http.Header.Set rt h "X-API-KEY" c.apiKey
  { req with Header := h }

/-- The method `Client.Do` of `chimoney.go`. Closing the response body (the
deferred `resp.Body.Close()`) has no effect on what is returned and is left out. -/
def chimoney.Client.Do {σ ρ : Type} [Destination ρ] (rt : Runtime) (c : chimoney.Client σ)
    (ctx : Context) (method path : String) (body : Body) (v : ρ)
    (params : Option (Map String)) (s : σ) : DoResult ρ σ :=
  match chimoney.Client.reqBody rt body with
  | .error err => ⟨some err, v, s⟩
  | .ok reqBody =>
    match rt.NewRequestWithContext ctx method (c.baseURL ++ path) reqBody with
    | .error err => ⟨some err, v, s⟩
    | .ok req =>
      let req := chimoney.Client.addParams rt req params
      let req := chimoney.Client.addBodyParams rt req method body
      let req := chimoney.Client.setHeaders rt c req
      match c.http.Do req s with
      | (.error err, s1) => ⟨some err, v, s1⟩
      | (.ok resp, s1) =>
        if resp.StatusCode < 200 ∨ resp.StatusCode ≥ 300 then
          ⟨some (.errorf ("chimoney: request failed with status " ++ toString resp.StatusCode)),
            v, s1⟩
        else if Destination.isNil ρ then ⟨none, v, s1⟩
        else
          match rt.Decode resp.Body v with
          | (some err, v1) =>
            ⟨some (.errorf ("chimoney: failed to decode response: " ++ err.Error)), v1, s1⟩
          | (none, v1) => ⟨none, v1, s1⟩

/-- The production client seen through the interface `Client` of the modules. -/
def chimoney.Client.transport {σ : Type} (rt : Runtime) (c : chimoney.Client σ) :
    ChimoneyGo.Client σ where
  Do := fun ctx method path body v params s => chimoney.Client.Do rt c ctx method path body v params s

/-! ## A recording transport double -/

/-- One recorded call of `Do`: its arguments (the destination apart) and the error
it returned. -/
structure DoRecord where
  ctx : Context
  method : String
  path : String
  body : Body
  params : Option (Map String)
  err : Option Error

/-- A transport double that forwards every call of `Do` to `c` and appends a
record of it to a log kept next to the state of `c`. -/
def Client.recording {σ : Type} (c : Client σ) : Client (σ × List DoRecord) where
  Do := fun ctx method path body v params st =>
    let r := c.Do ctx method path body v params st.1
    ⟨r.err, r.v, (r.state, st.2 ++ [⟨ctx, method, path, body, params, r.err⟩])⟩

/-- The result pointer of an outcome: `none` when the method returned nil. -/
def Outcome.result {ρ σ : Type} : Outcome ρ σ → Option ρ
  | .returned resp _ _ => resp
  | .panicked _ => none

/-- The error of an outcome: `none` when the method returned a nil error. -/
def Outcome.error {ρ σ : Type} : Outcome ρ σ → Option Error
  | .returned _ err _ => err
  | .panicked _ => none

/-- The state behind the transport after the call. -/
def Outcome.state {ρ σ : Type} : Outcome ρ σ → σ
  | .returned _ _ s => s
  | .panicked s => s

/-- Whether the method returned (rather than panicked). -/
def Outcome.isReturned {ρ σ : Type} : Outcome ρ σ → Bool
  | .returned _ _ _ => true
  | .panicked _ => false

/-! ## Every module method behind one dispatcher -/

/-- A response record of any of the seven modules. -/
inductive Response where
  | account (r : AccountResponse)
  | info (r : InfoResponse)
  | payment (r : PaymentResponse)
  | payout (r : PayoutResponse)
  | redeem (r : RedeemResponse)
  | subaccount (r : SubAccountResponse)
  | wallet (r : WalletResponse)
  deriving DecidableEq, Repr

/-- The same outcome with the result pointer retagged. -/
def Outcome.map {ρ τ σ : Type} (f : ρ → τ) : Outcome ρ σ → Outcome τ σ
  | .returned resp err s => .returned (resp.map f) err s
  | .panicked s => .panicked s

/-- A call of one feature-module method with its arguments (the context apart). -/
inductive Invocation where
  | accountGetTransactionsByIssueID (issueID subAccount : String)
  | accountGetAllTransactions (subAccount : String)
  | accountTransfer (chiRef subAccount : String)
  | accountDeleteUnpaidTransaction (chiRef subAccount : String)
  | accountGetTransactionByID (transactionID subAccount : String)
  | infoGetSupportedAssets
  | infoGetAirtimeCountries
  | infoGetBanks (countryCode : String)
  | infoGetLocalAmountInUSD (currency : String) (amount : Float64)
  | infoGetMobileMoneyCodes
  | infoGetUSDInLocalAmount (currency : String) (amountInUSD : Float64)
  | mobileMoneyMakePayment (req : Option PaymentRequest)
  | mobileMoneyVerifyPayment (id subAccount : String)
  | mobileMoneyGetAllTransactions (subAccount : String)
  | payoutsAirtime (airtimes : Option (List AirtimePayload)) (subAccount : String)
  | payoutsBank (banks : Option (List BankPayload)) (subAccount : String)
  | payoutsChimoney (chimoneys : Option (List ChimoneyPayload)) (subAccount : String)
  | payoutsGiftCard (giftCards : Option (List GiftCardPayload)) (subAccount : String)
  | payoutsStatus (chiRef subAccount : String)
  | payoutsInitiateChimoney (chimoneys : Option (List ChimoneyPayload))
      (turnOffNotification : Bool) (cryptoPayments : Option (List CryptoPayment))
      (subAccount : String)
  | redeemAirtime (req : Option AirtimeRedeemRequest)
  | redeemAny (req : Option AnyRedeemRequest)
  | redeemChimoney (chimoneys : Option (List (Option (Map Any)))) (subAccount : String)
  | redeemGetChimoney (chiRef subAccount : String)
  | redeemGiftCard (req : Option GiftCardRedeemRequest)
  | redeemMobileMoney (req : Option MobileMoneyRedeemRequest)
  | subAccountCreate (req : Option CreateRequest)
  | subAccountList
  | subAccountDelete (id : String)
  | walletList (subAccount : String)
  | walletDetails (id subAccount : String)
  | walletTransfer (receiver walletType : String)
  | walletGetBalance (subAccount : String)

/-- Runs the invoked method on the module handle built over the transport `c`. -/
def invoke {σ : Type} (c : Client σ) (ctx : Context) (inv : Invocation) (s : σ) :
    Outcome Response σ :=
  match inv with
  | .accountGetTransactionsByIssueID issueID subAccount =>
    ((account.New c).GetTransactionsByIssueID ctx issueID subAccount s).map .account
  | .accountGetAllTransactions subAccount =>
    ((account.New c).GetAllTransactions ctx subAccount s).map .account
  | .accountTransfer chiRef subAccount =>
    ((account.New c).Transfer ctx chiRef subAccount s).map .account
  | .accountDeleteUnpaidTransaction chiRef subAccount =>
    ((account.New c).DeleteUnpaidTransaction ctx chiRef subAccount s).map .account
  | .accountGetTransactionByID transactionID subAccount =>
    ((account.New c).GetTransactionByID ctx transactionID subAccount s).map .account
  | .infoGetSupportedAssets => ((info.New c).GetSupportedAssets ctx s).map .info
  | .infoGetAirtimeCountries => ((info.New c).GetAirtimeCountries ctx s).map .info
  | .infoGetBanks countryCode => ((info.New c).GetBanks ctx countryCode s).map .info
  | .infoGetLocalAmountInUSD currency amount =>
    ((info.New c).GetLocalAmountInUSD ctx currency amount s).map .info
  | .infoGetMobileMoneyCodes => ((info.New c).GetMobileMoneyCodes ctx s).map .info
  | .infoGetUSDInLocalAmount currency amountInUSD =>
    ((info.New c).GetUSDInLocalAmount ctx currency amountInUSD s).map .info
  | .mobileMoneyMakePayment req => ((mobilemoney.New c).MakePayment ctx req s).map .payment
  | .mobileMoneyVerifyPayment id subAccount =>
    ((mobilemoney.New c).VerifyPayment ctx id subAccount s).map .payment
  | .mobileMoneyGetAllTransactions subAccount =>
    ((mobilemoney.New c).GetAllTransactions ctx subAccount s).map .payment
  | .payoutsAirtime airtimes subAccount =>
    ((payouts.New c).Airtime ctx airtimes subAccount s).map .payout
  | .payoutsBank banks subAccount => ((payouts.New c).Bank ctx banks subAccount s).map .payout
  | .payoutsChimoney chimoneys subAccount =>
    ((payouts.New c).Chimoney ctx chimoneys subAccount s).map .payout
  | .payoutsGiftCard giftCards subAccount =>
    ((payouts.New c).GiftCard ctx giftCards subAccount s).map .payout
  | .payoutsStatus chiRef subAccount =>
    ((payouts.New c).Status ctx chiRef subAccount s).map .payout
  | .payoutsInitiateChimoney chimoneys turnOffNotification cryptoPayments subAccount =>
    ((payouts.New c).InitiateChimoney ctx chimoneys turnOffNotification cryptoPayments
      subAccount s).map .payout
  | .redeemAirtime req => ((redeem.New c).Airtime ctx req s).map .redeem
  | .redeemAny req => ((redeem.New c).Any ctx req s).map .redeem
  | .redeemChimoney chimoneys subAccount =>
    ((redeem.New c).Chimoney ctx chimoneys subAccount s).map .redeem
  | .redeemGetChimoney chiRef subAccount =>
    ((redeem.New c).GetChimoney ctx chiRef subAccount s).map .redeem
  | .redeemGiftCard req => ((redeem.New c).GiftCard ctx req s).map .redeem
  | .redeemMobileMoney req => ((redeem.New c).MobileMoney ctx req s).map .redeem
  | .subAccountCreate req => ((subaccount.New c).Create ctx req s).map .subaccount
  | .subAccountList => ((subaccount.New c).List ctx s).map .subaccount
  | .subAccountDelete id => ((subaccount.New c).Delete ctx id s).map .subaccount
  | .walletList subAccount => ((wallet.New c).List ctx subAccount s).map .wallet
  | .walletDetails id subAccount => ((wallet.New c).Details ctx id subAccount s).map .wallet
  | .walletTransfer receiver walletType =>
    ((wallet.New c).Transfer ctx receiver walletType s).map .wallet
  | .walletGetBalance subAccount => ((wallet.New c).GetBalance ctx subAccount s).map .wallet

/-- The inputs on which a method gets past its guards: every `if x == ""`,
`if len(x) == 0` and `if amount <= 0` guard of the method is false, and a request
pointer that the method dereferences is not nil. Methods without a guard accept
every input. -/
def Invocation.passesValidation : Invocation → Bool
  | .accountGetTransactionsByIssueID issueID _ => issueID != ""
  | .accountGetAllTransactions _ => true
  | .accountTransfer chiRef _ => chiRef != ""
  | .accountDeleteUnpaidTransaction chiRef _ => chiRef != ""
  | .accountGetTransactionByID transactionID _ => transactionID != ""
  | .infoGetSupportedAssets => true
  | .infoGetAirtimeCountries => true
  | .infoGetBanks _ => true
  | .infoGetLocalAmountInUSD currency amount =>
    currency != "" && !(Float64.le amount Float64.zero)
  | .infoGetMobileMoneyCodes => true
  | .infoGetUSDInLocalAmount currency amountInUSD =>
    currency != "" && !(Float64.le amountInUSD Float64.zero)
  | .mobileMoneyMakePayment _ => true
  | .mobileMoneyVerifyPayment _ _ => true
  | .mobileMoneyGetAllTransactions _ => true
  | .payoutsAirtime _ _ => true
  | .payoutsBank _ _ => true
  | .payoutsChimoney _ _ => true
  | .payoutsGiftCard _ _ => true
  | .payoutsStatus _ _ => true
  | .payoutsInitiateChimoney _ _ _ _ => true
  | .redeemAirtime req =>
    match req with
    | none => false
    | some q => q.ChiRef != ""
  | .redeemAny req =>
    match req with
    | none => false
    | some q => q.ChiRef != "" && len q.RedeemData != 0
  | .redeemChimoney chimoneys _ => len chimoneys != 0
  | .redeemGetChimoney chiRef _ => chiRef != ""
  | .redeemGiftCard req =>
    match req with
    | none => false
    | some q => q.ChiRef != "" && len q.RedeemOptions != 0
  | .redeemMobileMoney req =>
    match req with
    | none => false
    | some q => q.ChiRef != "" && len q.RedeemOptions != 0
  | .subAccountCreate _ => true
  | .subAccountList => true
  | .subAccountDelete id => id != ""
  | .walletList _ => true
  | .walletDetails id _ => id != ""
  | .walletTransfer receiver _ => receiver != ""
  | .walletGetBalance _ => true

/-- Whether the method is handed a nil request pointer that it dereferences:
`Redeem.Airtime`, `Redeem.Any`, `Redeem.GiftCard` and `Redeem.MobileMoney` read
`req.ChiRef` before anything else, which panics on a nil pointer.
`MobileMoney.MakePayment` and `SubAccount.Create` hand their pointer to `Do`
without reading it. -/
def Invocation.nilRequest : Invocation → Bool
  | .accountGetTransactionsByIssueID _ _ => false
  | .accountGetAllTransactions _ => false
  | .accountTransfer _ _ => false
  | .accountDeleteUnpaidTransaction _ _ => false
  | .accountGetTransactionByID _ _ => false
  | .infoGetSupportedAssets => false
  | .infoGetAirtimeCountries => false
  | .infoGetBanks _ => false
  | .infoGetLocalAmountInUSD _ _ => false
  | .infoGetMobileMoneyCodes => false
  | .infoGetUSDInLocalAmount _ _ => false
  | .mobileMoneyMakePayment _ => false
  | .mobileMoneyVerifyPayment _ _ => false
  | .mobileMoneyGetAllTransactions _ => false
  | .payoutsAirtime _ _ => false
  | .payoutsBank _ _ => false
  | .payoutsChimoney _ _ => false
  | .payoutsGiftCard _ _ => false
  | .payoutsStatus _ _ => false
  | .payoutsInitiateChimoney _ _ _ _ => false
  | .redeemAirtime req => req.isNone
  | .redeemAny req => req.isNone
  | .redeemChimoney _ _ => false
  | .redeemGetChimoney _ _ => false
  | .redeemGiftCard req => req.isNone
  | .redeemMobileMoney req => req.isNone
  | .subAccountCreate _ => false
  | .subAccountList => false
  | .subAccountDelete _ => false
  | .walletList _ => false
  | .walletDetails _ _ => false
  | .walletTransfer _ _ => false
  | .walletGetBalance _ => false

/-- Whether the method belongs to package account, whose response record has
the fields `id` and `timestamp` next to those of the envelope. -/
def Invocation.isAccount : Invocation → Bool
  | .accountGetTransactionsByIssueID _ _ => true
  | .accountGetAllTransactions _ => true
  | .accountTransfer _ _ => true
  | .accountDeleteUnpaidTransaction _ _ => true
  | .accountGetTransactionByID _ _ => true
  | .infoGetSupportedAssets => false
  | .infoGetAirtimeCountries => false
  | .infoGetBanks _ => false
  | .infoGetLocalAmountInUSD _ _ => false
  | .infoGetMobileMoneyCodes => false
  | .infoGetUSDInLocalAmount _ _ => false
  | .mobileMoneyMakePayment _ => false
  | .mobileMoneyVerifyPayment _ _ => false
  | .mobileMoneyGetAllTransactions _ => false
  | .payoutsAirtime _ _ => false
  | .payoutsBank _ _ => false
  | .payoutsChimoney _ _ => false
  | .payoutsGiftCard _ _ => false
  | .payoutsStatus _ _ => false
  | .payoutsInitiateChimoney _ _ _ _ => false
  | .redeemAirtime _ => false
  | .redeemAny _ => false
  | .redeemChimoney _ _ => false
  | .redeemGetChimoney _ _ => false
  | .redeemGiftCard _ => false
  | .redeemMobileMoney _ => false
  | .subAccountCreate _ => false
  | .subAccountList => false
  | .subAccountDelete _ => false
  | .walletList _ => false
  | .walletDetails _ _ => false
  | .walletTransfer _ _ => false
  | .walletGetBalance _ => false

/-- The outcome `o` of a method run on a recording double that started with an
empty log: the method returned, it made exactly one call of `Do`, recorded as
`rec`, and it returned a non-nil result together with the error of that call. -/
def Outcome.sentExactly {ρ σ : Type} (o : Outcome ρ (σ × List DoRecord)) (rec : DoRecord) :
    Prop :=
  o.isReturned = true ∧ o.state.2 = [rec] ∧ o.error = rec.err ∧ o.result ≠ none

/-- The index expression `v, ok := m[k]`: the value stored under `k`, if any. -/
def Map.lookup {α : Type} : Map α → String → Option α
  | [], _ => none
  | e :: m, k => if e.1 = k then some e.2 else Map.lookup m k

/-- The keys of a map; a Go map holds each key once. -/
def Map.keys {α : Type} (m : Map α) : List String := m.map (fun e => e.1)

/-! ## Package encoding/json: the value `json.Marshal` writes

Modelled from the documentation of `encoding/json`, which is not part of the
repository: the struct tags (member names, `omitempty`) are those of the
sources. The model gives the JSON value that is written, not its text: a map is
written with its keys sorted, a struct with its fields in declaration order, a
nil slice, map or pointer as `null`, and a field tagged `omitempty` is left out
when it is an empty string or a map of length 0 (the tag has no effect on a
struct-valued field). `json.Marshal` fails on NaN and on the infinities. -/

/-- A JSON value; a number holds the float64 that is rendered. -/
inductive JSON where
  | null
  | bool (b : Bool)
  | number (f : Float64)
  | string (s : String)
  | array (xs : List JSON)
  | object (members : List (String × JSON))

/-- The member of a JSON object stored under `key`; none for a missing key and for
a value that is not an object. -/
def JSON.member : JSON → String → Option JSON
  | .object members, key => Map.lookup members key
  | _, _ => none

/-- Whether a float64 is a number that JSON can hold: not NaN, not infinite. -/
def Float64.isFinite : Float64 → Bool
  | .finite _ _ _ => true
  | _ => false

/-- The order of Go strings on their characters: `a <= b`, comparing position by
position (the order of the code points is the order of the UTF-8 bytes). -/
def lexLE : List Char → List Char → Bool
  | [], _ => true
  | _ :: _, [] => false
  | a :: as, b :: bs =>
    if a.toNat < b.toNat then true
    else if b.toNat < a.toNat then false
    else lexLE as bs

/-- Inserts an entry before the first entry whose key is not smaller. -/
def Map.insertSorted {α : Type} (e : String × α) : Map α → Map α
  | [] => [e]
  | x :: m => if lexLE e.1.toList x.1.toList then e :: x :: m else x :: Map.insertSorted e m

/-- The entries of a map in ascending order of their keys. -/
def Map.sortByKey {α : Type} (m : Map α) : Map α := m.foldr Map.insertSorted []

mutual
/-- Whether `json.Marshal` accepts the value: no number in it is NaN or infinite. -/
def JSON.supported : JSON → Bool
  | .null => true
  | .bool _ => true
  | .number f => f.isFinite
  | .string _ => true
  | .array xs => JSON.supportedAll xs
  | .object members => JSON.supportedMembers members
/-- The check `JSON.supported` on every element of an array. -/
def JSON.supportedAll : List JSON → Bool
  | [] => true
  | x :: xs => x.supported && JSON.supportedAll xs
/-- The check `JSON.supported` on every member of an object. -/
def JSON.supportedMembers : List (String × JSON) → Bool
  | [] => true
  | e :: members => e.2.supported && JSON.supportedMembers members
end

mutual
/-- The JSON value of a caller-supplied `interface{}` value. -/
def Any.toJSON : Any → JSON
  | .null => .null
  | .bool b => .bool b
  | .number f => .number f
  | .string s => .string s
  | .slice xs => .array (Any.toJSONAll xs)
  | .map m => .object (Map.sortByKey (Any.toJSONMembers m))
/-- The JSON values of the elements of a slice. -/
def Any.toJSONAll : List Any → List JSON
  | [] => []
  | x :: xs => x.toJSON :: Any.toJSONAll xs
/-- The JSON members of the entries of a map, in the order of the entries. -/
def Any.toJSONMembers : List (String × Any) → List (String × JSON)
  | [] => []
  | e :: m => (e.1, e.2.toJSON) :: Any.toJSONMembers m
end

/-- A slice as JSON: `null` when nil, else the array of its elements. -/
def json.slice {α : Type} (f : α → JSON) : Option (List α) → JSON
  | none => .null
  | some xs => .array (xs.map f)

/-- A `map[string]interface{}` given by the caller as JSON: `null` when nil. -/
def json.anyMap : Option (Map Any) → JSON
  | none => .null
  | some m => .object (Map.sortByKey (Any.toJSONMembers m))

/-- A pointer as JSON: `null` when nil, else the value it points to. -/
def json.pointer {α : Type} (f : α → JSON) : Option α → JSON
  | none => .null
  | some x => f x

/-- The member `name: s` of a string field tagged `omitempty`: left out when
the string is empty. -/
def json.omitEmptyString (name s : String) : List (String × JSON) :=
  if s = "" then [] else [(name, .string s)]

/-- The member `name: m` of a map field tagged `omitempty`: left out when the
map has length 0. -/
def json.omitEmptyMap (name : String) (m : Option (Map Any)) : List (String × JSON) :=
  if len m = 0 then [] else [(name, json.anyMap m)]

/-- The JSON object of an `AirtimePayload`. -/
def AirtimePayload.toJSON (p : AirtimePayload) : JSON :=
  .object [("countryToSend", .string p.CountryToSend), ("phoneNumber", .string p.PhoneNumber),
    ("valueInUSD", .number p.ValueInUSD)]

/-- The JSON object of a `BankPayload`. -/
def BankPayload.toJSON (p : BankPayload) : JSON :=
  .object [("countryToSend", .string p.CountryToSend), ("account_bank", .string p.AccountBank),
    ("account_number", .string p.AccountNumber), ("valueInUSD", .number p.ValueInUSD),
    ("reference", .string p.Reference)]

/-- The JSON object of a `ChimoneyPayload`: email and twitter are `omitempty`. -/
def ChimoneyPayload.toJSON (p : ChimoneyPayload) : JSON :=
  .object ([("valueInUSD", .number p.ValueInUSD)] ++ json.omitEmptyString "email" p.Email ++
    json.omitEmptyString "twitter" p.Twitter)

/-- The JSON object of a `GiftCardPayload`. -/
def GiftCardPayload.toJSON (p : GiftCardPayload) : JSON :=
  .object [("email", .string p.Email), ("valueInUSD", .number p.ValueInUSD),
    ("redeemData", .object [("productId", .string p.RedeemData.ProductID),
      ("countryCode", .string p.RedeemData.CountryCode),
      ("valueInLocalCurrency", .number p.RedeemData.ValueInLocalCurrency)])]

/-- The JSON object of a `CryptoPayment`: the struct field `xrpl` is always
written. -/
def CryptoPayment.toJSON (p : CryptoPayment) : JSON :=
  .object [("xrpl", .object [("address", .string p.XRPL.Address),
    ("issuer", .string p.XRPL.Issuer), ("currency", .string p.XRPL.Currency)])]

/-- The JSON object of a `RedeemDataItem`. -/
def RedeemDataItem.toJSON (p : RedeemDataItem) : JSON :=
  .object [("countryCode", .string p.CountryCode), ("productId", .string p.ProductID),
    ("valueInLocalCurrency", .number p.ValueInLocalCurrency)]

/-- The JSON object of an `AirtimeRedeemRequest`. -/
def AirtimeRedeemRequest.toJSON (r : AirtimeRedeemRequest) : JSON :=
  .object ([("chiRef", .string r.ChiRef), ("phoneNumber", .string r.PhoneNumber),
    ("countryToSend", .string r.CountryToSend)] ++ json.omitEmptyMap "meta" r.Meta ++
    json.omitEmptyString "subAccount" r.SubAccount)

/-- The JSON object of an `AnyRedeemRequest`. -/
def AnyRedeemRequest.toJSON (r : AnyRedeemRequest) : JSON :=
  .object ([("chiRef", .string r.ChiRef),
    ("redeemData", json.slice RedeemDataItem.toJSON r.RedeemData)] ++
    json.omitEmptyMap "meta" r.Meta ++ json.omitEmptyString "subAccount" r.SubAccount)

/-- The JSON object of a `ChimoneyRedeemRequest`. -/
def ChimoneyRedeemRequest.toJSON (r : ChimoneyRedeemRequest) : JSON :=
  .object ([("chimoneys", json.slice json.anyMap r.Chimoneys)] ++
    json.omitEmptyString "subAccount" r.SubAccount)

/-- The JSON object of a `GiftCardRedeemRequest`. -/
def GiftCardRedeemRequest.toJSON (r : GiftCardRedeemRequest) : JSON :=
  .object ([("chiRef", .string r.ChiRef), ("redeemOptions", json.anyMap r.RedeemOptions)] ++
    json.omitEmptyString "subAccount" r.SubAccount)

/-- The JSON object of a `MobileMoneyRedeemRequest`. -/
def MobileMoneyRedeemRequest.toJSON (r : MobileMoneyRedeemRequest) : JSON :=
  .object ([("chiRef", .string r.ChiRef), ("redeemOptions", json.anyMap r.RedeemOptions)] ++
    json.omitEmptyString "subAccount" r.SubAccount)

/-- The JSON object of a `CreateRequest`: description is `omitempty`. -/
def CreateRequest.toJSON (r : CreateRequest) : JSON :=
  .object ([("name", .string r.Name), ("email", .string r.Email)] ++
    json.omitEmptyString "description" r.Description)

/-- The JSON object of a `PaymentRequest`: subAccount is `omitempty`. -/
def PaymentRequest.toJSON (r : PaymentRequest) : JSON :=
  .object ([("amount", .number r.Amount), ("currency", .string r.Currency),
    ("phone_number", .string r.PhoneNumber), ("fullname", .string r.FullName),
    ("country", .string r.Country), ("email", .string r.Email), ("tx_ref", .string r.TxRef)] ++
    json.omitEmptyString "subAccount" r.SubAccount)

/-- The JSON value of a value stored in a `map[string]interface{}` body. -/
def Value.toJSON : Value → JSON
  | .str s => .string s
  | .float f => .number f
  | .bool b => .bool b
  | .airtimes xs => json.slice AirtimePayload.toJSON xs
  | .banks xs => json.slice BankPayload.toJSON xs
  | .chimoneys xs => json.slice ChimoneyPayload.toJSON xs
  | .giftCards xs => json.slice GiftCardPayload.toJSON xs
  | .cryptoPayments xs => json.slice CryptoPayment.toJSON xs

/-- The JSON value of a request body. -/
def Body.toJSON : Body → JSON
  | .none => .null
  | .strMap m => .object (Map.sortByKey (m.map (fun e => (e.1, JSON.string e.2))))
  | .anyMap m => .object (Map.sortByKey (m.map (fun e => (e.1, e.2.toJSON))))
  | .airtimeRedeem p => json.pointer AirtimeRedeemRequest.toJSON p
  | .anyRedeem p => json.pointer AnyRedeemRequest.toJSON p
  | .chimoneyRedeem r => r.toJSON
  | .giftCardRedeem p => json.pointer GiftCardRedeemRequest.toJSON p
  | .mobileMoneyRedeem p => json.pointer MobileMoneyRedeemRequest.toJSON p
  | .create p => json.pointer CreateRequest.toJSON p
  | .payment p => json.pointer PaymentRequest.toJSON p

/-- The function `json.Marshal`, up to the layout of the text: the JSON value of
the body, or an error when a number in it is NaN or infinite. -/
def json.Marshal (body : Body) : Except Error JSON :=
  if (Body.toJSON body).supported then .ok (Body.toJSON body)
  else .error (.foreign "encoding/json" "json: unsupported value")

/-- The optional sub-account value a call carries, as a string argument or as the
SubAccount field of its request record; none when the method takes no
sub-account or its request pointer is nil. -/
def Invocation.subAccount : Invocation → Option String
  | .accountGetTransactionsByIssueID _ subAccount => some subAccount
  | .accountGetAllTransactions subAccount => some subAccount
  | .accountTransfer _ subAccount => some subAccount
  | .accountDeleteUnpaidTransaction _ subAccount => some subAccount
  | .accountGetTransactionByID _ subAccount => some subAccount
  | .infoGetSupportedAssets => none
  | .infoGetAirtimeCountries => none
  | .infoGetBanks _ => none
  | .infoGetLocalAmountInUSD _ _ => none
  | .infoGetMobileMoneyCodes => none
  | .infoGetUSDInLocalAmount _ _ => none
  | .mobileMoneyMakePayment req => req.map (fun r => r.SubAccount)
  | .mobileMoneyVerifyPayment _ subAccount => some subAccount
  | .mobileMoneyGetAllTransactions subAccount => some subAccount
  | .payoutsAirtime _ subAccount => some subAccount
  | .payoutsBank _ subAccount => some subAccount
  | .payoutsChimoney _ subAccount => some subAccount
  | .payoutsGiftCard _ subAccount => some subAccount
  | .payoutsStatus _ subAccount => some subAccount
  | .payoutsInitiateChimoney _ _ _ subAccount => some subAccount
  | .redeemAirtime req => req.map (fun r => r.SubAccount)
  | .redeemAny req => req.map (fun r => r.SubAccount)
  | .redeemChimoney _ subAccount => some subAccount
  | .redeemGetChimoney _ subAccount => some subAccount
  | .redeemGiftCard req => req.map (fun r => r.SubAccount)
  | .redeemMobileMoney req => req.map (fun r => r.SubAccount)
  | .subAccountCreate _ => none
  | .subAccountList => none
  | .subAccountDelete _ => none
  | .walletList subAccount => some subAccount
  | .walletDetails _ subAccount => some subAccount
  | .walletTransfer _ _ => none
  | .walletGetBalance subAccount => some subAccount

/-! ## Packages net/textproto, net/url and net/http: the library calls of `Client.Do`

Modelled from the documentation of the Go standard library, which is not part of
the repository. A Go string is a sequence of bytes; a `String` here stands for
its UTF-8 bytes, so percent-encoding works on `utf8.encode`, and bytes that are
not UTF-8, which a `String` cannot hold, are outside the model. -/

/-- The token bytes of a header field name (`validHeaderFieldByte`): letters,
digits and the fifteen marks given by their codes. -/
def textproto.validHeaderFieldByte (c : Char) : Bool :=
  c.isAlphanum || [33, 35, 36, 37, 38, 39, 42, 43, 45, 46, 94, 95, 96, 124, 126].contains c.toNat

/-- The canonical spelling of the bytes of a header key: upper case for the first
letter and for a letter after a dash, lower case for the others. -/
def textproto.canonicalize : Bool → List Char → List Char
  | _, [] => []
  | upper, c :: cs =>
    let d := if upper && c.isLower then c.toUpper else if !upper && c.isUpper then c.toLower else c
    d :: textproto.canonicalize (d == '-') cs

/-- The function `textproto.CanonicalMIMEHeaderKey`: a key made of token bytes is
canonicalised, any other key is returned unchanged. -/
def textproto.CanonicalMIMEHeaderKey (s : String) : String :=
  if s.toList.all textproto.validHeaderFieldByte then
    String.mk (textproto.canonicalize true s.toList)
  else s

/-- The method `Header.Values` after canonicalisation of the key: all values
stored for the key. -/
def http.Header.Values (rt : Runtime) (h : http.Header) (key : String) : List String :=
  (Map.lookup h (rt.CanonicalKey key)).getD []

/-- The UTF-8 bytes of a character. -/
def utf8.encode (c : Char) : List Nat :=
  if c.toNat < 0x80 then [c.toNat]
  else if c.toNat < 0x800 then [0xC0 + c.toNat / 64, 0x80 + c.toNat % 64]
  else if c.toNat < 0x10000 then
    [0xE0 + c.toNat / 4096, 0x80 + c.toNat / 64 % 64, 0x80 + c.toNat % 64]
  else
    [0xF0 + c.toNat / 262144, 0x80 + c.toNat / 4096 % 64, 0x80 + c.toNat / 64 % 64,
      0x80 + c.toNat % 64]

/-- The characters of a sequence of UTF-8 bytes, read with `need` continuation
bytes still expected for the character whose leading bits are `acc`. What is
read from bytes that are not UTF-8 has no meaning in the model. -/
def utf8.decodeFrom : Nat → Nat → List Nat → List Char
  | 0, _, [] => []
  | _ + 1, _, [] => [Char.ofNat 0xFFFD]
  | 0, _, b :: rest =>
    if b < 0x80 then Char.ofNat b :: utf8.decodeFrom 0 0 rest
    else if b < 0xC0 then Char.ofNat 0xFFFD :: utf8.decodeFrom 0 0 rest
    else if b < 0xE0 then utf8.decodeFrom 1 (b - 0xC0) rest
    else if b < 0xF0 then utf8.decodeFrom 2 (b - 0xE0) rest
    else if b < 0xF8 then utf8.decodeFrom 3 (b - 0xF0) rest
    else Char.ofNat 0xFFFD :: utf8.decodeFrom 0 0 rest
  | n + 1, acc, b :: rest =>
    if 0x80 ≤ b ∧ b < 0xC0 then
      if n = 0 then Char.ofNat (acc * 64 + (b - 0x80)) :: utf8.decodeFrom 0 0 rest
      else utf8.decodeFrom n (acc * 64 + (b - 0x80)) rest
    else Char.ofNat 0xFFFD :: utf8.decodeFrom 0 0 rest

/-- The characters of a sequence of UTF-8 bytes. -/
def utf8.decode (bytes : List Nat) : List Char := utf8.decodeFrom 0 0 bytes

/-- The function `shouldEscape` of net/url in the mode of query components:
everything is escaped but letters, digits, `-`, `_`, `.` and `~`. -/
def url.shouldEscape (c : Char) : Bool :=
  !(c.isAlphanum || c == '-' || c == '_' || c == '.' || c == '~')

/-- The upper-case hexadecimal digit of a number below 16. -/
def url.hexDigit (n : Nat) : Char :=
  if n < 10 then Char.ofNat (48 + n) else Char.ofNat (55 + n)

/-- The escape sequence `%XX` of a byte. -/
def url.escapeByte (b : Nat) : List Char :=
  ['%', url.hexDigit (b / 16), url.hexDigit (b % 16)]

/-- The escaped form of one character: itself when it needs no escape, `+` for a
space, and `%XX` for each of its UTF-8 bytes otherwise. -/
def url.escapeChar (c : Char) : List Char :=
  if url.shouldEscape c then
    if c == ' ' then ['+'] else (utf8.encode c).flatMap url.escapeByte
  else [c]

/-- The function `url.QueryEscape` on the characters of a string. -/
def url.escape (s : List Char) : List Char := s.flatMap url.escapeChar

/-- The function `url.QueryEscape`. -/
def url.QueryEscape (s : String) : String := String.mk (url.escape s.toList)

/-- The value of a hexadecimal digit (`unhex`), none for another character. -/
def url.unhex (c : Char) : Option Nat :=
  if '0' ≤ c ∧ c ≤ '9' then some (c.toNat - 48)
  else if 'a' ≤ c ∧ c ≤ 'f' then some (c.toNat - 97 + 10)
  else if 'A' ≤ c ∧ c ≤ 'F' then some (c.toNat - 65 + 10)
  else none

/-- The bytes an escaped query component stands for: `%XX` is the byte XX, `+` a
space, any other character its own bytes; none when a `%` is not followed by two
hexadecimal digits. -/
def url.unescapeBytes : List Char → Option (List Nat)
  | [] => some []
  | c :: rest =>
    if c = '%' then
      match rest with
      | a :: b :: rest2 =>
        match url.unhex a, url.unhex b, url.unescapeBytes rest2 with
        | some x, some y, some bytes => some ((x * 16 + y) :: bytes)
        | _, _, _ => none
      | _ => none
    else if c = '+' then (url.unescapeBytes rest).map (fun bytes => 32 :: bytes)
    else (url.unescapeBytes rest).map (fun bytes => utf8.encode c ++ bytes)

/-- The function `url.QueryUnescape` on the characters of a string. -/
def url.unescape (s : List Char) : Option (List Char) :=
  (url.unescapeBytes s).map utf8.decode

/-- The pieces of a query between its `&` separators. -/
def url.segments : List Char → List (List Char)
  | [] => [[]]
  | c :: cs =>
    if c = '&' then [] :: url.segments cs
    else
      match url.segments cs with
      | seg :: segs => (c :: seg) :: segs
      | [] => [[c]]

/-- The function `strings.Cut(s, "=")`: the part before the first `=` and the
part after it (empty when there is none). -/
def url.cutEquals : List Char → List Char × List Char
  | [] => ([], [])
  | c :: cs => if c = '=' then ([], cs) else ((url.cutEquals cs).1.cons c, (url.cutEquals cs).2)

/-- One round of the loop of `parseQuery`: a piece holding a semicolon, an empty
piece and a piece that does not unescape are skipped, any other piece adds
its value to the values of its key. -/
def url.parseSegment (m : url.Values) (seg : List Char) : url.Values :=
  if seg.contains ';' then m
  else if seg = [] then m
  else
    match url.unescape (url.cutEquals seg).1, url.unescape (url.cutEquals seg).2 with
    | some key, some value => url.Values.Add m (String.mk key) (String.mk value)
    | _, _ => m

/-- The function `url.ParseQuery`, without its error, as `(*URL).Query` uses it. -/
def url.ParseQuery (query : String) : url.Values :=
  (url.segments query.toList).foldl url.parseSegment []

/-- The method `(*URL).Query`. -/
def url.URL.Query (u : url.URL) : url.Values := url.ParseQuery u.RawQuery

/-- The text `key=value` pieces of `Values.Encode` for the entries in their order. -/
def url.encodeSegments (v : url.Values) : List (List Char) :=
  v.flatMap (fun e => e.2.map (fun value =>
    url.escape e.1.toList ++ '=' :: url.escape value.toList))

/-- The pieces joined by `&`. -/
def url.joinSegments : List (List Char) → List Char
  | [] => []
  | [seg] => seg
  | seg :: segs => seg ++ '&' :: url.joinSegments segs

/-- The method `Values.Encode`: the entries sorted by key, each value written as
`key=value` with both sides escaped, the pieces joined by `&`. -/
def url.Values.Encode (v : url.Values) : String :=
  String.mk (url.joinSegments (url.encodeSegments (Map.sortByKey v)))

/-- The method `(*URL).RequestURI`: the path, and the query after a `?` when
there is one. -/
def url.URL.RequestURI (u : url.URL) : String :=
  (if u.Path = "" then "/" else u.Path) ++ (if u.RawQuery = "" then "" else "?" ++ u.RawQuery)

/-- The part of a text before the first occurrence of a character and the part
after it; none when the character does not occur. -/
def url.cutAt (sep : Char) : List Char → Option (List Char × List Char)
  | [] => none
  | c :: cs =>
    if c = sep then some ([], cs)
    else
      match url.cutAt sep cs with
      | some (before, after) => some (c :: before, after)
      | none => none

/-- The split of `scheme://host/path` into its three parts; a text without
`://` is all path. -/
def url.splitSchemeHost : List Char → List Char × List Char × List Char
  | [] => ([], [], [])
  | c :: cs =>
    match c, cs with
    | ':', '/' :: '/' :: rest =>
      match url.cutAt '/' rest with
      | some (host, path) => ([], host, '/' :: path)
      | none => ([], rest, [])
    | _, _ =>
      ((url.splitSchemeHost cs).1.cons c, (url.splitSchemeHost cs).2.1,
        (url.splitSchemeHost cs).2.2)

/-- The function `url.Parse` as far as the split of an address
`scheme://host/path?query#fragment` into its parts goes: the fragment is what
follows the first `#`, the query what follows the first `?` before it. The
validation and the percent-decoding of the parts are not modelled. -/
def url.Parse (rawURL : String) : url.URL :=
  let noFragment := (url.cutAt '#' rawURL.toList).getD (rawURL.toList, [])
  let noQuery := (url.cutAt '?' noFragment.1).getD (noFragment.1, [])
  let parts := url.splitSchemeHost noQuery.1
  ⟨String.mk parts.1, String.mk parts.2.1, String.mk parts.2.2, String.mk noQuery.2,
    String.mk noFragment.2⟩

/-- The function `http.NewRequestWithContext` on an address that parses: an
empty method stands for GET, the header is empty. The checks that reject a
method or an address are not modelled. -/
def http.NewRequestWithContext (ctx : Context) (method address : String)
    (body : Option String) : Except Error http.Request :=
  .ok ⟨ctx, if method = "" then "GET" else method, url.Parse address, [], body⟩

/-- The function `fmt.Sprint` on the values of a body map that are strings or
booleans; numbers and slices are written as `?`, their format is not modelled. -/
def fmt.Sprint : Value → String
  | .str s => s
  | .bool b => if b then "true" else "false"
  | _ => "?"

/-- A transport double for `*http.Client` that forwards every request to `h` and
appends it to a log kept next to the state of `h`. -/
def http.Client.recording {σ : Type} (h : http.Client σ) : http.Client (σ × List http.Request) where
  Do := fun req st => ((h.Do req st.1).1, ((h.Do req st.1).2, st.2 ++ [req]))

/-- The production client with its HTTP client replaced by the recording double. -/
def chimoney.Client.recording {σ : Type} (c : chimoney.Client σ) :
    chimoney.Client (σ × List http.Request) :=
  ⟨c.apiKey, c.baseURL, http.Client.recording c.http⟩

/-- The values a program builds with `Values.Add`: each key occurs once and has
at least one value. -/
def url.Values.WellFormed (v : url.Values) : Prop :=
  (Map.keys v).Nodup ∧ ∀ e ∈ v, e.2 ≠ []

/-- The pairs `(key, value)` of a `url.Values`, key by key, value by value. -/
def url.Values.pairs (v : url.Values) : List (String × String) :=
  v.flatMap (fun e => e.2.map (fun value => (e.1, value)))

/-! ## Package encoding/json: reading a JSON text

Modelled from the documentation of `encoding/json` and from RFC 8259, which are
not part of the repository. A text is read into its syntax tree, which keeps the
layout (whitespace, the spelling of numbers and of string escapes), because a
`json.RawMessage` field receives the very characters of a value. Texts are lists
of characters: input that is not valid UTF-8 is outside the model. The library
tells an invalid character from an input that ends too early; the model has one
error for both, and the message texts of the library are not reproduced. The
limit on nesting is the constant `maxNestingDepth` of the scanner of the
library. -/

/-- The four whitespace characters of JSON. -/
def json.isSpace (c : Char) : Bool :=
  c == ' ' || c == '\t' || c == '\n' || c == '\r'

/-- The decimal digits. -/
def json.isDigit (c : Char) : Bool :=
  48 ≤ c.toNat && c.toNat ≤ 57

/-- The hexadecimal digits of a `\u` escape. -/
def json.isHex (c : Char) : Bool :=
  json.isDigit c || (97 ≤ c.toNat && c.toNat ≤ 102) || (65 ≤ c.toNat && c.toNat ≤ 70)

/-- The characters that may follow a backslash, `u` apart. -/
def json.isEscape (c : Char) : Bool :=
  c == '"' || c == '\\' || c == '/' || c == 'b' || c == 'f' || c == 'n' || c == 'r' ||
    c == 't'

/-- One element of a string literal: a character written as it is, a two-character
escape such as `\n` (held by its second character), or `\uXXXX` (held by its four
hexadecimal digits). -/
inductive json.StrItem where
  | plain (c : Char)
  | escape (c : Char)
  | unicode (a b c d : Char)
  deriving DecidableEq, Repr

/-- A number literal as it is spelled: sign, integer digits, the digits of the
fraction, and the exponent with its marker (`e` or `E`), sign and digits. -/
structure json.Number where
  neg : Bool
  int : List Char
  frac : Option (List Char)
  exp : Option (Char × Option Char × List Char)
  deriving DecidableEq, Repr

mutual
/-- The syntax tree of a JSON value. An array or object without entries keeps the
whitespace between its brackets in `ws`; otherwise every entry keeps the
whitespace around it. -/
inductive json.Syntax where
  | null
  | true
  | false
  | number (n : json.Number)
  | string (items : List json.StrItem)
  | array (ws : List Char) (elems : json.Elements)
  | object (ws : List Char) (members : json.Members)
/-- The elements of an array, each between its leading and trailing whitespace. -/
inductive json.Elements where
  | nil
  | cons (pre : List Char) (value : json.Syntax) (post : List Char) (tail : json.Elements)
/-- The members of an object: whitespace, key, whitespace, a colon, and the value
between its leading and trailing whitespace. -/
inductive json.Members where
  | nil
  | cons (pre : List Char) (key : List json.StrItem) (mid : List Char) (pre2 : List Char)
      (value : json.Syntax) (post : List Char) (tail : json.Members)
end

/-! ### The text of a syntax tree -/

/-- The characters of one element of a string literal. -/
def json.StrItem.text : json.StrItem → List Char
  | .plain c => [c]
  | .escape c => ['\\', c]
  | .unicode a b c d => ['\\', 'u', a, b, c, d]

/-- The characters of a string literal between its quotes. -/
def json.itemsText : List json.StrItem → List Char
  | [] => []
  | i :: r => i.text ++ json.itemsText r

/-- The characters of the fraction of a number. -/
def json.fracText : Option (List Char) → List Char
  | none => []
  | some ds => '.' :: ds

/-- The characters of the exponent of a number. -/
def json.expText : Option (Char × Option Char × List Char) → List Char
  | none => []
  | some (e, none, ds) => e :: ds
  | some (e, some s, ds) => e :: s :: ds

/-- The characters of a number literal. -/
def json.Number.text (n : json.Number) : List Char :=
  (if n.neg then ['-'] else []) ++ (n.int ++ (json.fracText n.frac ++ json.expText n.exp))

mutual
/-- The text of a value. -/
def json.Syntax.text : json.Syntax → List Char
  | .null => ['n', 'u', 'l', 'l']
  | .true => ['t', 'r', 'u', 'e']
  | .false => ['f', 'a', 'l', 's', 'e']
  | .number n => n.text
  | .string items => '"' :: (json.itemsText items ++ ['"'])
  | .array ws elems => '[' :: (ws ++ (json.Elements.text elems ++ [']']))
  | .object ws members => '{' :: (ws ++ (json.Members.text members ++ ['}']))
/-- The text of the elements of an array, separated by commas. -/
def json.Elements.text : json.Elements → List Char
  | .nil => []
  | .cons pre value post tail =>
    pre ++ (json.Syntax.text value ++ (post ++
      (match tail with
       | .nil => []
       | .cons pre1 value1 post1 tail1 =>
         ',' :: json.Elements.text (.cons pre1 value1 post1 tail1))))
/-- The text of the members of an object, separated by commas. -/
def json.Members.text : json.Members → List Char
  | .nil => []
  | .cons pre key mid pre2 value post tail =>
    pre ++ ('"' :: (json.itemsText key ++ ('"' :: (mid ++ (':' :: (pre2 ++
      (json.Syntax.text value ++ (post ++
        (match tail with
         | .nil => []
         | .cons pre1 key1 mid1 pre21 value1 post1 tail1 =>
           ',' :: json.Members.text (.cons pre1 key1 mid1 pre21 value1 post1 tail1))))))))))
end

/-! ### Well-formed syntax trees -/

/-- A run of whitespace. -/
def json.allSpace (ws : List Char) : Bool := ws.all json.isSpace

/-- A run of digits. -/
def json.allDigits (ds : List Char) : Bool := ds.all json.isDigit

/-- An element of a string literal the grammar allows: an unescaped character is
neither a quote nor a backslash nor a control character. -/
def json.StrItem.WellFormed : json.StrItem → Bool
  | .plain c => !(c == '"') && !(c == '\\') && decide (32 ≤ c.toNat)
  | .escape c => json.isEscape c
  | .unicode a b c d => json.isHex a && json.isHex b && json.isHex c && json.isHex d

/-- The integer part of a number: `0`, or digits that do not start with `0`. -/
def json.intWellFormed : List Char → Bool
  | [] => false
  | c :: ds => json.isDigit c && json.allDigits ds && (!(c == '0') || ds.isEmpty)

/-- The fraction of a number has at least one digit. -/
def json.fracWellFormed : Option (List Char) → Bool
  | none => true
  | some ds => !ds.isEmpty && json.allDigits ds

/-- The exponent of a number: marker `e` or `E`, sign `+` or `-`, at least one
digit. -/
def json.expWellFormed : Option (Char × Option Char × List Char) → Bool
  | none => true
  | some (e, s, ds) =>
    (e == 'e' || e == 'E') &&
      (match s with
       | none => true
       | some c => c == '+' || c == '-') &&
      !ds.isEmpty && json.allDigits ds

/-- A number literal of the grammar. -/
def json.Number.WellFormed (n : json.Number) : Bool :=
  json.intWellFormed n.int && json.fracWellFormed n.frac && json.expWellFormed n.exp

mutual
/-- The syntax trees of JSON texts: whitespace is whitespace, literals follow the
grammar, and the whitespace between the brackets is kept in `ws` only when there
is no entry. -/
def json.Syntax.WellFormed : json.Syntax → Bool
  | .null => Bool.true
  | .true => Bool.true
  | .false => Bool.true
  | .number n => n.WellFormed
  | .string items => items.all json.StrItem.WellFormed
  | .array ws elems =>
    json.allSpace ws &&
      (match elems with
       | .nil => Bool.true
       | .cons _ _ _ _ => ws.isEmpty) &&
      json.Elements.WellFormed elems
  | .object ws members =>
    json.allSpace ws &&
      (match members with
       | .nil => Bool.true
       | .cons _ _ _ _ _ _ _ => ws.isEmpty) &&
      json.Members.WellFormed members
/-- Well-formed elements. -/
def json.Elements.WellFormed : json.Elements → Bool
  | .nil => Bool.true
  | .cons pre value post tail =>
    json.allSpace pre && json.Syntax.WellFormed value && json.allSpace post &&
      json.Elements.WellFormed tail
/-- Well-formed members. -/
def json.Members.WellFormed : json.Members → Bool
  | .nil => Bool.true
  | .cons pre key mid pre2 value post tail =>
    json.allSpace pre && key.all json.StrItem.WellFormed && json.allSpace mid &&
      json.allSpace pre2 && json.Syntax.WellFormed value && json.allSpace post &&
      json.Members.WellFormed tail
end

mutual
/-- The number of arrays and objects nested in a value, itself included. -/
def json.Syntax.depth : json.Syntax → Nat
  | .null => 0
  | .true => 0
  | .false => 0
  | .number _ => 0
  | .string _ => 0
  | .array _ elems => json.Elements.depth elems + 1
  | .object _ members => json.Members.depth members + 1
/-- The depth of the deepest element. -/
def json.Elements.depth : json.Elements → Nat
  | .nil => 0
  | .cons _ value _ tail => max (json.Syntax.depth value) (json.Elements.depth tail)
/-- The depth of the deepest member value. -/
def json.Members.depth : json.Members → Nat
  | .nil => 0
  | .cons _ _ _ _ value _ tail => max (json.Syntax.depth value) (json.Members.depth tail)
end

/-! ### Reading a text -/

/-- The leading whitespace of a text and what follows it. -/
def json.spanSpace : List Char → List Char × List Char
  | [] => ([], [])
  | c :: r =>
    if json.isSpace c then (c :: (json.spanSpace r).1, (json.spanSpace r).2) else ([], c :: r)

/-- The leading digits of a text and what follows them. -/
def json.spanDigits : List Char → List Char × List Char
  | [] => ([], [])
  | c :: r =>
    if json.isDigit c then (c :: (json.spanDigits r).1, (json.spanDigits r).2) else ([], c :: r)

/-- The rest of a string literal after its opening quote, up to the closing quote:
a control character, a backslash followed by anything but an escape character,
and a `\u` not followed by four hexadecimal digits are errors. -/
def json.scanString : List Char → Option (List json.StrItem × List Char)
  | [] => none
  | c :: r =>
    if c = '"' then some ([], r)
    else if c = '\\' then
      match r with
      | [] => none
      | e :: r1 =>
        if e = 'u' then
          match r1 with
          | a :: b :: c1 :: d :: r2 =>
            if json.isHex a && json.isHex b && json.isHex c1 && json.isHex d then
              (json.scanString r2).map (fun p => (.unicode a b c1 d :: p.1, p.2))
            else none
          | _ => none
        else if json.isEscape e then
          (json.scanString r1).map (fun p => (.escape e :: p.1, p.2))
        else none
    else if c.toNat < 32 then none
    else (json.scanString r).map (fun p => (.plain c :: p.1, p.2))

/-- The integer part at the head of a text: a single `0`, or a digit from 1 to 9
with the digits after it. -/
def json.scanInt : List Char → Option (List Char × List Char)
  | [] => none
  | c :: r =>
    if c = '0' then some (['0'], r)
    else if json.isDigit c then some (c :: (json.spanDigits r).1, (json.spanDigits r).2)
    else none

/-- The optional fraction at the head of a text: a dot must be followed by a
digit. -/
def json.scanFrac : List Char → Option (Option (List Char) × List Char)
  | [] => some (none, [])
  | c :: r =>
    if c = '.' then
      if (json.spanDigits r).1.isEmpty then none
      else some (some (json.spanDigits r).1, (json.spanDigits r).2)
    else some (none, c :: r)

/-- The digits of an exponent, after its marker and sign: at least one. -/
def json.scanExpDigits (e : Char) (s : Option Char) (r : List Char) :
    Option (Option (Char × Option Char × List Char) × List Char) :=
  if (json.spanDigits r).1.isEmpty then none
  else some (some (e, s, (json.spanDigits r).1), (json.spanDigits r).2)

/-- The optional exponent at the head of a text. -/
def json.scanExp : List Char → Option (Option (Char × Option Char × List Char) × List Char)
  | [] => some (none, [])
  | e :: r =>
    if e = 'e' ∨ e = 'E' then
      match r with
      | [] => none
      | s :: r1 =>
        if s = '+' ∨ s = '-' then json.scanExpDigits e (some s) r1
        else json.scanExpDigits e none (s :: r1)
    else some (none, e :: r)

/-- The number literal at the head of a text, read as the scanner of the library
does: as far as the grammar goes on, failing where it stops inside a literal. -/
def json.scanNumber (input : List Char) : Option (json.Number × List Char) :=
  let signed : Bool × List Char :=
    match input with
    | [] => (false, [])
    | c :: r => if c = '-' then (true, r) else (false, c :: r)
  match json.scanInt signed.2 with
  | none => none
  | some (int, r1) =>
    match json.scanFrac r1 with
    | none => none
    | some (frac, r2) =>
      match json.scanExp r2 with
      | none => none
      | some (exp, r3) => some (⟨signed.1, int, frac, exp⟩, r3)

/-- One of the literals `null`, `true`, `false` at the head of a text. -/
def json.scanLiteral (word : List Char) (v : json.Syntax) (input : List Char) :
    Option (json.Syntax × List Char) :=
  if word.isPrefixOf input then some (v, input.drop word.length) else none

/-- The limit `maxNestingDepth` of the scanner of the library: a text with more
than 10000 arrays and objects open at once is rejected. -/
def json.maxNestingDepth : Nat := 10000

mutual
/-- The value at the head of a text and the text after it. The first argument
bounds the number of nested calls (twice the length of the text is enough), the
second one counts the arrays and objects that are open around the value. -/
def json.parseValue : Nat → Nat → List Char → Option (json.Syntax × List Char)
  | 0, _, _ => none
  | _ + 1, _, [] => none
  | n + 1, depth, c :: r =>
    if c = '{' then
      if depth < json.maxNestingDepth then
        match (json.spanSpace r).2 with
        | [] => none
        | d :: r1 =>
          if d = '}' then some (.object (json.spanSpace r).1 .nil, r1)
          else (json.parseMembers n (depth + 1) r).map (fun p => (.object [] p.1, p.2))
      else none
    else if c = '[' then
      if depth < json.maxNestingDepth then
        match (json.spanSpace r).2 with
        | [] => none
        | d :: r1 =>
          if d = ']' then some (.array (json.spanSpace r).1 .nil, r1)
          else (json.parseElements n (depth + 1) r).map (fun p => (.array [] p.1, p.2))
      else none
    else if c = '"' then (json.scanString r).map (fun p => (.string p.1, p.2))
    else if c = 'n' then json.scanLiteral ['n', 'u', 'l', 'l'] .null (c :: r)
    else if c = 't' then json.scanLiteral ['t', 'r', 'u', 'e'] .true (c :: r)
    else if c = 'f' then json.scanLiteral ['f', 'a', 'l', 's', 'e'] .false (c :: r)
    else (json.scanNumber (c :: r)).map (fun p => (.number p.1, p.2))
/-- One or more elements up to the closing bracket, and the text after it. -/
def json.parseElements : Nat → Nat → List Char → Option (json.Elements × List Char)
  | 0, _, _ => none
  | n + 1, depth, input =>
    match json.parseValue n depth (json.spanSpace input).2 with
    | none => none
    | some (v, r1) =>
      match (json.spanSpace r1).2 with
      | [] => none
      | d :: r2 =>
        if d = ',' then
          (json.parseElements n depth r2).map
            (fun p => (.cons (json.spanSpace input).1 v (json.spanSpace r1).1 p.1, p.2))
        else if d = ']' then
          some (.cons (json.spanSpace input).1 v (json.spanSpace r1).1 .nil, r2)
        else none
/-- One or more members up to the closing brace, and the text after it. -/
def json.parseMembers : Nat → Nat → List Char → Option (json.Members × List Char)
  | 0, _, _ => none
  | n + 1, depth, input =>
    match (json.spanSpace input).2 with
    | [] => none
    | q :: r0 =>
      if q = '"' then
        match json.scanString r0 with
        | none => none
        | some (key, r1) =>
          match (json.spanSpace r1).2 with
          | [] => none
          | colon :: r2 =>
            if colon = ':' then
              match json.parseValue n depth (json.spanSpace r2).2 with
              | none => none
              | some (v, r3) =>
                match (json.spanSpace r3).2 with
                | [] => none
                | d :: r4 =>
                  if d = ',' then
                    (json.parseMembers n depth r4).map
                      (fun p => (.cons (json.spanSpace input).1 key (json.spanSpace r1).1
                        (json.spanSpace r2).1 v (json.spanSpace r3).1 p.1, p.2))
                  else if d = '}' then
                    some (.cons (json.spanSpace input).1 key (json.spanSpace r1).1
                      (json.spanSpace r2).1 v (json.spanSpace r3).1 .nil, r4)
                  else none
            else none
      else none
end

/-- The value a whole text consists of, without whitespace around it. -/
def json.parse (text : List Char) : Option json.Syntax :=
  match json.parseValue (2 * text.length) 0 text with
  | some (v, []) => some v
  | _ => none

/-! ### Decoding into a struct -/

/-- The error `io.EOF` of a body without any value. -/
def json.errEOF : Error := .foreign "io" "EOF"

/-- The error of a text that is not JSON; its message names the kind of error
only. -/
def json.errSyntax : Error := .foreign "encoding/json" "SyntaxError"

/-- The error of a value that does not fit the Go type it is decoded into; its
message names the kind of error only. -/
def json.errUnmarshalType : Error := .foreign "encoding/json" "UnmarshalTypeError"

/-- The value of a hexadecimal digit. -/
def json.hexValue (c : Char) : Nat :=
  if json.isDigit c then c.toNat - 48
  else if 97 ≤ c.toNat ∧ c.toNat ≤ 102 then c.toNat - 87
  else c.toNat - 55

/-- The code unit a `\uXXXX` escape names. -/
def json.u4 (a b c d : Char) : Nat :=
  ((json.hexValue a * 16 + json.hexValue b) * 16 + json.hexValue c) * 16 + json.hexValue d

/-- The character a two-character escape stands for. -/
def json.escapeValue (c : Char) : Char :=
  if c = 'b' then Char.ofNat 8
  else if c = 'f' then Char.ofNat 12
  else if c = 'n' then Char.ofNat 10
  else if c = 'r' then Char.ofNat 13
  else if c = 't' then Char.ofNat 9
  else c

/-- The string a literal stands for: escapes are replaced by their characters, a
`\u` pair of a high and a low surrogate by the character it encodes, and any
other surrogate by U+FFFD. -/
def json.unquote : List json.StrItem → List Char
  | [] => []
  | .plain c :: r => c :: json.unquote r
  | .escape c :: r => json.escapeValue c :: json.unquote r
  | .unicode a b c d :: r =>
    if 0xD800 ≤ json.u4 a b c d ∧ json.u4 a b c d < 0xE000 then
      match r with
      | .unicode a1 b1 c1 d1 :: r1 =>
        if json.u4 a b c d < 0xDC00 ∧ 0xDC00 ≤ json.u4 a1 b1 c1 d1 ∧
            json.u4 a1 b1 c1 d1 < 0xE000 then
          Char.ofNat ((json.u4 a b c d - 0xD800) * 1024 + (json.u4 a1 b1 c1 d1 - 0xDC00) +
            0x10000) :: json.unquote r1
        else Char.ofNat 0xFFFD :: json.unquote (.unicode a1 b1 c1 d1 :: r1)
      | [] => [Char.ofNat 0xFFFD]
      | .plain c1 :: r1 => Char.ofNat 0xFFFD :: json.unquote (.plain c1 :: r1)
      | .escape c1 :: r1 => Char.ofNat 0xFFFD :: json.unquote (.escape c1 :: r1)
    else Char.ofNat (json.u4 a b c d) :: json.unquote r

/-- The members of an object in the order of the text, each key as the string its
literal stands for. -/
def json.Members.entries : json.Members → List (String × json.Syntax)
  | .nil => []
  | .cons _ key _ _ value _ tail => (String.mk (json.unquote key), value) :: tail.entries

/-- Case folding of a key, as far as it can meet a name of ASCII letters: a
lower-case letter becomes upper case, and so do the long s (U+017F) and the
Kelvin sign (U+212A), the two other characters that fold to a letter. -/
def json.foldChar (c : Char) : Char :=
  if 97 ≤ c.toNat ∧ c.toNat ≤ 122 then Char.ofNat (c.toNat - 32)
  else if c.toNat = 0x17F then 'S'
  else if c.toNat = 0x212A then 'K'
  else c

/-- The folded form of a name. -/
def json.foldName (s : String) : List Char := s.toList.map json.foldChar

/-- The name of a field. -/
def json.Field.name {ρ : Type} : json.Field ρ → String
  | .string name _ => name
  | .rawMessage name _ => name
  | .int64 name _ => name

/-- The field a key is decoded into: the one of that very name, otherwise the
first one equal to it under case folding. -/
def json.findField {ρ : Type} (fields : List (json.Field ρ)) (key : String) :
    Option (json.Field ρ) :=
  match fields.find? (fun f => f.name = key) with
  | some f => some f
  | none => fields.find? (fun f => json.foldName f.name = json.foldName key)

/-- The number a run of digits stands for. -/
def json.digitsValue (ds : List Char) : Nat :=
  ds.foldl (fun acc c => acc * 10 + (c.toNat - 48)) 0

/-- The int64 a number literal is decoded to (`strconv.ParseInt`): none when the
literal has a fraction or an exponent, or is out of range. -/
def json.Number.toInt64 (n : json.Number) : Option Int :=
  match n.frac, n.exp with
  | none, none =>
    if n.neg then
      if json.digitsValue n.int ≤ 2 ^ 63 then some (-(json.digitsValue n.int : Int)) else none
    else if json.digitsValue n.int < 2 ^ 63 then some (json.digitsValue n.int : Int)
    else none
  | none, some _ => none
  | some _, none => none
  | some _, some _ => none

/-- Writing one value to one field. A `json.RawMessage` takes the text of any
value, `null` included; a string takes a string literal and an int64 an integer
literal in range, `null` leaves either as it is, and any other value is a type
error that leaves the field as it is. -/
def json.Field.store {ρ : Type} (f : json.Field ρ) (v : json.Syntax) (dst : ρ) : Except Error ρ :=
  match f with
  | .rawMessage _ set => .ok (set dst (String.mk v.text))
  | .string _ set =>
    match v with
    | .string items => .ok (set dst (String.mk (json.unquote items)))
    | .null => .ok dst
    | .true => .error json.errUnmarshalType
    | .false => .error json.errUnmarshalType
    | .number _ => .error json.errUnmarshalType
    | .array _ _ => .error json.errUnmarshalType
    | .object _ _ => .error json.errUnmarshalType
  | .int64 _ set =>
    match v with
    | .number n =>
      match n.toInt64 with
      | some i => .ok (set dst i)
      | none => .error json.errUnmarshalType
    | .null => .ok dst
    | .true => .error json.errUnmarshalType
    | .false => .error json.errUnmarshalType
    | .string _ => .error json.errUnmarshalType
    | .array _ _ => .error json.errUnmarshalType
    | .object _ _ => .error json.errUnmarshalType

/-- Decoding one member of an object: a key without a field is skipped, a type
error is kept (the first one is the one returned) and decoding goes on. -/
def json.storeMember {ρ : Type} (fields : List (json.Field ρ)) (acc : Option Error × ρ)
    (m : String × json.Syntax) : Option Error × ρ :=
  match json.findField fields m.1 with
  | none => acc
  | some f =>
    match f.store m.2 acc.2 with
    | .ok dst => (acc.1, dst)
    | .error err =>
      (match acc.1 with
       | none => some err
       | some first => some first, acc.2)

/-- Decoding a value into a struct: the members of an object are decoded one after
the other (a later member of the same key overwrites an earlier one), `null`
changes nothing, and any other value is a type error. -/
def json.unmarshal {ρ : Type} (fields : List (json.Field ρ)) (v : json.Syntax) (dst : ρ) :
    Option Error × ρ :=
  match v with
  | .object _ members => members.entries.foldl (json.storeMember fields) (none, dst)
  | .null => (none, dst)
  | .true => (some json.errUnmarshalType, dst)
  | .false => (some json.errUnmarshalType, dst)
  | .number _ => (some json.errUnmarshalType, dst)
  | .string _ => (some json.errUnmarshalType, dst)
  | .array _ _ => (some json.errUnmarshalType, dst)

/-- The first value of a body, as `Decoder.Decode` reads it: whitespace before it
is skipped and whatever follows it is left unread. A text nested deeper than
`maxNestingDepth` is an error like any other text the scanner rejects. -/
def json.Decoder.readValue (body : List Char) : Except Error json.Syntax :=
  match (json.spanSpace body).2 with
  | [] => .error json.errEOF
  | c :: r =>
    match json.parseValue (2 * (c :: r).length) 0 (c :: r) with
    | none => .error json.errSyntax
    | some (v, _) => .ok v

/-- The call `json.NewDecoder(body).Decode(v)` for `v` pointing to a struct with
the given fields: the error and the content of the struct afterwards. Nothing is
written when the body is not JSON. -/
def json.Decoder.Decode {ρ : Type} (fields : List (json.Field ρ)) (body : String) (dst : ρ) :
    Option Error × ρ :=
  match json.Decoder.readValue body.toList with
  | .error err => (some err, dst)
  | .ok v => json.unmarshal fields v dst

/-- What may follow a value inside a text: nothing, whitespace, a comma or a
closing bracket. -/
def json.atValueEnd : List Char → Bool
  | [] => true
  | c :: _ => json.isSpace c || c == ',' || c == ']' || c == '}'

/-- The members of the object at the head of a text; none when the text does not
start with an object. -/
def json.membersOf (text : String) : json.Members :=
  match json.Decoder.readValue text.toList with
  | .ok (.object _ members) => members
  | _ => .nil

/-- The value `v` inside `k` arrays of one element each. -/
def json.nest : Nat → json.Syntax → json.Syntax
  | 0, v => v
  | k + 1, v => .array [] (.cons [] (json.nest k v) [] .nil)

/-! ## Package chimoney: the constructor `New` and its options -/

/-- The exported fields of the struct `chimoney.Client`: one pointer for each
module handle, nil when `none`. -/
structure chimoney.Modules (σ : Type) where
  Account : Option (ChimoneyGo.Account σ)
  Info : Option (ChimoneyGo.Info σ)
  MobileMoney : Option (ChimoneyGo.MobileMoney σ)
  Payouts : Option (ChimoneyGo.Payouts σ)
  Redeem : Option (ChimoneyGo.Redeem σ)
  SubAccount : Option (ChimoneyGo.SubAccount σ)
  Wallet : Option (ChimoneyGo.Wallet σ)

/-- How a call of `New` ends: in a panic with its value, or with the client it
returns, given by its unexported fields and its module handles. -/
inductive chimoney.Constructed (σ : Type) where
  | panicked (value : String)
  | returned (c : chimoney.Client σ) (modules : chimoney.Modules σ)

/-- The values of the type `Option`, a `func(*Client)`, that the package builds:
`WithAPIKey(key)`, `WithHTTPClient(client)` and `WithSandbox(enabled)`. They
assign the unexported fields of the client, which a function written outside the
package cannot reach. -/
inductive chimoney.Option (σ : Type) where
  | WithAPIKey (key : String)
  | WithHTTPClient (client : http.Client σ)
  | WithSandbox (enabled : Bool)

/-- The call `opt(c)` of an option on the client under construction. -/
def chimoney.Option.apply {σ : Type} (opt : chimoney.Option σ) (c : chimoney.Client σ) :
    chimoney.Client σ :=
  match opt with
  | .WithAPIKey key => { c with apiKey := key }
  | .WithHTTPClient client => { c with http := client }
  | .WithSandbox enabled =>
    if enabled then { c with baseURL := "https://api-v2-sandbox.chimoney.io/v0.2.4" } else c

/-- The function `New`: `env` is the value of the environment variable
CHIMONEY_API_KEY (empty when it is not set) and `defaultClient` is
`http.DefaultClient`. Each module handle is built over the client itself. -/
def chimoney.New {σ : Type} (rt : Runtime) (env : String) (defaultClient : http.Client σ)
    (options : List (chimoney.Option σ)) : chimoney.Constructed σ :=
  let c : chimoney.Client σ := ⟨env, "https://api.chimoney.io/v0.2.4", defaultClient⟩
  let c := options.foldl (fun c opt => opt.apply c) c
  if c.apiKey = "" then .panicked "chimoney: API key is required"
  else
    .returned c
      ⟨some (account.New (chimoney.Client.transport rt c)),
        some (info.New (chimoney.Client.transport rt c)),
        some (mobilemoney.New (chimoney.Client.transport rt c)),
        some (payouts.New (chimoney.Client.transport rt c)),
        some (redeem.New (chimoney.Client.transport rt c)),
        some (subaccount.New (chimoney.Client.transport rt c)),
        some (wallet.New (chimoney.Client.transport rt c))⟩

/-! ## Package testclient: the transport double of the tests -/

/-- The struct `testclient.Client`, as far as its method `Do` reads it. -/
structure testclient.Client (σ : Type) where
  apiKey : String
  baseURL : String
  http : http.Client σ

/-- The address `testclient.Client.Do` builds: base URL and path, then, for a
params map that is neither nil nor empty, a `?` and the entries written as
`key=value&` without any escaping, the last `&` cut off. The entries come in the
order of the iteration over the map, which is the order of the list. -/
def testclient.Client.address {σ : Type} (c : testclient.Client σ) (path : String)
    (params : Option (Map String)) : String :=
  match params with
  | none => c.baseURL ++ path
  | some ps =>
    if ps.length > 0 then
      (ps.foldl (fun a e => a ++ (e.1 ++ "=" ++ e.2 ++ "&")) (c.baseURL ++ path ++ "?")).dropRight 1
    else c.baseURL ++ path

/-- The two `req.Header.Set` statements of `testclient.Client.Do`. -/
def testclient.Client.setHeaders {σ : Type} (rt : Runtime) (c : testclient.Client σ)
    (req : http.Request) : http.Request :=
  let h := http.Header.Set rt req.Header "Content-Type" "application/json"
  let h := http.Header.Set rt h "X-API-KEY" c.apiKey
  { req with Header := h }

/-- The method `Do` of `testclient.Client`. Its first statements, which serialise
the body, are those of `chimoney.Client.Do`. -/
def testclient.Client.Do {σ ρ : Type} [Destination ρ] (rt : Runtime) (c : testclient.Client σ)
    (ctx : Context) (method path : String) (body : Body) (v : ρ)
    (params : Option (Map String)) (s : σ) : DoResult ρ σ :=
  match chimoney.Client.reqBody rt body with
  | .error err => ⟨some err, v, s⟩
  | .ok reqBody =>
    match rt.NewRequestWithContext ctx method (testclient.Client.address c path params)
      reqBody with
    | .error err => ⟨some err, v, s⟩
    | .ok req =>
      match c.http.Do (testclient.Client.setHeaders rt c req) s with
      | (.error err, s1) => ⟨some err, v, s1⟩
      | (.ok resp, s1) =>
        if resp.StatusCode ≥ 400 then
          ⟨some (.errorf ("chimoney: request failed with status " ++ toString resp.StatusCode)),
            v, s1⟩
        else if Destination.isNil ρ then ⟨none, v, s1⟩
        else
          match rt.Decode resp.Body v with
          | (some err, v1) => ⟨some err, v1, s1⟩
          | (none, v1) => ⟨none, v1, s1⟩

/-! ## Reading a response record of any module -/

/-- The field `Status` of a response record. -/
def Response.Status : Response → String
  | .account r => r.Status
  | .info r => r.Status
  | .payment r => r.Status
  | .payout r => r.Status
  | .redeem r => r.Status
  | .subaccount r => r.Status
  | .wallet r => r.Status

/-- The field `Message` of a response record. -/
def Response.Message : Response → String
  | .account r => r.Message
  | .info r => r.Message
  | .payment r => r.Message
  | .payout r => r.Message
  | .redeem r => r.Message
  | .subaccount r => r.Message
  | .wallet r => r.Message

/-! ## Concrete collaborators used to evaluate the code on examples -/

/-- A stand-in for the standard library on examples: bodies marshal to `null`,
every address is accepted and becomes the path of the request URL, queries are
empty, header keys are kept as written, and decoding leaves the destination as
it is and succeeds exactly on a non-empty body. -/
def exampleRuntime : Runtime where
  Marshal := fun _ => .ok "null"
  NewRequestWithContext := fun ctx method url body =>
    .ok ⟨ctx, method, ⟨"", "", url, "", ""⟩, [], body⟩
  Query := fun _ => []
  Encode := fun _ => ""
  Sprint := fun _ => ""
  CanonicalKey := fun k => k
  Decode := fun body v =>
    if body = "" then (some (.foreign "encoding/json" "EOF"), v) else (none, v)

/-- An HTTP client whose server answers every request with the given status code
and body; its state counts the requests sent. -/
def exampleServer (status : Int) (body : String) : http.Client Nat where
  Do := fun _ n => (.ok ⟨status, body⟩, n + 1)

/-- A production client with a test key, talking to `exampleServer`. -/
def exampleClient (status : Int) (body : String) : chimoney.Client Nat :=
  ⟨"test-api-key", "https://api.chimoney.io/v0.2.4", exampleServer status body⟩

/-- A transport double that answers every call with a nil error and leaves the
destination untouched; its state counts the calls. -/
def acceptingTransport : Client Nat where
  Do := fun _ _ _ _ v _ n => ⟨none, v, n + 1⟩

/-- The stand-in runtime with the modelled library functions in place of their
stand-ins: request construction, query parsing and encoding, the rendering of
body values and the canonical header keys. Marshalling and decoding stay the
stand-ins of `exampleRuntime`. -/
def stdRuntime : Runtime :=
  { exampleRuntime with
    NewRequestWithContext := http.NewRequestWithContext
    Query := url.URL.Query
    Encode := url.Values.Encode
    Sprint := fmt.Sprint
    CanonicalKey := textproto.CanonicalMIMEHeaderKey }

/-- A production client whose base URL is the root of a local test server. -/
def testServerClient (status : Int) (body : String) : chimoney.Client Nat :=
  ⟨"test-api-key", "http://127.0.0.1:8080", exampleServer status body⟩

/-- An envelope as the API answers it, with `data` first, a `timestamp`, and
whitespace between its parts. -/
def exampleEnvelope : String :=
  "\x7b\"data\": \x7b\"id\": \"w1\", \"tags\": [\"a\", 2.5e3, null ]\x7d ,\n \"status\":\"success\", \"timestamp\": 1700000000, \"message\": \"all\\u0020ok\"\x7d"

/-- A value made of 10000 arrays, one inside the other: the text is 10000 opening
brackets followed by 10000 closing ones. -/
def deepData : json.Syntax := json.nest 9999 (.array [] .nil)

/-- The members `data`, `status` and `message` of an envelope whose `data` is
`deepData`. -/
def deepMembers : json.Members :=
  .cons [] [.plain 'd', .plain 'a', .plain 't', .plain 'a'] [] [] deepData []
    (.cons [] [.plain 's', .plain 't', .plain 'a', .plain 't', .plain 'u', .plain 's'] [] []
      (.string [.plain 'o', .plain 'k']) []
      (.cons [] [.plain 'm', .plain 'e', .plain 's', .plain 's', .plain 'a', .plain 'g',
          .plain 'e'] [] []
        (.string [.plain 'd', .plain 'o', .plain 'n', .plain 'e']) [] .nil))

/-- The stand-in runtime with the modelled decoder in place of its stand-in, and
with a `Marshal` that fails where `json.Marshal` does, on a number that is NaN or
infinite, and writes the stand-in text otherwise. -/
def jsonRuntime : Runtime :=
  { stdRuntime with
    Marshal := fun body =>
      match json.Marshal body with
      | .error err => .error err
      | .ok _ => .ok "null"
    Decode := fun {ρ : Type} [Destination ρ] body v =>
      json.Decoder.Decode (@Destination.fields ρ _) body v }

/-- An HTTP client whose send fails with the given error; its state counts the
attempts. -/
def failingServer (err : Error) : http.Client Nat where
  Do := fun _ n => (.error err, n + 1)

/-- An envelope the API answers when it refuses an operation. -/
def errorEnvelope : String :=
  "\x7b\"status\":\"error\",\"message\":\"Insufficient balance\",\"data\":null\x7d"

/-- The envelope the tests of package redeem answer for an invalid reference. -/
def testErrorEnvelope : String :=
  "\x7b\"status\":\"error\",\"message\":\"Invalid chi ref\"\x7d"

/-- A test client with a test key, talking to `exampleServer`. -/
def exampleTestClient (status : Int) (body : String) : testclient.Client Nat :=
  ⟨"test-api-key", "http://127.0.0.1:8080", exampleServer status body⟩

/-- The members `data`, `status` and `message` of an envelope that reports an
error and whose `data` is `deepData`. -/
def deepErrorMembers : json.Members :=
  .cons [] [.plain 'd', .plain 'a', .plain 't', .plain 'a'] [] [] deepData []
    (.cons [] [.plain 's', .plain 't', .plain 'a', .plain 't', .plain 'u', .plain 's'] [] []
      (.string [.plain 'e', .plain 'r', .plain 'r', .plain 'o', .plain 'r']) []
      (.cons [] [.plain 'm', .plain 'e', .plain 's', .plain 's', .plain 'a', .plain 'g',
          .plain 'e'] [] []
        (.string [.plain 'n', .plain 'o']) [] .nil))

/-- The context used in the examples. -/
def exampleContext : Context := ⟨0⟩

end ChimoneyGo

/-! # Theorems -/

namespace ChimoneyGo

/-! ## The dispatcher's reading of the status code -/

/-- What `Client.Do` returns once a response has arrived: the serialisation of the
body, the construction of the request and the send have all succeeded. -/
theorem Do_after_response {σ ρ : Type} [Destination ρ] (rt : Runtime) (c : chimoney.Client σ)
    (ctx : Context) (method path : String) (body : Body) (v : ρ) (params : Option (Map String))
    (s s1 : σ) (reqBody : Option String) (req : http.Request) (resp : http.Response)
    (hbody : chimoney.Client.reqBody rt body = .ok reqBody)
    (hreq : rt.NewRequestWithContext ctx method (c.baseURL ++ path) reqBody = .ok req)
    (hsend : c.http.Do (chimoney.Client.setHeaders rt c (chimoney.Client.addBodyParams rt
      (chimoney.Client.addParams rt req params) method body)) s = (.ok resp, s1)) :
    chimoney.Client.Do rt c ctx method path body v params s =
      if resp.StatusCode < 200 ∨ resp.StatusCode ≥ 300 then
        ⟨some (.errorf ("chimoney: request failed with status " ++ toString resp.StatusCode)),
          v, s1⟩
      else if Destination.isNil ρ then ⟨none, v, s1⟩
      else
        match rt.Decode resp.Body v with
        | (some err, v1) =>
          ⟨some (.errorf ("chimoney: failed to decode response: " ++ err.Error)), v1, s1⟩
        | (none, v1) => ⟨none, v1, s1⟩ := by
  unfold chimoney.Client.Do
  rw [hbody]
  simp only [hreq, hsend]

/-- C1: once the body has been serialised and the request sent, with a nil
destination or a body that decodes, `Client.Do` returns an error if and only if the
status code is below 200 or at least 300. -/
theorem C1_Do_fails_iff_status_outside_200_299 {σ ρ : Type} [Destination ρ] (rt : Runtime)
    (c : chimoney.Client σ) (ctx : Context) (method path : String) (body : Body) (v : ρ)
    (params : Option (Map String)) (s s1 : σ) (reqBody : Option String) (req : http.Request)
    (resp : http.Response)
    (hbody : chimoney.Client.reqBody rt body = .ok reqBody)
    (hreq : rt.NewRequestWithContext ctx method (c.baseURL ++ path) reqBody = .ok req)
    (hsend : c.http.Do (chimoney.Client.setHeaders rt c (chimoney.Client.addBodyParams rt
      (chimoney.Client.addParams rt req params) method body)) s = (.ok resp, s1))
    (hdest : Destination.isNil ρ = true ∨ (rt.Decode resp.Body v).1 = none) :
    (chimoney.Client.Do rt c ctx method path body v params s).err ≠ none ↔
      (resp.StatusCode < 200 ∨ resp.StatusCode ≥ 300) := by
  rw [Do_after_response rt c ctx method path body v params s s1 reqBody req resp hbody hreq hsend]
  by_cases hst : resp.StatusCode < 200 ∨ resp.StatusCode ≥ 300
  · simp [hst]
  · rw [if_neg hst]
    rcases hdest with hnil | hdec
    · simp [hnil, hst]
    · by_cases hnil : Destination.isNil ρ = true
      · simp [hnil, hst]
      · rw [if_neg hnil]
        rcases hd : rt.Decode resp.Body v with ⟨e, v1⟩
        rw [hd] at hdec
        simp only at hdec
        subst hdec
        simp [hst]

/-- C1 at the boundary: against a server answering 199, 300, 200 and 299 the
dispatcher fails on the first two and succeeds on the last two. -/
theorem C1_Do_fails_iff_status_outside_200_299_witness :
    (chimoney.Client.Do exampleRuntime (exampleClient 199 "ok") exampleContext "GET" "/info/assets"
        .none InfoResponse.zero none 0).err ≠ none ∧
    (chimoney.Client.Do exampleRuntime (exampleClient 300 "ok") exampleContext "GET" "/info/assets"
        .none InfoResponse.zero none 0).err ≠ none ∧
    (chimoney.Client.Do exampleRuntime (exampleClient 200 "ok") exampleContext "GET" "/info/assets"
        .none InfoResponse.zero none 0).err = none ∧
    (chimoney.Client.Do exampleRuntime (exampleClient 299 "ok") exampleContext "GET" "/info/assets"
        .none InfoResponse.zero none 0).err = none := by
  refine ⟨?_, ?_, ?_, ?_⟩
  · exact (C1_Do_fails_iff_status_outside_200_299 exampleRuntime (exampleClient 199 "ok")
      exampleContext "GET" "/info/assets" .none InfoResponse.zero none 0 1 none _ ⟨199, "ok"⟩
      rfl rfl rfl (Or.inr rfl)).mpr (by decide)
  · exact (C1_Do_fails_iff_status_outside_200_299 exampleRuntime (exampleClient 300 "ok")
      exampleContext "GET" "/info/assets" .none InfoResponse.zero none 0 1 none _ ⟨300, "ok"⟩
      rfl rfl rfl (Or.inr rfl)).mpr (by decide)
  · exact not_not.mp (fun h => absurd ((C1_Do_fails_iff_status_outside_200_299 exampleRuntime
      (exampleClient 200 "ok") exampleContext "GET" "/info/assets" .none InfoResponse.zero none
      0 1 none _ ⟨200, "ok"⟩ rfl rfl rfl (Or.inr rfl)).mp h) (by decide))
  · exact not_not.mp (fun h => absurd ((C1_Do_fails_iff_status_outside_200_299 exampleRuntime
      (exampleClient 299 "ok") exampleContext "GET" "/info/assets" .none InfoResponse.zero none
      0 1 none _ ⟨299, "ok"⟩ rfl rfl rfl (Or.inr rfl)).mp h) (by decide))

/-- C2: for a status code outside [200,300) and any response body, `Client.Do`
returns the error "chimoney: request failed with status " followed by the code in
decimal and leaves the destination as it was; a second server answering the same
request with the same code and another body yields the identical error. -/
theorem C2_Do_status_error_carries_code_whatever_body {σ ρ : Type} [Destination ρ]
    (rt : Runtime) (c : chimoney.Client σ) (h2 : http.Client σ) (ctx : Context)
    (method path : String) (body : Body) (v : ρ) (params : Option (Map String))
    (s s1 s2 : σ) (reqBody : Option String) (req : http.Request) (status : Int)
    (respBody respBody2 : String)
    (hbody : chimoney.Client.reqBody rt body = .ok reqBody)
    (hreq : rt.NewRequestWithContext ctx method (c.baseURL ++ path) reqBody = .ok req)
    (hsend : c.http.Do (chimoney.Client.setHeaders rt c (chimoney.Client.addBodyParams rt
      (chimoney.Client.addParams rt req params) method body)) s = (.ok ⟨status, respBody⟩, s1))
    (hsend2 : h2.Do (chimoney.Client.setHeaders rt c (chimoney.Client.addBodyParams rt
      (chimoney.Client.addParams rt req params) method body)) s = (.ok ⟨status, respBody2⟩, s2))
    (hstatus : status < 200 ∨ status ≥ 300) :
    (chimoney.Client.Do rt c ctx method path body v params s).err =
        some (.errorf ("chimoney: request failed with status " ++ toString status)) ∧
      (chimoney.Client.Do rt c ctx method path body v params s).v = v ∧
      (chimoney.Client.Do rt { c with http := h2 } ctx method path body v params s).err =
        (chimoney.Client.Do rt c ctx method path body v params s).err ∧
      (chimoney.Client.Do rt { c with http := h2 } ctx method path body v params s).v = v := by
  have e1 := Do_after_response rt c ctx method path body v params s s1 reqBody req
    ⟨status, respBody⟩ hbody hreq hsend
  have e2 := Do_after_response rt { c with http := h2 } ctx method path body v params s s2
    reqBody req ⟨status, respBody2⟩ hbody hreq hsend2
  simp only [hstatus, if_true] at e1 e2
  rw [e1, e2]
  exact ⟨rfl, rfl, rfl, rfl⟩

/-- C2 at status 500: a body `oops` and an empty body give the same error, whose
message is "chimoney: request failed with status 500", and the destination keeps
its zero value. -/
theorem C2_Do_status_error_carries_code_whatever_body_witness :
    (chimoney.Client.Do exampleRuntime (exampleClient 500 "oops") exampleContext "POST"
        "/wallet/balance" (.strMap []) WalletResponse.zero none 0).err =
        some (.errorf "chimoney: request failed with status 500") ∧
      (chimoney.Client.Do exampleRuntime (exampleClient 500 "oops") exampleContext "POST"
        "/wallet/balance" (.strMap []) WalletResponse.zero none 0).v = WalletResponse.zero ∧
      (chimoney.Client.Do exampleRuntime { exampleClient 500 "oops" with
          http := exampleServer 500 "" } exampleContext "POST"
        "/wallet/balance" (.strMap []) WalletResponse.zero none 0).err =
        (chimoney.Client.Do exampleRuntime (exampleClient 500 "oops") exampleContext "POST"
          "/wallet/balance" (.strMap []) WalletResponse.zero none 0).err ∧
      (chimoney.Client.Do exampleRuntime { exampleClient 500 "oops" with
          http := exampleServer 500 "" } exampleContext "POST"
        "/wallet/balance" (.strMap []) WalletResponse.zero none 0).v = WalletResponse.zero :=
  C2_Do_status_error_carries_code_whatever_body exampleRuntime (exampleClient 500 "oops")
    (exampleServer 500 "") exampleContext "POST" "/wallet/balance" (.strMap [])
    WalletResponse.zero none 0 1 1 (some "null") _ 500 "oops" "" rfl rfl rfl rfl (by decide)

/-! ## The feature modules against a recording transport -/

/-- An input that does not pass the guards of its method never reaches the
transport: the method panics on a nil request pointer or returns a nil result
with an error, and the state and the log are untouched. -/
theorem invoke_fails_locally {σ : Type} (c : Client σ) (ctx : Context) (inv : Invocation) (s : σ)
    (l : List DoRecord) (h : inv.passesValidation = false) :
    invoke (Client.recording c) ctx inv (s, l) = .panicked (s, l) ∨
      ∃ e, invoke (Client.recording c) ctx inv (s, l) = .returned none (some e) (s, l) := by
  cases inv <;>
    simp only [Invocation.passesValidation] at h <;>
    (try split at h) <;>
    simp at h <;>
    simp [invoke, h, Outcome.map, account.New, info.New, redeem.New, subaccount.New, wallet.New,
      Account.GetTransactionsByIssueID, Account.Transfer, Account.DeleteUnpaidTransaction,
      Account.GetTransactionByID, Info.GetLocalAmountInUSD, Info.GetUSDInLocalAmount,
      Redeem.Airtime, Redeem.Any, Redeem.Chimoney, Redeem.GetChimoney, Redeem.GiftCard,
      Redeem.MobileMoney, SubAccount.Delete, Wallet.Details, Wallet.Transfer]
  all_goals
    split_ifs with h1 h2
    · simp
    · simp
    · exact absurd (h h1) h2

/-- An input that passes the guards of its method reaches the transport exactly
once, and the method returns a non-nil result with the error of that call. -/
theorem invoke_sends_once {σ : Type} (c : Client σ) (ctx : Context) (inv : Invocation) (s : σ)
    (l : List DoRecord) (h : inv.passesValidation = true) :
    ∃ r st rec, invoke (Client.recording c) ctx inv (s, l) =
      .returned (some r) rec.err (st, l ++ [rec]) := by
  cases inv <;>
    simp only [Invocation.passesValidation] at h <;>
    (try split at h) <;>
    (try simp at h) <;>
    simp [invoke, h, Outcome.map, account.New, info.New, redeem.New, subaccount.New, wallet.New,
      payouts.New, mobilemoney.New, DoResult.ret, Client.recording,
      Account.GetTransactionsByIssueID, Account.Transfer, Account.DeleteUnpaidTransaction,
      Account.GetTransactionByID, Account.GetAllTransactions, Info.GetLocalAmountInUSD,
      Info.GetUSDInLocalAmount, Info.GetSupportedAssets, Info.GetAirtimeCountries, Info.GetBanks,
      Info.GetMobileMoneyCodes, MobileMoney.MakePayment, MobileMoney.VerifyPayment,
      MobileMoney.GetAllTransactions, Payouts.Airtime, Payouts.Bank, Payouts.Chimoney,
      Payouts.GiftCard, Payouts.Status, Payouts.InitiateChimoney, Redeem.Airtime, Redeem.Any,
      Redeem.Chimoney, Redeem.GetChimoney, Redeem.GiftCard, Redeem.MobileMoney,
      SubAccount.Delete, SubAccount.Create, SubAccount.List, Wallet.Details, Wallet.Transfer,
      Wallet.List, Wallet.GetBalance]

/-- A method whose input passes its guards returns what its one call of `Do`
leaves: every property of the result of a call on the zero-valued record of the
module holds of what the method returns. -/
theorem invoke_through {σ : Type} (t : Client σ) (ctx : Context) (inv : Invocation) (s : σ)
    (Q : Response → Option Error → σ → Prop) (h : inv.passesValidation = true)
    (h1 : inv.isAccount = true → ∀ method path body params,
      Q (.account (t.Do ctx method path body AccountResponse.zero params s).v)
        (t.Do ctx method path body AccountResponse.zero params s).err
        (t.Do ctx method path body AccountResponse.zero params s).state)
    (h2 : ∀ method path body params,
      Q (.info (t.Do ctx method path body InfoResponse.zero params s).v)
        (t.Do ctx method path body InfoResponse.zero params s).err
        (t.Do ctx method path body InfoResponse.zero params s).state)
    (h3 : ∀ method path body params,
      Q (.payment (t.Do ctx method path body PaymentResponse.zero params s).v)
        (t.Do ctx method path body PaymentResponse.zero params s).err
        (t.Do ctx method path body PaymentResponse.zero params s).state)
    (h4 : ∀ method path body params,
      Q (.payout (t.Do ctx method path body PayoutResponse.zero params s).v)
        (t.Do ctx method path body PayoutResponse.zero params s).err
        (t.Do ctx method path body PayoutResponse.zero params s).state)
    (h5 : ∀ method path body params,
      Q (.redeem (t.Do ctx method path body RedeemResponse.zero params s).v)
        (t.Do ctx method path body RedeemResponse.zero params s).err
        (t.Do ctx method path body RedeemResponse.zero params s).state)
    (h6 : ∀ method path body params,
      Q (.subaccount (t.Do ctx method path body SubAccountResponse.zero params s).v)
        (t.Do ctx method path body SubAccountResponse.zero params s).err
        (t.Do ctx method path body SubAccountResponse.zero params s).state)
    (h7 : ∀ method path body params,
      Q (.wallet (t.Do ctx method path body WalletResponse.zero params s).v)
        (t.Do ctx method path body WalletResponse.zero params s).err
        (t.Do ctx method path body WalletResponse.zero params s).state) :
    ∃ r err st, invoke t ctx inv s = .returned (some r) err st ∧ Q r err st := by
  cases inv <;>
    simp only [Invocation.passesValidation] at h <;>
    (try split at h) <;>
    (try simp at h) <;>
    simp [invoke, h, Outcome.map, account.New, info.New, redeem.New, subaccount.New, wallet.New,
      payouts.New, mobilemoney.New, DoResult.ret,
      Account.GetTransactionsByIssueID, Account.Transfer, Account.DeleteUnpaidTransaction,
      Account.GetTransactionByID, Account.GetAllTransactions, Info.GetLocalAmountInUSD,
      Info.GetUSDInLocalAmount, Info.GetSupportedAssets, Info.GetAirtimeCountries, Info.GetBanks,
      Info.GetMobileMoneyCodes, MobileMoney.MakePayment, MobileMoney.VerifyPayment,
      MobileMoney.GetAllTransactions, Payouts.Airtime, Payouts.Bank, Payouts.Chimoney,
      Payouts.GiftCard, Payouts.Status, Payouts.InitiateChimoney, Redeem.Airtime, Redeem.Any,
      Redeem.Chimoney, Redeem.GetChimoney, Redeem.GiftCard, Redeem.MobileMoney,
      SubAccount.Delete, SubAccount.Create, SubAccount.List, Wallet.Details, Wallet.Transfer,
      Wallet.List, Wallet.GetBalance] <;>
    first
      | exact ⟨_, _, _, ⟨rfl, rfl, rfl⟩, h1 rfl _ _ _ _⟩
      | exact ⟨_, _, _, ⟨rfl, rfl, rfl⟩, h2 _ _ _ _⟩
      | exact ⟨_, _, _, ⟨rfl, rfl, rfl⟩, h3 _ _ _ _⟩
      | exact ⟨_, _, _, ⟨rfl, rfl, rfl⟩, h4 _ _ _ _⟩
      | exact ⟨_, _, _, ⟨rfl, rfl, rfl⟩, h5 _ _ _ _⟩
      | exact ⟨_, _, _, ⟨rfl, rfl, rfl⟩, h6 _ _ _ _⟩
      | exact ⟨_, _, _, ⟨rfl, rfl, rfl⟩, h7 _ _ _ _⟩

/-- C3, as stated, fails: the production dispatcher facing a server that answers
500 makes `Info.GetSupportedAssets` return the status error together with a
non-nil result, the zero-valued response record. -/
theorem C3_counterexample_result_with_transport_error :
    invoke (chimoney.Client.transport exampleRuntime (exampleClient 500 "oops")) exampleContext
        .infoGetSupportedAssets 0 =
      .returned (some (.info InfoResponse.zero))
        (some (.errorf "chimoney: request failed with status 500")) 1 := by
  rfl

/-- An input that a guard of its method rejects, the request pointer the method
reads being non-nil: the method returns a nil result with an error, and the
state and the log are untouched. -/
theorem invoke_rejects {σ : Type} (c : Client σ) (ctx : Context) (inv : Invocation) (s : σ)
    (l : List DoRecord) (h : inv.passesValidation = false) (hreq : inv.nilRequest = false) :
    ∃ e, invoke (Client.recording c) ctx inv (s, l) = .returned none (some e) (s, l) := by
  cases inv <;>
    simp only [Invocation.passesValidation] at h <;>
    simp only [Invocation.nilRequest] at hreq <;>
    (try split at h) <;>
    (try simp at hreq) <;>
    simp at h <;>
    simp [invoke, h, Outcome.map, account.New, info.New, redeem.New, subaccount.New, wallet.New,
      Account.GetTransactionsByIssueID, Account.Transfer, Account.DeleteUnpaidTransaction,
      Account.GetTransactionByID, Info.GetLocalAmountInUSD, Info.GetUSDInLocalAmount,
      Redeem.Airtime, Redeem.Any, Redeem.Chimoney, Redeem.GetChimoney, Redeem.GiftCard,
      Redeem.MobileMoney, SubAccount.Delete, Wallet.Details, Wallet.Transfer]
  all_goals
    split_ifs with h1 h2
    · simp
    · simp
    · exact absurd (h h1) h2

/-- C3, amended: when a guard of the method rejects the input (a request pointer
the method reads being non-nil), the method returns a nil result with a non-nil
error, never invokes `Do` and leaves the state as it was; when validation passes
the method invokes `Do` once, on the zero-valued response record of its module,
and what it returns is the `return resp, err` of that call: the record as `Do`
left it, not nil, together with the error of the call, also when that error is
not nil. -/
theorem C3_result_nil_exactly_on_validation_failure {σ : Type} (c : Client σ) (ctx : Context)
    (inv : Invocation) (s : σ) :
    (inv.passesValidation = false → inv.nilRequest = false →
      ∃ e, invoke (Client.recording c) ctx inv (s, []) = .returned none (some e) (s, [])) ∧
    (inv.passesValidation = true →
      ∃ rec, (invoke (Client.recording c) ctx inv (s, [])).sentExactly rec ∧
        invoke (Client.recording c) ctx inv (s, []) ∈
          [((Client.recording c).Do ctx rec.method rec.path rec.body AccountResponse.zero
              rec.params (s, [])).ret.map Response.account,
            ((Client.recording c).Do ctx rec.method rec.path rec.body InfoResponse.zero
              rec.params (s, [])).ret.map Response.info,
            ((Client.recording c).Do ctx rec.method rec.path rec.body PaymentResponse.zero
              rec.params (s, [])).ret.map Response.payment,
            ((Client.recording c).Do ctx rec.method rec.path rec.body PayoutResponse.zero
              rec.params (s, [])).ret.map Response.payout,
            ((Client.recording c).Do ctx rec.method rec.path rec.body RedeemResponse.zero
              rec.params (s, [])).ret.map Response.redeem,
            ((Client.recording c).Do ctx rec.method rec.path rec.body SubAccountResponse.zero
              rec.params (s, [])).ret.map Response.subaccount,
            ((Client.recording c).Do ctx rec.method rec.path rec.body WalletResponse.zero
              rec.params (s, [])).ret.map Response.wallet]) := by
  refine ⟨fun h hreq => invoke_rejects c ctx inv s [] h hreq, fun h => ?_⟩
  obtain ⟨r, err, st, hr, rec, hlog, herr, hmem⟩ := invoke_through (Client.recording c) ctx inv
    (s, [])
    (fun r err st => ∃ rec : DoRecord, st.2 = [rec] ∧ err = rec.err ∧
      Outcome.returned (some r) err st ∈
        [((Client.recording c).Do ctx rec.method rec.path rec.body AccountResponse.zero
            rec.params (s, [])).ret.map Response.account,
          ((Client.recording c).Do ctx rec.method rec.path rec.body InfoResponse.zero
            rec.params (s, [])).ret.map Response.info,
          ((Client.recording c).Do ctx rec.method rec.path rec.body PaymentResponse.zero
            rec.params (s, [])).ret.map Response.payment,
          ((Client.recording c).Do ctx rec.method rec.path rec.body PayoutResponse.zero
            rec.params (s, [])).ret.map Response.payout,
          ((Client.recording c).Do ctx rec.method rec.path rec.body RedeemResponse.zero
            rec.params (s, [])).ret.map Response.redeem,
          ((Client.recording c).Do ctx rec.method rec.path rec.body SubAccountResponse.zero
            rec.params (s, [])).ret.map Response.subaccount,
          ((Client.recording c).Do ctx rec.method rec.path rec.body WalletResponse.zero
            rec.params (s, [])).ret.map Response.wallet]) h
    (fun _ method path body params =>
      ⟨⟨ctx, method, path, body, params,
        (c.Do ctx method path body AccountResponse.zero params s).err⟩, rfl, rfl,
        List.mem_cons.mpr (Or.inl rfl)⟩)
    (fun method path body params =>
      ⟨⟨ctx, method, path, body, params,
        (c.Do ctx method path body InfoResponse.zero params s).err⟩, rfl, rfl,
        List.mem_cons_of_mem _ (List.mem_cons.mpr (Or.inl rfl))⟩)
    (fun method path body params =>
      ⟨⟨ctx, method, path, body, params,
        (c.Do ctx method path body PaymentResponse.zero params s).err⟩, rfl, rfl,
        List.mem_cons_of_mem _ (List.mem_cons_of_mem _ (List.mem_cons.mpr (Or.inl rfl)))⟩)
    (fun method path body params =>
      ⟨⟨ctx, method, path, body, params,
        (c.Do ctx method path body PayoutResponse.zero params s).err⟩, rfl, rfl,
        List.mem_cons_of_mem _ (List.mem_cons_of_mem _ (List.mem_cons_of_mem _
          (List.mem_cons.mpr (Or.inl rfl))))⟩)
    (fun method path body params =>
      ⟨⟨ctx, method, path, body, params,
        (c.Do ctx method path body RedeemResponse.zero params s).err⟩, rfl, rfl,
        List.mem_cons_of_mem _ (List.mem_cons_of_mem _ (List.mem_cons_of_mem _
          (List.mem_cons_of_mem _ (List.mem_cons.mpr (Or.inl rfl)))))⟩)
    (fun method path body params =>
      ⟨⟨ctx, method, path, body, params,
        (c.Do ctx method path body SubAccountResponse.zero params s).err⟩, rfl, rfl,
        List.mem_cons_of_mem _ (List.mem_cons_of_mem _ (List.mem_cons_of_mem _
          (List.mem_cons_of_mem _ (List.mem_cons_of_mem _ (List.mem_cons.mpr (Or.inl rfl))))))⟩)
    (fun method path body params =>
      ⟨⟨ctx, method, path, body, params,
        (c.Do ctx method path body WalletResponse.zero params s).err⟩, rfl, rfl,
        List.mem_cons_of_mem _ (List.mem_cons_of_mem _ (List.mem_cons_of_mem _
          (List.mem_cons_of_mem _ (List.mem_cons_of_mem _ (List.mem_cons_of_mem _
            (List.mem_cons.mpr (Or.inl rfl)))))))⟩)
  refine ⟨rec, ?_, ?_⟩
  · rw [hr]
    exact ⟨rfl, hlog, herr, by simp [Outcome.result]⟩
  · rw [hr]
    exact hmem

/-- C3, amended, on two inputs: `Account.Transfer` with an empty chiRef returns a
nil result with an error and leaves the state as it was, and
`Info.GetSupportedAssets` against a server answering 500 returns the zero-valued
record, as the dispatcher left it, with the error of its single call. -/
theorem C3_result_nil_exactly_on_validation_failure_witness :
    (∃ e, invoke (Client.recording (chimoney.Client.transport exampleRuntime
        (exampleClient 500 "oops"))) exampleContext (.accountTransfer "" "sub_123") (0, []) =
      .returned none (some e) (0, [])) ∧
    invoke (Client.recording (chimoney.Client.transport exampleRuntime
        (exampleClient 500 "oops"))) exampleContext .infoGetSupportedAssets (0, []) =
      .returned (some (.info InfoResponse.zero))
        (some (.errorf "chimoney: request failed with status 500"))
        (1, [⟨exampleContext, "GET", "/info/assets", .none, none,
          some (.errorf "chimoney: request failed with status 500")⟩]) ∧
    ∃ rec, (invoke (Client.recording (chimoney.Client.transport exampleRuntime
        (exampleClient 500 "oops"))) exampleContext .infoGetSupportedAssets
        (0, [])).sentExactly rec ∧
      invoke (Client.recording (chimoney.Client.transport exampleRuntime
          (exampleClient 500 "oops"))) exampleContext .infoGetSupportedAssets (0, []) ∈
        [((Client.recording (chimoney.Client.transport exampleRuntime
              (exampleClient 500 "oops"))).Do exampleContext rec.method rec.path rec.body
              AccountResponse.zero rec.params (0, [])).ret.map Response.account,
          ((Client.recording (chimoney.Client.transport exampleRuntime
              (exampleClient 500 "oops"))).Do exampleContext rec.method rec.path rec.body
              InfoResponse.zero rec.params (0, [])).ret.map Response.info,
          ((Client.recording (chimoney.Client.transport exampleRuntime
              (exampleClient 500 "oops"))).Do exampleContext rec.method rec.path rec.body
              PaymentResponse.zero rec.params (0, [])).ret.map Response.payment,
          ((Client.recording (chimoney.Client.transport exampleRuntime
              (exampleClient 500 "oops"))).Do exampleContext rec.method rec.path rec.body
              PayoutResponse.zero rec.params (0, [])).ret.map Response.payout,
          ((Client.recording (chimoney.Client.transport exampleRuntime
              (exampleClient 500 "oops"))).Do exampleContext rec.method rec.path rec.body
              RedeemResponse.zero rec.params (0, [])).ret.map Response.redeem,
          ((Client.recording (chimoney.Client.transport exampleRuntime
              (exampleClient 500 "oops"))).Do exampleContext rec.method rec.path rec.body
              SubAccountResponse.zero rec.params (0, [])).ret.map Response.subaccount,
          ((Client.recording (chimoney.Client.transport exampleRuntime
              (exampleClient 500 "oops"))).Do exampleContext rec.method rec.path rec.body
              WalletResponse.zero rec.params (0, [])).ret.map Response.wallet] :=
  ⟨(C3_result_nil_exactly_on_validation_failure (chimoney.Client.transport exampleRuntime
      (exampleClient 500 "oops")) exampleContext (.accountTransfer "" "sub_123") 0).1 rfl rfl,
    rfl,
    (C3_result_nil_exactly_on_validation_failure (chimoney.Client.transport exampleRuntime
      (exampleClient 500 "oops")) exampleContext .infoGetSupportedAssets 0).2 rfl⟩

/-- C4: on every input that passes local validation, a module method invokes `Do`
exactly once and returns exactly the error that call returned (nil if and only
if `Do` returned nil). -/
theorem C4_method_returns_error_of_its_single_Do_call {σ : Type} (c : Client σ) (ctx : Context)
    (inv : Invocation) (s : σ) (h : inv.passesValidation = true) :
    ∃ rec, (invoke (Client.recording c) ctx inv (s, [])).state.2 = [rec] ∧
      (invoke (Client.recording c) ctx inv (s, [])).isReturned = true ∧
      (invoke (Client.recording c) ctx inv (s, [])).error = rec.err ∧
      ((invoke (Client.recording c) ctx inv (s, [])).error = none ↔ rec.err = none) := by
  obtain ⟨r, st, rec, hr⟩ := invoke_sends_once c ctx inv s [] h
  refine ⟨rec, ?_⟩
  rw [hr]
  simp [Outcome.state, Outcome.error, Outcome.isReturned]

/-- C4 on `Wallet.GetBalance` with the production dispatcher facing a server that
answers 500. -/
theorem C4_method_returns_error_of_its_single_Do_call_witness :
    (Invocation.walletGetBalance "sub_123").passesValidation = true ∧
    ∃ rec, (invoke (Client.recording (chimoney.Client.transport exampleRuntime
        (exampleClient 500 "oops"))) exampleContext (.walletGetBalance "sub_123")
        (0, [])).state.2 = [rec] ∧
      (invoke (Client.recording (chimoney.Client.transport exampleRuntime
        (exampleClient 500 "oops"))) exampleContext (.walletGetBalance "sub_123")
        (0, [])).isReturned = true ∧
      (invoke (Client.recording (chimoney.Client.transport exampleRuntime
        (exampleClient 500 "oops"))) exampleContext (.walletGetBalance "sub_123")
        (0, [])).error = rec.err ∧
      ((invoke (Client.recording (chimoney.Client.transport exampleRuntime
        (exampleClient 500 "oops"))) exampleContext (.walletGetBalance "sub_123")
        (0, [])).error = none ↔ rec.err = none) :=
  ⟨rfl, C4_method_returns_error_of_its_single_Do_call (chimoney.Client.transport exampleRuntime
    (exampleClient 500 "oops")) exampleContext (.walletGetBalance "sub_123") 0 rfl⟩

/-! ## Local validation -/

/-- A value above zero is not at most zero (NaN is neither). -/
theorem Float64.le_zero_eq_false_of_zero_lt (a : Float64) (h : Float64.lt Float64.zero a = true) :
    Float64.le a Float64.zero = false := by
  cases a with
  | nan => simp [Float64.lt, Float64.zero] at h
  | inf neg =>
    cases neg
    · simp [Float64.le, Float64.zero]
    · simp [Float64.lt, Float64.zero] at h
  | finite neg mant exp =>
    simp only [Float64.lt, Float64.zero, Float64.scaled, decide_eq_true_eq] at h
    simp only [Float64.le, Float64.zero, Float64.scaled, decide_eq_false_iff_not, not_le]
    rw [min_comm exp 0]
    simpa using h

/-- One call of `Do` on a recording double that started with an empty log. -/
theorem recording_Do_sentExactly {σ ρ : Type} [Destination ρ] (c : Client σ) (ctx : Context)
    (method path : String) (body : Body) (v : ρ) (params : Option (Map String)) (s : σ) :
    ∃ rec, rec.ctx = ctx ∧ rec.method = method ∧ rec.path = path ∧ rec.body = body ∧
      rec.params = params ∧
      ((Client.recording c).Do ctx method path body v params (s, [])).ret.sentExactly rec :=
  ⟨⟨ctx, method, path, body, params, (c.Do ctx method path body v params s).err⟩, rfl, rfl, rfl,
    rfl, rfl, rfl, rfl, rfl, by simp [DoResult.ret, Outcome.result, Client.recording]⟩

/-- C5: in the Account module an empty issueID, chiRef or transactionID makes the
method return a nil result with the matching sentinel without invoking `Do`,
whatever the subAccount; with a non-empty identifier `id` no validation error is
raised: `Do` is invoked once and the method returns the error of that call. -/
theorem C5_account_rejects_empty_identifiers {σ : Type} (c : Client σ) (ctx : Context)
    (subAccount id : String) (s : σ) :
    (account.New (Client.recording c)).GetTransactionsByIssueID ctx "" subAccount (s, []) =
        .returned none (some account.ErrInvalidIssueID) (s, []) ∧
    (account.New (Client.recording c)).Transfer ctx "" subAccount (s, []) =
        .returned none (some account.ErrInvalidChiRef) (s, []) ∧
    (account.New (Client.recording c)).DeleteUnpaidTransaction ctx "" subAccount (s, []) =
        .returned none (some account.ErrInvalidChiRef) (s, []) ∧
    (account.New (Client.recording c)).GetTransactionByID ctx "" subAccount (s, []) =
        .returned none (some account.ErrInvalidTransactionID) (s, []) ∧
    (id ≠ "" →
      (∃ rec, ((account.New (Client.recording c)).GetTransactionsByIssueID ctx id subAccount
        (s, [])).sentExactly rec) ∧
      (∃ rec, ((account.New (Client.recording c)).Transfer ctx id subAccount
        (s, [])).sentExactly rec) ∧
      (∃ rec, ((account.New (Client.recording c)).DeleteUnpaidTransaction ctx id subAccount
        (s, [])).sentExactly rec) ∧
      (∃ rec, ((account.New (Client.recording c)).GetTransactionByID ctx id subAccount
        (s, [])).sentExactly rec)) := by
  refine ⟨rfl, rfl, rfl, rfl, fun h => ⟨?_, ?_, ?_, ?_⟩⟩
  · simp only [Account.GetTransactionsByIssueID, account.New, if_neg h]
    exact (recording_Do_sentExactly c ctx _ _ _ _ _ s).imp (fun _ hr => hr.2.2.2.2.2)
  · simp only [Account.Transfer, account.New, if_neg h]
    exact (recording_Do_sentExactly c ctx _ _ _ _ _ s).imp (fun _ hr => hr.2.2.2.2.2)
  · simp only [Account.DeleteUnpaidTransaction, account.New, if_neg h]
    exact (recording_Do_sentExactly c ctx _ _ _ _ _ s).imp (fun _ hr => hr.2.2.2.2.2)
  · simp only [Account.GetTransactionByID, account.New, if_neg h]
    exact (recording_Do_sentExactly c ctx _ _ _ _ _ s).imp (fun _ hr => hr.2.2.2.2.2)

/-- C5 on a transport that accepts every call: the identifier `chi_123` gets
through all four methods, each making one call and returning a nil error. -/
theorem C5_account_rejects_empty_identifiers_witness :
    (∃ rec, ((account.New (Client.recording acceptingTransport)).GetTransactionsByIssueID
        exampleContext "chi_123" "" (0, [])).sentExactly rec) ∧
    (∃ rec, ((account.New (Client.recording acceptingTransport)).Transfer
        exampleContext "chi_123" "" (0, [])).sentExactly rec) ∧
    (∃ rec, ((account.New (Client.recording acceptingTransport)).DeleteUnpaidTransaction
        exampleContext "chi_123" "" (0, [])).sentExactly rec) ∧
    (∃ rec, ((account.New (Client.recording acceptingTransport)).GetTransactionByID
        exampleContext "chi_123" "" (0, [])).sentExactly rec) :=
  (C5_account_rejects_empty_identifiers acceptingTransport exampleContext "" "chi_123"
    0).2.2.2.2 (by decide)

/-- C6: `Info.GetLocalAmountInUSD` and `Info.GetUSDInLocalAmount` reject an empty
currency with ErrInvalidCurrency whatever the amount, then an amount `<= 0` with
ErrInvalidAmount, both without invoking `Do`; with a non-empty currency and an
amount `> 0` they invoke `Do` once with the body holding the currency and the
amount under originCurrency/amount, respectively destinationCurrency/amountInUSD. -/
theorem C6_info_conversions_validate_currency_then_amount {σ : Type} (c : Client σ)
    (ctx : Context) (currency : String) (amount : Float64) (s : σ) :
    (currency = "" →
      (info.New (Client.recording c)).GetLocalAmountInUSD ctx currency amount (s, []) =
        .returned none (some info.ErrInvalidCurrency) (s, []) ∧
      (info.New (Client.recording c)).GetUSDInLocalAmount ctx currency amount (s, []) =
        .returned none (some info.ErrInvalidCurrency) (s, [])) ∧
    (currency ≠ "" → Float64.le amount Float64.zero = true →
      (info.New (Client.recording c)).GetLocalAmountInUSD ctx currency amount (s, []) =
        .returned none (some info.ErrInvalidAmount) (s, []) ∧
      (info.New (Client.recording c)).GetUSDInLocalAmount ctx currency amount (s, []) =
        .returned none (some info.ErrInvalidAmount) (s, [])) ∧
    (currency ≠ "" → Float64.lt Float64.zero amount = true →
      (∃ rec, rec.body = .anyMap [("originCurrency", .str currency), ("amount", .float amount)] ∧
        ((info.New (Client.recording c)).GetLocalAmountInUSD ctx currency amount
          (s, [])).sentExactly rec) ∧
      (∃ rec, rec.body =
          .anyMap [("destinationCurrency", .str currency), ("amountInUSD", .float amount)] ∧
        ((info.New (Client.recording c)).GetUSDInLocalAmount ctx currency amount
          (s, [])).sentExactly rec)) := by
  refine ⟨fun h => ?_, fun h hle => ?_, fun h hlt => ?_⟩
  · simp [Info.GetLocalAmountInUSD, Info.GetUSDInLocalAmount, h]
  · simp [Info.GetLocalAmountInUSD, Info.GetUSDInLocalAmount, h, hle]
  · have hle := Float64.le_zero_eq_false_of_zero_lt amount hlt
    constructor
    · simp only [Info.GetLocalAmountInUSD, info.New, if_neg h, hle, Bool.false_eq_true, if_false]
      exact (recording_Do_sentExactly c ctx _ _ _ _ _ s).imp
        (fun _ hr => ⟨hr.2.2.2.1, hr.2.2.2.2.2⟩)
    · simp only [Info.GetUSDInLocalAmount, info.New, if_neg h, hle, Bool.false_eq_true, if_false]
      exact (recording_Do_sentExactly c ctx _ _ _ _ _ s).imp
        (fun _ hr => ⟨hr.2.2.2.1, hr.2.2.2.2.2⟩)

/-- C6 on the currency NGN: the amount 1000 is sent, the amount 0 is rejected. -/
theorem C6_info_conversions_validate_currency_then_amount_witness :
    ((info.New (Client.recording acceptingTransport)).GetLocalAmountInUSD exampleContext "NGN"
        Float64.zero (0, []) = .returned none (some info.ErrInvalidAmount) (0, []) ∧
      (info.New (Client.recording acceptingTransport)).GetUSDInLocalAmount exampleContext "NGN"
        Float64.zero (0, []) = .returned none (some info.ErrInvalidAmount) (0, [])) ∧
    ((∃ rec, rec.body =
          .anyMap [("originCurrency", .str "NGN"), ("amount", .float (Float64.ofNat 1000))] ∧
        ((info.New (Client.recording acceptingTransport)).GetLocalAmountInUSD exampleContext "NGN"
          (Float64.ofNat 1000) (0, [])).sentExactly rec) ∧
      (∃ rec, rec.body = .anyMap [("destinationCurrency", .str "NGN"),
          ("amountInUSD", .float (Float64.ofNat 1000))] ∧
        ((info.New (Client.recording acceptingTransport)).GetUSDInLocalAmount exampleContext "NGN"
          (Float64.ofNat 1000) (0, [])).sentExactly rec)) :=
  ⟨(C6_info_conversions_validate_currency_then_amount acceptingTransport exampleContext "NGN"
      Float64.zero 0).2.1 (by decide) (by decide),
    (C6_info_conversions_validate_currency_then_amount acceptingTransport exampleContext "NGN"
      (Float64.ofNat 1000) 0).2.2 (by decide) (by decide)⟩

/-- C7: in the Redeem module an empty chiRef makes Airtime, Any, GiftCard,
MobileMoney and GetChimoney return a nil result with ErrInvalidChiRef, whatever
the other fields (so the chiRef check comes first); with a non-empty chiRef an
empty RedeemData list (Any) or RedeemOptions map (GiftCard, MobileMoney), and for
Chimoney an empty chimoneys list, give ErrInvalidRedeemData; `Do` is never invoked. -/
theorem C7_redeem_rejects_empty_reference_and_data {σ : Type} (c : Client σ) (ctx : Context)
    (qa : AirtimeRedeemRequest) (qn : AnyRedeemRequest) (qg : GiftCardRedeemRequest)
    (qm : MobileMoneyRedeemRequest) (chimoneys : Option (List (Option (Map Any))))
    (subAccount : String) (s : σ) :
    (qa.ChiRef = "" → (redeem.New (Client.recording c)).Airtime ctx (some qa) (s, []) =
      .returned none (some redeem.ErrInvalidChiRef) (s, [])) ∧
    (qn.ChiRef = "" → (redeem.New (Client.recording c)).Any ctx (some qn) (s, []) =
      .returned none (some redeem.ErrInvalidChiRef) (s, [])) ∧
    (qg.ChiRef = "" → (redeem.New (Client.recording c)).GiftCard ctx (some qg) (s, []) =
      .returned none (some redeem.ErrInvalidChiRef) (s, [])) ∧
    (qm.ChiRef = "" → (redeem.New (Client.recording c)).MobileMoney ctx (some qm) (s, []) =
      .returned none (some redeem.ErrInvalidChiRef) (s, [])) ∧
    ((redeem.New (Client.recording c)).GetChimoney ctx "" subAccount (s, []) =
      .returned none (some redeem.ErrInvalidChiRef) (s, [])) ∧
    (qn.ChiRef ≠ "" → len qn.RedeemData = 0 →
      (redeem.New (Client.recording c)).Any ctx (some qn) (s, []) =
        .returned none (some redeem.ErrInvalidRedeemData) (s, [])) ∧
    (qg.ChiRef ≠ "" → len qg.RedeemOptions = 0 →
      (redeem.New (Client.recording c)).GiftCard ctx (some qg) (s, []) =
        .returned none (some redeem.ErrInvalidRedeemData) (s, [])) ∧
    (qm.ChiRef ≠ "" → len qm.RedeemOptions = 0 →
      (redeem.New (Client.recording c)).MobileMoney ctx (some qm) (s, []) =
        .returned none (some redeem.ErrInvalidRedeemData) (s, [])) ∧
    (len chimoneys = 0 →
      (redeem.New (Client.recording c)).Chimoney ctx chimoneys subAccount (s, []) =
        .returned none (some redeem.ErrInvalidRedeemData) (s, [])) := by
  refine ⟨fun h => ?_, fun h => ?_, fun h => ?_, fun h => ?_, rfl, fun h hl => ?_,
    fun h hl => ?_, fun h hl => ?_, fun hl => ?_⟩
  · simp [Redeem.Airtime, h]
  · simp [Redeem.Any, h]
  · simp [Redeem.GiftCard, h]
  · simp [Redeem.MobileMoney, h]
  · simp [Redeem.Any, h, hl]
  · simp [Redeem.GiftCard, h, hl]
  · simp [Redeem.MobileMoney, h, hl]
  · simp [Redeem.Chimoney, hl]

/-- C7 on concrete requests: an Any request with an empty chiRef and no redeem
data is rejected for its chiRef; with the chiRef `chi_123` and a nil or empty
collection the redeem data is rejected. -/
theorem C7_redeem_rejects_empty_reference_and_data_witness :
    (redeem.New (Client.recording acceptingTransport)).Any exampleContext
        (some ⟨"", some [], none, ""⟩) (0, []) =
      .returned none (some redeem.ErrInvalidChiRef) (0, []) ∧
    (redeem.New (Client.recording acceptingTransport)).Any exampleContext
        (some ⟨"chi_123", some [], none, ""⟩) (0, []) =
      .returned none (some redeem.ErrInvalidRedeemData) (0, []) ∧
    (redeem.New (Client.recording acceptingTransport)).GiftCard exampleContext
        (some ⟨"chi_123", none, ""⟩) (0, []) =
      .returned none (some redeem.ErrInvalidRedeemData) (0, []) ∧
    (redeem.New (Client.recording acceptingTransport)).Chimoney exampleContext (some []) ""
        (0, []) =
      .returned none (some redeem.ErrInvalidRedeemData) (0, []) :=
  ⟨(C7_redeem_rejects_empty_reference_and_data acceptingTransport exampleContext
      ⟨"", "", "", none, ""⟩ ⟨"", some [], none, ""⟩ ⟨"", none, ""⟩ ⟨"", none, ""⟩ (some []) ""
      0).2.1 rfl,
    (C7_redeem_rejects_empty_reference_and_data acceptingTransport exampleContext
      ⟨"", "", "", none, ""⟩ ⟨"chi_123", some [], none, ""⟩ ⟨"chi_123", none, ""⟩
      ⟨"chi_123", none, ""⟩ (some []) "" 0).2.2.2.2.2.1 (by decide) rfl,
    (C7_redeem_rejects_empty_reference_and_data acceptingTransport exampleContext
      ⟨"", "", "", none, ""⟩ ⟨"chi_123", some [], none, ""⟩ ⟨"chi_123", none, ""⟩
      ⟨"chi_123", none, ""⟩ (some []) "" 0).2.2.2.2.2.2.1 (by decide) rfl,
    (C7_redeem_rejects_empty_reference_and_data acceptingTransport exampleContext
      ⟨"", "", "", none, ""⟩ ⟨"chi_123", some [], none, ""⟩ ⟨"chi_123", none, ""⟩
      ⟨"chi_123", none, ""⟩ (some []) "" 0).2.2.2.2.2.2.2.2 rfl⟩

/-! ## Inputs the modules do not validate -/

/-- C8, as stated, fails: with an empty list (and with a nil one) `Payouts.Airtime`
and `Payouts.Bank` send the request; against a server answering 200 they return
a non-nil result and a nil error, and the server has received one request. -/
theorem C8_counterexample_empty_payout_list_is_sent :
    (payouts.New (chimoney.Client.transport exampleRuntime (exampleClient 200 "ok"))).Airtime
        exampleContext (some []) "" 0 = .returned (some PayoutResponse.zero) none 1 ∧
    (payouts.New (chimoney.Client.transport exampleRuntime (exampleClient 200 "ok"))).Bank
        exampleContext (some []) "" 0 = .returned (some PayoutResponse.zero) none 1 ∧
    (payouts.New (chimoney.Client.transport exampleRuntime (exampleClient 200 "ok"))).Airtime
        exampleContext none "" 0 = .returned (some PayoutResponse.zero) none 1 := by
  exact ⟨rfl, rfl, rfl⟩

/-- C8, amended: `Payouts.Airtime`, `Bank`, `Chimoney` and `GiftCard` validate
nothing locally: for every list, the empty and the nil one included, and every
subAccount, each invokes `Do` exactly once, with POST on its own path, and
returns the error of that call. -/
theorem C8_payouts_send_every_list {σ : Type} (c : Client σ) (ctx : Context)
    (airtimes : Option (List AirtimePayload)) (banks : Option (List BankPayload))
    (chimoneys : Option (List ChimoneyPayload)) (giftCards : Option (List GiftCardPayload))
    (subAccount : String) (s : σ) :
    (∃ rec, rec.method = "POST" ∧ rec.path = "/payouts/airtime" ∧
      ((payouts.New (Client.recording c)).Airtime ctx airtimes subAccount
        (s, [])).sentExactly rec) ∧
    (∃ rec, rec.method = "POST" ∧ rec.path = "/payouts/bank" ∧
      ((payouts.New (Client.recording c)).Bank ctx banks subAccount (s, [])).sentExactly rec) ∧
    (∃ rec, rec.method = "POST" ∧ rec.path = "/payouts/chimoney" ∧
      ((payouts.New (Client.recording c)).Chimoney ctx chimoneys subAccount
        (s, [])).sentExactly rec) ∧
    (∃ rec, rec.method = "POST" ∧ rec.path = "/payouts/gift-card" ∧
      ((payouts.New (Client.recording c)).GiftCard ctx giftCards subAccount
        (s, [])).sentExactly rec) := by
  refine ⟨?_, ?_, ?_, ?_⟩
  · simp only [Payouts.Airtime, payouts.New]
    exact (recording_Do_sentExactly c ctx _ _ _ _ _ s).imp
      (fun _ hr => ⟨hr.2.1, hr.2.2.1, hr.2.2.2.2.2⟩)
  · simp only [Payouts.Bank, payouts.New]
    exact (recording_Do_sentExactly c ctx _ _ _ _ _ s).imp
      (fun _ hr => ⟨hr.2.1, hr.2.2.1, hr.2.2.2.2.2⟩)
  · simp only [Payouts.Chimoney, payouts.New]
    exact (recording_Do_sentExactly c ctx _ _ _ _ _ s).imp
      (fun _ hr => ⟨hr.2.1, hr.2.2.1, hr.2.2.2.2.2⟩)
  · simp only [Payouts.GiftCard, payouts.New]
    exact (recording_Do_sentExactly c ctx _ _ _ _ _ s).imp
      (fun _ hr => ⟨hr.2.1, hr.2.2.1, hr.2.2.2.2.2⟩)

/-- C9, as stated, fails: `Redeem.Airtime` with the chiRef `chi_123` and an empty
phoneNumber and countryToSend, and `SubAccount.Create` with an empty name and
email, send the request; against a server answering 200 they return a nil error,
and the server has received one request. -/
theorem C9_counterexample_empty_required_strings_are_sent :
    (redeem.New (chimoney.Client.transport exampleRuntime (exampleClient 200 "ok"))).Airtime
        exampleContext (some ⟨"chi_123", "", "", none, ""⟩) 0 =
      .returned (some RedeemResponse.zero) none 1 ∧
    (subaccount.New (chimoney.Client.transport exampleRuntime (exampleClient 200 "ok"))).Create
        exampleContext (some ⟨"", "", ""⟩) 0 =
      .returned (some SubAccountResponse.zero) none 1 := by
  exact ⟨rfl, rfl⟩

/-- C9, amended: `Redeem.Airtime` validates only the chiRef and `SubAccount.Create`
validates nothing: with a non-empty chiRef, whatever the phoneNumber and the
countryToSend, respectively for every request record, the method invokes `Do`
exactly once with the request as body and returns the error of that call. -/
theorem C9_airtime_and_create_send_empty_strings {σ : Type} (c : Client σ) (ctx : Context)
    (q : AirtimeRedeemRequest) (req : Option CreateRequest) (s : σ) (h : q.ChiRef ≠ "") :
    (∃ rec, rec.body = .airtimeRedeem (some q) ∧
      ((redeem.New (Client.recording c)).Airtime ctx (some q) (s, [])).sentExactly rec) ∧
    (∃ rec, rec.body = .create req ∧
      ((subaccount.New (Client.recording c)).Create ctx req (s, [])).sentExactly rec) := by
  constructor
  · simp only [Redeem.Airtime, redeem.New, if_neg h]
    exact (recording_Do_sentExactly c ctx _ _ _ _ _ s).imp
      (fun _ hr => ⟨hr.2.2.2.1, hr.2.2.2.2.2⟩)
  · simp only [SubAccount.Create, subaccount.New]
    exact (recording_Do_sentExactly c ctx _ _ _ _ _ s).imp
      (fun _ hr => ⟨hr.2.2.2.1, hr.2.2.2.2.2⟩)

/-- C9, amended, on the chiRef `chi_123` with empty phoneNumber, countryToSend,
name and email. -/
theorem C9_airtime_and_create_send_empty_strings_witness :
    (∃ rec, rec.body = .airtimeRedeem (some ⟨"chi_123", "", "", none, ""⟩) ∧
      ((redeem.New (Client.recording acceptingTransport)).Airtime exampleContext
        (some ⟨"chi_123", "", "", none, ""⟩) (0, [])).sentExactly rec) ∧
    (∃ rec, rec.body = .create (some ⟨"", "", ""⟩) ∧
      ((subaccount.New (Client.recording acceptingTransport)).Create exampleContext
        (some ⟨"", "", ""⟩) (0, [])).sentExactly rec) :=
  C9_airtime_and_create_send_empty_strings acceptingTransport exampleContext
    ⟨"chi_123", "", "", none, ""⟩ (some ⟨"", "", ""⟩) 0 (by decide)

/-- C10, as stated, fails: `Payouts.Status` with an empty chiRef sends the request;
against a server answering 200 it returns a nil error, and the server has
received one request. -/
theorem C10_counterexample_status_with_empty_reference_is_sent :
    (payouts.New (chimoney.Client.transport exampleRuntime (exampleClient 200 "ok"))).Status
        exampleContext "" "" 0 = .returned (some PayoutResponse.zero) none 1 := by
  rfl

/-- C10, amended: `Payouts.Status` validates nothing locally: for every chiRef, the
empty one included, and every subAccount it invokes `Do` exactly once, with POST
on /payouts/status, and returns the error of that call. -/
theorem C10_status_sends_every_reference {σ : Type} (c : Client σ) (ctx : Context)
    (chiRef subAccount : String) (s : σ) :
    ∃ rec, rec.method = "POST" ∧ rec.path = "/payouts/status" ∧
      ((payouts.New (Client.recording c)).Status ctx chiRef subAccount (s, [])).sentExactly rec := by
  simp only [Payouts.Status, payouts.New]
  exact (recording_Do_sentExactly c ctx _ _ _ _ _ s).imp
    (fun _ hr => ⟨hr.2.1, hr.2.2.1, hr.2.2.2.2.2⟩)

/-! ## What the modules hand to the transport -/

/-- Reading a key in a map whose entries under `k` were replaced. -/
theorem Map.lookup_map_replace {α : Type} (m : Map α) (k k1 : String) (v : α) :
    Map.lookup (m.map (fun e => if e.1 == k then (k, v) else e)) k1 =
      if k = k1 then (if m.any (fun e => e.1 == k) then some v else none)
      else Map.lookup m k1 := by
  induction m with
  | nil => simp [Map.lookup]
  | cons e m ih =>
    simp only [beq_iff_eq] at ih
    by_cases hk : k = k1
    · subst hk
      by_cases he : e.1 = k
      · simp [Map.lookup, he]
      · have hb : (e.1 == k) = false := by simpa using he
        simp [Map.lookup, he, ih]
        rw [hb, Bool.false_or]
    · by_cases he : e.1 = k
      · have : ¬ e.1 = k1 := fun h => hk (he.symm.trans h)
        simp [Map.lookup, he, hk, ih, this]
      · simp [Map.lookup, he, hk, ih]

/-- Reading a key in a map extended at its end. -/
theorem Map.lookup_append_single {α : Type} (m : Map α) (k k1 : String) (v : α) :
    Map.lookup (m ++ [(k, v)]) k1 =
      match Map.lookup m k1 with
      | some w => some w
      | none => if k = k1 then some v else none := by
  induction m with
  | nil => simp [Map.lookup]
  | cons e m ih =>
    by_cases he : e.1 = k1
    · simp [Map.lookup, he]
    · simp [Map.lookup, he, ih]

/-- A key that no entry carries reads as absent. -/
theorem Map.lookup_eq_none_of_not_any {α : Type} (m : Map α) (k : String)
    (h : ¬ m.any (fun e => e.1 == k) = true) : Map.lookup m k = none := by
  induction m with
  | nil => rfl
  | cons e m ih =>
    simp only [List.any_cons, Bool.or_eq_true, not_or, beq_iff_eq] at h
    simp [Map.lookup, h.1, ih h.2]

/-- Reading a key of a map right after an assignment `m[k] = v`. -/
theorem Map.lookup_set {α : Type} (m : Map α) (k k1 : String) (v : α) :
    Map.lookup (Map.set m k v) k1 = if k = k1 then some v else Map.lookup m k1 := by
  unfold Map.set
  by_cases hany : m.any (fun e => e.1 == k) = true
  · rw [if_pos hany, Map.lookup_map_replace, hany]
    simp
  · rw [if_neg hany, Map.lookup_append_single]
    by_cases hk : k = k1
    · subst hk
      simp [Map.lookup_eq_none_of_not_any m k hany]
    · simp only [hk, if_false]
      cases Map.lookup m k1 <;> rfl

/-- C11: `Wallet.Details` with an empty id, `Wallet.Transfer` with an empty receiver
and `SubAccount.Delete` with an empty id return a nil result with their sentinel
without invoking `Do`; with a non-empty identifier each makes exactly one `Do`
call whose body is a map carrying the identifier under the key id (receiver for
`Wallet.Transfer`). -/
theorem C11_wallet_and_subaccount_identifiers {σ : Type} (c : Client σ) (ctx : Context)
    (id subAccount walletType : String) (s : σ) :
    (wallet.New (Client.recording c)).Details ctx "" subAccount (s, []) =
        .returned none (some wallet.ErrInvalidID) (s, []) ∧
    (wallet.New (Client.recording c)).Transfer ctx "" walletType (s, []) =
        .returned none (some wallet.ErrInvalidReceiver) (s, []) ∧
    (subaccount.New (Client.recording c)).Delete ctx "" (s, []) =
        .returned none (some subaccount.ErrInvalidID) (s, []) ∧
    (id ≠ "" →
      (∃ rec m, rec.body = .strMap m ∧ Map.lookup m "id" = some id ∧
        ((wallet.New (Client.recording c)).Details ctx id subAccount (s, [])).sentExactly rec) ∧
      (∃ rec m, rec.body = .strMap m ∧ Map.lookup m "receiver" = some id ∧
        ((wallet.New (Client.recording c)).Transfer ctx id walletType (s, [])).sentExactly rec) ∧
      (∃ rec m, rec.body = .strMap m ∧ Map.lookup m "id" = some id ∧
        ((subaccount.New (Client.recording c)).Delete ctx id (s, [])).sentExactly rec)) := by
  refine ⟨rfl, rfl, rfl, fun h => ⟨?_, ?_, ?_⟩⟩
  · simp only [Wallet.Details, wallet.New, if_neg h]
    obtain ⟨rec, -, -, -, hb, -, hs⟩ := recording_Do_sentExactly c ctx "POST" "/wallets/lookup"
      (.strMap (if subAccount ≠ "" then Map.set [("id", id)] "subAccount" subAccount
        else [("id", id)])) WalletResponse.zero none s
    refine ⟨rec, _, hb, ?_, hs⟩
    split_ifs
    · rw [Map.lookup_set]
      simp [Map.lookup]
    · simp [Map.lookup]
  · simp only [Wallet.Transfer, wallet.New, if_neg h]
    obtain ⟨rec, -, -, -, hb, -, hs⟩ := recording_Do_sentExactly c ctx "POST" "/wallets/transfer"
      (.strMap [("receiver", id), ("wallet", walletType)]) WalletResponse.zero none s
    exact ⟨rec, _, hb, by simp [Map.lookup], hs⟩
  · simp only [SubAccount.Delete, subaccount.New, if_neg h]
    obtain ⟨rec, -, -, -, hb, -, hs⟩ := recording_Do_sentExactly c ctx "DELETE" "/sub-account"
      (.strMap [("id", id)]) SubAccountResponse.zero none s
    exact ⟨rec, _, hb, by simp [Map.lookup], hs⟩

/-- C11 on the identifier `wal_123`, against a transport that accepts every call. -/
theorem C11_wallet_and_subaccount_identifiers_witness :
    (∃ rec m, rec.body = .strMap m ∧ Map.lookup m "id" = some "wal_123" ∧
      ((wallet.New (Client.recording acceptingTransport)).Details exampleContext "wal_123"
        "sub_123" (0, [])).sentExactly rec) ∧
    (∃ rec m, rec.body = .strMap m ∧ Map.lookup m "receiver" = some "wal_123" ∧
      ((wallet.New (Client.recording acceptingTransport)).Transfer exampleContext "wal_123"
        "chi" (0, [])).sentExactly rec) ∧
    (∃ rec m, rec.body = .strMap m ∧ Map.lookup m "id" = some "wal_123" ∧
      ((subaccount.New (Client.recording acceptingTransport)).Delete exampleContext "wal_123"
        (0, [])).sentExactly rec) :=
  (C11_wallet_and_subaccount_identifiers acceptingTransport exampleContext "wal_123" "sub_123"
    "chi" 0).2.2.2 (by decide)

/-- C13: each operation of the endpoint table, on every input that passes its
validation, makes its single `Do` call with exactly the method and path of the
table, whatever the input values. -/
theorem C13_methods_and_paths_of_the_endpoint_table {σ : Type} (c : Client σ) (ctx : Context)
    (id subAccount currency countryCode : String) (amount : Float64)
    (airtimes : Option (List AirtimePayload)) (banks : Option (List BankPayload))
    (q : AirtimeRedeemRequest) (req : Option CreateRequest) (s : σ)
    (hid : id ≠ "") (hcur : currency ≠ "") (hamt : Float64.lt Float64.zero amount = true)
    (hq : q.ChiRef ≠ "") :
    (∃ rec, rec.method = "POST" ∧ rec.path = "/accounts/issue-id-transactions" ∧
      ((account.New (Client.recording c)).GetTransactionsByIssueID ctx id subAccount
        (s, [])).sentExactly rec) ∧
    (∃ rec, rec.method = "POST" ∧ rec.path = "/accounts/transactions" ∧
      ((account.New (Client.recording c)).GetAllTransactions ctx subAccount
        (s, [])).sentExactly rec) ∧
    (∃ rec, rec.method = "POST" ∧ rec.path = "/accounts/transfer" ∧
      ((account.New (Client.recording c)).Transfer ctx id subAccount (s, [])).sentExactly rec) ∧
    (∃ rec, rec.method = "DELETE" ∧ rec.path = "/accounts/delete-unpaid" ∧
      ((account.New (Client.recording c)).DeleteUnpaidTransaction ctx id subAccount
        (s, [])).sentExactly rec) ∧
    (∃ rec, rec.method = "GET" ∧ rec.path = "/info/assets" ∧
      ((info.New (Client.recording c)).GetSupportedAssets ctx (s, [])).sentExactly rec) ∧
    (∃ rec, rec.method = "GET" ∧ rec.path = "/info/country-banks" ∧
      ((info.New (Client.recording c)).GetBanks ctx countryCode (s, [])).sentExactly rec) ∧
    (∃ rec, rec.method = "POST" ∧ rec.path = "/info/local-amount-in-usd" ∧
      ((info.New (Client.recording c)).GetLocalAmountInUSD ctx currency amount
        (s, [])).sentExactly rec) ∧
    (∃ rec, rec.method = "POST" ∧ rec.path = "/payouts/airtime" ∧
      ((payouts.New (Client.recording c)).Airtime ctx airtimes subAccount
        (s, [])).sentExactly rec) ∧
    (∃ rec, rec.method = "POST" ∧ rec.path = "/payouts/bank" ∧
      ((payouts.New (Client.recording c)).Bank ctx banks subAccount (s, [])).sentExactly rec) ∧
    (∃ rec, rec.method = "POST" ∧ rec.path = "/redeem/airtime" ∧
      ((redeem.New (Client.recording c)).Airtime ctx (some q) (s, [])).sentExactly rec) ∧
    (∃ rec, rec.method = "POST" ∧ rec.path = "/wallet/balance" ∧
      ((wallet.New (Client.recording c)).GetBalance ctx subAccount (s, [])).sentExactly rec) ∧
    (∃ rec, rec.method = "POST" ∧ rec.path = "/sub-account" ∧
      ((subaccount.New (Client.recording c)).Create ctx req (s, [])).sentExactly rec) := by
  have hle := Float64.le_zero_eq_false_of_zero_lt amount hamt
  refine ⟨?_, ?_, ?_, ?_, ?_, ?_, ?_, ?_, ?_, ?_, ?_, ?_⟩
  · simp only [Account.GetTransactionsByIssueID, account.New, if_neg hid]
    exact (recording_Do_sentExactly c ctx _ _ _ _ _ s).imp
      (fun _ hr => ⟨hr.2.1, hr.2.2.1, hr.2.2.2.2.2⟩)
  · simp only [Account.GetAllTransactions, account.New]
    exact (recording_Do_sentExactly c ctx _ _ _ _ _ s).imp
      (fun _ hr => ⟨hr.2.1, hr.2.2.1, hr.2.2.2.2.2⟩)
  · simp only [Account.Transfer, account.New, if_neg hid]
    exact (recording_Do_sentExactly c ctx _ _ _ _ _ s).imp
      (fun _ hr => ⟨hr.2.1, hr.2.2.1, hr.2.2.2.2.2⟩)
  · simp only [Account.DeleteUnpaidTransaction, account.New, if_neg hid]
    exact (recording_Do_sentExactly c ctx _ _ _ _ _ s).imp
      (fun _ hr => ⟨hr.2.1, hr.2.2.1, hr.2.2.2.2.2⟩)
  · simp only [Info.GetSupportedAssets, info.New]
    exact (recording_Do_sentExactly c ctx _ _ _ _ _ s).imp
      (fun _ hr => ⟨hr.2.1, hr.2.2.1, hr.2.2.2.2.2⟩)
  · simp only [Info.GetBanks, info.New]
    exact (recording_Do_sentExactly c ctx _ _ _ _ _ s).imp
      (fun _ hr => ⟨hr.2.1, hr.2.2.1, hr.2.2.2.2.2⟩)
  · simp only [Info.GetLocalAmountInUSD, info.New, if_neg hcur, hle, Bool.false_eq_true,
      if_false]
    exact (recording_Do_sentExactly c ctx _ _ _ _ _ s).imp
      (fun _ hr => ⟨hr.2.1, hr.2.2.1, hr.2.2.2.2.2⟩)
  · simp only [Payouts.Airtime, payouts.New]
    exact (recording_Do_sentExactly c ctx _ _ _ _ _ s).imp
      (fun _ hr => ⟨hr.2.1, hr.2.2.1, hr.2.2.2.2.2⟩)
  · simp only [Payouts.Bank, payouts.New]
    exact (recording_Do_sentExactly c ctx _ _ _ _ _ s).imp
      (fun _ hr => ⟨hr.2.1, hr.2.2.1, hr.2.2.2.2.2⟩)
  · simp only [Redeem.Airtime, redeem.New, if_neg hq]
    exact (recording_Do_sentExactly c ctx _ _ _ _ _ s).imp
      (fun _ hr => ⟨hr.2.1, hr.2.2.1, hr.2.2.2.2.2⟩)
  · simp only [Wallet.GetBalance, wallet.New]
    exact (recording_Do_sentExactly c ctx _ _ _ _ _ s).imp
      (fun _ hr => ⟨hr.2.1, hr.2.2.1, hr.2.2.2.2.2⟩)
  · simp only [SubAccount.Create, subaccount.New]
    exact (recording_Do_sentExactly c ctx _ _ _ _ _ s).imp
      (fun _ hr => ⟨hr.2.1, hr.2.2.1, hr.2.2.2.2.2⟩)

/-- C13 on one set of inputs, against a transport that accepts every call. -/
theorem C13_methods_and_paths_of_the_endpoint_table_witness :
    (∃ rec, rec.method = "DELETE" ∧ rec.path = "/accounts/delete-unpaid" ∧
      ((account.New (Client.recording acceptingTransport)).DeleteUnpaidTransaction exampleContext
        "chi_123" "sub_123" (0, [])).sentExactly rec) ∧
    (∃ rec, rec.method = "GET" ∧ rec.path = "/info/country-banks" ∧
      ((info.New (Client.recording acceptingTransport)).GetBanks exampleContext "GH"
        (0, [])).sentExactly rec) ∧
    (∃ rec, rec.method = "POST" ∧ rec.path = "/info/local-amount-in-usd" ∧
      ((info.New (Client.recording acceptingTransport)).GetLocalAmountInUSD exampleContext "NGN"
        (Float64.ofNat 1000) (0, [])).sentExactly rec) ∧
    (∃ rec, rec.method = "POST" ∧ rec.path = "/wallet/balance" ∧
      ((wallet.New (Client.recording acceptingTransport)).GetBalance exampleContext "sub_123"
        (0, [])).sentExactly rec) :=
  have h := C13_methods_and_paths_of_the_endpoint_table acceptingTransport exampleContext
    "chi_123" "sub_123" "NGN" "GH" (Float64.ofNat 1000) (some []) none
    ⟨"chi_123", "+2348123456789", "NG", none, ""⟩ none 0 (by decide) (by decide) (by decide)
    (by decide)
  ⟨h.2.2.2.1, h.2.2.2.2.2.1, h.2.2.2.2.2.2.1, h.2.2.2.2.2.2.2.2.2.2.1⟩

/-! ## The serialised request body -/

/-- The order of strings is reflexive. -/
theorem lexLE_refl (a : List Char) : lexLE a a = true := by
  induction a with
  | nil => rfl
  | cons c cs ih => simp [lexLE, ih]

/-- Reading a key after a sorted insertion. -/
theorem Map.lookup_insertSorted {α : Type} (e : String × α) (m : Map α) (k : String) :
    Map.lookup (Map.insertSorted e m) k = if e.1 = k then some e.2 else Map.lookup m k := by
  induction m with
  | nil => simp [Map.insertSorted, Map.lookup]
  | cons x m ih =>
    unfold Map.insertSorted
    by_cases hle : lexLE e.1.toList x.1.toList = true
    · rw [if_pos hle]
      simp [Map.lookup]
    · rw [if_neg hle]
      have hne : x.1 ≠ e.1 := fun h => hle (h ▸ lexLE_refl _)
      by_cases hx : x.1 = k
      · have : ¬ e.1 = k := fun h => hne (hx.trans h.symm)
        simp [Map.lookup, hx, this]
      · simp [Map.lookup, hx, ih]

/-- Sorting a map by key does not change what is read under a key. -/
theorem Map.lookup_sortByKey {α : Type} (m : Map α) (k : String) :
    Map.lookup (Map.sortByKey m) k = Map.lookup m k := by
  induction m with
  | nil => rfl
  | cons e m ih =>
    have : Map.sortByKey (e :: m) = Map.insertSorted e (Map.sortByKey m) := rfl
    rw [this, Map.lookup_insertSorted, ih]
    simp [Map.lookup]

/-- Reading a key in a map whose values were converted. -/
theorem Map.lookup_map_value {α β : Type} (f : α → β) (m : Map α) (k : String) :
    Map.lookup (m.map (fun e => (e.1, f e.2))) k = (Map.lookup m k).map f := by
  induction m with
  | nil => rfl
  | cons e m ih =>
    by_cases h : e.1 = k
    · simp [Map.lookup, h]
    · simp [Map.lookup, h, ih]

/-- The member of a serialised `map[string]string` body under a key. -/
theorem member_strMap (m : Map String) (k : String) :
    JSON.member (Body.toJSON (.strMap m)) k = (Map.lookup m k).map JSON.string := by
  simp only [Body.toJSON, JSON.member, Map.lookup_sortByKey]
  exact Map.lookup_map_value JSON.string m k

/-- The member of a serialised `map[string]interface{}` body under a key. -/
theorem member_anyMap (m : Map Value) (k : String) :
    JSON.member (Body.toJSON (.anyMap m)) k = (Map.lookup m k).map Value.toJSON := by
  simp only [Body.toJSON, JSON.member, Map.lookup_sortByKey]
  exact Map.lookup_map_value Value.toJSON m k

/-- The body a validated call hands to `Do` holds the member subAccount exactly
when the sub-account value of the call is not empty. -/
theorem invoke_body_subAccount {σ : Type} (c : Client σ) (ctx : Context) (inv : Invocation)
    (s : σ) (sub : String) (hv : inv.passesValidation = true)
    (hs : inv.subAccount = some sub) :
    ∃ rec, (invoke (Client.recording c) ctx inv (s, [])).state.2 = [rec] ∧
      JSON.member (Body.toJSON rec.body) "subAccount" =
        if sub = "" then none else some (.string sub) := by
  cases inv <;>
    simp only [Invocation.subAccount, Option.some.injEq, reduceCtorEq, Option.map_eq_some'] at hs <;>
    simp only [Invocation.passesValidation] at hv <;>
    (try split at hv) <;>
    (try simp at hv) <;>
    simp [invoke, hv, Outcome.map, account.New, info.New, redeem.New, subaccount.New, wallet.New,
      payouts.New, mobilemoney.New, DoResult.ret, Client.recording, Outcome.state,
      Account.GetTransactionsByIssueID, Account.Transfer, Account.DeleteUnpaidTransaction,
      Account.GetTransactionByID, Account.GetAllTransactions, Info.GetLocalAmountInUSD,
      Info.GetUSDInLocalAmount, Info.GetSupportedAssets, Info.GetAirtimeCountries, Info.GetBanks,
      Info.GetMobileMoneyCodes, MobileMoney.MakePayment, MobileMoney.VerifyPayment,
      MobileMoney.GetAllTransactions, Payouts.Airtime, Payouts.Bank, Payouts.Chimoney,
      Payouts.GiftCard, Payouts.Status, Payouts.InitiateChimoney, Redeem.Airtime, Redeem.Any,
      Redeem.Chimoney, Redeem.GetChimoney, Redeem.GiftCard, Redeem.MobileMoney,
      SubAccount.Delete, SubAccount.Create, SubAccount.List, Wallet.Details, Wallet.Transfer,
      Wallet.List, Wallet.GetBalance]
  all_goals
    first
    | (subst hs
       simp only [member_strMap, member_anyMap]
       split_ifs <;> simp_all [Map.lookup_set, Map.lookup, Value.toJSON])
    | (obtain ⟨a, rfl, rfl⟩ := hs
       simp [Body.toJSON, json.pointer, PaymentRequest.toJSON, AirtimeRedeemRequest.toJSON,
         AnyRedeemRequest.toJSON, GiftCardRedeemRequest.toJSON, MobileMoneyRedeemRequest.toJSON,
         JSON.member, Map.lookup, json.omitEmptyString, json.omitEmptyMap]
       split_ifs <;> simp_all [Map.lookup])
    | (obtain ⟨a, ha, rfl⟩ := hs
       cases ha
       simp [Body.toJSON, json.pointer, PaymentRequest.toJSON, AirtimeRedeemRequest.toJSON,
         AnyRedeemRequest.toJSON, GiftCardRedeemRequest.toJSON, MobileMoneyRedeemRequest.toJSON,
         JSON.member, Map.lookup, json.omitEmptyString, json.omitEmptyMap]
       split_ifs <;> simp_all [Map.lookup])
    | (subst hs
       simp [Body.toJSON, ChimoneyRedeemRequest.toJSON, JSON.member, Map.lookup,
         json.omitEmptyString]
       split_ifs <;> simp_all [Map.lookup])

/-- C12: for every module call that accepts a sub-account value (as an argument or
as the SubAccount field of its request record) and passes validation, the JSON
value of the body handed to the single `Do` call, which is what `json.Marshal`
writes, has the member subAccount with exactly that value when the value is
non-empty, and has no member subAccount when it is empty. -/
theorem C12_subAccount_member_iff_nonempty {σ : Type} (c : Client σ) (ctx : Context)
    (inv : Invocation) (s : σ) (sub : String) (hv : inv.passesValidation = true)
    (hs : inv.subAccount = some sub) :
    ∃ rec, (invoke (Client.recording c) ctx inv (s, [])).state.2 = [rec] ∧
      JSON.member (Body.toJSON rec.body) "subAccount" =
        (if sub = "" then none else some (.string sub)) ∧
      ∀ j, json.Marshal rec.body = .ok j →
        JSON.member j "subAccount" = if sub = "" then none else some (.string sub) := by
  obtain ⟨rec, h1, h2⟩ := invoke_body_subAccount c ctx inv s sub hv hs
  refine ⟨rec, h1, h2, fun j hj => ?_⟩
  unfold json.Marshal at hj
  split at hj
  · cases hj
    exact h2
  · cases hj

/-- C12 on `Account.GetAllTransactions` with the sub-account `sub_123` and on
`Redeem.Chimoney` with an empty sub-account. -/
theorem C12_subAccount_member_iff_nonempty_witness :
    (∃ rec, (invoke (Client.recording acceptingTransport) exampleContext
        (.accountGetAllTransactions "sub_123") (0, [])).state.2 = [rec] ∧
      JSON.member (Body.toJSON rec.body) "subAccount" =
        (if "sub_123" = "" then none else some (.string "sub_123")) ∧
      ∀ j, json.Marshal rec.body = .ok j →
        JSON.member j "subAccount" =
          if "sub_123" = "" then none else some (.string "sub_123")) ∧
    (∃ rec, (invoke (Client.recording acceptingTransport) exampleContext
        (.redeemChimoney (some [some [("chiRef", .string "chi_123")]]) "") (0, [])).state.2 =
          [rec] ∧
      JSON.member (Body.toJSON rec.body) "subAccount" =
        (if "" = "" then none else some (.string "")) ∧
      ∀ j, json.Marshal rec.body = .ok j →
        JSON.member j "subAccount" = if "" = "" then none else some (.string "")) :=
  ⟨C12_subAccount_member_iff_nonempty acceptingTransport exampleContext
      (.accountGetAllTransactions "sub_123") 0 "sub_123" rfl rfl,
    C12_subAccount_member_iff_nonempty acceptingTransport exampleContext
      (.redeemChimoney (some [some [("chiRef", .string "chi_123")]]) "") 0 "" rfl rfl⟩

/-- The elements of a slice of Chimoney payouts with finite values serialise. -/
theorem supportedAll_chimoneys (items : List ChimoneyPayload)
    (hfin : ∀ p ∈ items, p.ValueInUSD.isFinite = true) :
    JSON.supportedAll (items.map ChimoneyPayload.toJSON) = true := by
  induction items with
  | nil => rfl
  | cons p items ih =>
    have hp := hfin p (List.mem_cons_self p items)
    have ht := ih (fun q hq => hfin q (List.mem_cons_of_mem p hq))
    simp only [List.map_cons, JSON.supportedAll, ht, Bool.and_true]
    simp only [ChimoneyPayload.toJSON, json.omitEmptyString]
    split_ifs <;> simp [JSON.supported, JSON.supportedMembers, hp]

/-- C15, as stated, fails on a nil list and on a value that is not a number: with
a nil slice the member chimoneys is written as `null`, not as an array, and with
the value NaN `json.Marshal` returns an error, so that no body is sent. -/
theorem C15_counterexample_nil_list_and_nan :
    ((payouts.New (Client.recording acceptingTransport)).Chimoney exampleContext none ""
        (0, [])).state.2.map (fun rec => json.Marshal rec.body) =
      [.ok (.object [("chimoneys", .null)])] ∧
    ((payouts.New (Client.recording acceptingTransport)).Chimoney exampleContext
        (some [⟨.nan, "a@b.com", ""⟩]) "" (0, [])).state.2.map
          (fun rec => json.Marshal rec.body) =
      [.error (.foreign "encoding/json" "json: unsupported value")] := by
  exact ⟨rfl, rfl⟩

/-- C15, amended: for every non-nil list of Chimoney payouts whose values are
finite numbers, and an empty subAccount, `Payouts.Chimoney` makes one `Do` call,
POST on /payouts/chimoney, whose body serialises to the JSON object with the
single member chimoneys: the array of the items in their order, each an object
holding valueInUSD, then email if it is non-empty, then twitter if it is
non-empty. -/
theorem C15_chimoney_payout_body {σ : Type} (c : Client σ) (ctx : Context)
    (items : List ChimoneyPayload) (s : σ)
    (hfin : ∀ p ∈ items, p.ValueInUSD.isFinite = true) :
    ∃ rec, rec.method = "POST" ∧ rec.path = "/payouts/chimoney" ∧
      ((payouts.New (Client.recording c)).Chimoney ctx (some items) "" (s, [])).sentExactly rec ∧
      json.Marshal rec.body =
        .ok (.object [("chimoneys", .array (items.map ChimoneyPayload.toJSON))]) ∧
      ∀ p ∈ items, ChimoneyPayload.toJSON p =
        .object ([("valueInUSD", .number p.ValueInUSD)] ++
          (if p.Email = "" then [] else [("email", .string p.Email)]) ++
          (if p.Twitter = "" then [] else [("twitter", .string p.Twitter)])) := by
  simp only [Payouts.Chimoney, payouts.New]
  obtain ⟨rec, -, hm, hp, hb, -, hs⟩ := recording_Do_sentExactly c ctx "POST" "/payouts/chimoney"
    (.anyMap [("chimoneys", .chimoneys (some items))]) PayoutResponse.zero none s
  refine ⟨rec, hm, hp, by simpa using hs, ?_, fun p _ => rfl⟩
  rw [hb]
  have hsup := supportedAll_chimoneys items hfin
  simp [json.Marshal, Body.toJSON, Map.sortByKey, Map.insertSorted, Value.toJSON, json.slice,
    JSON.supported, JSON.supportedMembers, hsup]

/-- C15, amended, on the list holding the single item of 10 USD for a@b.com: the
body is the object whose only member chimoneys is the array holding the object
with valueInUSD 10 and email a@b.com. -/
theorem C15_chimoney_payout_body_witness :
    ∃ rec, rec.method = "POST" ∧ rec.path = "/payouts/chimoney" ∧
      ((payouts.New (Client.recording acceptingTransport)).Chimoney exampleContext
        (some [⟨Float64.ofNat 10, "a@b.com", ""⟩]) "" (0, [])).sentExactly rec ∧
      json.Marshal rec.body =
        .ok (.object [("chimoneys", .array [.object [("valueInUSD", .number (Float64.ofNat 10)),
          ("email", .string "a@b.com")]])]) :=
  (C15_chimoney_payout_body acceptingTransport exampleContext
    [⟨Float64.ofNat 10, "a@b.com", ""⟩] 0 (by decide)).imp
    (fun _ h => ⟨h.1, h.2.1, h.2.2.1, h.2.2.2.1⟩)

/-! ## The request the dispatcher sends -/

/-- The requests `Client.Do` hands to the HTTP client: none when the body does not
serialise or the request cannot be built, otherwise the one request built from
the address, the query parameters and the three headers. -/
theorem Do_sent_requests {σ ρ : Type} [Destination ρ] (rt : Runtime) (c : chimoney.Client σ)
    (ctx : Context) (method path : String) (body : Body) (v : ρ) (params : Option (Map String))
    (s : σ) :
    (chimoney.Client.Do rt (chimoney.Client.recording c) ctx method path body v params
        (s, [])).state.2 =
      match chimoney.Client.reqBody rt body with
      | .error _ => []
      | .ok reqBody =>
        match rt.NewRequestWithContext ctx method (c.baseURL ++ path) reqBody with
        | .error _ => []
        | .ok req =>
          [chimoney.Client.setHeaders rt c (chimoney.Client.addBodyParams rt
            (chimoney.Client.addParams rt req params) method body)] := by
  unfold chimoney.Client.Do
  cases hb : chimoney.Client.reqBody rt body with
  | error e => rfl
  | ok reqBody =>
    simp only [chimoney.Client.recording]
    cases hr : rt.NewRequestWithContext ctx method (c.baseURL ++ path) reqBody with
    | error e => rfl
    | ok req =>
      simp only [http.Client.recording]
      cases hd : (c.http.Do (chimoney.Client.setHeaders rt c (chimoney.Client.addBodyParams rt
        (chimoney.Client.addParams rt req params) method body)) s).1 with
      | error e =>
        have hset : chimoney.Client.setHeaders rt
            (⟨c.apiKey, c.baseURL, ⟨fun req st => ((c.http.Do req st.1).1,
              ((c.http.Do req st.1).2, st.2 ++ [req]))⟩⟩ : chimoney.Client (σ × List http.Request))
            = chimoney.Client.setHeaders rt c := rfl
        simp only [hset, hd]
        rfl
      | ok resp =>
        have hset : chimoney.Client.setHeaders rt
            (⟨c.apiKey, c.baseURL, ⟨fun req st => ((c.http.Do req st.1).1,
              ((c.http.Do req st.1).2, st.2 ++ [req]))⟩⟩ : chimoney.Client (σ × List http.Request))
            = chimoney.Client.setHeaders rt c := rfl
        simp only [hset, hd]
        split_ifs
        · rfl
        · rfl
        · split <;> rfl

/-- The three header keys of the dispatcher have three different canonical forms. -/
theorem canonical_header_keys_distinct :
    textproto.CanonicalMIMEHeaderKey "Content-Type" ≠ textproto.CanonicalMIMEHeaderKey "accept" ∧
    textproto.CanonicalMIMEHeaderKey "Content-Type" ≠
      textproto.CanonicalMIMEHeaderKey "X-API-KEY" ∧
    textproto.CanonicalMIMEHeaderKey "accept" ≠ textproto.CanonicalMIMEHeaderKey "X-API-KEY" := by
  decide

/-- C17: every request that `Client.Do` hands to the HTTP client carries the
headers Content-Type and accept with the single value application/json and the
header X-API-KEY with the single value of the configured API key, whatever the
method, path, body and params. -/
theorem C17_sent_request_carries_the_three_headers {σ ρ : Type} [Destination ρ] (rt : Runtime)
    (c : chimoney.Client σ) (ctx : Context) (method path : String) (body : Body) (v : ρ)
    (params : Option (Map String)) (s : σ)
    (hcanon : rt.CanonicalKey = textproto.CanonicalMIMEHeaderKey) :
    ∀ r ∈ (chimoney.Client.Do rt (chimoney.Client.recording c) ctx method path body v params
        (s, [])).state.2,
      http.Header.Values rt r.Header "Content-Type" = ["application/json"] ∧
      http.Header.Values rt r.Header "accept" = ["application/json"] ∧
      http.Header.Values rt r.Header "X-API-KEY" = [c.apiKey] := by
  intro r hr
  rw [Do_sent_requests] at hr
  obtain ⟨h1, h2, h3⟩ := canonical_header_keys_distinct
  split at hr
  · simp at hr
  · split at hr
    · simp at hr
    · simp only [List.mem_singleton] at hr
      subst hr
      simp only [http.Header.Values, chimoney.Client.setHeaders, http.Header.Set, hcanon,
        Map.lookup_set]
      simp [h1, h2, h3, Ne.symm h1, Ne.symm h2, Ne.symm h3]

/-- C17 on a POST with a map body: one request is sent and it carries the three
headers, stored under their canonical keys. -/
theorem C17_sent_request_carries_the_three_headers_witness :
    (chimoney.Client.Do stdRuntime (chimoney.Client.recording (exampleClient 200 "ok"))
        exampleContext "POST" "/wallet/balance" (.strMap []) WalletResponse.zero none
        (0, [])).state.2.map (fun r => r.Header) =
      [[("Content-Type", ["application/json"]), ("Accept", ["application/json"]),
        ("X-Api-Key", ["test-api-key"])]] ∧
    ∀ r ∈ (chimoney.Client.Do stdRuntime (chimoney.Client.recording (exampleClient 200 "ok"))
        exampleContext "POST" "/wallet/balance" (.strMap []) WalletResponse.zero none
        (0, [])).state.2,
      http.Header.Values stdRuntime r.Header "Content-Type" = ["application/json"] ∧
      http.Header.Values stdRuntime r.Header "accept" = ["application/json"] ∧
      http.Header.Values stdRuntime r.Header "X-API-KEY" = ["test-api-key"] :=
  ⟨by decide, C17_sent_request_carries_the_three_headers stdRuntime (exampleClient 200 "ok")
    exampleContext "POST" "/wallet/balance" (.strMap []) WalletResponse.zero none 0 rfl⟩

/-! ## Percent-encoding and the query string -/

/-- The code point of a character is below 0x110000. -/
theorem char_toNat_lt (c : Char) : c.toNat < 0x110000 := by
  have h := c.valid
  simp only [UInt32.isValidChar, Nat.isValidChar] at h
  have : c.toNat = c.val.toNat := rfl
  omega

/-- Reading a character back from its UTF-8 bytes. -/
theorem utf8_decodeFrom_encode (c : Char) (rest : List Nat) :
    utf8.decodeFrom 0 0 (utf8.encode c ++ rest) = c :: utf8.decodeFrom 0 0 rest := by
  have hlt := char_toNat_lt c
  unfold utf8.encode
  split_ifs with h1 h2 h3
  · simp [utf8.decodeFrom, h1]
  · have e1 : ¬ (0xC0 + c.toNat / 64 < 0x80) := by omega
    have e2 : ¬ (0xC0 + c.toNat / 64 < 0xC0) := by omega
    have e3 : 0xC0 + c.toNat / 64 < 0xE0 := by omega
    have e4 : 0x80 ≤ 0x80 + c.toNat % 64 ∧ 0x80 + c.toNat % 64 < 0xC0 := by omega
    have e5 : (0xC0 + c.toNat / 64 - 0xC0) * 64 + (0x80 + c.toNat % 64 - 0x80) = c.toNat := by
      omega
    simp [utf8.decodeFrom, e1, e2, e3, e4]
    have e : c.toNat / 64 * 64 + c.toNat % 64 = c.toNat := by omega
    rw [e]
    exact Char.ofNat_toNat c
  · have e1 : ¬ (0xE0 + c.toNat / 4096 < 0x80) := by omega
    have e2 : ¬ (0xE0 + c.toNat / 4096 < 0xC0) := by omega
    have e3 : ¬ (0xE0 + c.toNat / 4096 < 0xE0) := by omega
    have e4 : 0xE0 + c.toNat / 4096 < 0xF0 := by omega
    have e5 : 0x80 ≤ 0x80 + c.toNat / 64 % 64 ∧ 0x80 + c.toNat / 64 % 64 < 0xC0 := by omega
    have e6 : 0x80 ≤ 0x80 + c.toNat % 64 ∧ 0x80 + c.toNat % 64 < 0xC0 := by omega
    have e7 : ((0xE0 + c.toNat / 4096 - 0xE0) * 64 + (0x80 + c.toNat / 64 % 64 - 0x80)) * 64 +
        (0x80 + c.toNat % 64 - 0x80) = c.toNat := by omega
    simp [utf8.decodeFrom, e1, e2, e3, e4, e5, e6]
    have e : (c.toNat / 4096 * 64 + c.toNat / 64 % 64) * 64 + c.toNat % 64 = c.toNat := by omega
    rw [e]
    exact Char.ofNat_toNat c
  · have e1 : ¬ (0xF0 + c.toNat / 262144 < 0x80) := by omega
    have e2 : ¬ (0xF0 + c.toNat / 262144 < 0xC0) := by omega
    have e3 : ¬ (0xF0 + c.toNat / 262144 < 0xE0) := by omega
    have e4 : ¬ (0xF0 + c.toNat / 262144 < 0xF0) := by omega
    have e5 : 0xF0 + c.toNat / 262144 < 0xF8 := by omega
    have e6 : 0x80 ≤ 0x80 + c.toNat / 4096 % 64 ∧ 0x80 + c.toNat / 4096 % 64 < 0xC0 := by omega
    have e7 : 0x80 ≤ 0x80 + c.toNat / 64 % 64 ∧ 0x80 + c.toNat / 64 % 64 < 0xC0 := by omega
    have e8 : 0x80 ≤ 0x80 + c.toNat % 64 ∧ 0x80 + c.toNat % 64 < 0xC0 := by omega
    have e9 : (((0xF0 + c.toNat / 262144 - 0xF0) * 64 + (0x80 + c.toNat / 4096 % 64 - 0x80)) * 64 +
        (0x80 + c.toNat / 64 % 64 - 0x80)) * 64 + (0x80 + c.toNat % 64 - 0x80) = c.toNat := by
      omega
    simp [utf8.decodeFrom, e1, e2, e3, e4, e5, e6, e7, e8]
    have e : ((c.toNat / 262144 * 64 + c.toNat / 4096 % 64) * 64 + c.toNat / 64 % 64) * 64 +
        c.toNat % 64 = c.toNat := by omega
    rw [e]
    exact Char.ofNat_toNat c

/-- Reading a text back from its UTF-8 bytes. -/
theorem utf8_decode_encode (s : List Char) : utf8.decode (s.flatMap utf8.encode) = s := by
  unfold utf8.decode
  induction s with
  | nil => rfl
  | cons c cs ih => rw [List.flatMap_cons, utf8_decodeFrom_encode, ih]

/-- Every UTF-8 byte of a character is below 256. -/
theorem utf8_encode_lt (c : Char) : ∀ b ∈ utf8.encode c, b < 256 := by
  have hlt := char_toNat_lt c
  intro b hb
  unfold utf8.encode at hb
  split_ifs at hb <;> simp at hb <;> omega


/-- A hexadecimal digit reads back as its value. -/
theorem unhex_hexDigit : ∀ n, n < 16 → url.unhex (url.hexDigit n) = some n := by
  decide

/-- A hexadecimal digit is none of the separators of a query. -/
theorem hexDigit_not_separator : ∀ n, n < 16 →
    url.hexDigit n ≠ '&' ∧ url.hexDigit n ≠ '=' ∧ url.hexDigit n ≠ ';' := by
  decide

/-- Unescaping a text that starts with a character other than `%` and `+`. -/
theorem unescapeBytes_plain (c : Char) (rest : List Char) (h1 : c ≠ '%') (h2 : c ≠ '+') :
    url.unescapeBytes (c :: rest) =
      (url.unescapeBytes rest).map (fun tail => utf8.encode c ++ tail) := by
  rw [url.unescapeBytes.eq_def]
  simp only [h1, h2, if_false]

/-- Unescaping a text that starts with `%` and two more characters. -/
theorem unescapeBytes_percent (a b : Char) (rest : List Char) :
    url.unescapeBytes ('%' :: a :: b :: rest) =
      match url.unhex a, url.unhex b, url.unescapeBytes rest with
      | some x, some y, some bytes => some ((x * 16 + y) :: bytes)
      | _, _, _ => none := by
  rw [url.unescapeBytes.eq_def]
  simp only [if_true]

/-- Unescaping a text that starts with `+`. -/
theorem unescapeBytes_plus (rest : List Char) :
    url.unescapeBytes ('+' :: rest) = (url.unescapeBytes rest).map (fun bytes => 32 :: bytes) := by
  rw [url.unescapeBytes.eq_def]
  simp only [show ¬ ('+' = '%') by decide, if_false, if_true]

/-- Reading back the escape sequence of a byte. -/
theorem unescapeBytes_escapeByte (b : Nat) (hb : b < 256) (rest : List Char) :
    url.unescapeBytes (url.escapeByte b ++ rest) =
      (url.unescapeBytes rest).map (fun bytes => b :: bytes) := by
  have h1 := unhex_hexDigit (b / 16) (by omega)
  have h2 := unhex_hexDigit (b % 16) (by omega)
  have e : b / 16 * 16 + b % 16 = b := by omega
  have happ : url.escapeByte b ++ rest =
      '%' :: url.hexDigit (b / 16) :: url.hexDigit (b % 16) :: rest := rfl
  rw [happ, unescapeBytes_percent, h1, h2]
  cases url.unescapeBytes rest with
  | none => rfl
  | some bytes => simp [e]

/-- Reading back the escape sequences of a list of bytes. -/
theorem unescapeBytes_escapeBytes (bytes : List Nat) (hb : ∀ b ∈ bytes, b < 256)
    (rest : List Char) :
    url.unescapeBytes (bytes.flatMap url.escapeByte ++ rest) =
      (url.unescapeBytes rest).map (fun tail => bytes ++ tail) := by
  induction bytes with
  | nil => simp
  | cons b bs ih =>
    rw [List.flatMap_cons, List.append_assoc, unescapeBytes_escapeByte b (hb b (by simp)),
      ih (fun x hx => hb x (by simp [hx]))]
    cases url.unescapeBytes rest <;> simp

/-- A character that needs no escape is neither `%` nor `+` nor a separator. -/
theorem not_shouldEscape_ne (c : Char) (h : url.shouldEscape c = false) :
    c ≠ '%' ∧ c ≠ '+' ∧ c ≠ '&' ∧ c ≠ '=' ∧ c ≠ ';' := by
  refine ⟨?_, ?_, ?_, ?_, ?_⟩ <;>
  · intro hc
    subst hc
    revert h
    decide

/-- Reading back the escaped form of a character. -/
theorem unescapeBytes_escapeChar (c : Char) (rest : List Char) :
    url.unescapeBytes (url.escapeChar c ++ rest) =
      (url.unescapeBytes rest).map (fun tail => utf8.encode c ++ tail) := by
  unfold url.escapeChar
  by_cases hs : url.shouldEscape c = true
  · rw [if_pos hs]
    by_cases hsp : c = ' '
    · subst hsp
      have happ : (if (' ' == ' ') = true then ['+'] else
          (utf8.encode ' ').flatMap url.escapeByte) ++ rest = '+' :: rest := rfl
      rw [happ, unescapeBytes_plus]
      rfl
    · have : (c == ' ') = false := by simpa using hsp
      rw [this]
      simp only [Bool.false_eq_true, if_false]
      exact unescapeBytes_escapeBytes _ (utf8_encode_lt c) rest
  · have hs' : url.shouldEscape c = false := by simpa using hs
    obtain ⟨h1, h2, -, -, -⟩ := not_shouldEscape_ne c hs'
    rw [if_neg hs]
    exact unescapeBytes_plain c rest h1 h2

/-- Reading back the bytes of an escaped text. -/
theorem unescapeBytes_escape (s : List Char) :
    url.unescapeBytes (url.escape s) = some (s.flatMap utf8.encode) := by
  unfold url.escape
  induction s with
  | nil => rfl
  | cons c cs ih =>
    have := unescapeBytes_escapeChar c (cs.flatMap url.escapeChar)
    rw [List.flatMap_cons, this, ih]
    simp

/-- The function `QueryUnescape` undoes `QueryEscape`. -/
theorem unescape_escape (s : List Char) : url.unescape (url.escape s) = some s := by
  simp [url.unescape, unescapeBytes_escape, utf8_decode_encode]

/-- An escaped text holds none of the separators `&`, `=` and `;`. -/
theorem escape_no_separator (s : List Char) :
    ∀ x ∈ url.escape s, x ≠ '&' ∧ x ≠ '=' ∧ x ≠ ';' := by
  intro x hx
  simp only [url.escape, List.mem_flatMap] at hx
  obtain ⟨c, -, hxc⟩ := hx
  unfold url.escapeChar at hxc
  by_cases hs : url.shouldEscape c = true
  · rw [if_pos hs] at hxc
    by_cases hsp : (c == ' ') = true
    · rw [if_pos hsp] at hxc
      simp only [List.mem_singleton] at hxc
      subst hxc
      decide
    · rw [if_neg hsp] at hxc
      simp only [List.mem_flatMap] at hxc
      obtain ⟨b, hb, hxb⟩ := hxc
      have hlt := utf8_encode_lt c b hb
      simp only [url.escapeByte, List.mem_cons, List.mem_singleton, List.not_mem_nil,
        or_false] at hxb
      rcases hxb with h | h | h
      · subst h
        decide
      · subst h
        exact hexDigit_not_separator (b / 16) (by omega)
      · subst h
        exact hexDigit_not_separator (b % 16) (by omega)
  · rw [if_neg hs] at hxc
    simp only [List.mem_singleton] at hxc
    subst hxc
    have hs' : url.shouldEscape x = false := by simpa using hs
    obtain ⟨-, -, h3, h4, h5⟩ := not_shouldEscape_ne x hs'
    exact ⟨h3, h4, h5⟩

/-- A piece without `&` followed by `&` is the first piece of the split. -/
theorem segments_append_amp (seg rest : List Char) (h : ∀ x ∈ seg, x ≠ '&') :
    url.segments (seg ++ '&' :: rest) = seg :: url.segments rest := by
  induction seg with
  | nil => simp [url.segments]
  | cons c t ih =>
    have hc : c ≠ '&' := h c (by simp)
    have ht := ih (fun x hx => h x (by simp [hx]))
    show url.segments (c :: (t ++ '&' :: rest)) = _
    rw [url.segments, if_neg hc, ht]

/-- A text without `&` is a single piece. -/
theorem segments_no_amp (seg : List Char) (h : ∀ x ∈ seg, x ≠ '&') :
    url.segments seg = [seg] := by
  induction seg with
  | nil => rfl
  | cons c t ih =>
    have hc : c ≠ '&' := h c (by simp)
    have ht := ih (fun x hx => h x (by simp [hx]))
    rw [url.segments, if_neg hc, ht]

/-- Splitting the joined pieces gives the pieces back. -/
theorem segments_joinSegments (segs : List (List Char)) (hne : segs ≠ [])
    (h : ∀ seg ∈ segs, ∀ x ∈ seg, x ≠ '&') :
    url.segments (url.joinSegments segs) = segs := by
  induction segs with
  | nil => exact absurd rfl hne
  | cons seg rest ih =>
    cases rest with
    | nil =>
      rw [url.joinSegments.eq_def]
      exact segments_no_amp seg (h seg (by simp))
    | cons seg2 rest2 =>
      rw [url.joinSegments.eq_def]
      simp only
      rw [segments_append_amp seg _ (h seg (by simp)),
        ih (by simp) (fun s hs => h s (by simp [hs]))]

/-- Cutting `key=value` at its first `=` when the key holds none. -/
theorem cutEquals_append (k v : List Char) (h : ∀ x ∈ k, x ≠ '=') :
    url.cutEquals (k ++ '=' :: v) = (k, v) := by
  induction k with
  | nil => simp [url.cutEquals]
  | cons c t ih =>
    have hc : c ≠ '=' := h c (by simp)
    have ht := ih (fun x hx => h x (by simp [hx]))
    show url.cutEquals (c :: (t ++ '=' :: v)) = _
    rw [url.cutEquals, if_neg hc, ht]

/-- One round of the parsing loop on the piece written for a key and a value. -/
theorem parseSegment_encoded (m : url.Values) (k v : String) :
    url.parseSegment m (url.escape k.toList ++ '=' :: url.escape v.toList) =
      url.Values.Add m k v := by
  have hk := escape_no_separator k.toList
  have hv := escape_no_separator v.toList
  have hsemi : (url.escape k.toList ++ '=' :: url.escape v.toList).contains ';' = false := by
    rw [Bool.eq_false_iff]
    intro hc
    simp only [List.contains_iff_exists_mem_beq, List.mem_append, List.mem_cons] at hc
    obtain ⟨x, hx, hxe⟩ := hc
    have hxe' : ';' = x := by simpa using hxe
    subst hxe'
    rcases hx with hx | hx | hx
    · exact (hk _ hx).2.2 rfl
    · exact absurd hx (by decide)
    · exact (hv _ hx).2.2 rfl
  have hne : ¬ (url.escape k.toList ++ '=' :: url.escape v.toList = []) := by simp
  unfold url.parseSegment
  rw [hsemi, cutEquals_append _ _ (fun x hx => (hk x hx).2.1)]
  simp only [Bool.false_eq_true, if_false, hne, unescape_escape]
  rfl

/-- The pieces of `Values.Encode` are the pieces of the pairs, one for one. -/
theorem encodeSegments_eq_map_pairs (v : url.Values) :
    url.encodeSegments v =
      (url.Values.pairs v).map (fun p => url.escape p.1.toList ++ '=' :: url.escape p.2.toList) := by
  induction v with
  | nil => rfl
  | cons e v ih =>
    simp only [url.encodeSegments, url.Values.pairs, List.flatMap_cons, List.map_append,
      List.map_map] at ih ⊢
    rw [ih]
    rfl

/-- The parsing loop over the pieces written for a list of pairs adds the pairs
one after the other. -/
theorem foldl_parseSegment_encoded (pairs : List (String × String)) (m : url.Values) :
    (pairs.map (fun p => url.escape p.1.toList ++ '=' :: url.escape p.2.toList)).foldl
        url.parseSegment m =
      pairs.foldl (fun q p => url.Values.Add q p.1 p.2) m := by
  induction pairs generalizing m with
  | nil => rfl
  | cons p ps ih =>
    simp only [List.map_cons, List.foldl_cons, parseSegment_encoded, ih]

/-- Parsing an encoded query adds its pairs to the empty `Values`, in the order of
the sorted keys. -/
theorem ParseQuery_Encode_eq_foldl (v : url.Values) :
    url.ParseQuery (url.Values.Encode v) =
      (url.Values.pairs (Map.sortByKey v)).foldl (fun q p => url.Values.Add q p.1 p.2) [] := by
  unfold url.ParseQuery url.Values.Encode
  show (url.segments (url.joinSegments (url.encodeSegments (Map.sortByKey v)))).foldl
    url.parseSegment [] = _
  rw [encodeSegments_eq_map_pairs]
  cases hp : url.Values.pairs (Map.sortByKey v) with
  | nil => rfl
  | cons p ps =>
    rw [segments_joinSegments _ (by simp), foldl_parseSegment_encoded]
    intro seg hseg x hx
    simp only [List.mem_map] at hseg
    obtain ⟨q, -, rfl⟩ := hseg
    simp only [List.mem_append, List.mem_cons] at hx
    rcases hx with hx | hx | hx
    · exact (escape_no_separator _ x hx).1
    · subst hx
      decide
    · exact (escape_no_separator _ x hx).1

/-- No entry carries a key that is not among the keys. -/
theorem any_key_eq_false {α : Type} (m : Map α) (k : String) (h : k ∉ Map.keys m) :
    m.any (fun e => e.1 == k) = false := by
  induction m with
  | nil => rfl
  | cons e m ih =>
    simp only [Map.keys, List.map_cons, List.mem_cons, not_or] at h
    have h1 : (e.1 == k) = false := by simpa using fun he => h.1 he.symm
    simp only [List.any_cons, h1, Bool.false_or]
    exact ih h.2

/-- Replacing the entries under a key that no entry carries changes nothing. -/
theorem map_replace_of_not_mem {α : Type} (m : Map α) (k : String) (f : String × α → String × α)
    (h : k ∉ Map.keys m) : m.map (fun e => if e.1 == k then f e else e) = m := by
  induction m with
  | nil => rfl
  | cons e m ih =>
    simp only [Map.keys, List.map_cons, List.mem_cons, not_or] at h
    have h1 : (e.1 == k) = false := by simpa using fun he => h.1 he.symm
    simp only [List.map_cons, h1, Bool.false_eq_true, if_false]
    rw [ih h.2]

/-- Adding a value under a new key appends an entry. -/
theorem Add_of_not_mem (q : url.Values) (k x : String) (h : k ∉ Map.keys q) :
    url.Values.Add q k x = q ++ [(k, [x])] := by
  unfold url.Values.Add
  rw [any_key_eq_false q k h]
  rfl

/-- Adding a value under the key of the last entry extends that entry. -/
theorem Add_append_last (acc : url.Values) (k x : String) (ws : List String)
    (h : k ∉ Map.keys acc) :
    url.Values.Add (acc ++ [(k, ws)]) k x = acc ++ [(k, ws ++ [x])] := by
  unfold url.Values.Add
  have hany : (acc ++ [(k, ws)]).any (fun e => e.1 == k) = true := by simp
  rw [if_pos hany, List.map_append, map_replace_of_not_mem acc k _ h]
  simp

/-- Adding the values of one key, one after the other, to an entry at the end. -/
theorem foldl_Add_last (acc : url.Values) (k : String) (ws xs : List String)
    (h : k ∉ Map.keys acc) :
    xs.foldl (fun q x => url.Values.Add q k x) (acc ++ [(k, ws)]) = acc ++ [(k, ws ++ xs)] := by
  induction xs generalizing ws with
  | nil => simp
  | cons x xs ih =>
    rw [List.foldl_cons, Add_append_last acc k x ws h, ih]
    simp

/-- Adding all values of a new key appends the entry of the key. -/
theorem foldl_Add_values (acc : url.Values) (k : String) (vs : List String)
    (h : k ∉ Map.keys acc) (hne : vs ≠ []) :
    vs.foldl (fun q x => url.Values.Add q k x) acc = acc ++ [(k, vs)] := by
  cases vs with
  | nil => exact absurd rfl hne
  | cons x xs =>
    rw [List.foldl_cons, Add_of_not_mem acc k x h, foldl_Add_last acc k [x] xs h]
    rfl

/-- Adding the pairs of well-formed values rebuilds them, after what was there. -/
theorem foldl_Add_pairs (v acc : url.Values) (hnodup : (Map.keys (acc ++ v)).Nodup)
    (hne : ∀ e ∈ v, e.2 ≠ []) :
    (url.Values.pairs v).foldl (fun q p => url.Values.Add q p.1 p.2) acc = acc ++ v := by
  induction v generalizing acc with
  | nil => simp [url.Values.pairs]
  | cons e v ih =>
    have hk : e.1 ∉ Map.keys acc := by
      simp only [Map.keys, List.map_append, List.map_cons, List.nodup_append,
        List.nodup_cons] at hnodup
      intro hmem
      exact hnodup.2.2 hmem (by simp)
    have hstep : (e.2.map (fun value => (e.1, value))).foldl
        (fun q p => url.Values.Add q p.1 p.2) acc = acc ++ [(e.1, e.2)] := by
      rw [List.foldl_map]
      exact foldl_Add_values acc e.1 e.2 hk (hne e (by simp))
    simp only [url.Values.pairs, List.flatMap_cons, List.foldl_append] at ih ⊢
    rw [hstep, ih (acc ++ [(e.1, e.2)]) (by simpa using hnodup)
      (fun x hx => hne x (by simp [hx]))]
    simp

/-- A sorted insertion is a rearrangement of adding the entry in front. -/
theorem insertSorted_perm {α : Type} (e : String × α) (m : Map α) :
    (Map.insertSorted e m).Perm (e :: m) := by
  induction m with
  | nil => exact List.Perm.refl _
  | cons x m ih =>
    unfold Map.insertSorted
    split_ifs
    · exact List.Perm.refl _
    · exact (List.Perm.cons x ih).trans (List.Perm.swap e x m)

/-- Sorting by key rearranges the entries. -/
theorem sortByKey_perm {α : Type} (m : Map α) : (Map.sortByKey m).Perm m := by
  induction m with
  | nil => exact List.Perm.refl _
  | cons e m ih =>
    have : Map.sortByKey (e :: m) = Map.insertSorted e (Map.sortByKey m) := rfl
    rw [this]
    exact (insertSorted_perm e _).trans (List.Perm.cons e ih)

/-- Sorting well-formed values keeps them well formed. -/
theorem WellFormed_sortByKey (v : url.Values) (h : url.Values.WellFormed v) :
    url.Values.WellFormed (Map.sortByKey v) := by
  have hp := sortByKey_perm v
  have hk : (Map.keys (Map.sortByKey v)).Perm (Map.keys v) := by
    unfold Map.keys
    exact hp.map _
  exact ⟨(List.Perm.nodup_iff hk).mpr h.1, fun e he => h.2 e (hp.mem_iff.mp he)⟩

/-- Parsing the encoding of well-formed values gives the values back, sorted by
key. -/
theorem ParseQuery_Encode (v : url.Values) (h : url.Values.WellFormed v) :
    url.ParseQuery (url.Values.Encode v) = Map.sortByKey v := by
  have hs := WellFormed_sortByKey v h
  rw [ParseQuery_Encode_eq_foldl, foldl_Add_pairs (Map.sortByKey v) [] (by simpa using hs.1) hs.2]
  rfl

/-- Adding the entries of a map with distinct keys, none of them present yet,
appends one single-valued entry for each. -/
theorem foldl_Add_entries (ps : Map String) (acc : url.Values)
    (hnodup : (Map.keys acc ++ Map.keys ps).Nodup) :
    ps.foldl (fun q e => url.Values.Add q e.1 e.2) acc =
      acc ++ ps.map (fun e => (e.1, [e.2])) := by
  induction ps generalizing acc with
  | nil => simp
  | cons e ps ih =>
    have hk : e.1 ∉ Map.keys acc := by
      simp only [Map.keys, List.map_cons, List.nodup_append, List.nodup_cons] at hnodup
      intro hmem
      exact hnodup.2.2 hmem (by simp)
    rw [List.foldl_cons, Add_of_not_mem acc e.1 e.2 hk, ih]
    · simp
    · simpa [Map.keys] using hnodup

/-- The single-valued entries of a map with distinct keys are well formed. -/
theorem WellFormed_of_map (ps : Map String) (h : (Map.keys ps).Nodup) :
    url.Values.WellFormed (ps.map (fun e => (e.1, [e.2]))) := by
  constructor
  · simpa [Map.keys, List.map_map, Function.comp] using h
  · intro e he
    simp only [List.mem_map] at he
    obtain ⟨p, -, rfl⟩ := he
    simp

/-- An empty query has no values. -/
theorem ParseQuery_empty : url.ParseQuery "" = [] := rfl

/-- The block `if params != nil` of the dispatcher, with the library functions of
net/url, on a request whose address has no query. -/
theorem addParams_some (rt : Runtime) (req : http.Request) (ps : Map String)
    (hquery : rt.Query = url.URL.Query) (henc : rt.Encode = url.Values.Encode)
    (hq0 : req.URL.RawQuery = "") (hkeys : (Map.keys ps).Nodup) :
    chimoney.Client.addParams rt req (some ps) =
      { req with URL := { req.URL with
          RawQuery := url.Values.Encode (ps.map (fun e => (e.1, [e.2]))) } } := by
  simp only [chimoney.Client.addParams, hquery, henc, url.URL.Query, hq0, ParseQuery_empty]
  rw [foldl_Add_entries ps [] (by simpa [Map.keys] using hkeys)]
  rfl

/-- The body adds nothing to the query unless the method is GET and the body a
`map[string]interface{}`. -/
theorem addBodyParams_of_not_get_map (rt : Runtime) (req : http.Request) (method : String)
    (body : Body) (hmode : method ≠ "GET" ∨ ∀ m, body ≠ .anyMap m) :
    chimoney.Client.addBodyParams rt req method body = req := by
  cases body with
  | anyMap m =>
    rcases hmode with h | h
    · simp [chimoney.Client.addBodyParams, h]
    · exact absurd rfl (h m)
  | _ => rfl

/-- C18: for a non-GET method or a body that is not a `map[string]interface{}`,
for every path, which is the path of a URL and so leaves the address base URL ++
path without a query of its own, and every params map, the request sent has the
URL of that address followed by the query: nothing when params is nil, and
otherwise the encoding of params, which parses back to exactly the entries of
params, every key with its one value and no other key. -/
theorem C18_query_is_the_encoding_of_params {σ ρ : Type} [Destination ρ] (rt : Runtime)
    (c : chimoney.Client σ) (ctx : Context) (method path : String) (body : Body) (v : ρ)
    (params : Option (Map String)) (s : σ) (reqBody : Option String) (req : http.Request)
    (hquery : rt.Query = url.URL.Query) (henc : rt.Encode = url.Values.Encode)
    (hbody : chimoney.Client.reqBody rt body = .ok reqBody)
    (hreq : rt.NewRequestWithContext ctx method (c.baseURL ++ path) reqBody = .ok req)
    (hq0 : req.URL.RawQuery = "")
    (hmode : method ≠ "GET" ∨ ∀ m, body ≠ .anyMap m)
    (hkeys : ∀ ps, params = some ps → (Map.keys ps).Nodup) :
    ∃ sent, (chimoney.Client.Do rt (chimoney.Client.recording c) ctx method path body v params
        (s, [])).state.2 = [sent] ∧
      sent.URL = { req.URL with RawQuery := sent.URL.RawQuery } ∧
      (params = none → sent.URL.RawQuery = "") ∧
      (∀ ps, params = some ps →
        sent.URL.RawQuery = url.Values.Encode (ps.map (fun e => (e.1, [e.2]))) ∧
        url.ParseQuery sent.URL.RawQuery = Map.sortByKey (ps.map (fun e => (e.1, [e.2]))) ∧
        ∀ k, Map.lookup (url.ParseQuery sent.URL.RawQuery) k =
          (Map.lookup ps k).map (fun x => [x])) := by
  have hlog : (chimoney.Client.Do rt (chimoney.Client.recording c) ctx method path body v params
      (s, [])).state.2 = [chimoney.Client.setHeaders rt c (chimoney.Client.addParams rt req
        params)] := by
    rw [Do_sent_requests, hbody]
    simp only [hreq, addBodyParams_of_not_get_map rt _ method body hmode]
  have hurl : (chimoney.Client.setHeaders rt c (chimoney.Client.addParams rt req params)).URL =
      (chimoney.Client.addParams rt req params).URL := rfl
  refine ⟨_, hlog, ?_, ?_, ?_⟩
  · rw [hurl]
    cases params with
    | none => rfl
    | some ps => rw [addParams_some rt req ps hquery henc hq0 (hkeys ps rfl)]
  · intro hp
    subst hp
    rw [hurl]
    exact hq0
  · intro ps hp
    subst hp
    rw [hurl, addParams_some rt req ps hquery henc hq0 (hkeys ps rfl)]
    have hrt := ParseQuery_Encode _ (WellFormed_of_map ps (hkeys ps rfl))
    refine ⟨rfl, hrt, fun k => ?_⟩
    show Map.lookup (url.ParseQuery (url.Values.Encode _)) k = _
    rw [hrt, Map.lookup_sortByKey]
    exact Map.lookup_map_value (fun x => [x]) ps k

/-- C18 on a DELETE with one parameter whose value holds the separators of a
query, a space and a letter outside ASCII. -/
theorem C18_query_is_the_encoding_of_params_witness :
    ∃ sent, (chimoney.Client.Do stdRuntime (chimoney.Client.recording (exampleClient 200 "ok"))
        exampleContext "DELETE" "/accounts/delete-unpaid" (.strMap [("chiRef", "chi_123")])
        AccountResponse.zero (some [("note", "a&b=c?d#e é")]) (0, [])).state.2 = [sent] ∧
      sent.URL.RawQuery = "note=a%26b%3Dc%3Fd%23e+%C3%A9" ∧
      url.ParseQuery sent.URL.RawQuery = [("note", ["a&b=c?d#e é"])] :=
  (C18_query_is_the_encoding_of_params stdRuntime (exampleClient 200 "ok") exampleContext
    "DELETE" "/accounts/delete-unpaid" (.strMap [("chiRef", "chi_123")]) AccountResponse.zero
    (some [("note", "a&b=c?d#e é")]) 0 (some "null") _ rfl rfl rfl rfl rfl
    (Or.inl (by decide)) (fun ps hp => by cases hp; decide)).imp
    (fun sent h => ⟨h.1, (h.2.2.2 _ rfl).1.trans (by decide),
      (h.2.2.2 _ rfl).2.1.trans (by decide)⟩)

/-- The keys after `Values.Add`: the key is appended when it is new. -/
theorem keys_Add (q : url.Values) (k x : String) :
    Map.keys (url.Values.Add q k x) = if k ∈ Map.keys q then Map.keys q else Map.keys q ++ [k] := by
  by_cases h : k ∈ Map.keys q
  · rw [if_pos h]
    unfold url.Values.Add
    have hany : q.any (fun e => e.1 == k) = true := by
      simp only [Map.keys, List.mem_map] at h
      obtain ⟨e, he, hek⟩ := h
      simp only [List.any_eq_true, beq_iff_eq]
      exact ⟨e, he, hek⟩
    rw [if_pos hany]
    simp only [Map.keys, List.map_map]
    apply List.map_congr_left
    intro e _
    by_cases hek : e.1 = k
    · simp [hek]
    · simp [hek]
  · rw [if_neg h, Add_of_not_mem q k x h]
    simp [Map.keys]

/-- A key that some entry carries reads as present. -/
theorem lookup_isSome_of_any {α : Type} (m : Map α) (k : String)
    (h : m.any (fun e => e.1 == k) = true) : ∃ w, Map.lookup m k = some w := by
  induction m with
  | nil => simp at h
  | cons e m ih =>
    by_cases he : e.1 = k
    · exact ⟨e.2, by simp [Map.lookup, he]⟩
    · have hb : (e.1 == k) = false := by simpa using he
      simp only [List.any_cons, hb, Bool.false_or] at h
      obtain ⟨w, hw⟩ := ih h
      exact ⟨w, by simp [Map.lookup, he, hw]⟩

/-- Reading a key in values whose entry under `k` got one more value. -/
theorem lookup_map_extend (q : url.Values) (k x k1 : String) :
    Map.lookup (q.map (fun e => if e.1 == k then (k, e.2 ++ [x]) else e)) k1 =
      if k = k1 then (Map.lookup q k).map (fun ws => ws ++ [x]) else Map.lookup q k1 := by
  induction q with
  | nil => simp [Map.lookup]
  | cons e q ih =>
    simp only [beq_iff_eq] at ih
    by_cases hk : k = k1
    · subst hk
      by_cases he : e.1 = k
      · simp [Map.lookup, he]
      · simp only [if_true] at ih
        simp [Map.lookup, he, ih]
    · simp only [hk, if_false] at ih
      by_cases he : e.1 = k
      · have : ¬ e.1 = k1 := fun h => hk (he.symm.trans h)
        simp [Map.lookup, he, hk, ih, this]
      · simp [Map.lookup, he, hk, ih]

/-- Reading a key after `Values.Add`. -/
theorem lookup_Add (q : url.Values) (k x k1 : String) :
    Map.lookup (url.Values.Add q k x) k1 =
      if k = k1 then some ((Map.lookup q k).getD [] ++ [x]) else Map.lookup q k1 := by
  unfold url.Values.Add
  by_cases hany : q.any (fun e => e.1 == k) = true
  · rw [if_pos hany, lookup_map_extend]
    obtain ⟨w, hw⟩ := lookup_isSome_of_any q k hany
    simp [hw]
  · rw [if_neg hany, Map.lookup_append_single]
    have hnone := Map.lookup_eq_none_of_not_any q k hany
    by_cases hk : k = k1
    · subst hk
      simp [hnone]
    · simp only [hk, if_false]
      cases Map.lookup q k1 <;> rfl

/-- Adding a value keeps values well formed. -/
theorem WellFormed_Add (q : url.Values) (k x : String) (h : url.Values.WellFormed q) :
    url.Values.WellFormed (url.Values.Add q k x) := by
  constructor
  · rw [keys_Add]
    split_ifs with hk
    · exact h.1
    · exact List.Nodup.append h.1 (List.nodup_singleton k) (by simpa using hk)
  · intro e he
    unfold url.Values.Add at he
    split_ifs at he
    · simp only [List.mem_map] at he
      obtain ⟨p, hp, rfl⟩ := he
      split_ifs
      · simp
      · exact h.2 p hp
    · simp only [List.mem_append, List.mem_singleton] at he
      rcases he with he | he
      · exact h.2 e he
      · subst he
        simp

/-- Adding the entries of a map keeps values well formed. -/
theorem WellFormed_foldl_Add {α : Type} (es : Map α) (f : α → String) (q : url.Values)
    (h : url.Values.WellFormed q) :
    url.Values.WellFormed (es.foldl (fun q e => url.Values.Add q e.1 (f e.2)) q) := by
  induction es generalizing q with
  | nil => exact h
  | cons e es ih => exact ih _ (WellFormed_Add q e.1 (f e.2) h)

/-- Reading a key after adding the entries of a map with distinct keys: the value
of the key, if the map has it, comes after the values already there. -/
theorem lookup_foldl_Add {α : Type} (es : Map α) (f : α → String) (q : url.Values) (k : String)
    (hnodup : (Map.keys es).Nodup) :
    Map.lookup (es.foldl (fun q e => url.Values.Add q e.1 (f e.2)) q) k =
      match Map.lookup es k with
      | some x => some ((Map.lookup q k).getD [] ++ [f x])
      | none => Map.lookup q k := by
  induction es generalizing q with
  | nil => rfl
  | cons e es ih =>
    simp only [Map.keys, List.map_cons, List.nodup_cons] at hnodup
    rw [List.foldl_cons, ih _ hnodup.2]
    by_cases he : e.1 = k
    · subst he
      have hnone : Map.lookup es e.1 = none := by
        apply Map.lookup_eq_none_of_not_any
        intro hany
        simp only [List.any_eq_true, beq_iff_eq] at hany
        obtain ⟨p, hp, hpe⟩ := hany
        exact hnodup.1 (List.mem_map.mpr ⟨p, hp, hpe⟩)
      simp [Map.lookup, hnone, lookup_Add]
    · simp only [Map.lookup, he, if_false, lookup_Add]

/-- The values parsed from the query of the request after the block
`if params != nil`, on an address without a query: the entries of params. -/
theorem Query_addParams (rt : Runtime) (req : http.Request) (params : Option (Map String))
    (hquery : rt.Query = url.URL.Query) (henc : rt.Encode = url.Values.Encode)
    (hq0 : req.URL.RawQuery = "") (hkeys : ∀ ps, params = some ps → (Map.keys ps).Nodup) :
    url.Values.WellFormed (url.URL.Query (chimoney.Client.addParams rt req params).URL) ∧
    ∀ k, Map.lookup (url.URL.Query (chimoney.Client.addParams rt req params).URL) k =
      (Map.lookup (params.getD []) k).map (fun y => [y]) := by
  cases params with
  | none =>
    simp only [chimoney.Client.addParams, url.URL.Query, hq0, ParseQuery_empty, Option.getD_none]
    exact ⟨⟨List.nodup_nil, fun e he => absurd he (List.not_mem_nil e)⟩, fun k => rfl⟩
  | some ps =>
    have hwf := WellFormed_of_map ps (hkeys ps rfl)
    rw [addParams_some rt req ps hquery henc hq0 (hkeys ps rfl)]
    simp only [url.URL.Query, Option.getD_some]
    rw [ParseQuery_Encode _ hwf]
    refine ⟨WellFormed_sortByKey _ hwf, fun k => ?_⟩
    rw [Map.lookup_sortByKey]
    exact Map.lookup_map_value (fun x => [x]) ps k

/-- The query of the request sent for a GET with a `map[string]interface{}` body,
read key by key: the value of params, if any, then the rendering of the value of
the body, if any. -/
theorem Do_get_map_query {σ ρ : Type} [Destination ρ] (rt : Runtime) (c : chimoney.Client σ)
    (ctx : Context) (path : String) (m : Map Value) (v : ρ) (params : Option (Map String))
    (s : σ) (reqBody : Option String) (req : http.Request)
    (hquery : rt.Query = url.URL.Query) (henc : rt.Encode = url.Values.Encode)
    (hbody : chimoney.Client.reqBody rt (.anyMap m) = .ok reqBody)
    (hreq : rt.NewRequestWithContext ctx "GET" (c.baseURL ++ path) reqBody = .ok req)
    (hq0 : req.URL.RawQuery = "")
    (hpk : ∀ ps, params = some ps → (Map.keys ps).Nodup) (hmk : (Map.keys m).Nodup) :
    ∃ sent, (chimoney.Client.Do rt (chimoney.Client.recording c) ctx "GET" path (.anyMap m) v
        params (s, [])).state.2 = [sent] ∧
      ∀ k, Map.lookup (url.ParseQuery sent.URL.RawQuery) k =
        match Map.lookup m k with
        | some x =>
          some (((Map.lookup (params.getD []) k).map (fun y => [y])).getD [] ++ [rt.Sprint x])
        | none => (Map.lookup (params.getD []) k).map (fun y => [y]) := by
  obtain ⟨hwf, hlook⟩ := Query_addParams rt req params hquery henc hq0 hpk
  have hlog : (chimoney.Client.Do rt (chimoney.Client.recording c) ctx "GET" path (.anyMap m) v
      params (s, [])).state.2 = [chimoney.Client.setHeaders rt c (chimoney.Client.addBodyParams rt
        (chimoney.Client.addParams rt req params) "GET" (.anyMap m))] := by
    rw [Do_sent_requests, hbody]
    simp only [hreq]
  refine ⟨_, hlog, fun k => ?_⟩
  have hraw : (chimoney.Client.setHeaders rt c (chimoney.Client.addBodyParams rt
      (chimoney.Client.addParams rt req params) "GET" (.anyMap m))).URL.RawQuery =
      url.Values.Encode (m.foldl (fun q e => url.Values.Add q e.1 (rt.Sprint e.2))
        (url.URL.Query (chimoney.Client.addParams rt req params).URL)) := by
    simp only [chimoney.Client.setHeaders, chimoney.Client.addBodyParams, if_true, hquery, henc]
  rw [hraw, ParseQuery_Encode _ (WellFormed_foldl_Add m rt.Sprint _ hwf), Map.lookup_sortByKey,
    lookup_foldl_Add m rt.Sprint _ k hmk, hlook]
  cases Map.lookup m k <;> rfl

/-- C20, as stated, fails: a GET with the params k = 1 and the body map k = 2 is
sent with the query k=1&k=2; the key has two values, the one of params first. -/
theorem C20_counterexample_shared_key_keeps_both_values :
    (chimoney.Client.Do stdRuntime (chimoney.Client.recording (exampleClient 200 "ok"))
        exampleContext "GET" "/info/assets" (.anyMap [("k", .str "2")]) InfoResponse.zero
        (some [("k", "1")]) (0, [])).state.2.map
          (fun r => (r.URL.RawQuery, url.ParseQuery r.URL.RawQuery)) =
      [("k=1&k=2", [("k", ["1", "2"])])] := by
  decide

/-- C20, amended: in `Client.Do` with the method GET, when params and the map body
share a key, params is applied first and the value of the body is added after
it: the final query holds two values for the key, first the one of params, then
the rendering of the one of the body. -/
theorem C20_shared_key_keeps_both_values {σ ρ : Type} [Destination ρ] (rt : Runtime)
    (c : chimoney.Client σ) (ctx : Context) (path : String) (m : Map Value) (v : ρ)
    (ps : Map String) (s : σ) (reqBody : Option String) (req : http.Request)
    (k y : String) (x : Value)
    (hquery : rt.Query = url.URL.Query) (henc : rt.Encode = url.Values.Encode)
    (hbody : chimoney.Client.reqBody rt (.anyMap m) = .ok reqBody)
    (hreq : rt.NewRequestWithContext ctx "GET" (c.baseURL ++ path) reqBody = .ok req)
    (hq0 : req.URL.RawQuery = "")
    (hpk : (Map.keys ps).Nodup) (hmk : (Map.keys m).Nodup)
    (hy : Map.lookup ps k = some y) (hx : Map.lookup m k = some x) :
    ∃ sent, (chimoney.Client.Do rt (chimoney.Client.recording c) ctx "GET" path (.anyMap m) v
        (some ps) (s, [])).state.2 = [sent] ∧
      Map.lookup (url.ParseQuery sent.URL.RawQuery) k = some [y, rt.Sprint x] := by
  obtain ⟨sent, hlog, hq⟩ := Do_get_map_query rt c ctx path m v (some ps) s reqBody req hquery
    henc hbody hreq hq0 (fun p hp => by cases hp; exact hpk) hmk
  refine ⟨sent, hlog, ?_⟩
  rw [hq k, hx]
  simp [hy]

/-- C20, amended, on the params k = 1 and the body map k = 2. -/
theorem C20_shared_key_keeps_both_values_witness :
    ∃ sent, (chimoney.Client.Do stdRuntime (chimoney.Client.recording (exampleClient 200 "ok"))
        exampleContext "GET" "/info/assets" (.anyMap [("k", .str "2")]) InfoResponse.zero
        (some [("k", "1")]) (0, [])).state.2 = [sent] ∧
      Map.lookup (url.ParseQuery sent.URL.RawQuery) "k" = some ["1", stdRuntime.Sprint (.str "2")] :=
  C20_shared_key_keeps_both_values stdRuntime (exampleClient 200 "ok") exampleContext
    "/info/assets" [("k", .str "2")] InfoResponse.zero [("k", "1")] 0 (some "null") _ "k" "1"
    (.str "2") rfl rfl rfl rfl rfl (by decide) (by decide) rfl rfl

/-- The encoding of a single parameter `countryCode`. -/
theorem Encode_countryCode (value : String) :
    url.Values.Encode [("countryCode", [value])] = "countryCode=" ++ url.QueryEscape value := by
  have h : url.escape "countryCode".toList = "countryCode".toList := by decide
  show String.mk (url.escape "countryCode".toList ++ '=' :: url.escape value.toList) = _
  rw [h]
  rfl

/-- C14: for every countryCode, `Info.GetBanks` raises no validation error and
makes exactly one `Do` call: GET /info/country-banks with a nil body and the one
query parameter countryCode, whose value is NG for an empty countryCode and the
countryCode otherwise. Through `Client.Do`, on a base URL whose address parses
without a query, the request sent has the URL of base URL ++
/info/country-banks with the query countryCode= followed by the escaped value:
countryCode=NG for the empty countryCode and countryCode=GH for GH. -/
theorem C14_GetBanks_defaults_the_country_to_NG {σ τ : Type} (t : Client τ) (rt : Runtime)
    (c : chimoney.Client σ) (ctx : Context) (countryCode : String) (s0 : τ) (s : σ)
    (req : http.Request)
    (hquery : rt.Query = url.URL.Query) (henc : rt.Encode = url.Values.Encode)
    (hreq : rt.NewRequestWithContext ctx "GET" (c.baseURL ++ "/info/country-banks") none =
      .ok req)
    (hq0 : req.URL.RawQuery = "") :
    (∃ rec, rec.method = "GET" ∧ rec.path = "/info/country-banks" ∧ rec.body = Body.none ∧
      rec.params = some [("countryCode", if countryCode = "" then "NG" else countryCode)] ∧
      ((info.New (Client.recording t)).GetBanks ctx countryCode (s0, [])).sentExactly rec) ∧
    (∃ sent, ((info.New (chimoney.Client.transport rt (chimoney.Client.recording c))).GetBanks ctx
        countryCode (s, [])).state.2 = [sent] ∧
      sent.Method = req.Method ∧
      sent.URL = { req.URL with
        RawQuery := ("countryCode=" ++
          url.QueryEscape (if countryCode = "" then "NG" else countryCode)) } ∧
      (countryCode = "" → sent.URL.RawQuery = "countryCode=NG") ∧
      (countryCode = "GH" → sent.URL.RawQuery = "countryCode=GH")) := by
  constructor
  · simp only [Info.GetBanks, info.New]
    exact (recording_Do_sentExactly t ctx _ _ _ _ _ s0).imp
      (fun _ hr => ⟨hr.2.1, hr.2.2.1, hr.2.2.2.1, hr.2.2.2.2.1, hr.2.2.2.2.2⟩)
  · have hkeys : (Map.keys [("countryCode", if countryCode = "" then "NG" else countryCode)]).Nodup :=
      by simp [Map.keys]
    have hlog : ((info.New (chimoney.Client.transport rt (chimoney.Client.recording c))).GetBanks
        ctx countryCode (s, [])).state.2 =
        [chimoney.Client.setHeaders rt c (chimoney.Client.addParams rt req
          (some [("countryCode", if countryCode = "" then "NG" else countryCode)]))] := by
      simp only [Info.GetBanks, info.New, chimoney.Client.transport, DoResult.ret, Outcome.state]
      rw [Do_sent_requests]
      simp only [chimoney.Client.reqBody, hreq, chimoney.Client.addBodyParams]
    refine ⟨_, hlog, ?_, ?_, ?_, ?_⟩
    · rw [addParams_some rt req _ hquery henc hq0 hkeys]
      rfl
    · rw [addParams_some rt req _ hquery henc hq0 hkeys]
      simp only [chimoney.Client.setHeaders, List.map_cons, List.map_nil, Encode_countryCode]
    · intro h
      rw [addParams_some rt req _ hquery henc hq0 hkeys]
      subst h
      simp only [chimoney.Client.setHeaders, List.map_cons, List.map_nil, if_true]
      decide
    · intro h
      rw [addParams_some rt req _ hquery henc hq0 hkeys]
      subst h
      simp only [chimoney.Client.setHeaders, List.map_cons, List.map_nil]
      decide

/-- C14 against a local test server: the request targets are
/info/country-banks?countryCode=NG for the empty countryCode and
/info/country-banks?countryCode=GH for GH. -/
theorem C14_GetBanks_defaults_the_country_to_NG_witness :
    ((info.New (chimoney.Client.transport stdRuntime (chimoney.Client.recording
        (testServerClient 200 "ok")))).GetBanks exampleContext "" (0, [])).state.2.map
          (fun r => (r.Method, r.URL.RequestURI)) =
      [("GET", "/info/country-banks?countryCode=NG")] ∧
    ((info.New (chimoney.Client.transport stdRuntime (chimoney.Client.recording
        (testServerClient 200 "ok")))).GetBanks exampleContext "GH" (0, [])).state.2.map
          (fun r => (r.Method, r.URL.RequestURI)) =
      [("GET", "/info/country-banks?countryCode=GH")] ∧
    ∃ sent, ((info.New (chimoney.Client.transport stdRuntime (chimoney.Client.recording
        (testServerClient 200 "ok")))).GetBanks exampleContext "GH" (0, [])).state.2 = [sent] ∧
      sent.URL.RawQuery = "countryCode=GH" :=
  ⟨by decide, by decide,
    (C14_GetBanks_defaults_the_country_to_NG acceptingTransport stdRuntime
      (testServerClient 200 "ok") exampleContext "GH" 0 0 _ rfl rfl rfl rfl).2.imp
      (fun _ h => ⟨h.1, h.2.2.2.2 rfl⟩)⟩

/-! ## Reading back the text of a syntax tree -/

theorem spanSpace_append (ws rest : List Char) (hws : json.allSpace ws = true)
    (hrest : ∀ c r, rest = c :: r → json.isSpace c = false) :
    json.spanSpace (ws ++ rest) = (ws, rest) := by
  induction ws with
  | nil =>
    cases rest with
    | nil => rfl
    | cons c r => simp [json.spanSpace, hrest c r rfl]
  | cons a t ih =>
    simp only [json.allSpace, List.all_cons, Bool.and_eq_true] at hws
    have ht : json.allSpace t = true := hws.2
    simp [json.spanSpace, hws.1, ih ht]

theorem spanDigits_append (ds rest : List Char) (hds : json.allDigits ds = true)
    (hrest : ∀ c r, rest = c :: r → json.isDigit c = false) :
    json.spanDigits (ds ++ rest) = (ds, rest) := by
  induction ds with
  | nil =>
    cases rest with
    | nil => rfl
    | cons c r => simp [json.spanDigits, hrest c r rfl]
  | cons a t ih =>
    simp only [json.allDigits, List.all_cons, Bool.and_eq_true] at hds
    have ht : json.allDigits t = true := hds.2
    simp [json.spanDigits, hds.1, ih ht]

theorem scanString_quote (r : List Char) : json.scanString ('"' :: r) = some ([], r) := by
  rw [json.scanString.eq_def]
  simp

theorem scanString_plain (c : Char) (r : List Char) (h : json.StrItem.WellFormed (.plain c) = true) :
    json.scanString (c :: r) = (json.scanString r).map (fun p => (.plain c :: p.1, p.2)) := by
  simp only [json.StrItem.WellFormed, Bool.and_eq_true, Bool.not_eq_true', beq_eq_false_iff_ne,
    ne_eq, decide_eq_true_eq] at h
  have h3 : ¬ c.toNat < 32 := by omega
  rw [json.scanString.eq_def]
  simp [h.1.1, h.1.2, h3]

theorem scanString_escape (c : Char) (r : List Char) (h : json.isEscape c = true) :
    json.scanString ('\\' :: c :: r) = (json.scanString r).map (fun p => (.escape c :: p.1, p.2)) := by
  have hu : c ≠ 'u' := by
    intro e
    subst e
    simp [json.isEscape] at h
  rw [json.scanString.eq_def]
  simp [h, hu]

theorem scanString_unicode (a b c d : Char) (r : List Char)
    (h : json.StrItem.WellFormed (.unicode a b c d) = true) :
    json.scanString ('\\' :: 'u' :: a :: b :: c :: d :: r) =
      (json.scanString r).map (fun p => (.unicode a b c d :: p.1, p.2)) := by
  simp only [json.StrItem.WellFormed, Bool.and_eq_true] at h
  rw [json.scanString.eq_def]
  simp [h.1.1.1, h.1.1.2, h.1.2, h.2]

theorem scanString_text (items : List json.StrItem) (rest : List Char)
    (h : items.all json.StrItem.WellFormed = true) :
    json.scanString (json.itemsText items ++ '"' :: rest) = some (items, rest) := by
  induction items with
  | nil => exact scanString_quote rest
  | cons i t ih =>
    simp only [List.all_cons, Bool.and_eq_true] at h
    have iht := ih h.2
    cases i with
    | plain c =>
      show json.scanString (c :: (json.itemsText t ++ '"' :: rest)) = _
      rw [scanString_plain c _ h.1, iht]
      rfl
    | escape c =>
      show json.scanString ('\\' :: c :: (json.itemsText t ++ '"' :: rest)) = _
      rw [scanString_escape c _ h.1, iht]
      rfl
    | unicode a b c d =>
      show json.scanString ('\\' :: 'u' :: a :: b :: c :: d :: (json.itemsText t ++ '"' :: rest)) = _
      rw [scanString_unicode a b c d _ h.1, iht]
      rfl

theorem isDigit_of_allDigits_head (c : Char) (ds : List Char)
    (h : json.allDigits (c :: ds) = true) : json.isDigit c = true := by
  simp only [json.allDigits, List.all_cons, Bool.and_eq_true] at h
  exact h.1

theorem scanInt_text (int rest : List Char) (h : json.intWellFormed int = true)
    (hrest : ∀ c r, rest = c :: r → json.isDigit c = false) :
    json.scanInt (int ++ rest) = some (int, rest) := by
  cases int with
  | nil => simp [json.intWellFormed] at h
  | cons c ds =>
    simp only [json.intWellFormed, Bool.and_eq_true, Bool.or_eq_true, Bool.not_eq_true',
      beq_eq_false_iff_ne, ne_eq, List.isEmpty_iff] at h
    by_cases hc : c = '0'
    · have hds : ds = [] := by
        rcases h.2 with h0 | h0
        · exact absurd hc h0
        · exact h0
      subst hc hds
      rfl
    · show json.scanInt (c :: (ds ++ rest)) = _
      simp only [json.scanInt, if_neg hc, h.1.1, if_true, spanDigits_append ds rest h.1.2 hrest]

theorem scanFrac_text (frac : Option (List Char)) (rest : List Char)
    (h : json.fracWellFormed frac = true)
    (hrest : ∀ c r, rest = c :: r → json.isDigit c = false ∧ c ≠ '.') :
    json.scanFrac (json.fracText frac ++ rest) = some (frac, rest) := by
  cases frac with
  | none =>
    cases rest with
    | nil => rfl
    | cons c r =>
      show json.scanFrac (c :: r) = _
      simp only [json.scanFrac, if_neg (hrest c r rfl).2]
  | some ds =>
    simp only [json.fracWellFormed, Bool.and_eq_true, Bool.not_eq_true', List.isEmpty_eq_false] at h
    show json.scanFrac ('.' :: (ds ++ rest)) = _
    have hsp := spanDigits_append ds rest h.2 (fun c r e => (hrest c r e).1)
    have hne : ds.isEmpty = false := by
      cases ds with
      | nil => exact absurd rfl h.1
      | cons _ _ => rfl
    simp only [json.scanFrac, if_true, hsp, hne]
    rfl

theorem scanExpDigits_text (e : Char) (s : Option Char) (ds rest : List Char)
    (hne : ds.isEmpty = false) (hds : json.allDigits ds = true)
    (hrest : ∀ c r, rest = c :: r → json.isDigit c = false) :
    json.scanExpDigits e s (ds ++ rest) = some (some (e, s, ds), rest) := by
  simp only [json.scanExpDigits, spanDigits_append ds rest hds hrest, hne]
  rfl

theorem isDigit_ne_sign (c : Char) (h : json.isDigit c = true) : ¬ (c = '+' ∨ c = '-') := by
  intro e
  rcases e with e | e <;> subst e <;> simp [json.isDigit] at h

theorem scanExp_text (exp : Option (Char × Option Char × List Char)) (rest : List Char)
    (h : json.expWellFormed exp = true)
    (hrest : ∀ c r, rest = c :: r → json.isDigit c = false ∧ c ≠ 'e' ∧ c ≠ 'E') :
    json.scanExp (json.expText exp ++ rest) = some (exp, rest) := by
  cases exp with
  | none =>
    cases rest with
    | nil => rfl
    | cons c r =>
      have hc := hrest c r rfl
      have hne : ¬ (c = 'e' ∨ c = 'E') := fun e => e.elim hc.2.1 hc.2.2
      show json.scanExp (c :: r) = _
      simp only [json.scanExp, if_neg hne]
  | some p =>
    obtain ⟨e, s, ds⟩ := p
    simp only [json.expWellFormed, Bool.and_eq_true, Bool.or_eq_true, beq_iff_eq,
      Bool.not_eq_true'] at h
    obtain ⟨⟨⟨he, hs⟩, hne⟩, hds⟩ := h
    have hdig := fun c r e => (hrest c r e).1
    cases s with
    | none =>
      cases ds with
      | nil => simp at hne
      | cons d t =>
        have hd := isDigit_ne_sign d (isDigit_of_allDigits_head d t hds)
        show json.scanExp (e :: d :: (t ++ rest)) = _
        simp only [json.scanExp, if_pos he, if_neg hd]
        exact scanExpDigits_text e none (d :: t) rest hne hds hdig
    | some c =>
      have hc : c = '+' ∨ c = '-' := by simpa using hs
      show json.scanExp (e :: c :: (ds ++ rest)) = _
      simp only [json.scanExp, if_pos he, if_pos hc]
      exact scanExpDigits_text e (some c) ds rest hne hds hdig

theorem atValueEnd_head (rest : List Char) (h : json.atValueEnd rest = true) :
    ∀ c r, rest = c :: r →
      json.isDigit c = false ∧ c ≠ '.' ∧ c ≠ 'e' ∧ c ≠ 'E' ∧ c ≠ '-' := by
  intro c r e
  subst e
  simp only [json.atValueEnd, Bool.or_eq_true, beq_iff_eq] at h
  rcases h with ((h | h) | h) | h
  · simp only [json.isSpace, Bool.or_eq_true, beq_iff_eq] at h
    rcases h with ((h | h) | h) | h <;> subst h <;> decide
  · subst h; decide
  · subst h; decide
  · subst h; decide

theorem scanNumber_text (n : json.Number) (rest : List Char) (h : n.WellFormed = true)
    (hrest : json.atValueEnd rest = true) :
    json.scanNumber (n.text ++ rest) = some (n, rest) := by
  obtain ⟨neg, int, frac, exp⟩ := n
  simp only [json.Number.WellFormed, Bool.and_eq_true] at h
  obtain ⟨⟨hint, hfrac⟩, hexp⟩ := h
  have hr := atValueEnd_head rest hrest
  -- what follows the fraction
  have h2 : ∀ c r, json.expText exp ++ rest = c :: r → json.isDigit c = false ∧ c ≠ '.' := by
    intro c r e
    cases exp with
    | none => exact ⟨(hr c r e).1, (hr c r e).2.1⟩
    | some p =>
      obtain ⟨m, s, ds⟩ := p
      simp only [json.expWellFormed, Bool.and_eq_true, Bool.or_eq_true, beq_iff_eq] at hexp
      have hm : m = c := by
        cases s <;> simp [json.expText] at e <;> exact e.1
      subst hm
      rcases hexp.1.1.1 with hm | hm <;> subst hm <;> decide
  -- what follows the integer part
  have h1 : ∀ c r, json.fracText frac ++ (json.expText exp ++ rest) = c :: r →
      json.isDigit c = false := by
    intro c r e
    cases frac with
    | none => exact (h2 c r e).1
    | some ds =>
      simp [json.fracText] at e
      rw [← e.1]
      decide
  have e1 := scanInt_text int (json.fracText frac ++ (json.expText exp ++ rest)) hint h1
  have e2 := scanFrac_text frac (json.expText exp ++ rest) hfrac h2
  have e3 := scanExp_text exp rest hexp
    (fun c r e => ⟨(hr c r e).1, (hr c r e).2.2.1, (hr c r e).2.2.2.1⟩)
  cases neg with
  | true =>
    have et : (json.Number.mk true int frac exp).text ++ rest =
        '-' :: (int ++ (json.fracText frac ++ (json.expText exp ++ rest))) := by
      simp [json.Number.text]
    rw [et]
    simp only [json.scanNumber, if_true, e1, e2, e3]
  | false =>
    cases int with
    | nil => simp [json.intWellFormed] at hint
    | cons c ds =>
      have hc : json.isDigit c = true := by
        simp only [json.intWellFormed, Bool.and_eq_true] at hint
        exact hint.1.1
      have hm : c ≠ '-' := fun e => (isDigit_ne_sign c hc) (Or.inr e)
      have et : (json.Number.mk false (c :: ds) frac exp).text ++ rest =
          c :: (ds ++ (json.fracText frac ++ (json.expText exp ++ rest))) := by
        simp [json.Number.text]
      rw [et]
      have e1' : json.scanInt (c :: (ds ++ (json.fracText frac ++ (json.expText exp ++ rest)))) =
          some (c :: ds, json.fracText frac ++ (json.expText exp ++ rest)) := e1
      simp only [json.scanNumber, if_neg hm, e1', e2, e3]

theorem spanSpace_cons (ws : List Char) (c : Char) (r : List Char)
    (hws : json.allSpace ws = true) (hc : json.isSpace c = false) :
    json.spanSpace (ws ++ c :: r) = (ws, c :: r) :=
  spanSpace_append ws (c :: r) hws (fun c1 r1 e => by
    cases e
    exact hc)

theorem atValueEnd_append (ws : List Char) (c : Char) (r : List Char)
    (hws : json.allSpace ws = true) (hc : c = ',' ∨ c = ']' ∨ c = '}') :
    json.atValueEnd (ws ++ c :: r) = true := by
  cases ws with
  | nil =>
    rcases hc with h | h | h <;> subst h <;> simp [json.atValueEnd]
  | cons a t =>
    simp only [json.allSpace, List.all_cons, Bool.and_eq_true] at hws
    simp [json.atValueEnd, hws.1]

/-- The text of a value starts with a character that is neither whitespace nor a
closing bracket. -/
theorem text_head (v : json.Syntax) (hwf : v.WellFormed = true) (X : List Char) :
    ∃ c r, v.text ++ X = c :: r ∧ json.isSpace c = false ∧ c ≠ ']' := by
  cases v with
  | null => exact ⟨'n', _, rfl, by decide, by decide⟩
  | true => exact ⟨'t', _, rfl, by decide, by decide⟩
  | false => exact ⟨'f', _, rfl, by decide, by decide⟩
  | string items => exact ⟨'"', _, rfl, by decide, by decide⟩
  | array ws elems => exact ⟨'[', _, rfl, by decide, by decide⟩
  | object ws members => exact ⟨'{', _, rfl, by decide, by decide⟩
  | number num =>
    obtain ⟨neg, int, frac, exp⟩ := num
    cases neg with
    | true =>
      exact ⟨'-', int ++ (json.fracText frac ++ (json.expText exp ++ X)),
        by simp [json.Syntax.text, json.Number.text], by decide, by decide⟩
    | false =>
      simp only [json.Syntax.WellFormed, json.Number.WellFormed, Bool.and_eq_true] at hwf
      cases int with
      | nil => simp [json.intWellFormed] at hwf
      | cons c ds =>
        have hc : json.isDigit c = true := by
          have h := hwf.1.1
          simp only [json.intWellFormed, Bool.and_eq_true] at h
          exact h.1.1
        refine ⟨c, ds ++ (json.fracText frac ++ (json.expText exp ++ X)),
          by simp [json.Syntax.text, json.Number.text], ?_, ?_⟩
        · simp only [json.isDigit, Bool.and_eq_true, decide_eq_true_eq] at hc
          have h1 : c ≠ ' ' := by intro e; subst e; simp at hc
          have h2 : c ≠ '\t' := by intro e; subst e; simp at hc
          have h3 : c ≠ '\n' := by intro e; subst e; simp at hc
          have h4 : c ≠ '\r' := by intro e; subst e; simp at hc
          simp [json.isSpace, h1, h2, h3, h4]
        · intro e
          subst e
          simp [json.isDigit] at hc

theorem scanLiteral_text (word rest : List Char) (v : json.Syntax) :
    json.scanLiteral word v (word ++ rest) = some (v, rest) := by
  simp [json.scanLiteral]

theorem parseValue_number (num : json.Number) (hwf : num.WellFormed = true) (n k : Nat)
    (rest : List Char) (hend : json.atValueEnd rest = true) :
    json.parseValue (n + 1) k (num.text ++ rest) = some (.number num, rest) := by
  obtain ⟨c, r, e, _, _⟩ := text_head (.number num) hwf rest
  have e1 : num.text ++ rest = c :: r := e
  have hs := scanNumber_text num rest hwf hend
  rw [e1] at hs ⊢
  have h1 : c ≠ '{' := by
    intro h; subst h; simp [json.scanNumber, json.scanInt, json.isDigit] at hs
  have h2 : c ≠ '[' := by
    intro h; subst h; simp [json.scanNumber, json.scanInt, json.isDigit] at hs
  have h3 : c ≠ '"' := by
    intro h; subst h; simp [json.scanNumber, json.scanInt, json.isDigit] at hs
  have h4 : c ≠ 'n' := by
    intro h; subst h; simp [json.scanNumber, json.scanInt, json.isDigit] at hs
  have h5 : c ≠ 't' := by
    intro h; subst h; simp [json.scanNumber, json.scanInt, json.isDigit] at hs
  have h6 : c ≠ 'f' := by
    intro h; subst h; simp [json.scanNumber, json.scanInt, json.isDigit] at hs
  simp only [json.parseValue, if_neg h1, if_neg h2, if_neg h3, if_neg h4, if_neg h5, if_neg h6, hs]
  rfl

theorem Elements_text_cons (pre : List Char) (v : json.Syntax) (post : List Char)
    (tail : json.Elements) (X : List Char) :
    ∃ Y, (json.Elements.cons pre v post tail).text ++ X = pre ++ (v.text ++ Y) := by
  cases tail with
  | nil => exact ⟨post ++ X, by simp [json.Elements.text]⟩
  | cons pre1 v1 post1 tail1 =>
    exact ⟨post ++ ',' :: ((json.Elements.cons pre1 v1 post1 tail1).text ++ X),
      by simp [json.Elements.text]⟩

theorem Members_text_cons (pre : List Char) (key : List json.StrItem) (mid pre2 : List Char)
    (v : json.Syntax) (post : List Char) (tail : json.Members) (X : List Char) :
    ∃ Y, (json.Members.cons pre key mid pre2 v post tail).text ++ X = pre ++ '"' :: Y := by
  cases tail with
  | nil =>
    exact ⟨json.itemsText key ++ '"' :: (mid ++ ':' :: (pre2 ++ (v.text ++ (post ++ X)))),
      by simp [json.Members.text]⟩
  | cons pre1 key1 mid1 pre21 v1 post1 tail1 =>
    exact ⟨json.itemsText key ++ '"' :: (mid ++ ':' :: (pre2 ++ (v.text ++ (post ++ ',' ::
      ((json.Members.cons pre1 key1 mid1 pre21 v1 post1 tail1).text ++ X))))),
      by simp [json.Members.text]⟩

mutual
/-- Reading the text of a well-formed value gives the value back, and stops right
after it. -/
theorem parseValue_text (v : json.Syntax) (hwf : v.WellFormed = true) (n k : Nat)
    (rest : List Char) (hn : 2 * v.text.length ≤ n)
    (hk : k + v.depth ≤ json.maxNestingDepth)
    (hend : ∀ num, v = .number num → json.atValueEnd rest = true) :
    json.parseValue n k (v.text ++ rest) = some (v, rest) := by
  match v, hwf, hn, hk, hend with
  | .null, _, hn, _, _ =>
    obtain ⟨m, rfl⟩ : ∃ m, n = m + 1 := ⟨n - 1, by simp [json.Syntax.text] at hn; omega⟩
    show json.parseValue (m + 1) k ('n' :: 'u' :: 'l' :: 'l' :: rest) = _
    simp [json.parseValue, json.scanLiteral]
  | .true, _, hn, _, _ =>
    obtain ⟨m, rfl⟩ : ∃ m, n = m + 1 := ⟨n - 1, by simp [json.Syntax.text] at hn; omega⟩
    show json.parseValue (m + 1) k ('t' :: 'r' :: 'u' :: 'e' :: rest) = _
    simp [json.parseValue, json.scanLiteral]
  | .false, _, hn, _, _ =>
    obtain ⟨m, rfl⟩ : ∃ m, n = m + 1 := ⟨n - 1, by simp [json.Syntax.text] at hn; omega⟩
    show json.parseValue (m + 1) k ('f' :: 'a' :: 'l' :: 's' :: 'e' :: rest) = _
    simp [json.parseValue, json.scanLiteral]
  | .number num, hwf, hn, _, hend =>
    obtain ⟨c, r, e, _, _⟩ := text_head (.number num) hwf []
    have hlen : 0 < (json.Syntax.number num).text.length := by
      have := congrArg List.length e
      simp at this
      omega
    obtain ⟨m, rfl⟩ : ∃ m, n = m + 1 := ⟨n - 1, by omega⟩
    exact parseValue_number num hwf m k rest (hend num rfl)
  | .string items, hwf, hn, _, _ =>
    obtain ⟨m, rfl⟩ : ∃ m, n = m + 1 := ⟨n - 1, by simp [json.Syntax.text] at hn; omega⟩
    have hs := scanString_text items rest hwf
    show json.parseValue (m + 1) k ('"' :: ((json.itemsText items ++ ['"']) ++ rest)) = _
    have ea : (json.itemsText items ++ ['"']) ++ rest = json.itemsText items ++ '"' :: rest := by
      simp
    rw [ea]
    simp only [json.parseValue, hs]
    rfl
  | .array ws .nil, hwf, hn, hk, _ =>
    obtain ⟨m, rfl⟩ : ∃ m, n = m + 1 := ⟨n - 1, by simp [json.Syntax.text] at hn; omega⟩
    simp only [json.Syntax.WellFormed, Bool.and_eq_true] at hwf
    have hs := spanSpace_cons ws ']' rest hwf.1.1 (by decide)
    have ea : (json.Syntax.array ws .nil).text ++ rest = '[' :: (ws ++ ']' :: rest) := by
      simp [json.Syntax.text, json.Elements.text]
    have hd : k < json.maxNestingDepth := by
      simp only [json.Syntax.depth] at hk
      omega
    rw [ea]
    simp only [json.parseValue, hs, if_pos hd]
    rfl
  | .array ws (.cons pre v1 post tail), hwf, hn, hk, _ =>
    simp only [json.Syntax.WellFormed, Bool.and_eq_true, List.isEmpty_iff] at hwf
    obtain ⟨⟨hws, hnil⟩, hes⟩ := hwf
    subst hnil
    have hes1 := hes
    simp only [json.Elements.WellFormed, Bool.and_eq_true] at hes1
    have hlen : (json.Syntax.array [] (.cons pre v1 post tail)).text.length =
        (json.Elements.cons pre v1 post tail).text.length + 2 := by
      simp [json.Syntax.text]
    obtain ⟨m, rfl⟩ : ∃ m, n = m + 1 := ⟨n - 1, by omega⟩
    simp only [json.Syntax.depth] at hk
    have hd : k < json.maxNestingDepth := by omega
    have ih := parseElements_text pre v1 post tail hes m (k + 1) rest (by omega) (by omega)
    have ea : (json.Syntax.array [] (.cons pre v1 post tail)).text ++ rest =
        '[' :: ((json.Elements.cons pre v1 post tail).text ++ ']' :: rest) := by
      simp [json.Syntax.text]
    rw [ea]
    -- the first character after the whitespace is the head of the first value
    obtain ⟨Y, eY⟩ := Elements_text_cons pre v1 post tail (']' :: rest)
    obtain ⟨c, r, ec, hsp, hbr⟩ := text_head v1 hes1.1.1.2 Y
    have hs : json.spanSpace ((json.Elements.cons pre v1 post tail).text ++ ']' :: rest) =
        (pre, c :: r) := by
      rw [eY, ec]
      exact spanSpace_cons pre c r hes1.1.1.1 hsp
    simp only [json.parseValue, hs, if_neg hbr, ih, if_pos hd]
    rfl
  | .object ws .nil, hwf, hn, hk, _ =>
    obtain ⟨m, rfl⟩ : ∃ m, n = m + 1 := ⟨n - 1, by simp [json.Syntax.text] at hn; omega⟩
    simp only [json.Syntax.WellFormed, Bool.and_eq_true] at hwf
    have hs := spanSpace_cons ws '}' rest hwf.1.1 (by decide)
    have ea : (json.Syntax.object ws .nil).text ++ rest = '{' :: (ws ++ '}' :: rest) := by
      simp [json.Syntax.text, json.Members.text]
    have hd : k < json.maxNestingDepth := by
      simp only [json.Syntax.depth] at hk
      omega
    rw [ea]
    simp only [json.parseValue, hs, if_pos hd]
    rfl
  | .object ws (.cons pre key mid pre2 v1 post tail), hwf, hn, hk, _ =>
    simp only [json.Syntax.WellFormed, Bool.and_eq_true, List.isEmpty_iff] at hwf
    obtain ⟨⟨hws, hnil⟩, hms⟩ := hwf
    subst hnil
    have hms1 := hms
    simp only [json.Members.WellFormed, Bool.and_eq_true] at hms1
    have hlen : (json.Syntax.object [] (.cons pre key mid pre2 v1 post tail)).text.length =
        (json.Members.cons pre key mid pre2 v1 post tail).text.length + 2 := by
      simp [json.Syntax.text]
    obtain ⟨m, rfl⟩ : ∃ m, n = m + 1 := ⟨n - 1, by omega⟩
    simp only [json.Syntax.depth] at hk
    have hd : k < json.maxNestingDepth := by omega
    have ih := parseMembers_text pre key mid pre2 v1 post tail hms m (k + 1) rest (by omega)
      (by omega)
    have ea : (json.Syntax.object [] (.cons pre key mid pre2 v1 post tail)).text ++ rest =
        '{' :: ((json.Members.cons pre key mid pre2 v1 post tail).text ++ '}' :: rest) := by
      simp [json.Syntax.text]
    rw [ea]
    obtain ⟨Y, eY⟩ := Members_text_cons pre key mid pre2 v1 post tail ('}' :: rest)
    have hs : json.spanSpace ((json.Members.cons pre key mid pre2 v1 post tail).text ++
        '}' :: rest) = (pre, '"' :: Y) := by
      rw [eY]
      exact spanSpace_cons pre '"' Y hms1.1.1.1.1.1.1 (by decide)
    have hq : ('"' : Char) ≠ '}' := by decide
    simp only [json.parseValue, hs, if_neg hq, ih, if_pos hd]
    rfl
termination_by n
/-- Reading the text of well-formed elements up to the closing bracket gives the
elements back. -/
theorem parseElements_text (pre : List Char) (v : json.Syntax) (post : List Char)
    (tail : json.Elements) (hwf : (json.Elements.cons pre v post tail).WellFormed = true)
    (n k : Nat) (rest : List Char)
    (hn : 2 * (json.Elements.cons pre v post tail).text.length + 1 ≤ n)
    (hk : k + (json.Elements.cons pre v post tail).depth ≤ json.maxNestingDepth) :
    json.parseElements n k ((json.Elements.cons pre v post tail).text ++ ']' :: rest) =
      some (.cons pre v post tail, rest) := by
  obtain ⟨m, rfl⟩ : ∃ m, n = m + 1 := ⟨n - 1, by omega⟩
  have hkv : k + v.depth ≤ json.maxNestingDepth :=
    le_trans (Nat.add_le_add_left (le_max_left _ _) k) hk
  have hkt : k + tail.depth ≤ json.maxNestingDepth :=
    le_trans (Nat.add_le_add_left (le_max_right _ _) k) hk
  simp only [json.Elements.WellFormed, Bool.and_eq_true] at hwf
  obtain ⟨⟨⟨hpre, hv⟩, hpost⟩, htail⟩ := hwf
  match tail, htail, hn, hkt with
  | .nil, _, hn, _ =>
    have ea : (json.Elements.cons pre v post .nil).text ++ ']' :: rest =
        pre ++ (v.text ++ (post ++ ']' :: rest)) := by
      simp [json.Elements.text]
    have hl : (json.Elements.cons pre v post .nil).text.length =
        pre.length + (v.text.length + post.length) := by
      simp [json.Elements.text]
    obtain ⟨c, r, ec, hsp, _⟩ := text_head v hv (post ++ ']' :: rest)
    have hs : json.spanSpace (pre ++ (v.text ++ (post ++ ']' :: rest))) =
        (pre, v.text ++ (post ++ ']' :: rest)) := by
      rw [ec]
      exact spanSpace_cons pre c r hpre hsp
    have ih := parseValue_text v hv m k (post ++ ']' :: rest) (by omega)
      hkv (fun _ _ => atValueEnd_append post ']' rest hpost (Or.inr (Or.inl rfl)))
    have hs2 := spanSpace_cons post ']' rest hpost (by decide)
    have hq : (']' : Char) ≠ ',' := by decide
    rw [ea]
    simp only [json.parseElements, hs, ih, hs2, if_neg hq, if_true]
  | .cons pre1 v2 post1 tail1, htail, hn, hkt =>
    have ea : (json.Elements.cons pre v post (.cons pre1 v2 post1 tail1)).text ++ ']' :: rest =
        pre ++ (v.text ++ (post ++ ',' ::
          ((json.Elements.cons pre1 v2 post1 tail1).text ++ ']' :: rest))) := by
      simp [json.Elements.text]
    have hl : (json.Elements.cons pre v post (.cons pre1 v2 post1 tail1)).text.length =
        pre.length + (v.text.length + (post.length +
          ((json.Elements.cons pre1 v2 post1 tail1).text.length + 1))) := by
      simp [json.Elements.text]
    obtain ⟨c, r, ec, hsp, _⟩ := text_head v hv
      (post ++ ',' :: ((json.Elements.cons pre1 v2 post1 tail1).text ++ ']' :: rest))
    have hs : json.spanSpace (pre ++ (v.text ++ (post ++ ',' ::
        ((json.Elements.cons pre1 v2 post1 tail1).text ++ ']' :: rest)))) =
        (pre, v.text ++ (post ++ ',' ::
          ((json.Elements.cons pre1 v2 post1 tail1).text ++ ']' :: rest))) := by
      rw [ec]
      exact spanSpace_cons pre c r hpre hsp
    have ih := parseValue_text v hv m k
      (post ++ ',' :: ((json.Elements.cons pre1 v2 post1 tail1).text ++ ']' :: rest)) (by omega)
      hkv (fun _ _ => atValueEnd_append post ',' _ hpost (Or.inl rfl))
    have hs2 := spanSpace_cons post ','
      ((json.Elements.cons pre1 v2 post1 tail1).text ++ ']' :: rest) hpost (by decide)
    have ih2 := parseElements_text pre1 v2 post1 tail1 htail m k rest (by omega) hkt
    rw [ea]
    simp only [json.parseElements, hs, ih, hs2, if_true, ih2]
    rfl
termination_by n
/-- Reading the text of well-formed members up to the closing brace gives the
members back. -/
theorem parseMembers_text (pre : List Char) (key : List json.StrItem) (mid pre2 : List Char)
    (v : json.Syntax) (post : List Char) (tail : json.Members)
    (hwf : (json.Members.cons pre key mid pre2 v post tail).WellFormed = true)
    (n k : Nat) (rest : List Char)
    (hn : 2 * (json.Members.cons pre key mid pre2 v post tail).text.length + 1 ≤ n)
    (hk : k + (json.Members.cons pre key mid pre2 v post tail).depth ≤ json.maxNestingDepth) :
    json.parseMembers n k ((json.Members.cons pre key mid pre2 v post tail).text ++ '}' :: rest) =
      some (.cons pre key mid pre2 v post tail, rest) := by
  obtain ⟨m, rfl⟩ : ∃ m, n = m + 1 := ⟨n - 1, by omega⟩
  have hkv : k + v.depth ≤ json.maxNestingDepth :=
    le_trans (Nat.add_le_add_left (le_max_left _ _) k) hk
  have hkt : k + tail.depth ≤ json.maxNestingDepth :=
    le_trans (Nat.add_le_add_left (le_max_right _ _) k) hk
  simp only [json.Members.WellFormed, Bool.and_eq_true] at hwf
  obtain ⟨⟨⟨⟨⟨⟨hpre, hkey⟩, hmid⟩, hpre2⟩, hv⟩, hpost⟩, htail⟩ := hwf
  match tail, htail, hn, hkt with
  | .nil, _, hn, _ =>
    have ea : (json.Members.cons pre key mid pre2 v post .nil).text ++ '}' :: rest =
        pre ++ '"' :: (json.itemsText key ++ '"' :: (mid ++ ':' :: (pre2 ++
          (v.text ++ (post ++ '}' :: rest))))) := by
      simp [json.Members.text]
    have hl : (json.Members.cons pre key mid pre2 v post .nil).text.length =
        pre.length + (1 + ((json.itemsText key).length + (1 + (mid.length + (1 + (pre2.length +
          (v.text.length + post.length))))))) := by
      simp [json.Members.text]
      omega
    have hs0 := spanSpace_cons pre '"' (json.itemsText key ++ '"' :: (mid ++ ':' :: (pre2 ++
      (v.text ++ (post ++ '}' :: rest))))) hpre (by decide)
    have hk := scanString_text key (mid ++ ':' :: (pre2 ++ (v.text ++ (post ++ '}' :: rest)))) hkey
    have hs1 := spanSpace_cons mid ':' (pre2 ++ (v.text ++ (post ++ '}' :: rest))) hmid
      (by decide)
    obtain ⟨c, r, ec, hsp, _⟩ := text_head v hv (post ++ '}' :: rest)
    have hs : json.spanSpace (pre2 ++ (v.text ++ (post ++ '}' :: rest))) =
        (pre2, v.text ++ (post ++ '}' :: rest)) := by
      rw [ec]
      exact spanSpace_cons pre2 c r hpre2 hsp
    have ih := parseValue_text v hv m k (post ++ '}' :: rest) (by omega)
      hkv (fun _ _ => atValueEnd_append post '}' rest hpost (Or.inr (Or.inr rfl)))
    have hs2 := spanSpace_cons post '}' rest hpost (by decide)
    have hq : ('}' : Char) ≠ ',' := by decide
    rw [ea]
    simp only [json.parseMembers, hs0, hk, hs1, hs, ih, hs2, if_neg hq, if_true]
  | .cons pre1 key1 mid1 pre21 v2 post1 tail1, htail, hn, hkt =>
    have ea : (json.Members.cons pre key mid pre2 v post
          (.cons pre1 key1 mid1 pre21 v2 post1 tail1)).text ++ '}' :: rest =
        pre ++ '"' :: (json.itemsText key ++ '"' :: (mid ++ ':' :: (pre2 ++
          (v.text ++ (post ++ ',' ::
            ((json.Members.cons pre1 key1 mid1 pre21 v2 post1 tail1).text ++ '}' :: rest)))))) := by
      simp [json.Members.text]
    have hl : (json.Members.cons pre key mid pre2 v post
          (.cons pre1 key1 mid1 pre21 v2 post1 tail1)).text.length =
        pre.length + (1 + ((json.itemsText key).length + (1 + (mid.length + (1 + (pre2.length +
          (v.text.length + (post.length +
            ((json.Members.cons pre1 key1 mid1 pre21 v2 post1 tail1).text.length + 1))))))))) := by
      simp [json.Members.text]
      omega
    have hs0 := spanSpace_cons pre '"' (json.itemsText key ++ '"' :: (mid ++ ':' :: (pre2 ++
      (v.text ++ (post ++ ',' ::
        ((json.Members.cons pre1 key1 mid1 pre21 v2 post1 tail1).text ++ '}' :: rest))))))
      hpre (by decide)
    have hk := scanString_text key (mid ++ ':' :: (pre2 ++ (v.text ++ (post ++ ',' ::
      ((json.Members.cons pre1 key1 mid1 pre21 v2 post1 tail1).text ++ '}' :: rest))))) hkey
    have hs1 := spanSpace_cons mid ':' (pre2 ++ (v.text ++ (post ++ ',' ::
      ((json.Members.cons pre1 key1 mid1 pre21 v2 post1 tail1).text ++ '}' :: rest)))) hmid
      (by decide)
    obtain ⟨c, r, ec, hsp, _⟩ := text_head v hv (post ++ ',' ::
      ((json.Members.cons pre1 key1 mid1 pre21 v2 post1 tail1).text ++ '}' :: rest))
    have hs : json.spanSpace (pre2 ++ (v.text ++ (post ++ ',' ::
        ((json.Members.cons pre1 key1 mid1 pre21 v2 post1 tail1).text ++ '}' :: rest)))) =
        (pre2, v.text ++ (post ++ ',' ::
          ((json.Members.cons pre1 key1 mid1 pre21 v2 post1 tail1).text ++ '}' :: rest))) := by
      rw [ec]
      exact spanSpace_cons pre2 c r hpre2 hsp
    have ih := parseValue_text v hv m k (post ++ ',' ::
      ((json.Members.cons pre1 key1 mid1 pre21 v2 post1 tail1).text ++ '}' :: rest)) (by omega)
      hkv (fun _ _ => atValueEnd_append post ',' _ hpost (Or.inl rfl))
    have hs2 := spanSpace_cons post ','
      ((json.Members.cons pre1 key1 mid1 pre21 v2 post1 tail1).text ++ '}' :: rest) hpost
      (by decide)
    have ih2 := parseMembers_text pre1 key1 mid1 pre21 v2 post1 tail1 htail m k rest (by omega)
      hkt
    rw [ea]
    simp only [json.parseMembers, hs0, hk, hs1, hs, ih, hs2, if_true, ih2]
    rfl
termination_by n
end

/-- A text that is the text of a well-formed value parses to that value. -/
theorem parse_text (v : json.Syntax) (hwf : v.WellFormed = true)
    (hk : v.depth ≤ json.maxNestingDepth) : json.parse v.text = some v := by
  have h := parseValue_text v hwf (2 * v.text.length) 0 [] (le_refl _) (by omega)
    (fun _ _ => rfl)
  rw [List.append_nil] at h
  simp only [json.parse, h]

/-- The decoder reads the first value of a body, whatever whitespace precedes it
and whatever follows it. -/
theorem readValue_text (lead : List Char) (v : json.Syntax) (trail : List Char)
    (hlead : json.allSpace lead = true) (hwf : v.WellFormed = true)
    (hk : v.depth ≤ json.maxNestingDepth)
    (hend : ∀ num, v = .number num → json.atValueEnd trail = true) :
    json.Decoder.readValue (lead ++ (v.text ++ trail)) = .ok v := by
  obtain ⟨c, r, ec, hsp, _⟩ := text_head v hwf trail
  have hp := parseValue_text v hwf (2 * (v.text ++ trail).length) 0 trail
    (by simp only [List.length_append]; omega) (by omega) hend
  rw [ec] at hp ⊢
  simp only [json.Decoder.readValue, spanSpace_cons lead c r hlead hsp, hp]

/-- The values of well-formed members are well formed. -/
theorem Members_entries_WellFormed (members : json.Members)
    (hwf : members.WellFormed = true) : ∀ e ∈ members.entries, e.2.WellFormed = true := by
  match members, hwf with
  | .nil, _ =>
    intro e he
    simp [json.Members.entries] at he
  | .cons pre key mid pre2 v post tail, hwf =>
    simp only [json.Members.WellFormed, Bool.and_eq_true] at hwf
    intro e he
    simp only [json.Members.entries, List.mem_cons] at he
    rcases he with he | he
    · subst he
      exact hwf.1.1.2
    · exact Members_entries_WellFormed tail hwf.2 e he

/-! ## The nesting limit of the scanner -/

theorem nest_WellFormed (k : Nat) (v : json.Syntax) :
    (json.nest k v).WellFormed = v.WellFormed := by
  induction k with
  | zero => rfl
  | succ k ih =>
    simp [json.nest, json.Syntax.WellFormed, json.Elements.WellFormed, json.allSpace, ih]

theorem replicate_append_cons {α : Type} (k : Nat) (a : α) (rest : List α) :
    List.replicate k a ++ a :: rest = a :: (List.replicate k a ++ rest) := by
  induction k with
  | zero => rfl
  | succ k ih => simp only [List.replicate_succ, List.cons_append, ih]

theorem nest_text (k : Nat) (v : json.Syntax) (rest : List Char) :
    (json.nest k v).text ++ rest =
      List.replicate k '[' ++ (v.text ++ (List.replicate k ']' ++ rest)) := by
  induction k generalizing rest with
  | zero => simp [json.nest]
  | succ k ih =>
    have e : (json.nest (k + 1) v).text ++ rest = '[' :: ((json.nest k v).text ++ (']' :: rest)) := by
      simp [json.nest, json.Syntax.text, json.Elements.text]
    rw [e, ih (']' :: rest)]
    simp only [List.replicate_succ, List.cons_append, List.cons.injEq, true_and,
      List.append_cancel_left_eq]
    exact replicate_append_cons k ']' rest

/-- A run of opening brackets that goes beyond the nesting limit is rejected,
whatever follows it. -/
theorem parseValue_too_deep (j : Nat) :
    ∀ (fuel depth : Nat) (rest : List Char), json.maxNestingDepth ≤ depth + j →
      json.parseValue fuel depth (List.replicate (j + 1) '[' ++ rest) = none := by
  induction j with
  | zero =>
    intro fuel depth rest h
    cases fuel with
    | zero => rfl
    | succ m =>
      have hd : ¬ depth < json.maxNestingDepth := by omega
      have h1 : ('[' : Char) ≠ '{' := by decide
      show json.parseValue (m + 1) depth ('[' :: rest) = none
      simp only [json.parseValue, if_neg h1, if_true, if_neg hd]
  | succ j ih =>
    intro fuel depth rest h
    cases fuel with
    | zero => rfl
    | succ m =>
      have h1 : ('[' : Char) ≠ '{' := by decide
      have h2 : ('[' : Char) ≠ ']' := by decide
      have hs : json.spanSpace (List.replicate (j + 1) '[' ++ rest) =
          ([], List.replicate (j + 1) '[' ++ rest) :=
        spanSpace_cons [] '[' (List.replicate j '[' ++ rest) rfl (by decide)
      have hin : json.parseElements m (depth + 1) (List.replicate (j + 1) '[' ++ rest) = none := by
        cases m with
        | zero => rfl
        | succ m1 =>
          simp only [json.parseElements, hs, ih m1 (depth + 1) rest (by omega)]
      show json.parseValue (m + 1) depth ('[' :: (List.replicate (j + 1) '[' ++ rest)) = none
      have hs1 : (json.spanSpace (List.replicate (j + 1) '[' ++ rest)).2 =
          '[' :: (List.replicate j '[' ++ rest) := by
        rw [hs]
        rfl
      simp only [json.parseValue, if_neg h1, if_true, hs1, if_neg h2, hin]
      split <;> rfl

/-- An object whose first member has a value the scanner rejects is rejected. -/
theorem parseValue_first_member_fails (key : List json.StrItem) (c : Char) (r : List Char)
    (fuel depth : Nat) (hkey : key.all json.StrItem.WellFormed = true)
    (hc : json.isSpace c = false)
    (hfail : ∀ f, json.parseValue f (depth + 1) (c :: r) = none) :
    json.parseValue fuel depth ('{' :: '"' :: (json.itemsText key ++ '"' :: ':' :: c :: r)) =
      none := by
  cases fuel with
  | zero => rfl
  | succ m =>
    have hs0 : json.spanSpace ('"' :: (json.itemsText key ++ '"' :: ':' :: c :: r)) =
        ([], '"' :: (json.itemsText key ++ '"' :: ':' :: c :: r)) :=
      spanSpace_cons [] '"' _ rfl (by decide)
    have hq : ('"' : Char) ≠ '}' := by decide
    have hin : json.parseMembers m (depth + 1)
        ('"' :: (json.itemsText key ++ '"' :: ':' :: c :: r)) = none := by
      cases m with
      | zero => rfl
      | succ m1 =>
        have hk := scanString_text key (':' :: c :: r) hkey
        have hs1 : json.spanSpace (':' :: c :: r) = ([], ':' :: c :: r) :=
          spanSpace_cons [] ':' _ rfl (by decide)
        have hs2 : json.spanSpace (c :: r) = ([], c :: r) := spanSpace_cons [] c r rfl hc
        simp only [json.parseMembers, hs0, if_true, hk, hs1, hs2, hfail m1]
    simp only [json.parseValue, if_true, hs0, if_neg hq, hin]
    split <;> rfl

theorem Members_depth_le (members : json.Members) (b : Nat)
    (h : ∀ e ∈ members.entries, e.2.depth ≤ b) : members.depth ≤ b := by
  match members, h with
  | .nil, _ => exact Nat.zero_le b
  | .cons pre key mid pre2 v post tail, h =>
    simp only [json.Members.depth]
    refine max_le (h (String.mk (json.unquote key), v) (by simp [json.Members.entries])) ?_
    exact Members_depth_le tail b (fun e he => h e (by simp [json.Members.entries, he]))

/-! ## Decoding the members of an object one by one -/

/-- A field found for a key is a field of the struct whose name equals the key
under case folding. -/
theorem findField_some {ρ : Type} (fields : List (json.Field ρ)) (key : String)
    (f : json.Field ρ) (h : json.findField fields key = some f) :
    f ∈ fields ∧ json.foldName f.name = json.foldName key := by
  unfold json.findField at h
  cases h1 : fields.find? (fun f => f.name = key) with
  | some f1 =>
    rw [h1] at h
    simp only [Option.some.injEq] at h
    subst h
    have hp := List.find?_some h1
    simp only [decide_eq_true_eq] at hp
    exact ⟨List.mem_of_find?_eq_some h1, by rw [hp]⟩
  | none =>
    rw [h1] at h
    have hp := List.find?_some h
    simp only [decide_eq_true_eq] at hp
    exact ⟨List.mem_of_find?_eq_some h, hp⟩

/-- A member leaves a part `g` of the struct as it is when every field its key can
name does. -/
theorem storeMember_preserves {ρ α : Type} (fields : List (json.Field ρ)) (g : ρ → α)
    (e : String × json.Syntax)
    (h : ∀ f ∈ fields, json.foldName f.name = json.foldName e.1 →
      ∀ dst dst1, f.store e.2 dst = .ok dst1 → g dst1 = g dst)
    (acc : Option Error × ρ) : g (json.storeMember fields acc e).2 = g acc.2 := by
  unfold json.storeMember
  cases hf : json.findField fields e.1 with
  | none => rfl
  | some f =>
    obtain ⟨hmem, hfold⟩ := findField_some fields e.1 f hf
    cases hs : f.store e.2 acc.2 with
    | ok dst1 =>
      simp only [hs]
      exact h f hmem hfold acc.2 dst1 hs
    | error err => simp only [hs]

/-- A member raises no error when every field its key can name takes its value. -/
theorem storeMember_no_error {ρ : Type} (fields : List (json.Field ρ))
    (e : String × json.Syntax)
    (h : ∀ f ∈ fields, json.foldName f.name = json.foldName e.1 →
      ∀ dst, ∃ dst1, f.store e.2 dst = .ok dst1)
    (acc : Option Error × ρ) : (json.storeMember fields acc e).1 = acc.1 := by
  unfold json.storeMember
  cases hf : json.findField fields e.1 with
  | none => rfl
  | some f =>
    obtain ⟨hmem, hfold⟩ := findField_some fields e.1 f hf
    obtain ⟨dst1, hs⟩ := h f hmem hfold acc.2
    simp only [hs]

/-- A part `g` of the struct after all members: the value `a` a member `A` gives
it, when `A` is among the members and every other member leaves the part as it
is. -/
theorem foldl_storeMember_field {ρ α : Type} (fields : List (json.Field ρ)) (g : ρ → α)
    (A : String × json.Syntax) (a : α)
    (hA : ∀ acc, g (json.storeMember fields acc A).2 = a)
    (es : List (String × json.Syntax))
    (hes : ∀ e ∈ es, e = A ∨ ∀ acc, g (json.storeMember fields acc e).2 = g acc.2)
    (acc : Option Error × ρ) (hmem : A ∈ es) :
    g (es.foldl (json.storeMember fields) acc).2 = a := by
  induction es using List.reverseRecOn with
  | nil => exact absurd hmem (List.not_mem_nil _)
  | append_singleton l e ih =>
    rw [List.foldl_append]
    simp only [List.foldl_cons, List.foldl_nil]
    by_cases hea : e = A
    · rw [hea]
      exact hA _
    · have hpres := (hes e (by simp)).resolve_left hea
      rw [hpres]
      refine ih (fun x hx => hes x (List.mem_append_left _ hx)) ?_
      rcases List.mem_append.mp hmem with hm | hm
      · exact hm
      · exact absurd (List.mem_singleton.mp hm).symm hea

/-- No error after all members when no member raises one. -/
theorem foldl_storeMember_no_error {ρ : Type} (fields : List (json.Field ρ))
    (es : List (String × json.Syntax))
    (hes : ∀ e ∈ es, ∀ acc, (json.storeMember fields acc e).1 = acc.1)
    (acc : Option Error × ρ) : (es.foldl (json.storeMember fields) acc).1 = acc.1 := by
  induction es generalizing acc with
  | nil => rfl
  | cons e es ih =>
    rw [List.foldl_cons, ih (fun x hx => hes x (List.mem_cons_of_mem _ hx)),
      hes e (List.mem_cons_self _ _)]

/-- A member whose key is not status, in any letter case, leaves `Status` of a
`AccountResponse` as it is. -/
theorem AccountResponse_preserves_Status (e : String × json.Syntax)
    (h : json.foldName e.1 ≠ json.foldName "status") (acc : Option Error × AccountResponse) :
    (json.storeMember AccountResponse.fields acc e).2.Status = acc.2.Status := by
  refine storeMember_preserves _ _ e (fun f hf hfold dst dst1 hst => ?_) acc
  simp only [AccountResponse.fields, List.mem_cons, List.mem_singleton, List.not_mem_nil,
    or_false] at hf
  rcases hf with rfl | rfl | rfl | rfl | rfl
  · cases hv : e.2 <;> rw [hv] at hst <;>
      first
        | (simp only [json.Field.store, Except.ok.injEq] at hst
           subst hst
           rfl)
        | (simp only [json.Field.store] at hst
           cases hst)
  · exact absurd hfold.symm h
  · simp only [json.Field.store, Except.ok.injEq] at hst
    subst hst
    rfl
  · cases hv : e.2 <;> rw [hv] at hst <;>
      first
        | (simp only [json.Field.store, Except.ok.injEq] at hst
           subst hst
           rfl)
        | (simp only [json.Field.store] at hst
           cases hst)
  · cases hv : e.2 <;> rw [hv] at hst <;> simp only [json.Field.store] at hst <;>
      first
        | (simp only [Except.ok.injEq] at hst
           subst hst
           rfl)
        | cases hst
        | (split at hst <;>
            first
              | (simp only [Except.ok.injEq] at hst
                 subst hst
                 rfl)
              | cases hst)

/-- A member whose key is not message, in any letter case, leaves `Message` of a
`AccountResponse` as it is. -/
theorem AccountResponse_preserves_Message (e : String × json.Syntax)
    (h : json.foldName e.1 ≠ json.foldName "message") (acc : Option Error × AccountResponse) :
    (json.storeMember AccountResponse.fields acc e).2.Message = acc.2.Message := by
  refine storeMember_preserves _ _ e (fun f hf hfold dst dst1 hst => ?_) acc
  simp only [AccountResponse.fields, List.mem_cons, List.mem_singleton, List.not_mem_nil,
    or_false] at hf
  rcases hf with rfl | rfl | rfl | rfl | rfl
  · cases hv : e.2 <;> rw [hv] at hst <;>
      first
        | (simp only [json.Field.store, Except.ok.injEq] at hst
           subst hst
           rfl)
        | (simp only [json.Field.store] at hst
           cases hst)
  · cases hv : e.2 <;> rw [hv] at hst <;>
      first
        | (simp only [json.Field.store, Except.ok.injEq] at hst
           subst hst
           rfl)
        | (simp only [json.Field.store] at hst
           cases hst)
  · simp only [json.Field.store, Except.ok.injEq] at hst
    subst hst
    rfl
  · exact absurd hfold.symm h
  · cases hv : e.2 <;> rw [hv] at hst <;> simp only [json.Field.store] at hst <;>
      first
        | (simp only [Except.ok.injEq] at hst
           subst hst
           rfl)
        | cases hst
        | (split at hst <;>
            first
              | (simp only [Except.ok.injEq] at hst
                 subst hst
                 rfl)
              | cases hst)

/-- A member whose key is not data, in any letter case, leaves `Data` of a
`AccountResponse` as it is. -/
theorem AccountResponse_preserves_Data (e : String × json.Syntax)
    (h : json.foldName e.1 ≠ json.foldName "data") (acc : Option Error × AccountResponse) :
    (json.storeMember AccountResponse.fields acc e).2.Data = acc.2.Data := by
  refine storeMember_preserves _ _ e (fun f hf hfold dst dst1 hst => ?_) acc
  simp only [AccountResponse.fields, List.mem_cons, List.mem_singleton, List.not_mem_nil,
    or_false] at hf
  rcases hf with rfl | rfl | rfl | rfl | rfl
  · cases hv : e.2 <;> rw [hv] at hst <;>
      first
        | (simp only [json.Field.store, Except.ok.injEq] at hst
           subst hst
           rfl)
        | (simp only [json.Field.store] at hst
           cases hst)
  · cases hv : e.2 <;> rw [hv] at hst <;>
      first
        | (simp only [json.Field.store, Except.ok.injEq] at hst
           subst hst
           rfl)
        | (simp only [json.Field.store] at hst
           cases hst)
  · exact absurd hfold.symm h
  · cases hv : e.2 <;> rw [hv] at hst <;>
      first
        | (simp only [json.Field.store, Except.ok.injEq] at hst
           subst hst
           rfl)
        | (simp only [json.Field.store] at hst
           cases hst)
  · cases hv : e.2 <;> rw [hv] at hst <;> simp only [json.Field.store] at hst <;>
      first
        | (simp only [Except.ok.injEq] at hst
           subst hst
           rfl)
        | cases hst
        | (split at hst <;>
            first
              | (simp only [Except.ok.injEq] at hst
                 subst hst
                 rfl)
              | cases hst)

/-- A member raises no error on a `AccountResponse` when it is a string literal or
null under the keys id, status and message, and an integer of 64 bits or null
under the key timestamp. -/
theorem AccountResponse_no_error (e : String × json.Syntax)
    (hstr : json.foldName e.1 = json.foldName "status" ∨
      json.foldName e.1 = json.foldName "message" ∨ json.foldName e.1 = json.foldName "id" →
        e.2 = .null ∨ ∃ items, e.2 = .string items)
    (hts : json.foldName e.1 = json.foldName "timestamp" →
      e.2 = .null ∨ ∃ n i, e.2 = .number n ∧ n.toInt64 = some i)
    (acc : Option Error × AccountResponse) :
    (json.storeMember AccountResponse.fields acc e).1 = acc.1 := by
  refine storeMember_no_error _ e (fun f hf hfold dst => ?_) acc
  simp only [AccountResponse.fields, List.mem_cons, List.mem_singleton, List.not_mem_nil,
    or_false] at hf
  rcases hf with rfl | rfl | rfl | rfl | rfl
  · rcases hstr (Or.inr (Or.inr hfold.symm)) with hv | ⟨items, hv⟩ <;> rw [hv] <;>
      exact ⟨_, rfl⟩
  · rcases hstr (Or.inl hfold.symm) with hv | ⟨items, hv⟩ <;> rw [hv] <;> exact ⟨_, rfl⟩
  · exact ⟨_, rfl⟩
  · rcases hstr (Or.inr (Or.inl hfold.symm)) with hv | ⟨items, hv⟩ <;> rw [hv] <;>
      exact ⟨_, rfl⟩
  · rcases hts hfold.symm with hv | ⟨n, i, hv, hi⟩
    · rw [hv]
      exact ⟨_, rfl⟩
    · rw [hv]
      simp only [json.Field.store, hi]
      exact ⟨_, rfl⟩

/-- The fields `Status` and `Message` of a `AccountResponse` after the members of an
object that has the members status and message, string literals, when no other
member has one of these keys. -/
theorem AccountResponse_fold_status_message (es : List (String × json.Syntax))
    (status message : List json.StrItem) (acc : Option Error × AccountResponse)
    (hstatus : ("status", json.Syntax.string status) ∈ es)
    (hmessage : ("message", json.Syntax.string message) ∈ es)
    (hes : ∀ e ∈ es, e = ("status", .string status) ∨ e = ("message", .string message) ∨
      (json.foldName e.1 ≠ json.foldName "status" ∧
        json.foldName e.1 ≠ json.foldName "message")) :
    (es.foldl (json.storeMember AccountResponse.fields) acc).2.Status =
        String.mk (json.unquote status) ∧
      (es.foldl (json.storeMember AccountResponse.fields) acc).2.Message =
        String.mk (json.unquote message) := by
  constructor
  · refine foldl_storeMember_field AccountResponse.fields (fun r => r.Status)
      ("status", .string status) _ (fun _ => rfl) es (fun e he => ?_) acc hstatus
    rcases hes e he with h | h | h
    · exact Or.inl h
    · exact Or.inr (AccountResponse_preserves_Status e (by
        rw [h]
        exact (by decide : json.foldName "message" ≠ json.foldName "status")))
    · exact Or.inr (AccountResponse_preserves_Status e h.1)
  · refine foldl_storeMember_field AccountResponse.fields (fun r => r.Message)
      ("message", .string message) _ (fun _ => rfl) es (fun e he => ?_) acc hmessage
    rcases hes e he with h | h | h
    · exact Or.inr (AccountResponse_preserves_Message e (by
        rw [h]
        exact (by decide : json.foldName "status" ≠ json.foldName "message")))
    · exact Or.inl h
    · exact Or.inr (AccountResponse_preserves_Message e h.2)

/-- The field `Data` of a `AccountResponse` after the members of an object that has the
member data, when no other member has that key. -/
theorem AccountResponse_fold_data (es : List (String × json.Syntax)) (d : json.Syntax)
    (acc : Option Error × AccountResponse) (hdata : ("data", d) ∈ es)
    (hes : ∀ e ∈ es, e = ("data", d) ∨ json.foldName e.1 ≠ json.foldName "data") :
    (es.foldl (json.storeMember AccountResponse.fields) acc).2.Data = some (String.mk d.text) :=
  foldl_storeMember_field AccountResponse.fields (fun r => r.Data) ("data", d) _ (fun _ => rfl) es
    (fun e he => (hes e he).imp id (fun h => AccountResponse_preserves_Data e h)) acc hdata

/-- A member whose key is not status, in any letter case, leaves `Status` of a
`InfoResponse` as it is. -/
theorem InfoResponse_preserves_Status (e : String × json.Syntax)
    (h : json.foldName e.1 ≠ json.foldName "status") (acc : Option Error × InfoResponse) :
    (json.storeMember InfoResponse.fields acc e).2.Status = acc.2.Status := by
  refine storeMember_preserves _ _ e (fun f hf hfold dst dst1 hst => ?_) acc
  simp only [InfoResponse.fields, List.mem_cons, List.mem_singleton, List.not_mem_nil,
    or_false] at hf
  rcases hf with rfl | rfl | rfl
  · exact absurd hfold.symm h
  · simp only [json.Field.store, Except.ok.injEq] at hst
    subst hst
    rfl
  · cases hv : e.2 <;> rw [hv] at hst <;>
      first
        | (simp only [json.Field.store, Except.ok.injEq] at hst
           subst hst
           rfl)
        | (simp only [json.Field.store] at hst
           cases hst)

/-- A member whose key is not message, in any letter case, leaves `Message` of a
`InfoResponse` as it is. -/
theorem InfoResponse_preserves_Message (e : String × json.Syntax)
    (h : json.foldName e.1 ≠ json.foldName "message") (acc : Option Error × InfoResponse) :
    (json.storeMember InfoResponse.fields acc e).2.Message = acc.2.Message := by
  refine storeMember_preserves _ _ e (fun f hf hfold dst dst1 hst => ?_) acc
  simp only [InfoResponse.fields, List.mem_cons, List.mem_singleton, List.not_mem_nil,
    or_false] at hf
  rcases hf with rfl | rfl | rfl
  · cases hv : e.2 <;> rw [hv] at hst <;>
      first
        | (simp only [json.Field.store, Except.ok.injEq] at hst
           subst hst
           rfl)
        | (simp only [json.Field.store] at hst
           cases hst)
  · simp only [json.Field.store, Except.ok.injEq] at hst
    subst hst
    rfl
  · exact absurd hfold.symm h

/-- A member whose key is not data, in any letter case, leaves `Data` of a
`InfoResponse` as it is. -/
theorem InfoResponse_preserves_Data (e : String × json.Syntax)
    (h : json.foldName e.1 ≠ json.foldName "data") (acc : Option Error × InfoResponse) :
    (json.storeMember InfoResponse.fields acc e).2.Data = acc.2.Data := by
  refine storeMember_preserves _ _ e (fun f hf hfold dst dst1 hst => ?_) acc
  simp only [InfoResponse.fields, List.mem_cons, List.mem_singleton, List.not_mem_nil,
    or_false] at hf
  rcases hf with rfl | rfl | rfl
  · cases hv : e.2 <;> rw [hv] at hst <;>
      first
        | (simp only [json.Field.store, Except.ok.injEq] at hst
           subst hst
           rfl)
        | (simp only [json.Field.store] at hst
           cases hst)
  · exact absurd hfold.symm h
  · cases hv : e.2 <;> rw [hv] at hst <;>
      first
        | (simp only [json.Field.store, Except.ok.injEq] at hst
           subst hst
           rfl)
        | (simp only [json.Field.store] at hst
           cases hst)

/-- A member raises no error on a `InfoResponse` when it is a string literal or
null under the keys status and message. -/
theorem InfoResponse_no_error (e : String × json.Syntax)
    (hstr : json.foldName e.1 = json.foldName "status" ∨
      json.foldName e.1 = json.foldName "message" → e.2 = .null ∨ ∃ items, e.2 = .string items)
    (acc : Option Error × InfoResponse) :
    (json.storeMember InfoResponse.fields acc e).1 = acc.1 := by
  refine storeMember_no_error _ e (fun f hf hfold dst => ?_) acc
  simp only [InfoResponse.fields, List.mem_cons, List.mem_singleton, List.not_mem_nil,
    or_false] at hf
  rcases hf with rfl | rfl | rfl
  · rcases hstr (Or.inl hfold.symm) with hv | ⟨items, hv⟩ <;> rw [hv] <;> exact ⟨_, rfl⟩
  · exact ⟨_, rfl⟩
  · rcases hstr (Or.inr hfold.symm) with hv | ⟨items, hv⟩ <;> rw [hv] <;> exact ⟨_, rfl⟩

/-- The fields `Status` and `Message` of a `InfoResponse` after the members of an
object that has the members status and message, string literals, when no other
member has one of these keys. -/
theorem InfoResponse_fold_status_message (es : List (String × json.Syntax))
    (status message : List json.StrItem) (acc : Option Error × InfoResponse)
    (hstatus : ("status", json.Syntax.string status) ∈ es)
    (hmessage : ("message", json.Syntax.string message) ∈ es)
    (hes : ∀ e ∈ es, e = ("status", .string status) ∨ e = ("message", .string message) ∨
      (json.foldName e.1 ≠ json.foldName "status" ∧
        json.foldName e.1 ≠ json.foldName "message")) :
    (es.foldl (json.storeMember InfoResponse.fields) acc).2.Status =
        String.mk (json.unquote status) ∧
      (es.foldl (json.storeMember InfoResponse.fields) acc).2.Message =
        String.mk (json.unquote message) := by
  constructor
  · refine foldl_storeMember_field InfoResponse.fields (fun r => r.Status)
      ("status", .string status) _ (fun _ => rfl) es (fun e he => ?_) acc hstatus
    rcases hes e he with h | h | h
    · exact Or.inl h
    · exact Or.inr (InfoResponse_preserves_Status e (by
        rw [h]
        exact (by decide : json.foldName "message" ≠ json.foldName "status")))
    · exact Or.inr (InfoResponse_preserves_Status e h.1)
  · refine foldl_storeMember_field InfoResponse.fields (fun r => r.Message)
      ("message", .string message) _ (fun _ => rfl) es (fun e he => ?_) acc hmessage
    rcases hes e he with h | h | h
    · exact Or.inr (InfoResponse_preserves_Message e (by
        rw [h]
        exact (by decide : json.foldName "status" ≠ json.foldName "message")))
    · exact Or.inl h
    · exact Or.inr (InfoResponse_preserves_Message e h.2)

/-- The field `Data` of a `InfoResponse` after the members of an object that has the
member data, when no other member has that key. -/
theorem InfoResponse_fold_data (es : List (String × json.Syntax)) (d : json.Syntax)
    (acc : Option Error × InfoResponse) (hdata : ("data", d) ∈ es)
    (hes : ∀ e ∈ es, e = ("data", d) ∨ json.foldName e.1 ≠ json.foldName "data") :
    (es.foldl (json.storeMember InfoResponse.fields) acc).2.Data = some (String.mk d.text) :=
  foldl_storeMember_field InfoResponse.fields (fun r => r.Data) ("data", d) _ (fun _ => rfl) es
    (fun e he => (hes e he).imp id (fun h => InfoResponse_preserves_Data e h)) acc hdata

/-- A member whose key is not status, in any letter case, leaves `Status` of a
`PaymentResponse` as it is. -/
theorem PaymentResponse_preserves_Status (e : String × json.Syntax)
    (h : json.foldName e.1 ≠ json.foldName "status") (acc : Option Error × PaymentResponse) :
    (json.storeMember PaymentResponse.fields acc e).2.Status = acc.2.Status := by
  refine storeMember_preserves _ _ e (fun f hf hfold dst dst1 hst => ?_) acc
  simp only [PaymentResponse.fields, List.mem_cons, List.mem_singleton, List.not_mem_nil,
    or_false] at hf
  rcases hf with rfl | rfl | rfl
  · exact absurd hfold.symm h
  · simp only [json.Field.store, Except.ok.injEq] at hst
    subst hst
    rfl
  · cases hv : e.2 <;> rw [hv] at hst <;>
      first
        | (simp only [json.Field.store, Except.ok.injEq] at hst
           subst hst
           rfl)
        | (simp only [json.Field.store] at hst
           cases hst)

/-- A member whose key is not message, in any letter case, leaves `Message` of a
`PaymentResponse` as it is. -/
theorem PaymentResponse_preserves_Message (e : String × json.Syntax)
    (h : json.foldName e.1 ≠ json.foldName "message") (acc : Option Error × PaymentResponse) :
    (json.storeMember PaymentResponse.fields acc e).2.Message = acc.2.Message := by
  refine storeMember_preserves _ _ e (fun f hf hfold dst dst1 hst => ?_) acc
  simp only [PaymentResponse.fields, List.mem_cons, List.mem_singleton, List.not_mem_nil,
    or_false] at hf
  rcases hf with rfl | rfl | rfl
  · cases hv : e.2 <;> rw [hv] at hst <;>
      first
        | (simp only [json.Field.store, Except.ok.injEq] at hst
           subst hst
           rfl)
        | (simp only [json.Field.store] at hst
           cases hst)
  · simp only [json.Field.store, Except.ok.injEq] at hst
    subst hst
    rfl
  · exact absurd hfold.symm h

/-- A member whose key is not data, in any letter case, leaves `Data` of a
`PaymentResponse` as it is. -/
theorem PaymentResponse_preserves_Data (e : String × json.Syntax)
    (h : json.foldName e.1 ≠ json.foldName "data") (acc : Option Error × PaymentResponse) :
    (json.storeMember PaymentResponse.fields acc e).2.Data = acc.2.Data := by
  refine storeMember_preserves _ _ e (fun f hf hfold dst dst1 hst => ?_) acc
  simp only [PaymentResponse.fields, List.mem_cons, List.mem_singleton, List.not_mem_nil,
    or_false] at hf
  rcases hf with rfl | rfl | rfl
  · cases hv : e.2 <;> rw [hv] at hst <;>
      first
        | (simp only [json.Field.store, Except.ok.injEq] at hst
           subst hst
           rfl)
        | (simp only [json.Field.store] at hst
           cases hst)
  · exact absurd hfold.symm h
  · cases hv : e.2 <;> rw [hv] at hst <;>
      first
        | (simp only [json.Field.store, Except.ok.injEq] at hst
           subst hst
           rfl)
        | (simp only [json.Field.store] at hst
           cases hst)

/-- A member raises no error on a `PaymentResponse` when it is a string literal or
null under the keys status and message. -/
theorem PaymentResponse_no_error (e : String × json.Syntax)
    (hstr : json.foldName e.1 = json.foldName "status" ∨
      json.foldName e.1 = json.foldName "message" → e.2 = .null ∨ ∃ items, e.2 = .string items)
    (acc : Option Error × PaymentResponse) :
    (json.storeMember PaymentResponse.fields acc e).1 = acc.1 := by
  refine storeMember_no_error _ e (fun f hf hfold dst => ?_) acc
  simp only [PaymentResponse.fields, List.mem_cons, List.mem_singleton, List.not_mem_nil,
    or_false] at hf
  rcases hf with rfl | rfl | rfl
  · rcases hstr (Or.inl hfold.symm) with hv | ⟨items, hv⟩ <;> rw [hv] <;> exact ⟨_, rfl⟩
  · exact ⟨_, rfl⟩
  · rcases hstr (Or.inr hfold.symm) with hv | ⟨items, hv⟩ <;> rw [hv] <;> exact ⟨_, rfl⟩

/-- The fields `Status` and `Message` of a `PaymentResponse` after the members of an
object that has the members status and message, string literals, when no other
member has one of these keys. -/
theorem PaymentResponse_fold_status_message (es : List (String × json.Syntax))
    (status message : List json.StrItem) (acc : Option Error × PaymentResponse)
    (hstatus : ("status", json.Syntax.string status) ∈ es)
    (hmessage : ("message", json.Syntax.string message) ∈ es)
    (hes : ∀ e ∈ es, e = ("status", .string status) ∨ e = ("message", .string message) ∨
      (json.foldName e.1 ≠ json.foldName "status" ∧
        json.foldName e.1 ≠ json.foldName "message")) :
    (es.foldl (json.storeMember PaymentResponse.fields) acc).2.Status =
        String.mk (json.unquote status) ∧
      (es.foldl (json.storeMember PaymentResponse.fields) acc).2.Message =
        String.mk (json.unquote message) := by
  constructor
  · refine foldl_storeMember_field PaymentResponse.fields (fun r => r.Status)
      ("status", .string status) _ (fun _ => rfl) es (fun e he => ?_) acc hstatus
    rcases hes e he with h | h | h
    · exact Or.inl h
    · exact Or.inr (PaymentResponse_preserves_Status e (by
        rw [h]
        exact (by decide : json.foldName "message" ≠ json.foldName "status")))
    · exact Or.inr (PaymentResponse_preserves_Status e h.1)
  · refine foldl_storeMember_field PaymentResponse.fields (fun r => r.Message)
      ("message", .string message) _ (fun _ => rfl) es (fun e he => ?_) acc hmessage
    rcases hes e he with h | h | h
    · exact Or.inr (PaymentResponse_preserves_Message e (by
        rw [h]
        exact (by decide : json.foldName "status" ≠ json.foldName "message")))
    · exact Or.inl h
    · exact Or.inr (PaymentResponse_preserves_Message e h.2)

/-- The field `Data` of a `PaymentResponse` after the members of an object that has the
member data, when no other member has that key. -/
theorem PaymentResponse_fold_data (es : List (String × json.Syntax)) (d : json.Syntax)
    (acc : Option Error × PaymentResponse) (hdata : ("data", d) ∈ es)
    (hes : ∀ e ∈ es, e = ("data", d) ∨ json.foldName e.1 ≠ json.foldName "data") :
    (es.foldl (json.storeMember PaymentResponse.fields) acc).2.Data = some (String.mk d.text) :=
  foldl_storeMember_field PaymentResponse.fields (fun r => r.Data) ("data", d) _ (fun _ => rfl) es
    (fun e he => (hes e he).imp id (fun h => PaymentResponse_preserves_Data e h)) acc hdata

/-- A member whose key is not status, in any letter case, leaves `Status` of a
`PayoutResponse` as it is. -/
theorem PayoutResponse_preserves_Status (e : String × json.Syntax)
    (h : json.foldName e.1 ≠ json.foldName "status") (acc : Option Error × PayoutResponse) :
    (json.storeMember PayoutResponse.fields acc e).2.Status = acc.2.Status := by
  refine storeMember_preserves _ _ e (fun f hf hfold dst dst1 hst => ?_) acc
  simp only [PayoutResponse.fields, List.mem_cons, List.mem_singleton, List.not_mem_nil,
    or_false] at hf
  rcases hf with rfl | rfl | rfl
  · exact absurd hfold.symm h
  · simp only [json.Field.store, Except.ok.injEq] at hst
    subst hst
    rfl
  · cases hv : e.2 <;> rw [hv] at hst <;>
      first
        | (simp only [json.Field.store, Except.ok.injEq] at hst
           subst hst
           rfl)
        | (simp only [json.Field.store] at hst
           cases hst)

/-- A member whose key is not message, in any letter case, leaves `Message` of a
`PayoutResponse` as it is. -/
theorem PayoutResponse_preserves_Message (e : String × json.Syntax)
    (h : json.foldName e.1 ≠ json.foldName "message") (acc : Option Error × PayoutResponse) :
    (json.storeMember PayoutResponse.fields acc e).2.Message = acc.2.Message := by
  refine storeMember_preserves _ _ e (fun f hf hfold dst dst1 hst => ?_) acc
  simp only [PayoutResponse.fields, List.mem_cons, List.mem_singleton, List.not_mem_nil,
    or_false] at hf
  rcases hf with rfl | rfl | rfl
  · cases hv : e.2 <;> rw [hv] at hst <;>
      first
        | (simp only [json.Field.store, Except.ok.injEq] at hst
           subst hst
           rfl)
        | (simp only [json.Field.store] at hst
           cases hst)
  · simp only [json.Field.store, Except.ok.injEq] at hst
    subst hst
    rfl
  · exact absurd hfold.symm h

/-- A member whose key is not data, in any letter case, leaves `Data` of a
`PayoutResponse` as it is. -/
theorem PayoutResponse_preserves_Data (e : String × json.Syntax)
    (h : json.foldName e.1 ≠ json.foldName "data") (acc : Option Error × PayoutResponse) :
    (json.storeMember PayoutResponse.fields acc e).2.Data = acc.2.Data := by
  refine storeMember_preserves _ _ e (fun f hf hfold dst dst1 hst => ?_) acc
  simp only [PayoutResponse.fields, List.mem_cons, List.mem_singleton, List.not_mem_nil,
    or_false] at hf
  rcases hf with rfl | rfl | rfl
  · cases hv : e.2 <;> rw [hv] at hst <;>
      first
        | (simp only [json.Field.store, Except.ok.injEq] at hst
           subst hst
           rfl)
        | (simp only [json.Field.store] at hst
           cases hst)
  · exact absurd hfold.symm h
  · cases hv : e.2 <;> rw [hv] at hst <;>
      first
        | (simp only [json.Field.store, Except.ok.injEq] at hst
           subst hst
           rfl)
        | (simp only [json.Field.store] at hst
           cases hst)

/-- A member raises no error on a `PayoutResponse` when it is a string literal or
null under the keys status and message. -/
theorem PayoutResponse_no_error (e : String × json.Syntax)
    (hstr : json.foldName e.1 = json.foldName "status" ∨
      json.foldName e.1 = json.foldName "message" → e.2 = .null ∨ ∃ items, e.2 = .string items)
    (acc : Option Error × PayoutResponse) :
    (json.storeMember PayoutResponse.fields acc e).1 = acc.1 := by
  refine storeMember_no_error _ e (fun f hf hfold dst => ?_) acc
  simp only [PayoutResponse.fields, List.mem_cons, List.mem_singleton, List.not_mem_nil,
    or_false] at hf
  rcases hf with rfl | rfl | rfl
  · rcases hstr (Or.inl hfold.symm) with hv | ⟨items, hv⟩ <;> rw [hv] <;> exact ⟨_, rfl⟩
  · exact ⟨_, rfl⟩
  · rcases hstr (Or.inr hfold.symm) with hv | ⟨items, hv⟩ <;> rw [hv] <;> exact ⟨_, rfl⟩

/-- The fields `Status` and `Message` of a `PayoutResponse` after the members of an
object that has the members status and message, string literals, when no other
member has one of these keys. -/
theorem PayoutResponse_fold_status_message (es : List (String × json.Syntax))
    (status message : List json.StrItem) (acc : Option Error × PayoutResponse)
    (hstatus : ("status", json.Syntax.string status) ∈ es)
    (hmessage : ("message", json.Syntax.string message) ∈ es)
    (hes : ∀ e ∈ es, e = ("status", .string status) ∨ e = ("message", .string message) ∨
      (json.foldName e.1 ≠ json.foldName "status" ∧
        json.foldName e.1 ≠ json.foldName "message")) :
    (es.foldl (json.storeMember PayoutResponse.fields) acc).2.Status =
        String.mk (json.unquote status) ∧
      (es.foldl (json.storeMember PayoutResponse.fields) acc).2.Message =
        String.mk (json.unquote message) := by
  constructor
  · refine foldl_storeMember_field PayoutResponse.fields (fun r => r.Status)
      ("status", .string status) _ (fun _ => rfl) es (fun e he => ?_) acc hstatus
    rcases hes e he with h | h | h
    · exact Or.inl h
    · exact Or.inr (PayoutResponse_preserves_Status e (by
        rw [h]
        exact (by decide : json.foldName "message" ≠ json.foldName "status")))
    · exact Or.inr (PayoutResponse_preserves_Status e h.1)
  · refine foldl_storeMember_field PayoutResponse.fields (fun r => r.Message)
      ("message", .string message) _ (fun _ => rfl) es (fun e he => ?_) acc hmessage
    rcases hes e he with h | h | h
    · exact Or.inr (PayoutResponse_preserves_Message e (by
        rw [h]
        exact (by decide : json.foldName "status" ≠ json.foldName "message")))
    · exact Or.inl h
    · exact Or.inr (PayoutResponse_preserves_Message e h.2)

/-- The field `Data` of a `PayoutResponse` after the members of an object that has the
member data, when no other member has that key. -/
theorem PayoutResponse_fold_data (es : List (String × json.Syntax)) (d : json.Syntax)
    (acc : Option Error × PayoutResponse) (hdata : ("data", d) ∈ es)
    (hes : ∀ e ∈ es, e = ("data", d) ∨ json.foldName e.1 ≠ json.foldName "data") :
    (es.foldl (json.storeMember PayoutResponse.fields) acc).2.Data = some (String.mk d.text) :=
  foldl_storeMember_field PayoutResponse.fields (fun r => r.Data) ("data", d) _ (fun _ => rfl) es
    (fun e he => (hes e he).imp id (fun h => PayoutResponse_preserves_Data e h)) acc hdata

/-- A member whose key is not status, in any letter case, leaves `Status` of a
`RedeemResponse` as it is. -/
theorem RedeemResponse_preserves_Status (e : String × json.Syntax)
    (h : json.foldName e.1 ≠ json.foldName "status") (acc : Option Error × RedeemResponse) :
    (json.storeMember RedeemResponse.fields acc e).2.Status = acc.2.Status := by
  refine storeMember_preserves _ _ e (fun f hf hfold dst dst1 hst => ?_) acc
  simp only [RedeemResponse.fields, List.mem_cons, List.mem_singleton, List.not_mem_nil,
    or_false] at hf
  rcases hf with rfl | rfl | rfl
  · exact absurd hfold.symm h
  · simp only [json.Field.store, Except.ok.injEq] at hst
    subst hst
    rfl
  · cases hv : e.2 <;> rw [hv] at hst <;>
      first
        | (simp only [json.Field.store, Except.ok.injEq] at hst
           subst hst
           rfl)
        | (simp only [json.Field.store] at hst
           cases hst)

/-- A member whose key is not message, in any letter case, leaves `Message` of a
`RedeemResponse` as it is. -/
theorem RedeemResponse_preserves_Message (e : String × json.Syntax)
    (h : json.foldName e.1 ≠ json.foldName "message") (acc : Option Error × RedeemResponse) :
    (json.storeMember RedeemResponse.fields acc e).2.Message = acc.2.Message := by
  refine storeMember_preserves _ _ e (fun f hf hfold dst dst1 hst => ?_) acc
  simp only [RedeemResponse.fields, List.mem_cons, List.mem_singleton, List.not_mem_nil,
    or_false] at hf
  rcases hf with rfl | rfl | rfl
  · cases hv : e.2 <;> rw [hv] at hst <;>
      first
        | (simp only [json.Field.store, Except.ok.injEq] at hst
           subst hst
           rfl)
        | (simp only [json.Field.store] at hst
           cases hst)
  · simp only [json.Field.store, Except.ok.injEq] at hst
    subst hst
    rfl
  · exact absurd hfold.symm h

/-- A member whose key is not data, in any letter case, leaves `Data` of a
`RedeemResponse` as it is. -/
theorem RedeemResponse_preserves_Data (e : String × json.Syntax)
    (h : json.foldName e.1 ≠ json.foldName "data") (acc : Option Error × RedeemResponse) :
    (json.storeMember RedeemResponse.fields acc e).2.Data = acc.2.Data := by
  refine storeMember_preserves _ _ e (fun f hf hfold dst dst1 hst => ?_) acc
  simp only [RedeemResponse.fields, List.mem_cons, List.mem_singleton, List.not_mem_nil,
    or_false] at hf
  rcases hf with rfl | rfl | rfl
  · cases hv : e.2 <;> rw [hv] at hst <;>
      first
        | (simp only [json.Field.store, Except.ok.injEq] at hst
           subst hst
           rfl)
        | (simp only [json.Field.store] at hst
           cases hst)
  · exact absurd hfold.symm h
  · cases hv : e.2 <;> rw [hv] at hst <;>
      first
        | (simp only [json.Field.store, Except.ok.injEq] at hst
           subst hst
           rfl)
        | (simp only [json.Field.store] at hst
           cases hst)

/-- A member raises no error on a `RedeemResponse` when it is a string literal or
null under the keys status and message. -/
theorem RedeemResponse_no_error (e : String × json.Syntax)
    (hstr : json.foldName e.1 = json.foldName "status" ∨
      json.foldName e.1 = json.foldName "message" → e.2 = .null ∨ ∃ items, e.2 = .string items)
    (acc : Option Error × RedeemResponse) :
    (json.storeMember RedeemResponse.fields acc e).1 = acc.1 := by
  refine storeMember_no_error _ e (fun f hf hfold dst => ?_) acc
  simp only [RedeemResponse.fields, List.mem_cons, List.mem_singleton, List.not_mem_nil,
    or_false] at hf
  rcases hf with rfl | rfl | rfl
  · rcases hstr (Or.inl hfold.symm) with hv | ⟨items, hv⟩ <;> rw [hv] <;> exact ⟨_, rfl⟩
  · exact ⟨_, rfl⟩
  · rcases hstr (Or.inr hfold.symm) with hv | ⟨items, hv⟩ <;> rw [hv] <;> exact ⟨_, rfl⟩

/-- The fields `Status` and `Message` of a `RedeemResponse` after the members of an
object that has the members status and message, string literals, when no other
member has one of these keys. -/
theorem RedeemResponse_fold_status_message (es : List (String × json.Syntax))
    (status message : List json.StrItem) (acc : Option Error × RedeemResponse)
    (hstatus : ("status", json.Syntax.string status) ∈ es)
    (hmessage : ("message", json.Syntax.string message) ∈ es)
    (hes : ∀ e ∈ es, e = ("status", .string status) ∨ e = ("message", .string message) ∨
      (json.foldName e.1 ≠ json.foldName "status" ∧
        json.foldName e.1 ≠ json.foldName "message")) :
    (es.foldl (json.storeMember RedeemResponse.fields) acc).2.Status =
        String.mk (json.unquote status) ∧
      (es.foldl (json.storeMember RedeemResponse.fields) acc).2.Message =
        String.mk (json.unquote message) := by
  constructor
  · refine foldl_storeMember_field RedeemResponse.fields (fun r => r.Status)
      ("status", .string status) _ (fun _ => rfl) es (fun e he => ?_) acc hstatus
    rcases hes e he with h | h | h
    · exact Or.inl h
    · exact Or.inr (RedeemResponse_preserves_Status e (by
        rw [h]
        exact (by decide : json.foldName "message" ≠ json.foldName "status")))
    · exact Or.inr (RedeemResponse_preserves_Status e h.1)
  · refine foldl_storeMember_field RedeemResponse.fields (fun r => r.Message)
      ("message", .string message) _ (fun _ => rfl) es (fun e he => ?_) acc hmessage
    rcases hes e he with h | h | h
    · exact Or.inr (RedeemResponse_preserves_Message e (by
        rw [h]
        exact (by decide : json.foldName "status" ≠ json.foldName "message")))
    · exact Or.inl h
    · exact Or.inr (RedeemResponse_preserves_Message e h.2)

/-- The field `Data` of a `RedeemResponse` after the members of an object that has the
member data, when no other member has that key. -/
theorem RedeemResponse_fold_data (es : List (String × json.Syntax)) (d : json.Syntax)
    (acc : Option Error × RedeemResponse) (hdata : ("data", d) ∈ es)
    (hes : ∀ e ∈ es, e = ("data", d) ∨ json.foldName e.1 ≠ json.foldName "data") :
    (es.foldl (json.storeMember RedeemResponse.fields) acc).2.Data = some (String.mk d.text) :=
  foldl_storeMember_field RedeemResponse.fields (fun r => r.Data) ("data", d) _ (fun _ => rfl) es
    (fun e he => (hes e he).imp id (fun h => RedeemResponse_preserves_Data e h)) acc hdata

/-- A member whose key is not status, in any letter case, leaves `Status` of a
`SubAccountResponse` as it is. -/
theorem SubAccountResponse_preserves_Status (e : String × json.Syntax)
    (h : json.foldName e.1 ≠ json.foldName "status") (acc : Option Error × SubAccountResponse) :
    (json.storeMember SubAccountResponse.fields acc e).2.Status = acc.2.Status := by
  refine storeMember_preserves _ _ e (fun f hf hfold dst dst1 hst => ?_) acc
  simp only [SubAccountResponse.fields, List.mem_cons, List.mem_singleton, List.not_mem_nil,
    or_false] at hf
  rcases hf with rfl | rfl | rfl
  · exact absurd hfold.symm h
  · simp only [json.Field.store, Except.ok.injEq] at hst
    subst hst
    rfl
  · cases hv : e.2 <;> rw [hv] at hst <;>
      first
        | (simp only [json.Field.store, Except.ok.injEq] at hst
           subst hst
           rfl)
        | (simp only [json.Field.store] at hst
           cases hst)

/-- A member whose key is not message, in any letter case, leaves `Message` of a
`SubAccountResponse` as it is. -/
theorem SubAccountResponse_preserves_Message (e : String × json.Syntax)
    (h : json.foldName e.1 ≠ json.foldName "message") (acc : Option Error × SubAccountResponse) :
    (json.storeMember SubAccountResponse.fields acc e).2.Message = acc.2.Message := by
  refine storeMember_preserves _ _ e (fun f hf hfold dst dst1 hst => ?_) acc
  simp only [SubAccountResponse.fields, List.mem_cons, List.mem_singleton, List.not_mem_nil,
    or_false] at hf
  rcases hf with rfl | rfl | rfl
  · cases hv : e.2 <;> rw [hv] at hst <;>
      first
        | (simp only [json.Field.store, Except.ok.injEq] at hst
           subst hst
           rfl)
        | (simp only [json.Field.store] at hst
           cases hst)
  · simp only [json.Field.store, Except.ok.injEq] at hst
    subst hst
    rfl
  · exact absurd hfold.symm h

/-- A member whose key is not data, in any letter case, leaves `Data` of a
`SubAccountResponse` as it is. -/
theorem SubAccountResponse_preserves_Data (e : String × json.Syntax)
    (h : json.foldName e.1 ≠ json.foldName "data") (acc : Option Error × SubAccountResponse) :
    (json.storeMember SubAccountResponse.fields acc e).2.Data = acc.2.Data := by
  refine storeMember_preserves _ _ e (fun f hf hfold dst dst1 hst => ?_) acc
  simp only [SubAccountResponse.fields, List.mem_cons, List.mem_singleton, List.not_mem_nil,
    or_false] at hf
  rcases hf with rfl | rfl | rfl
  · cases hv : e.2 <;> rw [hv] at hst <;>
      first
        | (simp only [json.Field.store, Except.ok.injEq] at hst
           subst hst
           rfl)
        | (simp only [json.Field.store] at hst
           cases hst)
  · exact absurd hfold.symm h
  · cases hv : e.2 <;> rw [hv] at hst <;>
      first
        | (simp only [json.Field.store, Except.ok.injEq] at hst
           subst hst
           rfl)
        | (simp only [json.Field.store] at hst
           cases hst)

/-- A member raises no error on a `SubAccountResponse` when it is a string literal or
null under the keys status and message. -/
theorem SubAccountResponse_no_error (e : String × json.Syntax)
    (hstr : json.foldName e.1 = json.foldName "status" ∨
      json.foldName e.1 = json.foldName "message" → e.2 = .null ∨ ∃ items, e.2 = .string items)
    (acc : Option Error × SubAccountResponse) :
    (json.storeMember SubAccountResponse.fields acc e).1 = acc.1 := by
  refine storeMember_no_error _ e (fun f hf hfold dst => ?_) acc
  simp only [SubAccountResponse.fields, List.mem_cons, List.mem_singleton, List.not_mem_nil,
    or_false] at hf
  rcases hf with rfl | rfl | rfl
  · rcases hstr (Or.inl hfold.symm) with hv | ⟨items, hv⟩ <;> rw [hv] <;> exact ⟨_, rfl⟩
  · exact ⟨_, rfl⟩
  · rcases hstr (Or.inr hfold.symm) with hv | ⟨items, hv⟩ <;> rw [hv] <;> exact ⟨_, rfl⟩

/-- The fields `Status` and `Message` of a `SubAccountResponse` after the members of an
object that has the members status and message, string literals, when no other
member has one of these keys. -/
theorem SubAccountResponse_fold_status_message (es : List (String × json.Syntax))
    (status message : List json.StrItem) (acc : Option Error × SubAccountResponse)
    (hstatus : ("status", json.Syntax.string status) ∈ es)
    (hmessage : ("message", json.Syntax.string message) ∈ es)
    (hes : ∀ e ∈ es, e = ("status", .string status) ∨ e = ("message", .string message) ∨
      (json.foldName e.1 ≠ json.foldName "status" ∧
        json.foldName e.1 ≠ json.foldName "message")) :
    (es.foldl (json.storeMember SubAccountResponse.fields) acc).2.Status =
        String.mk (json.unquote status) ∧
      (es.foldl (json.storeMember SubAccountResponse.fields) acc).2.Message =
        String.mk (json.unquote message) := by
  constructor
  · refine foldl_storeMember_field SubAccountResponse.fields (fun r => r.Status)
      ("status", .string status) _ (fun _ => rfl) es (fun e he => ?_) acc hstatus
    rcases hes e he with h | h | h
    · exact Or.inl h
    · exact Or.inr (SubAccountResponse_preserves_Status e (by
        rw [h]
        exact (by decide : json.foldName "message" ≠ json.foldName "status")))
    · exact Or.inr (SubAccountResponse_preserves_Status e h.1)
  · refine foldl_storeMember_field SubAccountResponse.fields (fun r => r.Message)
      ("message", .string message) _ (fun _ => rfl) es (fun e he => ?_) acc hmessage
    rcases hes e he with h | h | h
    · exact Or.inr (SubAccountResponse_preserves_Message e (by
        rw [h]
        exact (by decide : json.foldName "status" ≠ json.foldName "message")))
    · exact Or.inl h
    · exact Or.inr (SubAccountResponse_preserves_Message e h.2)

/-- The field `Data` of a `SubAccountResponse` after the members of an object that has the
member data, when no other member has that key. -/
theorem SubAccountResponse_fold_data (es : List (String × json.Syntax)) (d : json.Syntax)
    (acc : Option Error × SubAccountResponse) (hdata : ("data", d) ∈ es)
    (hes : ∀ e ∈ es, e = ("data", d) ∨ json.foldName e.1 ≠ json.foldName "data") :
    (es.foldl (json.storeMember SubAccountResponse.fields) acc).2.Data = some (String.mk d.text) :=
  foldl_storeMember_field SubAccountResponse.fields (fun r => r.Data) ("data", d) _ (fun _ => rfl) es
    (fun e he => (hes e he).imp id (fun h => SubAccountResponse_preserves_Data e h)) acc hdata

/-- A member whose key is not status, in any letter case, leaves `Status` of a
`WalletResponse` as it is. -/
theorem WalletResponse_preserves_Status (e : String × json.Syntax)
    (h : json.foldName e.1 ≠ json.foldName "status") (acc : Option Error × WalletResponse) :
    (json.storeMember WalletResponse.fields acc e).2.Status = acc.2.Status := by
  refine storeMember_preserves _ _ e (fun f hf hfold dst dst1 hst => ?_) acc
  simp only [WalletResponse.fields, List.mem_cons, List.mem_singleton, List.not_mem_nil,
    or_false] at hf
  rcases hf with rfl | rfl | rfl
  · exact absurd hfold.symm h
  · simp only [json.Field.store, Except.ok.injEq] at hst
    subst hst
    rfl
  · cases hv : e.2 <;> rw [hv] at hst <;>
      first
        | (simp only [json.Field.store, Except.ok.injEq] at hst
           subst hst
           rfl)
        | (simp only [json.Field.store] at hst
           cases hst)

/-- A member whose key is not message, in any letter case, leaves `Message` of a
`WalletResponse` as it is. -/
theorem WalletResponse_preserves_Message (e : String × json.Syntax)
    (h : json.foldName e.1 ≠ json.foldName "message") (acc : Option Error × WalletResponse) :
    (json.storeMember WalletResponse.fields acc e).2.Message = acc.2.Message := by
  refine storeMember_preserves _ _ e (fun f hf hfold dst dst1 hst => ?_) acc
  simp only [WalletResponse.fields, List.mem_cons, List.mem_singleton, List.not_mem_nil,
    or_false] at hf
  rcases hf with rfl | rfl | rfl
  · cases hv : e.2 <;> rw [hv] at hst <;>
      first
        | (simp only [json.Field.store, Except.ok.injEq] at hst
           subst hst
           rfl)
        | (simp only [json.Field.store] at hst
           cases hst)
  · simp only [json.Field.store, Except.ok.injEq] at hst
    subst hst
    rfl
  · exact absurd hfold.symm h

/-- A member whose key is not data, in any letter case, leaves `Data` of a
`WalletResponse` as it is. -/
theorem WalletResponse_preserves_Data (e : String × json.Syntax)
    (h : json.foldName e.1 ≠ json.foldName "data") (acc : Option Error × WalletResponse) :
    (json.storeMember WalletResponse.fields acc e).2.Data = acc.2.Data := by
  refine storeMember_preserves _ _ e (fun f hf hfold dst dst1 hst => ?_) acc
  simp only [WalletResponse.fields, List.mem_cons, List.mem_singleton, List.not_mem_nil,
    or_false] at hf
  rcases hf with rfl | rfl | rfl
  · cases hv : e.2 <;> rw [hv] at hst <;>
      first
        | (simp only [json.Field.store, Except.ok.injEq] at hst
           subst hst
           rfl)
        | (simp only [json.Field.store] at hst
           cases hst)
  · exact absurd hfold.symm h
  · cases hv : e.2 <;> rw [hv] at hst <;>
      first
        | (simp only [json.Field.store, Except.ok.injEq] at hst
           subst hst
           rfl)
        | (simp only [json.Field.store] at hst
           cases hst)

/-- A member raises no error on a `WalletResponse` when it is a string literal or
null under the keys status and message. -/
theorem WalletResponse_no_error (e : String × json.Syntax)
    (hstr : json.foldName e.1 = json.foldName "status" ∨
      json.foldName e.1 = json.foldName "message" → e.2 = .null ∨ ∃ items, e.2 = .string items)
    (acc : Option Error × WalletResponse) :
    (json.storeMember WalletResponse.fields acc e).1 = acc.1 := by
  refine storeMember_no_error _ e (fun f hf hfold dst => ?_) acc
  simp only [WalletResponse.fields, List.mem_cons, List.mem_singleton, List.not_mem_nil,
    or_false] at hf
  rcases hf with rfl | rfl | rfl
  · rcases hstr (Or.inl hfold.symm) with hv | ⟨items, hv⟩ <;> rw [hv] <;> exact ⟨_, rfl⟩
  · exact ⟨_, rfl⟩
  · rcases hstr (Or.inr hfold.symm) with hv | ⟨items, hv⟩ <;> rw [hv] <;> exact ⟨_, rfl⟩

/-- The fields `Status` and `Message` of a `WalletResponse` after the members of an
object that has the members status and message, string literals, when no other
member has one of these keys. -/
theorem WalletResponse_fold_status_message (es : List (String × json.Syntax))
    (status message : List json.StrItem) (acc : Option Error × WalletResponse)
    (hstatus : ("status", json.Syntax.string status) ∈ es)
    (hmessage : ("message", json.Syntax.string message) ∈ es)
    (hes : ∀ e ∈ es, e = ("status", .string status) ∨ e = ("message", .string message) ∨
      (json.foldName e.1 ≠ json.foldName "status" ∧
        json.foldName e.1 ≠ json.foldName "message")) :
    (es.foldl (json.storeMember WalletResponse.fields) acc).2.Status =
        String.mk (json.unquote status) ∧
      (es.foldl (json.storeMember WalletResponse.fields) acc).2.Message =
        String.mk (json.unquote message) := by
  constructor
  · refine foldl_storeMember_field WalletResponse.fields (fun r => r.Status)
      ("status", .string status) _ (fun _ => rfl) es (fun e he => ?_) acc hstatus
    rcases hes e he with h | h | h
    · exact Or.inl h
    · exact Or.inr (WalletResponse_preserves_Status e (by
        rw [h]
        exact (by decide : json.foldName "message" ≠ json.foldName "status")))
    · exact Or.inr (WalletResponse_preserves_Status e h.1)
  · refine foldl_storeMember_field WalletResponse.fields (fun r => r.Message)
      ("message", .string message) _ (fun _ => rfl) es (fun e he => ?_) acc hmessage
    rcases hes e he with h | h | h
    · exact Or.inr (WalletResponse_preserves_Message e (by
        rw [h]
        exact (by decide : json.foldName "status" ≠ json.foldName "message")))
    · exact Or.inl h
    · exact Or.inr (WalletResponse_preserves_Message e h.2)

/-- The field `Data` of a `WalletResponse` after the members of an object that has the
member data, when no other member has that key. -/
theorem WalletResponse_fold_data (es : List (String × json.Syntax)) (d : json.Syntax)
    (acc : Option Error × WalletResponse) (hdata : ("data", d) ∈ es)
    (hes : ∀ e ∈ es, e = ("data", d) ∨ json.foldName e.1 ≠ json.foldName "data") :
    (es.foldl (json.storeMember WalletResponse.fields) acc).2.Data = some (String.mk d.text) :=
  foldl_storeMember_field WalletResponse.fields (fun r => r.Data) ("data", d) _ (fun _ => rfl) es
    (fun e he => (hes e he).imp id (fun h => WalletResponse_preserves_Data e h)) acc hdata

/-- An object whose member values all have fewer nested arrays and objects than
the limit is itself within the limit. -/
theorem object_depth_le (ws : List Char) (members : json.Members)
    (h : ∀ e ∈ members.entries, e.2.depth < json.maxNestingDepth) :
    (json.Syntax.object ws members).depth ≤ json.maxNestingDepth := by
  have hm : members.depth ≤ json.maxNestingDepth - 1 :=
    Members_depth_le members _ (fun e he => Nat.le_sub_one_of_lt (h e he))
  have hpos : 0 < json.maxNestingDepth := by decide
  simp only [json.Syntax.depth]
  omega

/-- In an object whose only members under the keys status and message are two
string literals, every member under one of these keys is a string literal. -/
theorem strings_of_status_message (es : List (String × json.Syntax))
    (status message : List json.StrItem)
    (hes : ∀ e ∈ es, e = ("status", .string status) ∨ e = ("message", .string message) ∨
      (json.foldName e.1 ≠ json.foldName "status" ∧
        json.foldName e.1 ≠ json.foldName "message")) :
    ∀ e ∈ es, json.foldName e.1 = json.foldName "status" ∨
      json.foldName e.1 = json.foldName "message" → e.2 = .null ∨ ∃ items, e.2 = .string items := by
  intro e he hkey
  rcases hes e he with h | h | h
  · rw [h]
    exact Or.inr ⟨_, rfl⟩
  · rw [h]
    exact Or.inr ⟨_, rfl⟩
  · rcases hkey with hk | hk
    · exact absurd hk h.1
    · exact absurd hk h.2

/-- A decoding result is known from its error and the three fields of the
`InfoResponse`. -/
theorem InfoResponse_ext (x : Option Error × InfoResponse) (a : String) (b : RawMessage) (c : String)
    (h0 : x.1 = none) (h1 : x.2.Status = a) (h2 : x.2.Data = b) (h3 : x.2.Message = c) :
    x = (none, ⟨a, b, c⟩) := by
  obtain ⟨err, r⟩ := x
  cases r
  simp only at h0 h1 h2 h3
  rw [h0, h1, h2, h3]

/-- A decoding result is known from its error and the three fields of the
`PaymentResponse`. -/
theorem PaymentResponse_ext (x : Option Error × PaymentResponse) (a : String) (b : RawMessage) (c : String)
    (h0 : x.1 = none) (h1 : x.2.Status = a) (h2 : x.2.Data = b) (h3 : x.2.Message = c) :
    x = (none, ⟨a, b, c⟩) := by
  obtain ⟨err, r⟩ := x
  cases r
  simp only at h0 h1 h2 h3
  rw [h0, h1, h2, h3]

/-- A decoding result is known from its error and the three fields of the
`PayoutResponse`. -/
theorem PayoutResponse_ext (x : Option Error × PayoutResponse) (a : String) (b : RawMessage) (c : String)
    (h0 : x.1 = none) (h1 : x.2.Status = a) (h2 : x.2.Data = b) (h3 : x.2.Message = c) :
    x = (none, ⟨a, b, c⟩) := by
  obtain ⟨err, r⟩ := x
  cases r
  simp only at h0 h1 h2 h3
  rw [h0, h1, h2, h3]

/-- A decoding result is known from its error and the three fields of the
`RedeemResponse`. -/
theorem RedeemResponse_ext (x : Option Error × RedeemResponse) (a : String) (b : RawMessage) (c : String)
    (h0 : x.1 = none) (h1 : x.2.Status = a) (h2 : x.2.Data = b) (h3 : x.2.Message = c) :
    x = (none, ⟨a, b, c⟩) := by
  obtain ⟨err, r⟩ := x
  cases r
  simp only at h0 h1 h2 h3
  rw [h0, h1, h2, h3]

/-- A decoding result is known from its error and the three fields of the
`SubAccountResponse`. -/
theorem SubAccountResponse_ext (x : Option Error × SubAccountResponse) (a : String) (b : RawMessage) (c : String)
    (h0 : x.1 = none) (h1 : x.2.Status = a) (h2 : x.2.Data = b) (h3 : x.2.Message = c) :
    x = (none, ⟨a, b, c⟩) := by
  obtain ⟨err, r⟩ := x
  cases r
  simp only at h0 h1 h2 h3
  rw [h0, h1, h2, h3]

/-- A decoding result is known from its error and the three fields of the
`WalletResponse`. -/
theorem WalletResponse_ext (x : Option Error × WalletResponse) (a : String) (b : RawMessage) (c : String)
    (h0 : x.1 = none) (h1 : x.2.Status = a) (h2 : x.2.Data = b) (h3 : x.2.Message = c) :
    x = (none, ⟨a, b, c⟩) := by
  obtain ⟨err, r⟩ := x
  cases r
  simp only at h0 h1 h2 h3
  rw [h0, h1, h2, h3]

/-! ## Decoding an envelope -/

theorem Decode_eq {ρ : Type} (fields : List (json.Field ρ)) (text : List Char) (v : ρ) :
    json.Decoder.Decode fields (String.mk text) v =
      match json.Decoder.readValue text with
      | .error err => (some err, v)
      | .ok v1 => json.unmarshal fields v1 v := rfl

theorem object_WellFormed (members : json.Members) (h : members.WellFormed = true) :
    (json.Syntax.object [] members).WellFormed = true := by
  cases members <;> simp_all [json.Syntax.WellFormed, json.allSpace]

/-- Decoding a body whose first value is a well-formed object within the nesting
limit stores its members one after the other. -/
theorem Decode_object {ρ : Type} (fields : List (json.Field ρ)) (lead ws trail : List Char)
    (members : json.Members) (v : ρ) (hlead : json.allSpace lead = true)
    (hwf : (json.Syntax.object ws members).WellFormed = true)
    (hk : (json.Syntax.object ws members).depth ≤ json.maxNestingDepth) :
    json.Decoder.Decode fields
        (String.mk (lead ++ ((json.Syntax.object ws members).text ++ trail))) v =
      members.entries.foldl (json.storeMember fields) (none, v) := by
  have h := readValue_text lead (.object ws members) trail hlead hwf hk
    (fun _ e => by cases e)
  rw [Decode_eq, h]
  rfl

/-- Decoding such a body when no member raises an error: no error, and the
struct as the members leave it. -/
theorem Decode_members_no_error {ρ : Type} (fields : List (json.Field ρ))
    (lead ws trail : List Char) (members : json.Members) (v : ρ)
    (hlead : json.allSpace lead = true)
    (hwf : (json.Syntax.object ws members).WellFormed = true)
    (hk : (json.Syntax.object ws members).depth ≤ json.maxNestingDepth)
    (hnone : (members.entries.foldl (json.storeMember fields) (none, v)).1 = none) :
    json.Decoder.Decode fields
        (String.mk (lead ++ ((json.Syntax.object ws members).text ++ trail))) v =
      (none, (members.entries.foldl (json.storeMember fields) (none, v)).2) := by
  rw [Decode_object fields lead ws trail members v hlead hwf hk]
  exact Prod.ext hnone rfl

theorem object_cons_text (key : List json.StrItem) (v : json.Syntax) (pre1 : List Char)
    (key1 : List json.StrItem) (mid1 pre21 : List Char) (v1 : json.Syntax) (post1 : List Char)
    (tail1 : json.Members) :
    (json.Syntax.object [] (.cons [] key [] [] v []
        (.cons pre1 key1 mid1 pre21 v1 post1 tail1))).text =
      '{' :: '"' :: (json.itemsText key ++ '"' :: ':' :: (v.text ++ ',' ::
        ((json.Members.cons pre1 key1 mid1 pre21 v1 post1 tail1).text ++ ['}']))) := by
  simp [json.Syntax.text, json.Members.text]

/-- An envelope whose first member is `data` with a value of `j + 1` arrays, one
inside the other, is rejected when that lies beyond the nesting limit. -/
theorem Decode_data_too_deep {ρ : Type} (fields : List (json.Field ρ)) (dst : ρ) (j : Nat)
    (hj : json.maxNestingDepth ≤ 1 + j) (key : List json.StrItem)
    (hkey : key.all json.StrItem.WellFormed = true) (pre1 : List Char)
    (key1 : List json.StrItem) (mid1 pre21 : List Char) (v1 : json.Syntax) (post1 : List Char)
    (tail1 : json.Members) :
    json.Decoder.Decode fields
        (String.mk (json.Syntax.object [] (.cons [] key [] [] (json.nest j (.array [] .nil)) []
          (.cons pre1 key1 mid1 pre21 v1 post1 tail1))).text) dst =
      (some json.errSyntax, dst) := by
  have et := object_cons_text key (json.nest j (.array [] .nil)) pre1 key1 mid1 pre21 v1 post1 tail1
  have ed : ∀ Z, (json.nest j (.array [] .nil)).text ++ Z =
      '[' :: (List.replicate j '[' ++ (']' :: (List.replicate j ']' ++ Z))) := by
    intro Z
    rw [nest_text]
    exact replicate_append_cons j '[' _
  rw [ed] at et
  have hfail := parseValue_first_member_fails key '['
    (List.replicate j '[' ++ (']' :: (List.replicate j ']' ++ ',' ::
      ((json.Members.cons pre1 key1 mid1 pre21 v1 post1 tail1).text ++ ['}']))))
    (2 * (json.Syntax.object [] (.cons [] key [] [] (json.nest j (.array [] .nil)) []
      (.cons pre1 key1 mid1 pre21 v1 post1 tail1))).text.length) 0 hkey (by decide)
    (fun f => parseValue_too_deep j f 1 _ (by omega))
  have hs : json.spanSpace ('{' :: '"' :: (json.itemsText key ++ '"' :: ':' :: '[' ::
      (List.replicate j '[' ++ (']' :: (List.replicate j ']' ++ ',' ::
        ((json.Members.cons pre1 key1 mid1 pre21 v1 post1 tail1).text ++ ['}'])))))) =
      ([], '{' :: '"' :: (json.itemsText key ++ '"' :: ':' :: '[' ::
      (List.replicate j '[' ++ (']' :: (List.replicate j ']' ++ ',' ::
        ((json.Members.cons pre1 key1 mid1 pre21 v1 post1 tail1).text ++ ['}'])))))) :=
    spanSpace_cons [] '{' _ rfl (by decide)
  rw [Decode_eq]
  rw [et] at hfail ⊢
  simp only [json.Decoder.readValue, hs, hfail]

/-- C16, counterexample: the envelope whose `data` is 10000 arrays, one inside the
other, is a well-formed object with the three members, and its `data` is a value
that parses on its own; yet inside the envelope it lies beyond the nesting limit
of the scanner, so decoding returns an error and stores nothing. -/
theorem C16_counterexample_data_nested_too_deep :
    (json.Syntax.object [] deepMembers).WellFormed = true ∧
      deepMembers.entries =
        [("data", deepData), ("status", .string [.plain 'o', .plain 'k']),
          ("message", .string [.plain 'd', .plain 'o', .plain 'n', .plain 'e'])] ∧
      json.parse deepData.text = some deepData ∧
      json.Decoder.Decode InfoResponse.fields
          (String.mk (json.Syntax.object [] deepMembers).text) InfoResponse.zero =
        (some json.errSyntax, InfoResponse.zero) := by
  have hwfd : deepData.WellFormed = true := by
    rw [deepData, nest_WellFormed]
    rfl
  have hdepth : ∀ k, (json.nest k (.array [] .nil)).depth = k + 1 := by
    intro k
    induction k with
    | zero => rfl
    | succ k ih => simp [json.nest, json.Syntax.depth, json.Elements.depth, ih]
  have hm : deepMembers.WellFormed = true := by
    unfold deepMembers
    rw [json.Members.WellFormed, hwfd]
    decide
  refine ⟨object_WellFormed deepMembers hm, ?_, ?_, ?_⟩
  · unfold deepMembers
    rfl
  · refine parse_text deepData hwfd ?_
    rw [deepData, hdepth]
    exact le_refl _
  · exact Decode_data_too_deep InfoResponse.fields InfoResponse.zero 9999 (le_refl _)
      [.plain 'd', .plain 'a', .plain 't', .plain 'a'] (by decide) _ _ _ _ _ _ _

/-- C16, amended: envelope round trip within the nesting limit. Take any
well-formed JSON object that has the members `status` and `message`, both string
literals, and `data`, any value `d`, next to any number of other members whose
keys are none of the three in any letter case (a `timestamp`, say), in any order
and with any whitespace, every member value with fewer than 10000 arrays and
objects nested in it, as the first value of a body (whitespace may precede it,
anything may follow it). Decoding the body into each of the six records with the
three fields returns no error, sets `Status` and `Message` to the strings the
two literals stand for and `Data` to the very text of `d`; so does decoding into
an `AccountResponse`, whose fields `id` and `timestamp` take a string and an
integer of 64 bits (or null). The text of `d` parses back to the syntax tree of
`d`, so an object stays an object with the same members and an array stays an
array with the same elements, in the same order. -/
theorem C16_envelope_round_trip_within_nesting_limit (lead ws trail : List Char)
    (members : json.Members) (status message : List json.StrItem) (d : json.Syntax)
    (hlead : json.allSpace lead = true)
    (hwf : (json.Syntax.object ws members).WellFormed = true)
    (hstatus : ("status", json.Syntax.string status) ∈ members.entries)
    (hmessage : ("message", json.Syntax.string message) ∈ members.entries)
    (hdata : ("data", d) ∈ members.entries)
    (hothers : ∀ e ∈ members.entries,
      e = ("status", .string status) ∨ e = ("message", .string message) ∨ e = ("data", d) ∨
        (json.foldName e.1 ≠ json.foldName "status" ∧
          json.foldName e.1 ≠ json.foldName "message" ∧
          json.foldName e.1 ≠ json.foldName "data"))
    (hdepth : ∀ e ∈ members.entries, e.2.depth < json.maxNestingDepth) :
    ((∀ e ∈ members.entries,
        (json.foldName e.1 = json.foldName "id" →
          e.2 = .null ∨ ∃ items, e.2 = .string items) ∧
        (json.foldName e.1 = json.foldName "timestamp" →
          e.2 = .null ∨ ∃ n i, e.2 = .number n ∧ n.toInt64 = some i)) →
      ∀ v : AccountResponse, ∃ r,
        json.Decoder.Decode AccountResponse.fields
            (String.mk (lead ++ ((json.Syntax.object ws members).text ++ trail))) v =
          (none, r) ∧
        r.Status = String.mk (json.unquote status) ∧
        r.Data = some (String.mk d.text) ∧
        r.Message = String.mk (json.unquote message)) ∧
    (∀ v : InfoResponse,
      json.Decoder.Decode InfoResponse.fields
          (String.mk (lead ++ ((json.Syntax.object ws members).text ++ trail))) v =
        (none, ⟨String.mk (json.unquote status), some (String.mk d.text),
          String.mk (json.unquote message)⟩)) ∧
    (∀ v : PaymentResponse,
      json.Decoder.Decode PaymentResponse.fields
          (String.mk (lead ++ ((json.Syntax.object ws members).text ++ trail))) v =
        (none, ⟨String.mk (json.unquote status), some (String.mk d.text),
          String.mk (json.unquote message)⟩)) ∧
    (∀ v : PayoutResponse,
      json.Decoder.Decode PayoutResponse.fields
          (String.mk (lead ++ ((json.Syntax.object ws members).text ++ trail))) v =
        (none, ⟨String.mk (json.unquote status), some (String.mk d.text),
          String.mk (json.unquote message)⟩)) ∧
    (∀ v : RedeemResponse,
      json.Decoder.Decode RedeemResponse.fields
          (String.mk (lead ++ ((json.Syntax.object ws members).text ++ trail))) v =
        (none, ⟨String.mk (json.unquote status), some (String.mk d.text),
          String.mk (json.unquote message)⟩)) ∧
    (∀ v : SubAccountResponse,
      json.Decoder.Decode SubAccountResponse.fields
          (String.mk (lead ++ ((json.Syntax.object ws members).text ++ trail))) v =
        (none, ⟨String.mk (json.unquote status), some (String.mk d.text),
          String.mk (json.unquote message)⟩)) ∧
    (∀ v : WalletResponse,
      json.Decoder.Decode WalletResponse.fields
          (String.mk (lead ++ ((json.Syntax.object ws members).text ++ trail))) v =
        (none, ⟨String.mk (json.unquote status), some (String.mk d.text),
          String.mk (json.unquote message)⟩)) ∧
    json.parse (String.mk d.text).toList = some d := by
  have hd : d.WellFormed = true := by
    simp only [json.Syntax.WellFormed, Bool.and_eq_true] at hwf
    exact Members_entries_WellFormed members hwf.2 ("data", d) hdata
  have hk : (json.Syntax.object ws members).depth ≤ json.maxNestingDepth :=
    object_depth_le ws members hdepth
  have hsm : ∀ e ∈ members.entries,
      e = ("status", .string status) ∨ e = ("message", .string message) ∨
        (json.foldName e.1 ≠ json.foldName "status" ∧
          json.foldName e.1 ≠ json.foldName "message") := by
    intro e he
    rcases hothers e he with h | h | h | h
    · exact Or.inl h
    · exact Or.inr (Or.inl h)
    · refine Or.inr (Or.inr ?_)
      rw [h]
      exact ⟨(by decide : json.foldName "data" ≠ json.foldName "status"),
        (by decide : json.foldName "data" ≠ json.foldName "message")⟩
    · exact Or.inr (Or.inr ⟨h.1, h.2.1⟩)
  have hdt : ∀ e ∈ members.entries,
      e = ("data", d) ∨ json.foldName e.1 ≠ json.foldName "data" := by
    intro e he
    rcases hothers e he with h | h | h | h
    · refine Or.inr ?_
      rw [h]
      exact (by decide : json.foldName "status" ≠ json.foldName "data")
    · refine Or.inr ?_
      rw [h]
      exact (by decide : json.foldName "message" ≠ json.foldName "data")
    · exact Or.inl h
    · exact Or.inr h.2.2
  have hstr := strings_of_status_message members.entries status message hsm
  refine ⟨?_, ?_, ?_, ?_, ?_, ?_, ?_, parse_text d hd (le_of_lt (hdepth _ hdata))⟩
  · intro hacc v
    rw [Decode_object _ lead ws trail members v hlead hwf hk]
    refine ⟨_, Prod.ext ?_ rfl, (AccountResponse_fold_status_message _ status message _ hstatus
      hmessage hsm).1, AccountResponse_fold_data _ d _ hdata hdt,
      (AccountResponse_fold_status_message _ status message _ hstatus hmessage hsm).2⟩
    refine foldl_storeMember_no_error _ _ (fun e he => AccountResponse_no_error e ?_
      (hacc e he).2) _
    rintro (h | h | h)
    · exact hstr e he (Or.inl h)
    · exact hstr e he (Or.inr h)
    · exact (hacc e he).1 h
  · intro v
    rw [Decode_object _ lead ws trail members v hlead hwf hk]
    exact InfoResponse_ext _ _ _ _
      (foldl_storeMember_no_error _ _ (fun e he => InfoResponse_no_error e (hstr e he)) _)
      (InfoResponse_fold_status_message _ status message _ hstatus hmessage hsm).1
      (InfoResponse_fold_data _ d _ hdata hdt)
      (InfoResponse_fold_status_message _ status message _ hstatus hmessage hsm).2
  · intro v
    rw [Decode_object _ lead ws trail members v hlead hwf hk]
    exact PaymentResponse_ext _ _ _ _
      (foldl_storeMember_no_error _ _ (fun e he => PaymentResponse_no_error e (hstr e he)) _)
      (PaymentResponse_fold_status_message _ status message _ hstatus hmessage hsm).1
      (PaymentResponse_fold_data _ d _ hdata hdt)
      (PaymentResponse_fold_status_message _ status message _ hstatus hmessage hsm).2
  · intro v
    rw [Decode_object _ lead ws trail members v hlead hwf hk]
    exact PayoutResponse_ext _ _ _ _
      (foldl_storeMember_no_error _ _ (fun e he => PayoutResponse_no_error e (hstr e he)) _)
      (PayoutResponse_fold_status_message _ status message _ hstatus hmessage hsm).1
      (PayoutResponse_fold_data _ d _ hdata hdt)
      (PayoutResponse_fold_status_message _ status message _ hstatus hmessage hsm).2
  · intro v
    rw [Decode_object _ lead ws trail members v hlead hwf hk]
    exact RedeemResponse_ext _ _ _ _
      (foldl_storeMember_no_error _ _ (fun e he => RedeemResponse_no_error e (hstr e he)) _)
      (RedeemResponse_fold_status_message _ status message _ hstatus hmessage hsm).1
      (RedeemResponse_fold_data _ d _ hdata hdt)
      (RedeemResponse_fold_status_message _ status message _ hstatus hmessage hsm).2
  · intro v
    rw [Decode_object _ lead ws trail members v hlead hwf hk]
    exact SubAccountResponse_ext _ _ _ _
      (foldl_storeMember_no_error _ _ (fun e he => SubAccountResponse_no_error e (hstr e he)) _)
      (SubAccountResponse_fold_status_message _ status message _ hstatus hmessage hsm).1
      (SubAccountResponse_fold_data _ d _ hdata hdt)
      (SubAccountResponse_fold_status_message _ status message _ hstatus hmessage hsm).2
  · intro v
    rw [Decode_object _ lead ws trail members v hlead hwf hk]
    exact WalletResponse_ext _ _ _ _
      (foldl_storeMember_no_error _ _ (fun e he => WalletResponse_no_error e (hstr e he)) _)
      (WalletResponse_fold_status_message _ status message _ hstatus hmessage hsm).1
      (WalletResponse_fold_data _ d _ hdata hdt)
      (WalletResponse_fold_status_message _ status message _ hstatus hmessage hsm).2

set_option maxRecDepth 8000 in
/-- C16, amended, on an envelope with the four members data, status, timestamp
and message: decoding it into an `InfoResponse`, which has no field for the
timestamp, and into an `AccountResponse`, which has one. -/
theorem C16_envelope_round_trip_within_nesting_limit_witness :
    exampleEnvelope =
        String.mk ([] ++ ((json.Syntax.object [] (json.membersOf exampleEnvelope)).text ++ [])) ∧
      json.Decoder.Decode InfoResponse.fields exampleEnvelope InfoResponse.zero =
        (none, ⟨"success", some "\x7b\"id\": \"w1\", \"tags\": [\"a\", 2.5e3, null ]\x7d",
          "all ok"⟩) ∧
      json.Decoder.Decode AccountResponse.fields exampleEnvelope AccountResponse.zero =
        (none, ⟨"", "success", some "\x7b\"id\": \"w1\", \"tags\": [\"a\", 2.5e3, null ]\x7d",
          "all ok", 1700000000⟩) ∧
      ((∀ v : AccountResponse, ∃ r,
        json.Decoder.Decode AccountResponse.fields
            (String.mk ([] ++ ((json.Syntax.object [] (json.membersOf exampleEnvelope)).text ++
              []))) v = (none, r) ∧
          r.Status = "success" ∧
          r.Data = some "\x7b\"id\": \"w1\", \"tags\": [\"a\", 2.5e3, null ]\x7d" ∧
          r.Message = "all ok") ∧
       (∀ v : InfoResponse,
        json.Decoder.Decode InfoResponse.fields
            (String.mk ([] ++ ((json.Syntax.object [] (json.membersOf exampleEnvelope)).text ++
              []))) v =
          (none, ⟨"success", some "\x7b\"id\": \"w1\", \"tags\": [\"a\", 2.5e3, null ]\x7d",
            "all ok"⟩))) := by
  refine ⟨by decide, by decide, by decide, ?_⟩
  have e : (json.membersOf exampleEnvelope).entries =
      [("data", (json.parse
          "\x7b\"id\": \"w1\", \"tags\": [\"a\", 2.5e3, null ]\x7d".toList).getD .null),
        ("status", .string ("success".toList.map json.StrItem.plain)),
        ("timestamp", .number ⟨false, "1700000000".toList, none, none⟩),
        ("message", .string [.plain 'a', .plain 'l', .plain 'l', .unicode '0' '0' '2' '0',
          .plain 'o', .plain 'k'])] := by rfl
  have h := C16_envelope_round_trip_within_nesting_limit [] [] []
    (json.membersOf exampleEnvelope)
    ("success".toList.map json.StrItem.plain)
    [.plain 'a', .plain 'l', .plain 'l', .unicode '0' '0' '2' '0', .plain 'o', .plain 'k']
    ((json.parse "\x7b\"id\": \"w1\", \"tags\": [\"a\", 2.5e3, null ]\x7d".toList).getD .null)
    (by decide) (by decide)
    (by rw [e]; exact List.mem_cons_of_mem _ (List.mem_cons_self _ _))
    (by rw [e]; exact List.mem_cons_of_mem _ (List.mem_cons_of_mem _ (List.mem_cons_of_mem _
      (List.mem_cons_self _ _))))
    (by rw [e]; exact List.mem_cons_self _ _)
    (by
      rw [e]
      intro x hx
      simp only [List.mem_cons, List.mem_singleton, List.not_mem_nil, or_false] at hx
      rcases hx with rfl | rfl | rfl | rfl
      · exact Or.inr (Or.inr (Or.inl rfl))
      · exact Or.inl rfl
      · exact Or.inr (Or.inr (Or.inr ⟨by decide, by decide, by decide⟩))
      · exact Or.inr (Or.inl rfl))
    (by
      rw [e]
      intro x hx
      simp only [List.mem_cons, List.mem_singleton, List.not_mem_nil, or_false] at hx
      rcases hx with rfl | rfl | rfl | rfl <;> decide)
  refine ⟨h.1 ?_, h.2.1⟩
  rw [e]
  intro x hx
  simp only [List.mem_cons, List.mem_singleton, List.not_mem_nil, or_false] at hx
  rcases hx with rfl | rfl | rfl | rfl
  · exact ⟨fun hf => absurd hf (by decide), fun hf => absurd hf (by decide)⟩
  · exact ⟨fun hf => absurd hf (by decide), fun hf => absurd hf (by decide)⟩
  · exact ⟨fun hf => absurd hf (by decide), fun _ => Or.inr ⟨_, _, rfl, rfl⟩⟩
  · exact ⟨fun hf => absurd hf (by decide), fun hf => absurd hf (by decide)⟩

/-! ## The remaining module calls -/

/-- C24: for every non-empty issueID and every subAccount,
`Account.GetTransactionsByIssueID` makes one `Do` call, POST on
/accounts/issue-id-transactions, whose params map is exactly issueID = the
identifier and whose body is a `map[string]string` that is empty when subAccount
is empty and holds the single entry subAccount otherwise; the body serialises to
the empty JSON object, respectively to the object with the single member
subAccount, and has no member issueID. -/
theorem C24_issue_id_goes_to_the_query {σ : Type} (c : Client σ) (ctx : Context)
    (issueID subAccount : String) (s : σ) (hid : issueID ≠ "") :
    ∃ rec, rec.method = "POST" ∧ rec.path = "/accounts/issue-id-transactions" ∧
      ((account.New (Client.recording c)).GetTransactionsByIssueID ctx issueID subAccount
        (s, [])).sentExactly rec ∧
      rec.params = some [("issueID", issueID)] ∧
      rec.body = .strMap (if subAccount = "" then [] else [("subAccount", subAccount)]) ∧
      Body.toJSON rec.body =
        .object (if subAccount = "" then [] else [("subAccount", .string subAccount)]) ∧
      json.Marshal rec.body =
        .ok (.object (if subAccount = "" then [] else [("subAccount", .string subAccount)])) ∧
      JSON.member (Body.toJSON rec.body) "issueID" = none := by
  simp only [Account.GetTransactionsByIssueID, account.New, if_neg hid]
  by_cases hsub : subAccount = ""
  · subst hsub
    obtain ⟨rec, -, hm, hp, hb, hps, hs⟩ := recording_Do_sentExactly c ctx "POST"
      "/accounts/issue-id-transactions" (.strMap []) AccountResponse.zero
      (some [("issueID", issueID)]) s
    refine ⟨rec, hm, hp, by simpa using hs, hps, by simpa using hb, ?_, ?_, ?_⟩ <;>
      rw [hb] <;> rfl
  · obtain ⟨rec, -, hm, hp, hb, hps, hs⟩ := recording_Do_sentExactly c ctx "POST"
      "/accounts/issue-id-transactions" (.strMap [("subAccount", subAccount)])
      AccountResponse.zero (some [("issueID", issueID)]) s
    refine ⟨rec, hm, hp, by simpa [hsub, Map.set] using hs, hps, by simpa [hsub] using hb,
      ?_, ?_, ?_⟩
    · rw [hb, if_neg hsub]
      rfl
    · rw [hb, if_neg hsub]
      rfl
    · rw [hb, member_strMap]
      have : ¬ "subAccount" = "issueID" := by decide
      simp [Map.lookup, this]

/-- C24 on the issue `issue_123`, without a sub-account and with the sub-account
`sub_123`; through the production dispatcher the identifier travels in the query
of the request and the body is the serialised map. -/
theorem C24_issue_id_goes_to_the_query_witness :
    (∃ rec, rec.params = some [("issueID", "issue_123")] ∧ rec.body = .strMap [] ∧
      ((account.New (Client.recording acceptingTransport)).GetTransactionsByIssueID
        exampleContext "issue_123" "" (0, [])).sentExactly rec) ∧
    (∃ rec, rec.params = some [("issueID", "issue_123")] ∧
      rec.body = .strMap [("subAccount", "sub_123")] ∧
      ((account.New (Client.recording acceptingTransport)).GetTransactionsByIssueID
        exampleContext "issue_123" "sub_123" (0, [])).sentExactly rec) ∧
    ((account.New (chimoney.Client.transport stdRuntime (chimoney.Client.recording
        (testServerClient 200 "ok")))).GetTransactionsByIssueID exampleContext "issue_123"
        "sub_123" (0, [])).state.2.map (fun r => (r.Method, r.URL.RequestURI)) =
      [("POST", "/accounts/issue-id-transactions?issueID=issue_123")] :=
  ⟨(C24_issue_id_goes_to_the_query acceptingTransport exampleContext "issue_123" "" 0
      (by decide)).imp (fun _ h => ⟨h.2.2.2.1, h.2.2.2.2.1, h.2.2.1⟩),
    (C24_issue_id_goes_to_the_query acceptingTransport exampleContext "issue_123" "sub_123" 0
      (by decide)).imp (fun _ h => ⟨h.2.2.2.1, h.2.2.2.2.1, h.2.2.1⟩),
    by decide⟩

/-- C27: for every input `Payouts.InitiateChimoney` validates nothing and makes one
`Do` call, POST on /payouts/initiate, whose body is a map that, serialised, always
has the members chimoneys and turnOffNotification (the latter holding the flag,
also when it is false), has the member crypto_payments exactly when the list of
crypto payments has an element (a nil list and an empty list are both left out),
and has the member subAccount exactly when subAccount is not empty. -/
theorem C27_InitiateChimoney_body {σ : Type} (c : Client σ) (ctx : Context)
    (chimoneys : Option (List ChimoneyPayload)) (turnOffNotification : Bool)
    (cryptoPayments : Option (List CryptoPayment)) (subAccount : String) (s : σ) :
    ∃ rec, rec.method = "POST" ∧ rec.path = "/payouts/initiate" ∧
      ((payouts.New (Client.recording c)).InitiateChimoney ctx chimoneys turnOffNotification
        cryptoPayments subAccount (s, [])).sentExactly rec ∧
      JSON.member (Body.toJSON rec.body) "chimoneys" =
        some (json.slice ChimoneyPayload.toJSON chimoneys) ∧
      JSON.member (Body.toJSON rec.body) "turnOffNotification" =
        some (.bool turnOffNotification) ∧
      JSON.member (Body.toJSON rec.body) "crypto_payments" =
        (if len cryptoPayments > 0 then some (json.slice CryptoPayment.toJSON cryptoPayments)
         else none) ∧
      JSON.member (Body.toJSON rec.body) "subAccount" =
        (if subAccount = "" then none else some (.string subAccount)) ∧
      (cryptoPayments = none ∨ cryptoPayments = some [] →
        JSON.member (Body.toJSON rec.body) "crypto_payments" = none) := by
  simp only [Payouts.InitiateChimoney, payouts.New]
  obtain ⟨rec, -, hm, hp, hb, -, hs⟩ := recording_Do_sentExactly c ctx "POST" "/payouts/initiate"
    (.anyMap (if subAccount ≠ "" then
        Map.set (if len cryptoPayments > 0 then
            Map.set [("chimoneys", Value.chimoneys chimoneys),
              ("turnOffNotification", Value.bool turnOffNotification)] "crypto_payments"
              (.cryptoPayments cryptoPayments)
          else [("chimoneys", .chimoneys chimoneys),
            ("turnOffNotification", .bool turnOffNotification)]) "subAccount" (.str subAccount)
      else (if len cryptoPayments > 0 then
          Map.set [("chimoneys", Value.chimoneys chimoneys),
            ("turnOffNotification", Value.bool turnOffNotification)] "crypto_payments"
            (.cryptoPayments cryptoPayments)
        else [("chimoneys", .chimoneys chimoneys),
          ("turnOffNotification", .bool turnOffNotification)])))
    PayoutResponse.zero none s
  have h1 : ¬ "crypto_payments" = "chimoneys" := by decide
  have h2 : ¬ "crypto_payments" = "turnOffNotification" := by decide
  have h3 : ¬ "subAccount" = "chimoneys" := by decide
  have h4 : ¬ "subAccount" = "turnOffNotification" := by decide
  have h5 : ¬ "subAccount" = "crypto_payments" := by decide
  have h6 : ¬ "crypto_payments" = "subAccount" := by decide
  have h7 : ¬ "chimoneys" = "turnOffNotification" := by decide
  have h8 : ¬ "chimoneys" = "crypto_payments" := by decide
  have h9 : ¬ "chimoneys" = "subAccount" := by decide
  have h10 : ¬ "turnOffNotification" = "crypto_payments" := by decide
  have h11 : ¬ "turnOffNotification" = "subAccount" := by decide
  refine ⟨rec, hm, hp, hs, ?_, ?_, ?_, ?_, ?_⟩
  · rw [hb, member_anyMap]
    split_ifs <;> simp [Map.lookup_set, Map.lookup, Value.toJSON, h1, h3]
  · rw [hb, member_anyMap]
    split_ifs <;> simp [Map.lookup_set, Map.lookup, Value.toJSON, h2, h4, h7]
  · rw [hb, member_anyMap]
    split_ifs <;> simp [Map.lookup_set, Map.lookup, Value.toJSON, h5, h8, h10]
  · rw [hb, member_anyMap]
    split_ifs <;> simp_all [Map.lookup_set, Map.lookup, Value.toJSON, h9, h11, h6]
  · intro hnil
    have hlen : ¬ len cryptoPayments > 0 := by
      rcases hnil with h | h <;> subst h <;> simp [len]
    rw [hb, member_anyMap]
    split_ifs <;> simp [Map.lookup_set, Map.lookup, Value.toJSON, h5, h8, h10]

/-- C27 on a call without crypto payments and sub-account, with the flag false:
the serialised body is the object with the members chimoneys and
turnOffNotification only; with one crypto payment and the sub-account `sub_123`
the two other members are there as well. -/
theorem C27_InitiateChimoney_body_witness :
    ((payouts.New (Client.recording acceptingTransport)).InitiateChimoney exampleContext
        (some [⟨Float64.ofNat 10, "a@b.com", ""⟩]) false (some []) "" (0, [])).state.2.map
          (fun rec => Body.toJSON rec.body) =
      [.object [("chimoneys", .array [.object [("valueInUSD", .number (Float64.ofNat 10)),
          ("email", .string "a@b.com")]]),
        ("turnOffNotification", .bool false)]] ∧
    (∃ rec, rec.method = "POST" ∧ rec.path = "/payouts/initiate" ∧
      ((payouts.New (Client.recording acceptingTransport)).InitiateChimoney exampleContext
        (some []) true (some [⟨⟨"rAddr", "rIssuer", "USD"⟩⟩]) "sub_123" (0, [])).sentExactly rec ∧
      JSON.member (Body.toJSON rec.body) "turnOffNotification" = some (.bool true) ∧
      JSON.member (Body.toJSON rec.body) "crypto_payments" =
        some (.array [.object [("xrpl", .object [("address", .string "rAddr"),
          ("issuer", .string "rIssuer"), ("currency", .string "USD")])]]) ∧
      JSON.member (Body.toJSON rec.body) "subAccount" = some (.string "sub_123")) :=
  ⟨rfl,
    (C27_InitiateChimoney_body acceptingTransport exampleContext (some []) true
      (some [⟨⟨"rAddr", "rIssuer", "USD"⟩⟩]) "sub_123" 0).imp
      (fun _ h => ⟨h.1, h.2.1, h.2.2.1, h.2.2.2.2.1, h.2.2.2.2.2.1, h.2.2.2.2.2.2.1⟩)⟩

/-! ## Optional fields of the request records -/

/-- C26: the code departs from the claim on a `CryptoPayment` whose XRPL address,
issuer and currency are all empty. The field is tagged `xrpl,omitempty`, but the
tag has no effect on a field whose type is a struct, so the payment is written
with the member xrpl, holding three empty strings; through
`Payouts.InitiateChimoney` such a payment reaches the body as it is. -/
theorem C26_empty_xrpl_is_written :
    JSON.member (CryptoPayment.toJSON ⟨⟨"", "", ""⟩⟩) "xrpl" =
        some (.object [("address", .string ""), ("issuer", .string ""),
          ("currency", .string "")]) ∧
    ((payouts.New (Client.recording acceptingTransport)).InitiateChimoney exampleContext
        (some []) false (some [⟨⟨"", "", ""⟩⟩]) "" (0, [])).state.2.map
          (fun rec => json.Marshal rec.body) =
      [.ok (.object [("chimoneys", .array []),
        ("crypto_payments", .array [.object [("xrpl", .object [("address", .string ""),
          ("issuer", .string ""), ("currency", .string "")])]]),
        ("turnOffNotification", .bool false)])] := by
  exact ⟨rfl, rfl⟩

/-- The string and map fields tagged `omitempty` are written exactly when they
are not empty (a map when it has an entry): email and twitter of a
`ChimoneyPayload`, description of a `CreateRequest`, subAccount of a
`PaymentRequest`, meta of an `AirtimeRedeemRequest` and of an `AnyRedeemRequest`,
and subAccount of the five redeem requests. The member xrpl of a `CryptoPayment`
is written whatever its three strings. -/
theorem omitempty_fields_written_iff_not_empty (p : ChimoneyPayload) (cr : CreateRequest)
    (pr : PaymentRequest) (qa : AirtimeRedeemRequest) (qn : AnyRedeemRequest)
    (qc : ChimoneyRedeemRequest) (qg : GiftCardRedeemRequest) (qm : MobileMoneyRedeemRequest)
    (cp : CryptoPayment) :
    JSON.member p.toJSON "email" = (if p.Email = "" then none else some (.string p.Email)) ∧
    JSON.member p.toJSON "twitter" =
      (if p.Twitter = "" then none else some (.string p.Twitter)) ∧
    JSON.member cr.toJSON "description" =
      (if cr.Description = "" then none else some (.string cr.Description)) ∧
    JSON.member pr.toJSON "subAccount" =
      (if pr.SubAccount = "" then none else some (.string pr.SubAccount)) ∧
    JSON.member qa.toJSON "meta" = (if len qa.Meta = 0 then none else some (json.anyMap qa.Meta)) ∧
    JSON.member qn.toJSON "meta" = (if len qn.Meta = 0 then none else some (json.anyMap qn.Meta)) ∧
    JSON.member qa.toJSON "subAccount" =
      (if qa.SubAccount = "" then none else some (.string qa.SubAccount)) ∧
    JSON.member qn.toJSON "subAccount" =
      (if qn.SubAccount = "" then none else some (.string qn.SubAccount)) ∧
    JSON.member qc.toJSON "subAccount" =
      (if qc.SubAccount = "" then none else some (.string qc.SubAccount)) ∧
    JSON.member qg.toJSON "subAccount" =
      (if qg.SubAccount = "" then none else some (.string qg.SubAccount)) ∧
    JSON.member qm.toJSON "subAccount" =
      (if qm.SubAccount = "" then none else some (.string qm.SubAccount)) ∧
    JSON.member cp.toJSON "xrpl" =
      some (.object [("address", .string cp.XRPL.Address), ("issuer", .string cp.XRPL.Issuer),
        ("currency", .string cp.XRPL.Currency)]) := by
  refine ⟨?_, ?_, ?_, ?_, ?_, ?_, ?_, ?_, ?_, ?_, ?_, rfl⟩ <;>
    simp only [ChimoneyPayload.toJSON, CreateRequest.toJSON, PaymentRequest.toJSON,
      AirtimeRedeemRequest.toJSON, AnyRedeemRequest.toJSON, ChimoneyRedeemRequest.toJSON,
      GiftCardRedeemRequest.toJSON, MobileMoneyRedeemRequest.toJSON, JSON.member,
      json.omitEmptyString, json.omitEmptyMap] <;>
    split_ifs <;> simp [Map.lookup]

/-! ## The dispatcher before and after the response -/

/-- C22: for a response with a status code in [200,300), `Client.Do` returns nil
whatever the response body when the destination is the nil interface; with a
destination it returns nil exactly when decoding the body into the destination
returns nil, and otherwise it returns the error whose message is
"chimoney: failed to decode response: " followed by the message of the decoding
error. -/
theorem C22_Do_decodes_only_into_a_destination {σ ρ : Type} [Destination ρ] (rt : Runtime)
    (c : chimoney.Client σ) (ctx : Context) (method path : String) (body : Body) (v : ρ)
    (params : Option (Map String)) (s s1 : σ) (reqBody : Option String) (req : http.Request)
    (resp : http.Response)
    (hbody : chimoney.Client.reqBody rt body = .ok reqBody)
    (hreq : rt.NewRequestWithContext ctx method (c.baseURL ++ path) reqBody = .ok req)
    (hsend : c.http.Do (chimoney.Client.setHeaders rt c (chimoney.Client.addBodyParams rt
      (chimoney.Client.addParams rt req params) method body)) s = (.ok resp, s1))
    (hstatus : 200 ≤ resp.StatusCode ∧ resp.StatusCode < 300) :
    (Destination.isNil ρ = true →
      chimoney.Client.Do rt c ctx method path body v params s = ⟨none, v, s1⟩) ∧
    (Destination.isNil ρ = false →
      ((chimoney.Client.Do rt c ctx method path body v params s).err = none ↔
        (rt.Decode resp.Body v).1 = none) ∧
      (chimoney.Client.Do rt c ctx method path body v params s).v = (rt.Decode resp.Body v).2 ∧
      ∀ cause, (rt.Decode resp.Body v).1 = some cause →
        (chimoney.Client.Do rt c ctx method path body v params s).err =
          some (.errorf ("chimoney: failed to decode response: " ++ cause.Error))) := by
  have hst : ¬ (resp.StatusCode < 200 ∨ resp.StatusCode ≥ 300) := by omega
  rw [Do_after_response rt c ctx method path body v params s s1 reqBody req resp hbody hreq hsend,
    if_neg hst]
  constructor
  · intro hnil
    rw [if_pos hnil]
  · intro hnil
    have hn : ¬ Destination.isNil ρ = true := by simp [hnil]
    rw [if_neg hn]
    rcases hd : rt.Decode resp.Body v with ⟨e, v1⟩
    cases e with
    | none => simp
    | some err => simp

/-- C22 on a server answering 200: with no destination the call returns nil on an
empty body and on a body that is not JSON; with a destination the body `ok`, not
JSON, and the empty body are decoding errors, the latter with the message
"chimoney: failed to decode response: EOF", and an envelope decodes. -/
theorem C22_Do_decodes_only_into_a_destination_witness :
    (chimoney.Client.Do jsonRuntime (exampleClient 200 "") exampleContext "GET" "/info/assets"
        .none NoDestination.mk none 0).err = none ∧
    (chimoney.Client.Do jsonRuntime (exampleClient 200 "<html>") exampleContext "GET"
        "/info/assets" .none NoDestination.mk none 0).err = none ∧
    (chimoney.Client.Do jsonRuntime (exampleClient 200 "") exampleContext "GET" "/info/assets"
        .none InfoResponse.zero none 0).err =
      some (.errorf "chimoney: failed to decode response: EOF") ∧
    (chimoney.Client.Do jsonRuntime (exampleClient 200 "<html>") exampleContext "GET"
        "/info/assets" .none InfoResponse.zero none 0).err ≠ none ∧
    chimoney.Client.Do jsonRuntime (exampleClient 200 errorEnvelope) exampleContext "GET"
        "/info/assets" .none InfoResponse.zero none 0 =
      ⟨none, ⟨"error", some "null", "Insufficient balance"⟩, 1⟩ := by
  have h1 := C22_Do_decodes_only_into_a_destination jsonRuntime (exampleClient 200 "")
    exampleContext "GET" "/info/assets" .none NoDestination.mk none 0 1 none _ ⟨200, ""⟩
    rfl rfl rfl (by decide)
  have h2 := C22_Do_decodes_only_into_a_destination jsonRuntime (exampleClient 200 "<html>")
    exampleContext "GET" "/info/assets" .none NoDestination.mk none 0 1 none _ ⟨200, "<html>"⟩
    rfl rfl rfl (by decide)
  have h3 := C22_Do_decodes_only_into_a_destination jsonRuntime (exampleClient 200 "")
    exampleContext "GET" "/info/assets" .none InfoResponse.zero none 0 1 none _ ⟨200, ""⟩
    rfl rfl rfl (by decide)
  have h4 := C22_Do_decodes_only_into_a_destination jsonRuntime (exampleClient 200 "<html>")
    exampleContext "GET" "/info/assets" .none InfoResponse.zero none 0 1 none _ ⟨200, "<html>"⟩
    rfl rfl rfl (by decide)
  refine ⟨?_, ?_, (h3.2 rfl).2.2 json.errEOF rfl, ?_, ?_⟩
  · rw [h1.1 rfl]
  · rw [h2.1 rfl]
  · intro h
    have := (h4.2 rfl).1.mp h
    exact absurd this (by decide)
  · rfl

/-- C23: when the send of the HTTP client returns an error, `Client.Do` returns
that very error and leaves the destination as it was; when serialising a non-nil
body fails, `Client.Do` returns the error of `json.Marshal`, leaves the
destination and the state behind the HTTP client as they were, and the HTTP client
is not called: the log of a recording client stays empty. -/
theorem C23_Do_failure_before_a_response {σ ρ : Type} [Destination ρ] (rt : Runtime)
    (c : chimoney.Client σ) (ctx : Context) (method path : String) (body : Body) (v : ρ)
    (params : Option (Map String)) (s : σ) :
    (∀ (reqBody : Option String) (req : http.Request) (e : Error) (s1 : σ),
      chimoney.Client.reqBody rt body = .ok reqBody →
      rt.NewRequestWithContext ctx method (c.baseURL ++ path) reqBody = .ok req →
      c.http.Do (chimoney.Client.setHeaders rt c (chimoney.Client.addBodyParams rt
        (chimoney.Client.addParams rt req params) method body)) s = (.error e, s1) →
      chimoney.Client.Do rt c ctx method path body v params s = ⟨some e, v, s1⟩) ∧
    (∀ e : Error, body ≠ .none → rt.Marshal body = .error e →
      chimoney.Client.Do rt c ctx method path body v params s = ⟨some e, v, s⟩ ∧
      chimoney.Client.Do rt (chimoney.Client.recording c) ctx method path body v params (s, []) =
        ⟨some e, v, (s, [])⟩) := by
  constructor
  · intro reqBody req e s1 hbody hreq hsend
    unfold chimoney.Client.Do
    rw [hbody]
    simp only [hreq, hsend]
  · intro e hnil hm
    have hb : chimoney.Client.reqBody rt body = .error e := by
      cases body <;> first | exact absurd rfl hnil | simp [chimoney.Client.reqBody, hm]
    constructor
    · unfold chimoney.Client.Do
      rw [hb]
    · unfold chimoney.Client.Do
      rw [hb]

/-- C23 on a client whose send is refused, and on `Info.GetLocalAmountInUSD` with
an amount that is not a number: the guards let NaN through, serialising it fails,
and no request reaches the HTTP client. -/
theorem C23_Do_failure_before_a_response_witness :
    chimoney.Client.Do jsonRuntime
        ⟨"test-api-key", "https://api.chimoney.io/v0.2.4",
          failingServer (.foreign "net/http" "dial tcp: connection refused")⟩
        exampleContext "GET" "/info/assets" .none InfoResponse.zero none 0 =
      ⟨some (.foreign "net/http" "dial tcp: connection refused"), InfoResponse.zero, 1⟩ ∧
    chimoney.Client.Do jsonRuntime (chimoney.Client.recording (exampleClient 200 errorEnvelope))
        exampleContext "POST" "/info/local-amount-in-usd"
        (.anyMap [("originCurrency", .str "NGN"), ("amount", .float .nan)])
        InfoResponse.zero none (0, []) =
      ⟨some (.foreign "encoding/json" "json: unsupported value"), InfoResponse.zero, (0, [])⟩ ∧
    (info.New (chimoney.Client.transport jsonRuntime (chimoney.Client.recording
        (exampleClient 200 errorEnvelope)))).GetLocalAmountInUSD exampleContext "NGN" .nan
        (0, []) =
      .returned (some InfoResponse.zero)
        (some (.foreign "encoding/json" "json: unsupported value")) (0, []) :=
  ⟨(C23_Do_failure_before_a_response jsonRuntime
      ⟨"test-api-key", "https://api.chimoney.io/v0.2.4",
        failingServer (.foreign "net/http" "dial tcp: connection refused")⟩
      exampleContext "GET" "/info/assets" .none InfoResponse.zero none 0).1 none _ _ 1 rfl rfl rfl,
    ((C23_Do_failure_before_a_response jsonRuntime (exampleClient 200 errorEnvelope)
      exampleContext "POST" "/info/local-amount-in-usd"
      (.anyMap [("originCurrency", .str "NGN"), ("amount", .float .nan)])
      InfoResponse.zero none 0).2 _ (by simp) rfl).2,
    rfl⟩

/-! ## The constructor `New` -/

/-- An option other than `WithSandbox(true)` leaves the base URL as it is. -/
theorem apply_baseURL_of_ne {σ : Type} (opt : chimoney.Option σ) (c : chimoney.Client σ)
    (h : opt ≠ .WithSandbox true) : (opt.apply c).baseURL = c.baseURL := by
  cases opt with
  | WithAPIKey key => rfl
  | WithHTTPClient client => rfl
  | WithSandbox enabled =>
    cases enabled with
    | true => exact absurd rfl h
    | false => rfl

/-- The base URL after the loop over the options: the sandbox root when
`WithSandbox(true)` is among them, the base URL before the loop otherwise. -/
theorem foldl_apply_baseURL {σ : Type} (options : List (chimoney.Option σ))
    (c : chimoney.Client σ) :
    (.WithSandbox true ∈ options →
      (options.foldl (fun c opt => opt.apply c) c).baseURL =
        "https://api-v2-sandbox.chimoney.io/v0.2.4") ∧
    (.WithSandbox true ∉ options →
      (options.foldl (fun c opt => opt.apply c) c).baseURL = c.baseURL) := by
  induction options generalizing c with
  | nil => exact ⟨fun h => absurd h (List.not_mem_nil _), fun _ => rfl⟩
  | cons opt rest ih =>
    have ih1 := ih (opt.apply c)
    constructor
    · intro hmem
      by_cases hrest : chimoney.Option.WithSandbox true ∈ rest
      · exact ih1.1 hrest
      · have hopt : opt = .WithSandbox true := by
          rcases List.mem_cons.mp hmem with h | h
          · exact h.symm
          · exact absurd h hrest
        rw [List.foldl_cons, ih1.2 hrest, hopt]
        rfl
    · intro hmem
      have hopt : opt ≠ .WithSandbox true := fun h => hmem (h ▸ List.mem_cons_self _ _)
      have hrest : chimoney.Option.WithSandbox true ∉ rest :=
        fun h => hmem (List.mem_cons_of_mem _ h)
      rw [List.foldl_cons, ih1.2 hrest, apply_baseURL_of_ne opt c hopt]

/-- The API key after the loop over the options: the argument of the last
`WithAPIKey` among them, the key before the loop when there is none. -/
theorem foldl_apply_apiKey {σ : Type} (options : List (chimoney.Option σ))
    (c : chimoney.Client σ) :
    ((∀ k, chimoney.Option.WithAPIKey k ∉ options) ∧
        (options.foldl (fun c opt => opt.apply c) c).apiKey = c.apiKey) ∨
      ∃ key pre post, options = pre ++ .WithAPIKey key :: post ∧
        (∀ k, chimoney.Option.WithAPIKey k ∉ post) ∧
        (options.foldl (fun c opt => opt.apply c) c).apiKey = key := by
  induction options using List.reverseRecOn with
  | nil => exact Or.inl ⟨fun k => List.not_mem_nil _, rfl⟩
  | append_singleton l a ih =>
    rw [List.foldl_append, List.foldl_cons, List.foldl_nil]
    cases a with
    | WithAPIKey key =>
      exact Or.inr ⟨key, l, [], rfl, fun k => List.not_mem_nil _, rfl⟩
    | WithHTTPClient client =>
      rcases ih with ⟨hn, hk⟩ | ⟨key, pre, post, hl, hn, hk⟩
      · refine Or.inl ⟨fun k hm => ?_, hk⟩
        rcases List.mem_append.mp hm with h | h
        · exact hn k h
        · simp at h
      · refine Or.inr ⟨key, pre, post ++ [.WithHTTPClient client], by simp [hl], fun k hm => ?_, hk⟩
        rcases List.mem_append.mp hm with h | h
        · exact hn k h
        · simp at h
    | WithSandbox enabled =>
      have hkey : ∀ c0 : chimoney.Client σ,
          ((chimoney.Option.WithSandbox enabled).apply c0).apiKey = c0.apiKey := by
        intro c0
        cases enabled <;> rfl
      rcases ih with ⟨hn, hk⟩ | ⟨key, pre, post, hl, hn, hk⟩
      · refine Or.inl ⟨fun k hm => ?_, (hkey _).trans hk⟩
        rcases List.mem_append.mp hm with h | h
        · exact hn k h
        · simp at h
      · refine Or.inr ⟨key, pre, post ++ [.WithSandbox enabled], by simp [hl], fun k hm => ?_,
          (hkey _).trans hk⟩
        rcases List.mem_append.mp hm with h | h
        · exact hn k h
        · simp at h

/-- C21: when `New` returns a client, which it does for every list of options that
leaves a non-empty API key, the base URL of the client is the sandbox root
exactly when `WithSandbox(true)` is among the options, and the production root
otherwise; `WithSandbox(false)` changes nothing, so it does not undo an earlier
`WithSandbox(true)`. -/
theorem C21_base_URL_selection {σ : Type} (rt : Runtime) (env : String)
    (defaultClient : http.Client σ) (options : List (chimoney.Option σ))
    (c : chimoney.Client σ) (modules : chimoney.Modules σ)
    (h : chimoney.New rt env defaultClient options = .returned c modules) :
    (c.baseURL = "https://api-v2-sandbox.chimoney.io/v0.2.4" ↔
      .WithSandbox true ∈ options) ∧
    (.WithSandbox true ∉ options → c.baseURL = "https://api.chimoney.io/v0.2.4") ∧
    (∀ c0 : chimoney.Client σ, (chimoney.Option.WithSandbox false).apply c0 = c0) ∧
    (∀ pre post, options = pre ++ .WithSandbox true :: post →
      c.baseURL = "https://api-v2-sandbox.chimoney.io/v0.2.4") := by
  have hc : c = options.foldl (fun c opt => opt.apply c)
      ⟨env, "https://api.chimoney.io/v0.2.4", defaultClient⟩ := by
    unfold chimoney.New at h
    simp only at h
    split_ifs at h
    cases h
    rfl
  obtain ⟨h1, h2⟩ := foldl_apply_baseURL options
    (⟨env, "https://api.chimoney.io/v0.2.4", defaultClient⟩ : chimoney.Client σ)
  rw [← hc] at h1 h2
  refine ⟨⟨fun hs => ?_, h1⟩, h2, fun c0 => rfl, fun pre post ho => h1 (by simp [ho])⟩
  by_contra hmem
  rw [h2 hmem] at hs
  have hne : ("https://api.chimoney.io/v0.2.4" : String) ≠
      "https://api-v2-sandbox.chimoney.io/v0.2.4" := by decide
  exact hne hs

/-- C21 on three lists of options: a key only, a key with the sandbox switched on
and then off, and a key with the sandbox switched off only. -/
theorem C21_base_URL_selection_witness :
    (∃ c modules, chimoney.New stdRuntime "" (exampleServer 200 "ok")
        [.WithAPIKey "key", .WithSandbox true, .WithSandbox false] = .returned c modules ∧
      c.baseURL = "https://api-v2-sandbox.chimoney.io/v0.2.4") ∧
    (∃ c modules, chimoney.New stdRuntime "" (exampleServer 200 "ok")
        [.WithSandbox false, .WithAPIKey "key"] = .returned c modules ∧
      c.baseURL = "https://api.chimoney.io/v0.2.4") ∧
    (∃ c modules, chimoney.New stdRuntime "env-key" (exampleServer 200 "ok") [] =
        .returned c modules ∧
      c.baseURL = "https://api.chimoney.io/v0.2.4") :=
  ⟨⟨_, _, rfl, (C21_base_URL_selection stdRuntime "" (exampleServer 200 "ok")
      [.WithAPIKey "key", .WithSandbox true, .WithSandbox false] _ _ rfl).1.mpr (by simp)⟩,
    ⟨_, _, rfl, (C21_base_URL_selection stdRuntime "" (exampleServer 200 "ok")
      [.WithSandbox false, .WithAPIKey "key"] _ _ rfl).2.1 (by simp)⟩,
    ⟨_, _, rfl, (C21_base_URL_selection stdRuntime "env-key" (exampleServer 200 "ok")
      [] _ _ rfl).2.1 (by simp)⟩⟩

/-- C29: `New` applies the options in order on top of the value of the
environment variable, so that the API key it reaches is the argument of the last
`WithAPIKey` among the options, or the value of the environment variable when
there is none. `New` panics exactly when that key is empty, with the value
"chimoney: API key is required"; otherwise it returns a client that holds the key
and whose seven module handles are not nil. -/
theorem C29_New_requires_a_key {σ : Type} (rt : Runtime) (env : String)
    (defaultClient : http.Client σ) (options : List (chimoney.Option σ)) :
    ∃ key,
      (((∀ k, chimoney.Option.WithAPIKey k ∉ options) ∧ key = env) ∨
        ∃ pre post, options = pre ++ .WithAPIKey key :: post ∧
          ∀ k, chimoney.Option.WithAPIKey k ∉ post) ∧
      ((∃ value, chimoney.New rt env defaultClient options = .panicked value) ↔ key = "") ∧
      (key = "" →
        chimoney.New rt env defaultClient options = .panicked "chimoney: API key is required") ∧
      (key ≠ "" →
        ∃ c modules, chimoney.New rt env defaultClient options = .returned c modules ∧
          c.apiKey = key ∧
          modules.Account ≠ none ∧ modules.Info ≠ none ∧ modules.MobileMoney ≠ none ∧
          modules.Payouts ≠ none ∧ modules.Redeem ≠ none ∧ modules.SubAccount ≠ none ∧
          modules.Wallet ≠ none) := by
  have hkey := foldl_apply_apiKey options
    (⟨env, "https://api.chimoney.io/v0.2.4", defaultClient⟩ : chimoney.Client σ)
  have hnew : ∀ key, (options.foldl (fun c opt => opt.apply c)
      (⟨env, "https://api.chimoney.io/v0.2.4", defaultClient⟩ : chimoney.Client σ)).apiKey = key →
      ((∃ value, chimoney.New rt env defaultClient options = .panicked value) ↔ key = "") ∧
      (key = "" →
        chimoney.New rt env defaultClient options = .panicked "chimoney: API key is required") ∧
      (key ≠ "" →
        ∃ c modules, chimoney.New rt env defaultClient options = .returned c modules ∧
          c.apiKey = key ∧
          modules.Account ≠ none ∧ modules.Info ≠ none ∧ modules.MobileMoney ≠ none ∧
          modules.Payouts ≠ none ∧ modules.Redeem ≠ none ∧ modules.SubAccount ≠ none ∧
          modules.Wallet ≠ none) := by
    intro key hk
    by_cases he : key = ""
    · have hp : chimoney.New rt env defaultClient options =
          .panicked "chimoney: API key is required" := by
        unfold chimoney.New
        simp only [hk, he, if_true]
      exact ⟨⟨fun _ => he, fun _ => ⟨_, hp⟩⟩, fun _ => hp, fun h => absurd he h⟩
    · have hr : ∃ c modules, chimoney.New rt env defaultClient options = .returned c modules ∧
          c.apiKey = key ∧
          modules.Account ≠ none ∧ modules.Info ≠ none ∧ modules.MobileMoney ≠ none ∧
          modules.Payouts ≠ none ∧ modules.Redeem ≠ none ∧ modules.SubAccount ≠ none ∧
          modules.Wallet ≠ none := by
        unfold chimoney.New
        simp only [hk, he, if_false]
        refine ⟨_, _, rfl, hk, ?_⟩
        simp
      refine ⟨⟨fun ⟨value, hv⟩ => ?_, fun h => absurd h he⟩, fun h => absurd h he, fun _ => hr⟩
      obtain ⟨c, modules, hc, -⟩ := hr
      rw [hc] at hv
      cases hv
  rcases hkey with ⟨hn, hk⟩ | ⟨key, pre, post, hl, hn, hk⟩
  · exact ⟨env, Or.inl ⟨hn, rfl⟩, hnew env hk⟩
  · exact ⟨key, Or.inr ⟨pre, post, hl, hn⟩, hnew key hk⟩

/-- The outcomes of `New` on four inputs: without a key anywhere it panics, the
environment gives the key when no option does, the last `WithAPIKey` wins, and an
empty key given last makes it panic although the environment holds a key. -/
theorem C29_New_requires_a_key_witness :
    chimoney.New stdRuntime "" (exampleServer 200 "ok") [.WithSandbox true] =
      .panicked "chimoney: API key is required" ∧
    (∃ c modules, chimoney.New stdRuntime "env-key" (exampleServer 200 "ok")
        [.WithSandbox true] = .returned c modules ∧ c.apiKey = "env-key") ∧
    (∃ c modules, chimoney.New stdRuntime "env-key" (exampleServer 200 "ok")
        [.WithAPIKey "first", .WithSandbox true, .WithAPIKey "last"] = .returned c modules ∧
      c.apiKey = "last") ∧
    chimoney.New stdRuntime "env-key" (exampleServer 200 "ok") [.WithAPIKey ""] =
      .panicked "chimoney: API key is required" ∧
    ∃ key,
      (((∀ k, chimoney.Option.WithAPIKey k ∉
            ([.WithAPIKey "first", .WithSandbox true, .WithAPIKey "last"] :
              List (chimoney.Option Nat))) ∧ key = "env-key") ∨
        ∃ pre post, ([.WithAPIKey "first", .WithSandbox true, .WithAPIKey "last"] :
            List (chimoney.Option Nat)) = pre ++ .WithAPIKey key :: post ∧
          ∀ k, chimoney.Option.WithAPIKey k ∉ post) ∧
      ((∃ value, chimoney.New stdRuntime "env-key" (exampleServer 200 "ok")
        [.WithAPIKey "first", .WithSandbox true, .WithAPIKey "last"] = .panicked value) ↔
          key = "") :=
  ⟨rfl, ⟨_, _, rfl, rfl⟩, ⟨_, _, rfl, rfl⟩, rfl,
    (C29_New_requires_a_key stdRuntime "env-key" (exampleServer 200 "ok")
      [.WithAPIKey "first", .WithSandbox true, .WithAPIKey "last"]).imp
      (fun _ h => ⟨h.1, h.2.1⟩)⟩

/-! ## The transport double of the tests against the production dispatcher -/

/-- What `testclient.Client.Do` returns once a response has arrived. -/
theorem testclient_Do_after_response {σ ρ : Type} [Destination ρ] (rt : Runtime)
    (t : testclient.Client σ) (ctx : Context) (method path : String) (body : Body) (v : ρ)
    (params : Option (Map String)) (s s1 : σ) (reqBody : Option String) (req : http.Request)
    (resp : http.Response)
    (hbody : chimoney.Client.reqBody rt body = .ok reqBody)
    (hreq : rt.NewRequestWithContext ctx method (testclient.Client.address t path params)
      reqBody = .ok req)
    (hsend : t.http.Do (testclient.Client.setHeaders rt t req) s = (.ok resp, s1)) :
    testclient.Client.Do rt t ctx method path body v params s =
      if resp.StatusCode ≥ 400 then
        ⟨some (.errorf ("chimoney: request failed with status " ++ toString resp.StatusCode)),
          v, s1⟩
      else if Destination.isNil ρ then ⟨none, v, s1⟩
      else
        match rt.Decode resp.Body v with
        | (some err, v1) => ⟨some err, v1, s1⟩
        | (none, v1) => ⟨none, v1, s1⟩ := by
  unfold testclient.Client.Do
  rw [hbody]
  simp only [hreq, hsend]

/-- C28, as stated, fails on a response whose body does not decode into the
destination: against a server answering 302 with an empty body, both
`testclient.Client.Do` and `chimoney.Client.Do` return an error (the first one the
decoding error, the second one the status error), so the two agree on a status in
[300,400); and against a server answering 200 with an empty body
`testclient.Client.Do` fails although the status is below 400. -/
theorem C28_counterexample_body_that_does_not_decode :
    (testclient.Client.Do jsonRuntime (exampleTestClient 302 "") exampleContext "GET"
        "/info/assets" .none InfoResponse.zero none 0).err = some json.errEOF ∧
    (chimoney.Client.Do jsonRuntime (testServerClient 302 "") exampleContext "GET"
        "/info/assets" .none InfoResponse.zero none 0).err =
      some (.errorf "chimoney: request failed with status 302") ∧
    (testclient.Client.Do jsonRuntime (exampleTestClient 200 "") exampleContext "GET"
        "/info/assets" .none InfoResponse.zero none 0).err = some json.errEOF := by
  exact ⟨rfl, rfl, rfl⟩

/-- C28, amended: when both dispatchers get the same response to their request,
and the destination is nil or the body decodes into it, `testclient.Client.Do`
fails exactly when the status is at least 400; the two then have the same outcome
exactly on the status codes in [200,300) and from 400 on, and on every status
below 200 or in [300,400) `testclient.Client.Do` succeeds and `chimoney.Client.Do`
fails. -/
theorem C28_test_double_accepts_status_below_400 {σ ρ : Type} [Destination ρ] (rt : Runtime)
    (c : chimoney.Client σ) (t : testclient.Client σ) (ctx : Context) (method path : String)
    (body : Body) (v : ρ) (params : Option (Map String)) (s s1 s2 : σ)
    (reqBody : Option String) (req req2 : http.Request) (resp : http.Response)
    (hbody : chimoney.Client.reqBody rt body = .ok reqBody)
    (hreq : rt.NewRequestWithContext ctx method (c.baseURL ++ path) reqBody = .ok req)
    (hreq2 : rt.NewRequestWithContext ctx method (testclient.Client.address t path params)
      reqBody = .ok req2)
    (hsend : c.http.Do (chimoney.Client.setHeaders rt c (chimoney.Client.addBodyParams rt
      (chimoney.Client.addParams rt req params) method body)) s = (.ok resp, s1))
    (hsend2 : t.http.Do (testclient.Client.setHeaders rt t req2) s = (.ok resp, s2))
    (hdest : Destination.isNil ρ = true ∨ (rt.Decode resp.Body v).1 = none) :
    ((testclient.Client.Do rt t ctx method path body v params s).err ≠ none ↔
      resp.StatusCode ≥ 400) ∧
    (((testclient.Client.Do rt t ctx method path body v params s).err = none ↔
        (chimoney.Client.Do rt c ctx method path body v params s).err = none) ↔
      ((200 ≤ resp.StatusCode ∧ resp.StatusCode < 300) ∨ resp.StatusCode ≥ 400)) ∧
    (resp.StatusCode < 200 ∨ (300 ≤ resp.StatusCode ∧ resp.StatusCode < 400) →
      (testclient.Client.Do rt t ctx method path body v params s).err = none ∧
      (chimoney.Client.Do rt c ctx method path body v params s).err ≠ none) := by
  have hdec : Destination.isNil ρ = false →
      ∃ v1, rt.Decode resp.Body v = (none, v1) := by
    intro hn
    rcases hdest with h | h
    · rw [hn] at h
      cases h
    · rcases hd : rt.Decode resp.Body v with ⟨e, v1⟩
      rw [hd] at h
      simp only at h
      subst h
      exact ⟨v1, rfl⟩
  have ht : (testclient.Client.Do rt t ctx method path body v params s).err = none ↔
      ¬ resp.StatusCode ≥ 400 := by
    rw [testclient_Do_after_response rt t ctx method path body v params s s2 reqBody req2 resp
      hbody hreq2 hsend2]
    by_cases h4 : resp.StatusCode ≥ 400
    · simp [h4]
    · rw [if_neg h4]
      cases hn : Destination.isNil ρ with
      | true => simp [h4]
      | false =>
        obtain ⟨v1, hv1⟩ := hdec hn
        simp [hv1, h4]
  have hc : (chimoney.Client.Do rt c ctx method path body v params s).err = none ↔
      ¬ (resp.StatusCode < 200 ∨ resp.StatusCode ≥ 300) := by
    rw [Do_after_response rt c ctx method path body v params s s1 reqBody req resp hbody hreq
      hsend]
    by_cases h2 : resp.StatusCode < 200 ∨ resp.StatusCode ≥ 300
    · simp [h2]
    · rw [if_neg h2]
      cases hn : Destination.isNil ρ with
      | true => simp [h2]
      | false =>
        obtain ⟨v1, hv1⟩ := hdec hn
        simp [hv1, h2]
  refine ⟨?_, ?_, ?_⟩
  · rw [ne_eq, ht, not_not]
  · rw [ht, hc]
    constructor
    · intro h
      by_contra hcon
      have h4 : ¬ resp.StatusCode ≥ 400 := fun h4 => hcon (Or.inr h4)
      have := h.mp h4
      omega
    · intro h
      constructor <;> intro h1 <;> omega
  · intro h
    refine ⟨ht.mpr (by omega), fun h1 => ?_⟩
    have := hc.mp h1
    omega

/-- C28, amended, on a server answering 200, 302 and 404 with an envelope: at 200
both succeed, at 404 both fail, at 302 the test double succeeds and the production
dispatcher fails. -/
theorem C28_test_double_accepts_status_below_400_witness :
    ((testclient.Client.Do jsonRuntime (exampleTestClient 200 errorEnvelope) exampleContext
        "GET" "/info/assets" .none InfoResponse.zero none 0).err = none ∧
      (chimoney.Client.Do jsonRuntime (testServerClient 200 errorEnvelope) exampleContext
        "GET" "/info/assets" .none InfoResponse.zero none 0).err = none) ∧
    ((testclient.Client.Do jsonRuntime (exampleTestClient 404 errorEnvelope) exampleContext
        "GET" "/info/assets" .none InfoResponse.zero none 0).err ≠ none ∧
      (chimoney.Client.Do jsonRuntime (testServerClient 404 errorEnvelope) exampleContext
        "GET" "/info/assets" .none InfoResponse.zero none 0).err ≠ none) ∧
    ((testclient.Client.Do jsonRuntime (exampleTestClient 302 errorEnvelope) exampleContext
        "GET" "/info/assets" .none InfoResponse.zero none 0).err = none ∧
      (chimoney.Client.Do jsonRuntime (testServerClient 302 errorEnvelope) exampleContext
        "GET" "/info/assets" .none InfoResponse.zero none 0).err ≠ none) :=
  ⟨⟨rfl, rfl⟩, ⟨by decide, by decide⟩,
    (C28_test_double_accepts_status_below_400 jsonRuntime (testServerClient 302 errorEnvelope)
      (exampleTestClient 302 errorEnvelope) exampleContext "GET" "/info/assets" .none
      InfoResponse.zero none 0 1 1 none _ _ ⟨302, errorEnvelope⟩ rfl rfl rfl rfl rfl
      (Or.inr rfl)).2.2 (Or.inr (by decide))⟩

/-! ## The order of the keys in the query -/

theorem char_eq_of_toNat_eq (a b : Char) (h : a.toNat = b.toNat) : a = b := by
  rw [← Char.ofNat_toNat a, ← Char.ofNat_toNat b, h]

/-- Any two strings are comparable. -/
theorem lexLE_total (a b : List Char) : lexLE a b = true ∨ lexLE b a = true := by
  induction a generalizing b with
  | nil => exact Or.inl rfl
  | cons x xs ih =>
    cases b with
    | nil => exact Or.inr rfl
    | cons y ys =>
      simp only [lexLE]
      by_cases h1 : x.toNat < y.toNat
      · simp [h1]
      · by_cases h2 : y.toNat < x.toNat
        · simp [h2]
        · simp only [h1, h2, if_false]
          exact ih ys

/-- The order of strings is transitive. -/
theorem lexLE_trans (a b c : List Char) (hab : lexLE a b = true) (hbc : lexLE b c = true) :
    lexLE a c = true := by
  induction a generalizing b c with
  | nil => rfl
  | cons x xs ih =>
    cases b with
    | nil => simp [lexLE] at hab
    | cons y ys =>
      cases c with
      | nil => simp [lexLE] at hbc
      | cons z zs =>
        simp only [lexLE] at hab hbc ⊢
        by_cases h1 : x.toNat < y.toNat
        · by_cases h2 : y.toNat < z.toNat
          · have : x.toNat < z.toNat := by omega
            simp [this]
          · by_cases h3 : z.toNat < y.toNat
            · simp [h2, h3] at hbc
            · have : x.toNat < z.toNat := by omega
              simp [this]
        · by_cases h1' : y.toNat < x.toNat
          · simp [h1, h1'] at hab
          · simp only [h1, h1', if_false] at hab
            by_cases h2 : y.toNat < z.toNat
            · have : x.toNat < z.toNat := by omega
              simp [this]
            · by_cases h3 : z.toNat < y.toNat
              · simp [h2, h3] at hbc
              · simp only [h2, h3, if_false] at hbc
                have e1 : ¬ x.toNat < z.toNat := by omega
                have e2 : ¬ z.toNat < x.toNat := by omega
                simp only [e1, e2, if_false]
                exact ih ys zs hab hbc

/-- Two strings below each other are equal. -/
theorem lexLE_antisymm (a b : List Char) (hab : lexLE a b = true) (hba : lexLE b a = true) :
    a = b := by
  induction a generalizing b with
  | nil =>
    cases b with
    | nil => rfl
    | cons y ys => simp [lexLE] at hba
  | cons x xs ih =>
    cases b with
    | nil => simp [lexLE] at hab
    | cons y ys =>
      simp only [lexLE] at hab hba
      by_cases h1 : x.toNat < y.toNat
      · have h2 : ¬ y.toNat < x.toNat := by omega
        simp [h1, h2] at hba
      · by_cases h2 : y.toNat < x.toNat
        · simp [h1, h2] at hab
        · simp only [h1, h2, if_false] at hab hba
          have hxy : x = y := char_eq_of_toNat_eq x y (by omega)
          rw [hxy, ih ys hab hba]

/-- A sorted insertion into sorted entries gives sorted entries. -/
theorem insertSorted_pairwise {α : Type} (e : String × α) (m : Map α)
    (h : m.Pairwise (fun a b => lexLE a.1.toList b.1.toList = true)) :
    (Map.insertSorted e m).Pairwise (fun a b => lexLE a.1.toList b.1.toList = true) := by
  induction m with
  | nil => simp [Map.insertSorted]
  | cons x m ih =>
    rw [List.pairwise_cons] at h
    unfold Map.insertSorted
    split_ifs with hle
    · refine List.pairwise_cons.mpr ⟨fun y hy => ?_, List.pairwise_cons.mpr h⟩
      rcases List.mem_cons.mp hy with hy | hy
      · rw [hy]
        exact hle
      · exact lexLE_trans _ _ _ hle (h.1 y hy)
    · refine List.pairwise_cons.mpr ⟨fun y hy => ?_, ih h.2⟩
      rcases List.mem_cons.mp ((insertSorted_perm e m).mem_iff.mp hy) with hy | hy
      · rw [hy]
        exact (lexLE_total e.1.toList x.1.toList).resolve_left hle
      · exact h.1 y hy

/-- The entries of a map sorted by key are in ascending order of their keys. -/
theorem sortByKey_pairwise {α : Type} (m : Map α) :
    (Map.sortByKey m).Pairwise (fun a b => lexLE a.1.toList b.1.toList = true) := by
  induction m with
  | nil => exact List.Pairwise.nil
  | cons e m ih => exact insertSorted_pairwise e _ ih

/-- Two arrangements of the same entries with distinct keys, both in ascending
order of the keys, are the same list. -/
theorem eq_of_perm_of_sorted_keys {α : Type} (l1 l2 : Map α) (hp : l1.Perm l2)
    (hk : (Map.keys l1).Nodup)
    (h1 : l1.Pairwise (fun a b => lexLE a.1.toList b.1.toList = true))
    (h2 : l2.Pairwise (fun a b => lexLE a.1.toList b.1.toList = true)) : l1 = l2 := by
  induction l1 generalizing l2 with
  | nil => exact (List.Perm.nil_eq hp)
  | cons a t ih =>
    cases l2 with
    | nil => exact absurd (List.Perm.eq_nil hp) (List.cons_ne_nil _ _)
    | cons b u =>
      rw [List.pairwise_cons] at h1 h2
      simp only [Map.keys, List.map_cons, List.nodup_cons] at hk
      have hab : a = b := by
        have ha : a ∈ b :: u := hp.mem_iff.mp (List.mem_cons_self a t)
        have hb : b ∈ a :: t := hp.mem_iff.mpr (List.mem_cons_self b u)
        rcases List.mem_cons.mp ha with ha | ha
        · exact ha
        · rcases List.mem_cons.mp hb with hb | hb
          · exact hb.symm
          · have e1 := h1.1 b hb
            have e2 := h2.1 a ha
            have hkey : a.1 = b.1 := by
              have := lexLE_antisymm _ _ e1 e2
              exact String.ext this
            exact absurd (List.mem_map.mpr ⟨b, hb, hkey.symm⟩) hk.1
      subst hab
      rw [ih u (List.Perm.cons_inv hp) hk.2 h1.2 h2.2]

/-- Sorting by key does not depend on the order the entries come in, when their
keys are distinct. -/
theorem sortByKey_eq_of_perm {α : Type} (l1 l2 : Map α) (hp : l1.Perm l2)
    (hk : (Map.keys l1).Nodup) : Map.sortByKey l1 = Map.sortByKey l2 := by
  apply eq_of_perm_of_sorted_keys
  · exact (sortByKey_perm l1).trans (hp.trans (sortByKey_perm l2).symm)
  · have : (Map.keys (Map.sortByKey l1)).Perm (Map.keys l1) := by
      unfold Map.keys
      exact (sortByKey_perm l1).map _
    exact (List.Perm.nodup_iff this).mpr hk
  · exact sortByKey_pairwise l1
  · exact sortByKey_pairwise l2

/-- With distinct keys, an entry is in a map exactly when its value is read under
its key. -/
theorem mem_iff_lookup {α : Type} (m : Map α) (hk : (Map.keys m).Nodup) (k : String) (x : α) :
    (k, x) ∈ m ↔ Map.lookup m k = some x := by
  induction m with
  | nil => simp [Map.lookup]
  | cons e m ih =>
    simp only [Map.keys, List.map_cons, List.nodup_cons] at hk
    by_cases he : e.1 = k
    · subst he
      simp only [Map.lookup, if_true, Option.some.injEq, List.mem_cons]
      constructor
      · intro h
        rcases h with h | h
        · rw [← h]
        · exact absurd (List.mem_map.mpr ⟨(e.1, x), h, rfl⟩) hk.1
      · intro h
        exact Or.inl (by rw [← h])
    · simp only [Map.lookup, he, if_false, List.mem_cons]
      rw [← ih hk.2]
      constructor
      · intro h
        rcases h with h | h
        · exact absurd (by rw [← h]) he
        · exact h
      · exact Or.inr

/-- With distinct keys, what is read under a key does not depend on the order of
the entries. -/
theorem lookup_eq_of_perm {α : Type} (l1 l2 : Map α) (hp : l1.Perm l2)
    (hk : (Map.keys l1).Nodup) (k : String) : Map.lookup l1 k = Map.lookup l2 k := by
  have hk2 : (Map.keys l2).Nodup := by
    have : (Map.keys l1).Perm (Map.keys l2) := by
      unfold Map.keys
      exact hp.map _
    exact (List.Perm.nodup_iff this).mp hk
  apply Option.ext
  intro x
  simp only [Option.mem_def]
  rw [← mem_iff_lookup l1 hk, ← mem_iff_lookup l2 hk2]
  exact hp.mem_iff

/-- Two maps with distinct keys that read the same under every key hold the same
entries. -/
theorem perm_of_lookup_eq {α : Type} (l1 l2 : Map α) (h1 : (Map.keys l1).Nodup)
    (h2 : (Map.keys l2).Nodup) (h : ∀ k, Map.lookup l1 k = Map.lookup l2 k) : l1.Perm l2 := by
  have n1 : l1.Nodup := List.Nodup.of_map _ h1
  have n2 : l2.Nodup := List.Nodup.of_map _ h2
  rw [List.perm_ext_iff_of_nodup n1 n2]
  intro e
  obtain ⟨k, x⟩ := e
  rw [mem_iff_lookup l1 h1, mem_iff_lookup l2 h2, h k]

/-- The values parsed from a query are well formed. -/
theorem WellFormed_ParseQuery (query : String) : url.Values.WellFormed (url.ParseQuery query) := by
  unfold url.ParseQuery
  have : ∀ (segs : List (List Char)) (acc : url.Values), url.Values.WellFormed acc →
      url.Values.WellFormed (segs.foldl url.parseSegment acc) := by
    intro segs
    induction segs with
    | nil => exact fun acc h => h
    | cons seg segs ih =>
      intro acc h
      apply ih
      unfold url.parseSegment
      split_ifs
      · exact h
      · exact h
      · split
        · exact WellFormed_Add _ _ _ h
        · exact h
  exact this _ [] ⟨List.nodup_nil, fun e he => absurd he (List.not_mem_nil e)⟩

/-- The encoding of the values after adding the entries of a map with distinct
keys does not depend on the order the entries come in. -/
theorem Encode_foldl_Add_of_perm {α : Type} (es es1 : Map α) (f : α → String) (q : url.Values)
    (hq : url.Values.WellFormed q) (hp : es.Perm es1) (hk : (Map.keys es).Nodup) :
    url.Values.Encode (es.foldl (fun q e => url.Values.Add q e.1 (f e.2)) q) =
      url.Values.Encode (es1.foldl (fun q e => url.Values.Add q e.1 (f e.2)) q) := by
  have hk1 : (Map.keys es1).Nodup := by
    have : (Map.keys es).Perm (Map.keys es1) := by
      unfold Map.keys
      exact hp.map _
    exact (List.Perm.nodup_iff this).mp hk
  have w := WellFormed_foldl_Add es f q hq
  have w1 := WellFormed_foldl_Add es1 f q hq
  have hperm := perm_of_lookup_eq _ _ w.1 w1.1 (fun k => by
    rw [lookup_foldl_Add es f q k hk, lookup_foldl_Add es1 f q k hk1, lookup_eq_of_perm es es1 hp hk])
  unfold url.Values.Encode
  rw [sortByKey_eq_of_perm _ _ hperm w.1]

/-- The block `if params != nil` gives the same URL for two arrangements of the
entries of params. -/
theorem addParams_URL_of_perm (rt : Runtime) (req req1 : http.Request) (ps ps1 : Map String)
    (hquery : rt.Query = url.URL.Query) (henc : rt.Encode = url.Values.Encode)
    (hurl : req1.URL = req.URL) (hp : ps.Perm ps1) (hk : (Map.keys ps).Nodup) :
    (chimoney.Client.addParams rt req1 (some ps1)).URL =
      (chimoney.Client.addParams rt req (some ps)).URL := by
  have h := Encode_foldl_Add_of_perm ps ps1 (fun x => x) (url.URL.Query req.URL)
    (WellFormed_ParseQuery _) hp hk
  simp only [chimoney.Client.addParams, hquery, henc, hurl]
  rw [h]

/-- The block of the GET map body gives the same URL for two arrangements of the
entries of the body. -/
theorem addBodyParams_URL_of_perm (rt : Runtime) (req req1 : http.Request) (method : String)
    (m m1 : Map Value) (hquery : rt.Query = url.URL.Query) (henc : rt.Encode = url.Values.Encode)
    (hurl : req1.URL = req.URL) (hp : m.Perm m1) (hk : (Map.keys m).Nodup) :
    (chimoney.Client.addBodyParams rt req1 method (.anyMap m1)).URL =
      (chimoney.Client.addBodyParams rt req method (.anyMap m)).URL := by
  have h := Encode_foldl_Add_of_perm m m1 rt.Sprint (url.URL.Query req.URL)
    (WellFormed_ParseQuery _) hp hk
  by_cases hm : method = "GET"
  · simp only [chimoney.Client.addBodyParams, hm, if_true, hquery, henc, hurl]
    rw [h]
  · simp only [chimoney.Client.addBodyParams, hm, if_false]
    exact hurl

/-- The block of the body gives the same URL on two requests with the same URL. -/
theorem addBodyParams_URL_congr (rt : Runtime) (req req1 : http.Request) (method : String)
    (body : Body) (hurl : req1.URL = req.URL) :
    (chimoney.Client.addBodyParams rt req1 method body).URL =
      (chimoney.Client.addBodyParams rt req method body).URL := by
  cases body with
  | anyMap m =>
    by_cases hm : method = "GET"
    · simp only [chimoney.Client.addBodyParams, hm, if_true, hurl]
    · simp only [chimoney.Client.addBodyParams, hm, if_false]
      exact hurl
  | _ => exact hurl

/-- The keys of an encoded query, in the order they appear in it, are strictly
ascending. -/
theorem keys_Encode_ascending (q : url.Values) (hq : url.Values.WellFormed q) :
    (Map.keys (url.ParseQuery (url.Values.Encode q))).Pairwise
      (fun a b => lexLE a.toList b.toList = true ∧ a ≠ b) := by
  rw [ParseQuery_Encode q hq]
  have h1 := sortByKey_pairwise q
  have h2 := (WellFormed_sortByKey q hq).1
  unfold Map.keys at h2 ⊢
  rw [List.pairwise_map]
  have h3 : (Map.sortByKey q).Pairwise (fun a b => a.1 ≠ b.1) := by
    rw [List.Nodup, List.pairwise_map] at h2
    exact h2
  exact h1.and h3

/-- C30: the query `Client.Do` sends does not depend on the order in which the
entries of the params map, or of a GET map body, are iterated. Two calls on the
same address whose params hold the same entries and whose bodies are the same,
or map bodies with the same entries, send requests with the same URL; and when
the dispatcher writes the query (params is not nil, or the method is GET and the
body a map), its keys appear in strictly ascending order. -/
theorem C30_query_does_not_depend_on_the_iteration_order {σ ρ : Type} [Destination ρ]
    (rt : Runtime) (c : chimoney.Client σ) (ctx : Context) (method path : String)
    (body body1 : Body) (v : ρ) (params params1 : Option (Map String)) (s : σ)
    (reqBody reqBody1 : Option String) (req req1 : http.Request)
    (hquery : rt.Query = url.URL.Query) (henc : rt.Encode = url.Values.Encode)
    (hbody : chimoney.Client.reqBody rt body = .ok reqBody)
    (hbody1 : chimoney.Client.reqBody rt body1 = .ok reqBody1)
    (hreq : rt.NewRequestWithContext ctx method (c.baseURL ++ path) reqBody = .ok req)
    (hreq1 : rt.NewRequestWithContext ctx method (c.baseURL ++ path) reqBody1 = .ok req1)
    (hurl : req1.URL = req.URL)
    (hparams : (params = none ∧ params1 = none) ∨
      ∃ ps ps1, params = some ps ∧ params1 = some ps1 ∧ ps.Perm ps1 ∧ (Map.keys ps).Nodup)
    (hbodies : body1 = body ∨
      ∃ m m1, body = .anyMap m ∧ body1 = .anyMap m1 ∧ m.Perm m1 ∧ (Map.keys m).Nodup) :
    ∃ sent sent1,
      (chimoney.Client.Do rt (chimoney.Client.recording c) ctx method path body v params
        (s, [])).state.2 = [sent] ∧
      (chimoney.Client.Do rt (chimoney.Client.recording c) ctx method path body1 v params1
        (s, [])).state.2 = [sent1] ∧
      sent1.URL = sent.URL ∧
      ((params ≠ none ∨ (method = "GET" ∧ ∃ m, body = .anyMap m)) →
        (Map.keys (url.ParseQuery sent.URL.RawQuery)).Pairwise
          (fun a b => lexLE a.toList b.toList = true ∧ a ≠ b)) := by
  have hlog : (chimoney.Client.Do rt (chimoney.Client.recording c) ctx method path body v params
      (s, [])).state.2 = [chimoney.Client.setHeaders rt c (chimoney.Client.addBodyParams rt
        (chimoney.Client.addParams rt req params) method body)] := by
    rw [Do_sent_requests, hbody]
    simp only [hreq]
  have hlog1 : (chimoney.Client.Do rt (chimoney.Client.recording c) ctx method path body1 v
      params1 (s, [])).state.2 = [chimoney.Client.setHeaders rt c (chimoney.Client.addBodyParams rt
        (chimoney.Client.addParams rt req1 params1) method body1)] := by
    rw [Do_sent_requests, hbody1]
    simp only [hreq1]
  have hp : (chimoney.Client.addParams rt req1 params1).URL =
      (chimoney.Client.addParams rt req params).URL := by
    rcases hparams with ⟨h, h1⟩ | ⟨ps, ps1, h, h1, hperm, hk⟩
    · rw [h, h1]
      exact hurl
    · rw [h, h1]
      exact addParams_URL_of_perm rt req req1 ps ps1 hquery henc hurl hperm hk
  refine ⟨_, _, hlog, hlog1, ?_, ?_⟩
  · show (chimoney.Client.addBodyParams rt (chimoney.Client.addParams rt req1 params1) method
      body1).URL = (chimoney.Client.addBodyParams rt (chimoney.Client.addParams rt req params)
        method body).URL
    rcases hbodies with h | ⟨m, m1, h, h1, hperm, hk⟩
    · rw [h]
      exact addBodyParams_URL_congr rt _ _ method body hp
    · rw [h, h1]
      exact addBodyParams_URL_of_perm rt _ _ method m m1 hquery henc hp hperm hk
  · intro hw
    show (Map.keys (url.ParseQuery (chimoney.Client.addBodyParams rt
      (chimoney.Client.addParams rt req params) method body).URL.RawQuery)).Pairwise _
    by_cases hg : method = "GET" ∧ ∃ m, body = .anyMap m
    · obtain ⟨hm, m, hb⟩ := hg
      rw [hb]
      simp only [chimoney.Client.addBodyParams, hm, if_true, hquery, henc]
      exact keys_Encode_ascending _ (WellFormed_foldl_Add m rt.Sprint _ (WellFormed_ParseQuery _))
    · have hpn : params ≠ none := hw.resolve_right hg
      have hnb : chimoney.Client.addBodyParams rt (chimoney.Client.addParams rt req params)
          method body = chimoney.Client.addParams rt req params := by
        apply addBodyParams_of_not_get_map
        by_cases hm : method = "GET"
        · exact Or.inr (fun m hb => hg ⟨hm, m, hb⟩)
        · exact Or.inl hm
      rw [hnb]
      cases params with
      | none => exact absurd rfl hpn
      | some ps =>
        simp only [chimoney.Client.addParams, hquery, henc]
        exact keys_Encode_ascending _
          (WellFormed_foldl_Add ps (fun x => x) _ (WellFormed_ParseQuery _))

/-- C30 on a GET to /info/assets with the params a = 1, b = 2 and the body map
c = 3, d = 4, each iterated in the two possible orders: both requests are sent
with the query a=1&b=2&c=3&d=4. -/
theorem C30_query_does_not_depend_on_the_iteration_order_witness :
    ((chimoney.Client.Do stdRuntime (chimoney.Client.recording (exampleClient 200 "ok"))
        exampleContext "GET" "/info/assets" (.anyMap [("d", .str "4"), ("c", .str "3")])
        InfoResponse.zero (some [("b", "2"), ("a", "1")]) (0, [])).state.2.map
          (fun r => r.URL.RawQuery) = ["a=1&b=2&c=3&d=4"] ∧
      (chimoney.Client.Do stdRuntime (chimoney.Client.recording (exampleClient 200 "ok"))
        exampleContext "GET" "/info/assets" (.anyMap [("c", .str "3"), ("d", .str "4")])
        InfoResponse.zero (some [("a", "1"), ("b", "2")]) (0, [])).state.2.map
          (fun r => r.URL.RawQuery) = ["a=1&b=2&c=3&d=4"]) ∧
    ∃ sent sent1,
      (chimoney.Client.Do stdRuntime (chimoney.Client.recording (exampleClient 200 "ok"))
        exampleContext "GET" "/info/assets" (.anyMap [("d", .str "4"), ("c", .str "3")])
        InfoResponse.zero (some [("b", "2"), ("a", "1")]) (0, [])).state.2 = [sent] ∧
      (chimoney.Client.Do stdRuntime (chimoney.Client.recording (exampleClient 200 "ok"))
        exampleContext "GET" "/info/assets" (.anyMap [("c", .str "3"), ("d", .str "4")])
        InfoResponse.zero (some [("a", "1"), ("b", "2")]) (0, [])).state.2 = [sent1] ∧
      sent1.URL = sent.URL ∧
      (Map.keys (url.ParseQuery sent.URL.RawQuery)).Pairwise
        (fun a b => lexLE a.toList b.toList = true ∧ a ≠ b) :=
  ⟨by decide, (C30_query_does_not_depend_on_the_iteration_order stdRuntime
    (exampleClient 200 "ok") exampleContext "GET" "/info/assets"
    (.anyMap [("d", .str "4"), ("c", .str "3")]) (.anyMap [("c", .str "3"), ("d", .str "4")])
    InfoResponse.zero (some [("b", "2"), ("a", "1")]) (some [("a", "1"), ("b", "2")]) 0
    (some "null") (some "null") _ _ rfl rfl rfl rfl rfl rfl rfl
    (Or.inr ⟨_, _, rfl, rfl, List.Perm.swap _ _ _, by decide⟩)
    (Or.inr ⟨_, _, rfl, rfl, List.Perm.swap _ _ _, by decide⟩)).imp
    (fun _ h => h.imp (fun _ h1 => ⟨h1.1, h1.2.1, h1.2.2.1, h1.2.2.2 (Or.inl (by decide))⟩))⟩


/-! ## The envelope through the feature modules -/

/-- What `Client.Do` returns when the server answers every request with the same
status code in 200..299 and the same body, and that body decodes: once a request
has been sent, the error is nil and the destination holds the decoded value. -/
theorem Do_answered {σ ρ : Type} [Destination ρ] (rt : Runtime) (c : chimoney.Client σ)
    (ctx : Context) (method path : String) (body : Body) (v v1 : ρ)
    (params : Option (Map String)) (s : σ) (status : Int) (text : String)
    (hserver : ∀ req s, (c.http.Do req s).1 = .ok ⟨status, text⟩)
    (hstatus : 200 ≤ status ∧ status < 300) (hnil : Destination.isNil ρ = false)
    (hdec : rt.Decode text v = (none, v1)) :
    (chimoney.Client.Do rt (chimoney.Client.recording c) ctx method path body v params
        (s, [])).state.2 ≠ [] →
      (chimoney.Client.Do rt (chimoney.Client.recording c) ctx method path body v params
        (s, [])).err = none ∧
      (chimoney.Client.Do rt (chimoney.Client.recording c) ctx method path body v params
        (s, [])).v = v1 := by
  unfold chimoney.Client.Do
  cases hb : chimoney.Client.reqBody rt body with
  | error e => exact fun h => absurd rfl h
  | ok reqBody =>
    simp only [chimoney.Client.recording]
    cases hr : rt.NewRequestWithContext ctx method (c.baseURL ++ path) reqBody with
    | error e => exact fun h => absurd rfl h
    | ok req =>
      have h1 : ¬ (status < 200 ∨ status ≥ 300) := by omega
      simp only [http.Client.recording, hserver, h1, if_false, hnil, hdec]
      intro _
      exact ⟨rfl, rfl⟩

/-- C25, as stated, fails on an envelope whose `data` nests too deep for the
decoder: the server answers 200 with a well-formed envelope whose status member
is "error" and whose `data` is 10000 arrays, one inside the other;
`Payouts.Status` passes validation, sends its request, and returns the decode
error of the dispatcher with the zero-valued record. -/
theorem C25_counterexample_error_envelope_nested_too_deep :
    (Invocation.payoutsStatus "chi_123" "").passesValidation = true ∧
    (json.Syntax.object [] deepErrorMembers).WellFormed = true ∧
    deepErrorMembers.entries =
      [("data", deepData),
        ("status", .string [.plain 'e', .plain 'r', .plain 'r', .plain 'o', .plain 'r']),
        ("message", .string [.plain 'n', .plain 'o'])] ∧
    invoke (chimoney.Client.transport jsonRuntime
        (exampleClient 200 (String.mk (json.Syntax.object [] deepErrorMembers).text)))
        exampleContext (.payoutsStatus "chi_123" "") 0 =
      .returned (some (.payout PayoutResponse.zero))
        (some (.errorf ("chimoney: failed to decode response: " ++ json.errSyntax.Error))) 1 := by
  have hwfd : deepData.WellFormed = true := by
    rw [deepData, nest_WellFormed]
    rfl
  have hm : deepErrorMembers.WellFormed = true := by
    unfold deepErrorMembers
    rw [json.Members.WellFormed, hwfd]
    decide
  have hdo : ∀ text : String,
      json.Decoder.Decode PayoutResponse.fields text PayoutResponse.zero =
        (some json.errSyntax, PayoutResponse.zero) →
      invoke (chimoney.Client.transport jsonRuntime (exampleClient 200 text))
          exampleContext (.payoutsStatus "chi_123" "") 0 =
        .returned (some (.payout PayoutResponse.zero))
          (some (.errorf ("chimoney: failed to decode response: " ++ json.errSyntax.Error)))
          1 := by
    intro text ht
    have hd := Do_after_response jsonRuntime (exampleClient 200 text) exampleContext "POST"
      "/payouts/status" (.strMap [("chiRef", "chi_123")]) PayoutResponse.zero none 0 1
      (some "null") _ ⟨200, text⟩ rfl rfl rfl
    have hdec : jsonRuntime.Decode text PayoutResponse.zero =
        (some json.errSyntax, PayoutResponse.zero) := ht
    have hnil : Destination.isNil PayoutResponse = false := rfl
    have h200 : ¬ ((200 : Int) < 200 ∨ (200 : Int) ≥ 300) := by decide
    simp only [h200, if_false, hnil, hdec] at hd
    show (chimoney.Client.Do jsonRuntime (exampleClient 200 text) exampleContext "POST"
      "/payouts/status" (.strMap [("chiRef", "chi_123")]) PayoutResponse.zero none 0).ret.map
        Response.payout = _
    rw [hd]
    rfl
  refine ⟨rfl, object_WellFormed deepErrorMembers hm, ?_, ?_⟩
  · unfold deepErrorMembers
    rfl
  · exact hdo _ (Decode_data_too_deep PayoutResponse.fields PayoutResponse.zero 9999 (le_refl _)
      [.plain 'd', .plain 'a', .plain 't', .plain 'a'] (by decide) _ _ _ _ _ _ _)

/-- C25, amended: the feature modules never interpret the status or the message
of the envelope. For every module method whose input passes validation, when the
server answers the request of the method with a status code in 200..299 and a
well-formed envelope that has the member `status`, a string literal that stands
for "error", and the member `message`, any string literal, next to any other
members under other keys (a `data`, a `timestamp`, or none at all), every member
value with fewer than 10000 arrays and objects nested in it, the method returns a
nil error and a record whose `Status` is "error" and whose `Message` is the
string the message literal stands for. For the methods of package account, whose
record also has the fields `id` and `timestamp`, a member under one of these keys
is a string, respectively an integer of 64 bits, or null. -/
theorem C25_modules_do_not_interpret_the_envelope {σ : Type} (rt : Runtime)
    (c : chimoney.Client σ) (ctx : Context) (inv : Invocation) (s : σ) (status : Int)
    (lead ws trail : List Char) (members : json.Members)
    (statusLit message : List json.StrItem)
    (hv : inv.passesValidation = true)
    (hdec : ∀ (ρ : Type) [Destination ρ] (body : String) (v : ρ),
      rt.Decode body v = json.Decoder.Decode (@Destination.fields ρ _) body v)
    (hserver : ∀ req s, (c.http.Do req s).1 =
      .ok ⟨status, String.mk (lead ++ ((json.Syntax.object ws members).text ++ trail))⟩)
    (hstatus : 200 ≤ status ∧ status < 300)
    (hlead : json.allSpace lead = true)
    (hwf : (json.Syntax.object ws members).WellFormed = true)
    (hstatusMember : ("status", json.Syntax.string statusLit) ∈ members.entries)
    (hmessageMember : ("message", json.Syntax.string message) ∈ members.entries)
    (hothers : ∀ e ∈ members.entries,
      e = ("status", .string statusLit) ∨ e = ("message", .string message) ∨
        (json.foldName e.1 ≠ json.foldName "status" ∧
          json.foldName e.1 ≠ json.foldName "message"))
    (haccount : inv.isAccount = true → ∀ e ∈ members.entries,
      (json.foldName e.1 = json.foldName "id" →
        e.2 = .null ∨ ∃ items, e.2 = .string items) ∧
      (json.foldName e.1 = json.foldName "timestamp" →
        e.2 = .null ∨ ∃ n i, e.2 = .number n ∧ n.toInt64 = some i))
    (hdepth : ∀ e ∈ members.entries, e.2.depth < json.maxNestingDepth)
    (herror : String.mk (json.unquote statusLit) = "error")
    (hsent : (invoke (chimoney.Client.transport rt (chimoney.Client.recording c)) ctx inv
      (s, [])).state.2 ≠ []) :
    ∃ r st, invoke (chimoney.Client.transport rt (chimoney.Client.recording c)) ctx inv (s, []) =
        .returned (some r) none st ∧
      r.Status = "error" ∧ r.Message = String.mk (json.unquote message) := by
  have hk : (json.Syntax.object ws members).depth ≤ json.maxNestingDepth :=
    object_depth_le ws members hdepth
  have hstr := strings_of_status_message members.entries statusLit message hothers
  obtain ⟨r, err, st, hr, hq⟩ := invoke_through
    (chimoney.Client.transport rt (chimoney.Client.recording c)) ctx inv (s, [])
    (fun r err st => st.2 ≠ [] →
      err = none ∧ r.Status = "error" ∧ r.Message = String.mk (json.unquote message)) hv
    (fun hacc method path body params hs => by
      have hfold := AccountResponse_fold_status_message members.entries statusLit message
        (none, AccountResponse.zero) hstatusMember hmessageMember hothers
      have hnone : (members.entries.foldl (json.storeMember AccountResponse.fields)
          (none, AccountResponse.zero)).1 = none :=
        foldl_storeMember_no_error AccountResponse.fields members.entries
          (fun e he => AccountResponse_no_error e (by
            rintro (h | h | h)
            · exact hstr e he (Or.inl h)
            · exact hstr e he (Or.inr h)
            · exact (haccount hacc e he).1 h) (haccount hacc e he).2) (none, AccountResponse.zero)
      have h := Do_answered rt c ctx method path body AccountResponse.zero
        (members.entries.foldl (json.storeMember AccountResponse.fields) (none, AccountResponse.zero)).2
        params s status _ hserver hstatus rfl
        ((hdec AccountResponse _ _).trans (Decode_members_no_error AccountResponse.fields lead ws trail members
          AccountResponse.zero hlead hwf hk hnone)) hs
      refine ⟨h.1, ?_, ?_⟩
      · show (chimoney.Client.Do rt (chimoney.Client.recording c) ctx method path body
          AccountResponse.zero params (s, [])).v.Status = "error"
        rw [h.2, hfold.1]
        exact herror
      · show (chimoney.Client.Do rt (chimoney.Client.recording c) ctx method path body
          AccountResponse.zero params (s, [])).v.Message = _
        rw [h.2, hfold.2])
    (fun method path body params hs => by
      have hfold := InfoResponse_fold_status_message members.entries statusLit message
        (none, InfoResponse.zero) hstatusMember hmessageMember hothers
      have hnone : (members.entries.foldl (json.storeMember InfoResponse.fields)
          (none, InfoResponse.zero)).1 = none :=
        foldl_storeMember_no_error InfoResponse.fields members.entries
          (fun e he => InfoResponse_no_error e (hstr e he)) (none, InfoResponse.zero)
      have h := Do_answered rt c ctx method path body InfoResponse.zero
        (members.entries.foldl (json.storeMember InfoResponse.fields) (none, InfoResponse.zero)).2
        params s status _ hserver hstatus rfl
        ((hdec InfoResponse _ _).trans (Decode_members_no_error InfoResponse.fields lead ws trail members
          InfoResponse.zero hlead hwf hk hnone)) hs
      refine ⟨h.1, ?_, ?_⟩
      · show (chimoney.Client.Do rt (chimoney.Client.recording c) ctx method path body
          InfoResponse.zero params (s, [])).v.Status = "error"
        rw [h.2, hfold.1]
        exact herror
      · show (chimoney.Client.Do rt (chimoney.Client.recording c) ctx method path body
          InfoResponse.zero params (s, [])).v.Message = _
        rw [h.2, hfold.2])
    (fun method path body params hs => by
      have hfold := PaymentResponse_fold_status_message members.entries statusLit message
        (none, PaymentResponse.zero) hstatusMember hmessageMember hothers
      have hnone : (members.entries.foldl (json.storeMember PaymentResponse.fields)
          (none, PaymentResponse.zero)).1 = none :=
        foldl_storeMember_no_error PaymentResponse.fields members.entries
          (fun e he => PaymentResponse_no_error e (hstr e he)) (none, PaymentResponse.zero)
      have h := Do_answered rt c ctx method path body PaymentResponse.zero
        (members.entries.foldl (json.storeMember PaymentResponse.fields) (none, PaymentResponse.zero)).2
        params s status _ hserver hstatus rfl
        ((hdec PaymentResponse _ _).trans (Decode_members_no_error PaymentResponse.fields lead ws trail members
          PaymentResponse.zero hlead hwf hk hnone)) hs
      refine ⟨h.1, ?_, ?_⟩
      · show (chimoney.Client.Do rt (chimoney.Client.recording c) ctx method path body
          PaymentResponse.zero params (s, [])).v.Status = "error"
        rw [h.2, hfold.1]
        exact herror
      · show (chimoney.Client.Do rt (chimoney.Client.recording c) ctx method path body
          PaymentResponse.zero params (s, [])).v.Message = _
        rw [h.2, hfold.2])
    (fun method path body params hs => by
      have hfold := PayoutResponse_fold_status_message members.entries statusLit message
        (none, PayoutResponse.zero) hstatusMember hmessageMember hothers
      have hnone : (members.entries.foldl (json.storeMember PayoutResponse.fields)
          (none, PayoutResponse.zero)).1 = none :=
        foldl_storeMember_no_error PayoutResponse.fields members.entries
          (fun e he => PayoutResponse_no_error e (hstr e he)) (none, PayoutResponse.zero)
      have h := Do_answered rt c ctx method path body PayoutResponse.zero
        (members.entries.foldl (json.storeMember PayoutResponse.fields) (none, PayoutResponse.zero)).2
        params s status _ hserver hstatus rfl
        ((hdec PayoutResponse _ _).trans (Decode_members_no_error PayoutResponse.fields lead ws trail members
          PayoutResponse.zero hlead hwf hk hnone)) hs
      refine ⟨h.1, ?_, ?_⟩
      · show (chimoney.Client.Do rt (chimoney.Client.recording c) ctx method path body
          PayoutResponse.zero params (s, [])).v.Status = "error"
        rw [h.2, hfold.1]
        exact herror
      · show (chimoney.Client.Do rt (chimoney.Client.recording c) ctx method path body
          PayoutResponse.zero params (s, [])).v.Message = _
        rw [h.2, hfold.2])
    (fun method path body params hs => by
      have hfold := RedeemResponse_fold_status_message members.entries statusLit message
        (none, RedeemResponse.zero) hstatusMember hmessageMember hothers
      have hnone : (members.entries.foldl (json.storeMember RedeemResponse.fields)
          (none, RedeemResponse.zero)).1 = none :=
        foldl_storeMember_no_error RedeemResponse.fields members.entries
          (fun e he => RedeemResponse_no_error e (hstr e he)) (none, RedeemResponse.zero)
      have h := Do_answered rt c ctx method path body RedeemResponse.zero
        (members.entries.foldl (json.storeMember RedeemResponse.fields) (none, RedeemResponse.zero)).2
        params s status _ hserver hstatus rfl
        ((hdec RedeemResponse _ _).trans (Decode_members_no_error RedeemResponse.fields lead ws trail members
          RedeemResponse.zero hlead hwf hk hnone)) hs
      refine ⟨h.1, ?_, ?_⟩
      · show (chimoney.Client.Do rt (chimoney.Client.recording c) ctx method path body
          RedeemResponse.zero params (s, [])).v.Status = "error"
        rw [h.2, hfold.1]
        exact herror
      · show (chimoney.Client.Do rt (chimoney.Client.recording c) ctx method path body
          RedeemResponse.zero params (s, [])).v.Message = _
        rw [h.2, hfold.2])
    (fun method path body params hs => by
      have hfold := SubAccountResponse_fold_status_message members.entries statusLit message
        (none, SubAccountResponse.zero) hstatusMember hmessageMember hothers
      have hnone : (members.entries.foldl (json.storeMember SubAccountResponse.fields)
          (none, SubAccountResponse.zero)).1 = none :=
        foldl_storeMember_no_error SubAccountResponse.fields members.entries
          (fun e he => SubAccountResponse_no_error e (hstr e he)) (none, SubAccountResponse.zero)
      have h := Do_answered rt c ctx method path body SubAccountResponse.zero
        (members.entries.foldl (json.storeMember SubAccountResponse.fields) (none, SubAccountResponse.zero)).2
        params s status _ hserver hstatus rfl
        ((hdec SubAccountResponse _ _).trans (Decode_members_no_error SubAccountResponse.fields lead ws trail members
          SubAccountResponse.zero hlead hwf hk hnone)) hs
      refine ⟨h.1, ?_, ?_⟩
      · show (chimoney.Client.Do rt (chimoney.Client.recording c) ctx method path body
          SubAccountResponse.zero params (s, [])).v.Status = "error"
        rw [h.2, hfold.1]
        exact herror
      · show (chimoney.Client.Do rt (chimoney.Client.recording c) ctx method path body
          SubAccountResponse.zero params (s, [])).v.Message = _
        rw [h.2, hfold.2])
    (fun method path body params hs => by
      have hfold := WalletResponse_fold_status_message members.entries statusLit message
        (none, WalletResponse.zero) hstatusMember hmessageMember hothers
      have hnone : (members.entries.foldl (json.storeMember WalletResponse.fields)
          (none, WalletResponse.zero)).1 = none :=
        foldl_storeMember_no_error WalletResponse.fields members.entries
          (fun e he => WalletResponse_no_error e (hstr e he)) (none, WalletResponse.zero)
      have h := Do_answered rt c ctx method path body WalletResponse.zero
        (members.entries.foldl (json.storeMember WalletResponse.fields) (none, WalletResponse.zero)).2
        params s status _ hserver hstatus rfl
        ((hdec WalletResponse _ _).trans (Decode_members_no_error WalletResponse.fields lead ws trail members
          WalletResponse.zero hlead hwf hk hnone)) hs
      refine ⟨h.1, ?_, ?_⟩
      · show (chimoney.Client.Do rt (chimoney.Client.recording c) ctx method path body
          WalletResponse.zero params (s, [])).v.Status = "error"
        rw [h.2, hfold.1]
        exact herror
      · show (chimoney.Client.Do rt (chimoney.Client.recording c) ctx method path body
          WalletResponse.zero params (s, [])).v.Message = _
        rw [h.2, hfold.2])
  rw [hr] at hsent
  obtain ⟨he, h1, h2⟩ := hq hsent
  subst he
  exact ⟨r, st, hr, h1, h2⟩

/-- C25, amended, on `Redeem.GetChimoney` against a server that answers 200 with
the envelope the tests answer for an invalid reference, which has the two
members status and message: the method returns a nil error and the record with
the status "error" and the message of the envelope. -/
theorem C25_modules_do_not_interpret_the_envelope_witness :
    (Invocation.redeemGetChimoney "invalid" "").passesValidation = true ∧
    invoke (chimoney.Client.transport jsonRuntime (exampleClient 200 testErrorEnvelope))
        exampleContext (.redeemGetChimoney "invalid" "") 0 =
      .returned (some (.redeem ⟨"error", none, "Invalid chi ref"⟩)) none 1 ∧
    ∃ r st, invoke (chimoney.Client.transport jsonRuntime
        (chimoney.Client.recording (exampleClient 200 testErrorEnvelope))) exampleContext
        (.redeemGetChimoney "invalid" "") (0, []) = .returned (some r) none st ∧
      r.Status = "error" ∧ r.Message = "Invalid chi ref" :=
  ⟨rfl, rfl, C25_modules_do_not_interpret_the_envelope jsonRuntime
    (exampleClient 200 testErrorEnvelope) exampleContext (.redeemGetChimoney "invalid" "") 0 200
    [] [] [] (json.membersOf testErrorEnvelope) ("error".toList.map json.StrItem.plain)
    ("Invalid chi ref".toList.map json.StrItem.plain) rfl
    (fun _ _ _ _ => rfl) (fun _ _ => rfl) (by decide) (by decide) (by decide)
    (List.mem_cons_self _ _) (List.mem_cons_of_mem _ (List.mem_cons_self _ _))
    (fun e he => by
      have hl : (json.membersOf testErrorEnvelope).entries =
          [("status", .string ("error".toList.map json.StrItem.plain)),
            ("message", .string ("Invalid chi ref".toList.map json.StrItem.plain))] := rfl
      rw [hl] at he
      simp only [List.mem_cons, List.mem_singleton, List.not_mem_nil, or_false] at he
      rcases he with rfl | rfl
      · exact Or.inl rfl
      · exact Or.inr (Or.inl rfl))
    (fun h => absurd h (by decide))
    (fun e he => by
      have hl : (json.membersOf testErrorEnvelope).entries =
          [("status", .string ("error".toList.map json.StrItem.plain)),
            ("message", .string ("Invalid chi ref".toList.map json.StrItem.plain))] := rfl
      rw [hl] at he
      simp only [List.mem_cons, List.mem_singleton, List.not_mem_nil, or_false] at he
      rcases he with rfl | rfl <;> decide)
    (by decide) (by decide)⟩

end ChimoneyGo
